import Mathlib

/-!
# Kazhal endpoint: COBS framing and value codec

A shallow embedding of `src/src/kazhal.c` (with the configuration of
`kazhal.h`: `kz_byte_t = uint8_t`, `kz_int_t = int` of 32 bits,
`kz_float_t = float` of 4 bytes, 16 local requests, 32 channels).

Conventions of the embedding:

* a byte is a `Nat`; machine integers are `Nat` or `Int` with explicit
  reduction modulo the width where the C code can wrap;
* the memory behind `rx_buffer` and `tx_buffer` is a `List Nat` starting at the
  buffer base; every pointer into a buffer is the offset from that base, so
  `rx_buffer` and `tx_buffer` themselves are offset `0`, and the past-end
  pointers `rx_buffer_end`, `tx_buffer_end` are kept as separate fields (the
  memory list may extend past them, which makes an out-of-bounds store visible);
* function pointers and `void *` are opaque handles (`Nat`, `0` is `NULL`);
* pointer differences are computed in `Int` (`ptrdiff_t`);
* `KZ_ASSERT` is `assert`: a failed assertion ends the run (`none`).
-/

namespace Kazhal

/-! ## Constants of `kazhal.c` -/

def TX_MTU : Nat := 254

def KZ_HEADER_REQUEST : Nat := 0x50
def KZ_HEADER_REPLY : Nat := 0x51
def KZ_HEADER_SIZE : Nat := 4

def KZ_BC_NIL : Nat := 0x80
def KZ_BC_LISTOPEN : Nat := 0x81
def KZ_BC_LISTCLOSE : Nat := 0x82
def KZ_BC_FLOAT32 : Nat := 0x84
def KZ_BC_FLOAT64 : Nat := 0x85
def KZ_BC_INT8 : Nat := 0x88
def KZ_BC_INT16 : Nat := 0x89
def KZ_BC_INT32 : Nat := 0x8A
def KZ_BC_INT64 : Nat := 0x8B

def KZ_TX_HEADER_START : Nat := 1
def KZ_TX_PAYLOAD_START : Nat := KZ_TX_HEADER_START + KZ_HEADER_SIZE
def KZ_RX_HEADER_START : Nat := 0
def KZ_RX_PAYLOAD_START : Nat := KZ_RX_HEADER_START + KZ_HEADER_SIZE

/-! ## Data model of `kazhal.h` -/

/-- Possible states when decoding COBS (`kz_cobs_rx_state_t`). -/
inductive kz_cobs_rx_state_t where
  | KZ_RX_IDLE
  | KZ_RX_ABORT
  | KZ_RX_DECODE
deriving DecidableEq, Repr

/-- Pending local request (`kz_local_request_t`); `callback = 0` is `NULL`. -/
structure kz_local_request_t where
  callback : Nat
  userdata : Nat
  timeout_ticks : Int
deriving DecidableEq, Repr

/-- Channel handler (`kz_request_handler_t`); `callback = 0` is `NULL`. -/
structure kz_request_handler_t where
  callback : Nat
  userdata : Nat
deriving DecidableEq, Repr

/-- The endpoint (`kz_endpoint_t`). `rx_mem` and `tx_mem` are the memory starting
at `rx_buffer` and `tx_buffer`; all pointer fields are offsets from the base of
their buffer. -/
structure kz_endpoint_t where
  rx_mem : List Nat
  rx_buffer_pos : Nat
  rx_buffer_end : Nat
  tx_mem : List Nat
  tx_buffer_end : Nat
  getptr : Nat
  putptr : Nat
  rx : Nat
  tx : Nat
  handlers : List kz_request_handler_t
  local_requests : List kz_local_request_t
  rx_state : kz_cobs_rx_state_t
  rx_count : Nat
deriving DecidableEq, Repr

/-- Decrement of an `unsigned int` (32 bits): `x --`. -/
def uint_dec (x : Nat) : Nat := (x + 4294967296 - 1) % 4294967296

/-! ## COBS decoder -/

/-- Embedding of `rx_decode`: decodes one byte into the receive buffer; the
second component is the returned `char` (1 when a frame has been finished). -/
def rx_decode (K : kz_endpoint_t) (byte : Nat) : kz_endpoint_t × Nat :=
  match K.rx_state with
  | .KZ_RX_IDLE =>
    if byte ≠ 0 then
      ({ K with rx_state := .KZ_RX_DECODE, rx_count := uint_dec byte, rx_buffer_pos := 0 }, 0)
    else
      (K, 0)
  | .KZ_RX_ABORT =>
    if byte = 0 then
      ({ K with rx_state := .KZ_RX_IDLE }, 0)
    else
      (K, 0)
  | .KZ_RX_DECODE =>
    if byte = 0 then
      ({ K with rx_state := .KZ_RX_IDLE }, if K.rx_count = 0 then 1 else 0)
    else
      if K.rx_buffer_pos ≥ K.rx_buffer_end then
        ({ K with rx_state := .KZ_RX_ABORT }, 0)
      else
        if K.rx_count = 0 then
          ({ K with rx_mem := K.rx_mem.set K.rx_buffer_pos 0x00,
                    rx_buffer_pos := K.rx_buffer_pos + 1,
                    rx_count := uint_dec byte }, 0)
        else
          ({ K with rx_mem := K.rx_mem.set K.rx_buffer_pos byte,
                    rx_buffer_pos := K.rx_buffer_pos + 1,
                    rx_count := uint_dec K.rx_count }, 0)

/-- Feeds a byte sequence to `rx_decode` one byte at a time (as
`check_decode_packet` of the test suite does) and collects the return values. -/
def rx_feed (K : kz_endpoint_t) : List Nat → kz_endpoint_t × List Nat
  | [] => (K, [])
  | b :: bs =>
    let r := rx_decode K b
    let rs := rx_feed r.1 bs
    (rs.1, r.2 :: rs.2)

/-! ## COBS encoder -/

/-- Local variables of `tx_encode_and_send` while its loop runs. `log` is ghost
state: the values stored through `len_ptr` so far, in order. -/
structure encode_state where
  mem : List Nat
  search_ptr : Nat
  len_ptr : Nat
  len : Nat
  log : List Nat
deriving DecidableEq, Repr

/-- The loop `while(search_ptr != data_end)` of `tx_encode_and_send`; the first
argument is the number of iterations left, `data_end - search_ptr`. `len` is a
`uint_fast8_t` (8 bits on the PC-Linux target), so `len ++` wraps at 256. -/
def encode_loop : Nat → encode_state → encode_state
  | 0, s => s
  | n + 1, s =>
    if s.mem.getD s.search_ptr 0 = 0x00 then
      encode_loop n { mem := s.mem.set s.len_ptr s.len,
                      search_ptr := s.search_ptr + 1,
                      len_ptr := s.search_ptr,
                      len := 1,
                      log := s.log ++ [s.len] }
    else
      encode_loop n { s with search_ptr := s.search_ptr + 1, len := (s.len + 1) % 256 }

/-- Outcome of `tx_encode_and_send`: the endpoint afterwards, the bytes handed
to the `tx` callback, and (ghost) every value stored through `len_ptr`. -/
structure tx_result where
  K : kz_endpoint_t
  sent : List Nat
  overheads : List Nat
deriving DecidableEq, Repr

/-- Embedding of `tx_encode_and_send`. The three `KZ_ASSERT`s end the run when
they fail; so does a `putptr` below `tx_buffer + 1`, for which the loop never
meets `data_end`. -/
def tx_encode_and_send (K : kz_endpoint_t) : Option tx_result :=
  if K.tx = 0 then none
  else if ¬ ((K.putptr : Int) - (0 + 1) ≤ (TX_MTU : Int)) then none
  else if ¬ ((K.putptr : Int) ≤ (K.tx_buffer_end : Int) - 1) then none
  else if K.putptr < KZ_TX_HEADER_START then none
  else
    let s := encode_loop (K.putptr - KZ_TX_HEADER_START)
      { mem := K.tx_mem, search_ptr := KZ_TX_HEADER_START, len_ptr := 0, len := 1, log := [] }
    let mem1 := s.mem.set s.len_ptr s.len
    let mem2 := mem1.set s.search_ptr 0x00
    let search_ptr := s.search_ptr + 1
    some { K := { K with tx_mem := mem2, putptr := KZ_TX_PAYLOAD_START },
           sent := mem2.take search_ptr,
           overheads := s.log ++ [s.len] }

/-! ## Value codec: configuration -/

/-- Size in bytes of `kz_int_t` (`int`), the 32-bit configuration. -/
def sizeof_kz_int_t : Nat := 4
/-- Size in bytes of `kz_float_t` (`float`). -/
def sizeof_kz_float_t : Nat := 4
/-- Size in bytes of `float`. -/
def sizeof_float : Nat := 4
/-- Size in bytes of `double`. -/
def sizeof_double : Nat := 8

def INT16_MIN : Int := -32768
def INT16_MAX : Int := 32767
def INT32_MIN : Int := -2147483648
def INT32_MAX : Int := 2147483647
def INT64_MIN : Int := -9223372036854775808
def INT64_MAX : Int := 9223372036854775807

/-- Conversion of an unsigned value to `int8_t` (two's complement). -/
def to_int8 (u : Nat) : Int :=
  if u % 256 < 128 then ((u % 256 : Nat) : Int) else ((u % 256 : Nat) : Int) - 256

/-- Conversion of an unsigned value to `int16_t` (two's complement). -/
def to_int16 (u : Nat) : Int :=
  if u % 65536 < 32768 then ((u % 65536 : Nat) : Int) else ((u % 65536 : Nat) : Int) - 65536

/-- Conversion of an unsigned value to `int32_t` (two's complement). -/
def to_int32 (u : Nat) : Int :=
  if u % 4294967296 < 2147483648 then ((u % 4294967296 : Nat) : Int)
  else ((u % 4294967296 : Nat) : Int) - 4294967296

/-- Byte `j` of the object representation of a `float` with bit pattern `v`
(little-endian host): `((kz_byte_t *)&v)[j]`. -/
def float_byte (v : Nat) (j : Nat) : Nat := (v >>> (8 * j)) % 256

/-- Bit pattern of the `float` whose object representation has bytes `b0 .. b3`
at offsets 0 .. 3 (little-endian host). -/
def float_of_bytes (b0 b1 b2 b3 : Nat) : Nat :=
  b0 % 256 + 256 * (b1 % 256) + 65536 * (b2 % 256) + 16777216 * (b3 % 256)

/-! ## Value codec: getters -/

/-- Outcome of `kz_getint`: endpoint afterwards, returned `int`, and the
content of `*i` afterwards. -/
structure getint_result where
  K : kz_endpoint_t
  ret : Nat
  out : Int
deriving DecidableEq, Repr

/-- Embedding of `kz_getint`; `i` is the content of `*i` before the call. -/
def kz_getint (K : kz_endpoint_t) (i : Int) : getint_result :=
  let getend := K.rx_buffer_pos
  let getptr := K.getptr
  if (getend : Int) - (getptr : Int) < 1 then
    { K := K, ret := 0, out := i }
  else
    let header_byte := K.rx_mem.getD getptr 0
    let getptr := getptr + 1
    let i8 := to_int8 header_byte
    if i8 ≥ -64 ∧ i8 ≤ 127 then
      { K := { K with getptr := getptr + 0 }, ret := 1, out := i8 }
    else
      let size : Option Nat :=
        if header_byte = KZ_BC_INT8 then some 1
        else if header_byte = KZ_BC_INT16 then
          (if sizeof_kz_int_t ≥ 2 then some 2 else none)
        else if header_byte = KZ_BC_INT32 then
          (if sizeof_kz_int_t ≥ 4 then some 4 else none)
        else if header_byte = KZ_BC_INT64 then
          (if sizeof_kz_int_t ≥ 8 then some 8 else none)
        else none
      match size with
      | none => { K := K, ret := 0, out := i }
      | some secondary_size =>
        if (getend : Int) - (getptr : Int) < (secondary_size : Int) then
          { K := K, ret := 0, out := i }
        else
          let g := fun k => K.rx_mem.getD (getptr + k) 0
          if header_byte = KZ_BC_INT8 then
            { K := { K with getptr := getptr + secondary_size }, ret := 1, out := to_int8 (g 0) }
          else if header_byte = KZ_BC_INT16 then
            let u16 := ((g 0 <<< 8) ||| g 1) % 65536
            { K := { K with getptr := getptr + secondary_size }, ret := 1, out := to_int16 u16 }
          else if header_byte = KZ_BC_INT32 then
            let u32 := ((g 0 <<< 24) ||| (g 1 <<< 16) ||| (g 2 <<< 8) ||| g 3) % 4294967296
            { K := { K with getptr := getptr + secondary_size }, ret := 1, out := to_int32 u32 }
          else if header_byte = KZ_BC_INT64 then
            let u64 := ((g 0 <<< 56) ||| (g 1 <<< 48) ||| (g 2 <<< 40) ||| (g 3 <<< 32) |||
              (g 4 <<< 24) ||| (g 5 <<< 16) ||| (g 6 <<< 8) ||| g 7) % 18446744073709551616
            { K := { K with getptr := getptr + secondary_size }, ret := 1, out := to_int32 u64 }
          else
            { K := K, ret := 0, out := i }

/-- Outcome of `kz_getfloat` and `kz_getnumber`: endpoint afterwards, returned
`int`, and the bit pattern of `*f` afterwards. -/
structure getfloat_result where
  K : kz_endpoint_t
  ret : Nat
  out : Nat
deriving DecidableEq, Repr

/-- Embedding of `kz_getfloat`; `f` is the bit pattern of `*f` before the call.
With a 4-byte `kz_float_t` the `KZ_BC_FLOAT64` tag leaves through `unsupported`
in the first switch, so the `KZ_BC_FLOAT64` case of the second switch (a
`double` to `float` conversion) is never reached and is not embedded. -/
def kz_getfloat (K : kz_endpoint_t) (f : Nat) : getfloat_result :=
  let getend := K.rx_buffer_pos
  let getptr := K.getptr
  if (getend : Int) - (getptr : Int) < 1 then
    { K := K, ret := 0, out := f }
  else
    let header_byte := K.rx_mem.getD getptr 0
    let getptr := getptr + 1
    let size : Option Nat :=
      if header_byte = KZ_BC_FLOAT32 then
        (if sizeof_float = 4 ∧ sizeof_kz_float_t ≥ 4 then some 4 else none)
      else if header_byte = KZ_BC_FLOAT64 then
        (if sizeof_double = 8 ∧ sizeof_kz_float_t ≥ 8 then some 8 else none)
      else none
    match size with
    | none => { K := K, ret := 0, out := f }
    | some secondary_size =>
      if (getend : Int) - (getptr : Int) < (secondary_size : Int) then
        { K := K, ret := 0, out := f }
      else
        let g := fun k => K.rx_mem.getD (getptr + k) 0
        if header_byte = KZ_BC_FLOAT32 then
          { K := { K with getptr := getptr + secondary_size }, ret := 1,
            out := float_of_bytes (g 3) (g 2) (g 1) (g 0) }
        else
          { K := K, ret := 0, out := f }

/-- Embedding of `kz_getnumber`. The conversion `*f = i` of an `int` to a
`float` is the parameter `int_to_float`; the local `i` starts as `i0`. -/
def kz_getnumber (int_to_float : Int → Nat) (i0 : Int) (K : kz_endpoint_t) (f : Nat) :
    getfloat_result :=
  let r := kz_getfloat K f
  if r.ret ≠ 0 then
    { K := r.K, ret := 1, out := r.out }
  else
    let q := kz_getint r.K i0
    if q.ret ≠ 0 then
      { K := q.K, ret := 1, out := int_to_float q.out }
    else
      { K := q.K, ret := 0, out := r.out }

/-- Embedding of `kz_getreset`. -/
def kz_getreset (K : kz_endpoint_t) : kz_endpoint_t :=
  { K with getptr := KZ_RX_PAYLOAD_START }

/-! ## Value codec: putters -/

/-- The statement `*K->putptr++ = b`. -/
def put_byte (K : kz_endpoint_t) (b : Nat) : kz_endpoint_t :=
  { K with tx_mem := K.tx_mem.set K.putptr b, putptr := K.putptr + 1 }

/-- Embedding of `kz_putint`; the second component is the returned `int`. -/
def kz_putint (K : kz_endpoint_t) (v : Int) : kz_endpoint_t × Nat :=
  let putend : Int := (K.tx_buffer_end : Int) - 1
  if v ≥ -64 ∧ v ≤ 127 then
    if putend - (K.putptr : Int) < 1 then (K, 0)
    else (put_byte K (v % 256).toNat, 1)
  else if v ≥ INT16_MIN ∧ v ≤ INT16_MAX then
    if putend - (K.putptr : Int) < 3 then (K, 0)
    else
      let u16 := (v % 65536).toNat
      let K := put_byte K KZ_BC_INT16
      let K := put_byte K ((u16 >>> 8) &&& 0xFF)
      let K := put_byte K (u16 &&& 0xFF)
      (K, 1)
  else if v ≥ INT32_MIN ∧ v ≤ INT32_MAX then
    if putend - (K.putptr : Int) < 5 then (K, 0)
    else
      let u32 := (v % 4294967296).toNat
      let K := put_byte K KZ_BC_INT32
      let K := put_byte K ((u32 >>> 24) &&& 0xFF)
      let K := put_byte K ((u32 >>> 16) &&& 0xFF)
      let K := put_byte K ((u32 >>> 8) &&& 0xFF)
      let K := put_byte K (u32 &&& 0xFF)
      (K, 1)
  else if v ≥ INT64_MIN ∧ v ≤ INT64_MAX then
    if putend - (K.putptr : Int) < 9 then (K, 0)
    else
      let u64 := (v % 18446744073709551616).toNat
      let K := put_byte K KZ_BC_INT64
      let K := put_byte K ((u64 >>> 56) &&& 0xFF)
      let K := put_byte K ((u64 >>> 48) &&& 0xFF)
      let K := put_byte K ((u64 >>> 40) &&& 0xFF)
      let K := put_byte K ((u64 >>> 32) &&& 0xFF)
      let K := put_byte K ((u64 >>> 24) &&& 0xFF)
      let K := put_byte K ((u64 >>> 16) &&& 0xFF)
      let K := put_byte K ((u64 >>> 8) &&& 0xFF)
      let K := put_byte K (u64 &&& 0xFF)
      (K, 1)
  else (K, 1)

/-- Embedding of `kz_putfloat`; `v` is the bit pattern of the `float`. The
capacity test compares a `ptrdiff_t` with a `size_t`, so the difference is
converted to an unsigned 64-bit value first. -/
def kz_putfloat (K : kz_endpoint_t) (v : Nat) : kz_endpoint_t × Nat :=
  let putend : Int := (K.tx_buffer_end : Int) - 1
  if ((putend - (K.putptr : Int)) % 18446744073709551616).toNat < sizeof_kz_float_t + 1 then
    (K, 0)
  else
    let tagged : Option kz_endpoint_t :=
      if sizeof_kz_float_t = 8 then
        let K := put_byte K KZ_BC_FLOAT64
        let K := put_byte K (float_byte v 7)
        let K := put_byte K (float_byte v 6)
        let K := put_byte K (float_byte v 5)
        let K := put_byte K (float_byte v 4)
        some K
      else if sizeof_kz_float_t = 4 then
        some (put_byte K KZ_BC_FLOAT32)
      else none
    match tagged with
    | none => (K, 0)
    | some K =>
      let K := put_byte K (float_byte v 3)
      let K := put_byte K (float_byte v 2)
      let K := put_byte K (float_byte v 1)
      let K := put_byte K (float_byte v 0)
      (K, 1)

/-- The string argument of `kz_putstring` (`kz_string_t`). -/
structure kz_string_t where
  bytes : List Nat
  length : Nat
deriving DecidableEq, Repr

/-- Embedding of `kz_putstring`: the argument is not used, the nil tag is written. -/
def kz_putstring (K : kz_endpoint_t) (_v : kz_string_t) : kz_endpoint_t × Nat :=
  let putend : Int := (K.tx_buffer_end : Int) - 1
  if putend - (K.putptr : Int) < 1 then (K, 0)
  else (put_byte K KZ_BC_NIL, 1)

/-- Embedding of `kz_putlistopen`. -/
def kz_putlistopen (K : kz_endpoint_t) : kz_endpoint_t × Nat :=
  let putend : Int := (K.tx_buffer_end : Int) - 1
  if putend - (K.putptr : Int) < 1 then (K, 0)
  else (put_byte K KZ_BC_LISTOPEN, 1)

/-- Embedding of `kz_putlistclose`. -/
def kz_putlistclose (K : kz_endpoint_t) : kz_endpoint_t × Nat :=
  let putend : Int := (K.tx_buffer_end : Int) - 1
  if putend - (K.putptr : Int) < 1 then (K, 0)
  else (put_byte K KZ_BC_LISTCLOSE, 1)

/-- Embedding of `kz_putnil`. -/
def kz_putnil (K : kz_endpoint_t) : kz_endpoint_t × Nat :=
  let putend : Int := (K.tx_buffer_end : Int) - 1
  if putend - (K.putptr : Int) < 1 then (K, 0)
  else (put_byte K KZ_BC_NIL, 1)

/-- Embedding of `kz_putclear`. -/
def kz_putclear (K : kz_endpoint_t) : kz_endpoint_t :=
  { K with putptr := KZ_TX_PAYLOAD_START }

/-- The `memcpy(dst, src, len)` of `len` bytes from offset `src` of `from_mem`
to offset `dst` of `to_mem`. -/
def memcpy (to_mem : List Nat) (dst : Nat) (from_mem : List Nat) (src len : Nat) : List Nat :=
  to_mem.take dst ++ (from_mem.drop src).take len ++ to_mem.drop (dst + len)

/-- Embedding of `loopback` of the test suite: copies the written tx frame
into the rx buffer and sets the read cursors. -/
def loopback (K : kz_endpoint_t) : kz_endpoint_t :=
  let tx_frame := KZ_TX_HEADER_START
  let rx_frame := KZ_RX_HEADER_START
  let len := K.putptr - tx_frame
  { K with rx_mem := memcpy K.rx_mem rx_frame K.tx_mem tx_frame len,
           getptr := KZ_RX_PAYLOAD_START,
           rx_buffer_pos := rx_frame + len }

/-! ## Initialisation and the test harness -/

/-- Endpoint definition (`kz_endpointdef_t`); the two buffers are given as the
memory they point to. -/
structure kz_endpointdef_t where
  rx_buffer : List Nat
  tx_buffer : List Nat
  rx : Nat
  tx : Nat
  rx_buffer_size : Nat
  tx_buffer_size : Nat
deriving DecidableEq, Repr

def KZ_MAX_LOCAL_REQUESTS : Nat := 16
def KZ_MAX_CHANNELS : Nat := 32
def KZ_MIN_BUFFER_SIZE : Nat := 16
def KZ_MAX_BUFFER_SIZE : Nat := 256

/-- Embedding of `kz_init_static` (every field of the endpoint is assigned). -/
def kz_init_static (d : kz_endpointdef_t) : kz_endpoint_t :=
  { rx_mem := d.rx_buffer,
    rx_buffer_pos := 0,
    rx_buffer_end := 0 + d.rx_buffer_size,
    tx_mem := d.tx_buffer,
    tx_buffer_end := 0 + d.tx_buffer_size,
    getptr := 0 + KZ_RX_PAYLOAD_START,
    putptr := 0 + KZ_TX_PAYLOAD_START,
    rx := d.rx,
    tx := d.tx,
    handlers := List.replicate KZ_MAX_CHANNELS { callback := 0, userdata := 0 },
    local_requests :=
      List.replicate KZ_MAX_LOCAL_REQUESTS { callback := 0, userdata := 0, timeout_ticks := 0 },
    rx_state := kz_cobs_rx_state_t.KZ_RX_IDLE,
    rx_count := 0 }

/-- Embedding of `test_endpoint_init` of the test suite: buffers of the given
sizes (their `malloc`ed content is taken to be the byte `fill`), callbacks
`null_rx` and `null_tx` (handles 1 and 2). -/
def test_endpoint_init (rx_space tx_space fill : Nat) : kz_endpoint_t :=
  kz_init_static
    { rx_buffer := List.replicate rx_space fill,
      tx_buffer := List.replicate tx_space fill,
      rx := 1,
      tx := 2,
      rx_buffer_size := rx_space,
      tx_buffer_size := tx_space }

/-- What the encoder tests do before `tx_encode_and_send`: store `data` at
`tx_data = tx_buffer + KZ_TX_HEADER_START` and set `putptr` to its end. -/
def set_tx_data (K : kz_endpoint_t) (data : List Nat) : kz_endpoint_t :=
  { K with tx_mem := memcpy K.tx_mem KZ_TX_HEADER_START data 0 data.length,
           putptr := KZ_TX_HEADER_START + data.length }

/-! ## Frame multiplexer -/

/-- Status of a request (`kz_request_status_t`). -/
inductive kz_request_status_t where
  | KZ_IGNORE
  | KZ_INVALID
  | KZ_BUSY
  | KZ_OK
deriving DecidableEq, Repr

/-- What an endpoint does to the outside in the order it does it: a call of the
`tx` callback with the bytes handed to it, a call of a request handler, a call
of a reply handler with its status argument. -/
inductive kz_event where
  | tx (bytes : List Nat)
  | request_callback (callback userdata : Nat)
  | reply_callback (callback userdata : Nat) (status : kz_request_status_t)
deriving DecidableEq, Repr

/-- The user code behind the callback handles. `request c u K` is the effect of
the request handler `c` called as `c(K, u)`: the endpoint afterwards, the status
it returns and the events it causes itself (frames it sends through the API);
`reply c u st K` is the effect of the reply handler `c` called as `c(K, u, st)`.
A callback that does not return (failed assertion) is `none`. -/
structure kz_callbacks where
  request : Nat → Nat → kz_endpoint_t →
    Option (kz_endpoint_t × kz_request_status_t × List kz_event)
  reply : Nat → Nat → kz_request_status_t → kz_endpoint_t →
    Option (kz_endpoint_t × List kz_event)

/-- A request slot with all fields zero (`callback = NULL`): a free slot. -/
def free_request : kz_local_request_t :=
  { callback := 0, userdata := 0, timeout_ticks := 0 }

/-- A handler entry with all fields zero (`callback = NULL`): no handler. -/
def no_handler : kz_request_handler_t :=
  { callback := 0, userdata := 0 }

/-- Embedding of `send_reply` (`reqid` is a `kz_byte_t`; `stat` is not used). -/
def send_reply (K : kz_endpoint_t) (reqid : Nat) (_stat : kz_request_status_t) :
    Option tx_result :=
  let K := { K with tx_mem := K.tx_mem.set 1 KZ_HEADER_REPLY }
  let K := { K with tx_mem := K.tx_mem.set 2 reqid }
  let K := { K with tx_mem := K.tx_mem.set 3 0x00 }
  let K := { K with tx_mem := K.tx_mem.set 4 0x00 }
  tx_encode_and_send K

/-- Embedding of `send_request` (`reqid` and `channelid` are `kz_byte_t`). -/
def send_request (K : kz_endpoint_t) (reqid channelid : Nat) : Option tx_result :=
  let K := { K with tx_mem := K.tx_mem.set 1 KZ_HEADER_REQUEST }
  let K := { K with tx_mem := K.tx_mem.set 2 reqid }
  let K := { K with tx_mem := K.tx_mem.set 3 channelid }
  let K := { K with tx_mem := K.tx_mem.set 4 0x00 }
  tx_encode_and_send K

/-- Embedding of `handle_request`; `max_channels` is the size of the array
`K->handlers`. The `kz_byte_t` parameter of `send_reply` takes `reqid` modulo
256. -/
def handle_request (cb : kz_callbacks) (K : kz_endpoint_t) (reqid channelid : Nat) :
    Option (kz_endpoint_t × List kz_event) :=
  let max_channels := KZ_MAX_CHANNELS
  if channelid < max_channels then
    let handler := K.handlers.getD channelid no_handler
    if handler.callback ≠ 0 then
      let K := { K with getptr := KZ_RX_PAYLOAD_START }
      match cb.request handler.callback handler.userdata K with
      | none => none
      | some (K, status, events) =>
        if status ≠ kz_request_status_t.KZ_IGNORE then
          match send_reply K (reqid % 256) status with
          | none => none
          | some r =>
            some (r.K, kz_event.request_callback handler.callback handler.userdata :: events
              ++ [kz_event.tx r.sent])
        else
          some (K, kz_event.request_callback handler.callback handler.userdata :: events)
    else some (K, [])
  else some (K, [])

/-- Embedding of `handle_reply`; `max_local_requests` is the size of the array
`K->local_requests`. -/
def handle_reply (cb : kz_callbacks) (K : kz_endpoint_t) (reqid : Nat) :
    Option (kz_endpoint_t × List kz_event) :=
  let max_local_requests := KZ_MAX_LOCAL_REQUESTS
  if reqid < max_local_requests then
    let req := K.local_requests.getD reqid free_request
    if req.callback ≠ 0 then
      let K := { K with getptr := KZ_RX_PAYLOAD_START }
      match cb.reply req.callback req.userdata kz_request_status_t.KZ_OK K with
      | none => none
      | some (K, events) =>
        some ({ K with local_requests := K.local_requests.set reqid free_request },
              kz_event.reply_callback req.callback req.userdata kz_request_status_t.KZ_OK
                :: events)
    else some (K, [])
  else some (K, [])

/-- Decrement of an `int` (32 bits): `x --`. At `INT_MIN` the C behaviour is
undefined; the embedding wraps as a two's-complement machine does. -/
def int_dec (x : Int) : Int :=
  if x - 1 < INT32_MIN then x - 1 + 4294967296 else x - 1

/-- The loop of `handle_timeouts` from the slot `idx` on; the first argument is
the number of slots left, `local_requests_end - req`. -/
def handle_timeouts_loop (cb : kz_callbacks) :
    Nat → Nat → kz_endpoint_t → Option (kz_endpoint_t × List kz_event)
  | 0, _, K => some (K, [])
  | n + 1, idx, K =>
    let req := K.local_requests.getD idx free_request
    if req.callback ≠ 0 then
      let req : kz_local_request_t := { req with timeout_ticks := int_dec req.timeout_ticks }
      let K := { K with local_requests := K.local_requests.set idx req }
      if req.timeout_ticks ≤ (0 : Int) then
        let K := { K with rx_buffer_pos := KZ_RX_PAYLOAD_START }
        let K := { K with getptr := K.rx_buffer_pos }
        match cb.reply req.callback req.userdata kz_request_status_t.KZ_IGNORE K with
        | none => none
        | some (K, events) =>
          let K := { K with local_requests := K.local_requests.set idx free_request }
          match handle_timeouts_loop cb n (idx + 1) K with
          | none => none
          | some (K, rest) =>
            some (K, kz_event.reply_callback req.callback req.userdata
              kz_request_status_t.KZ_IGNORE :: events ++ rest)
      else handle_timeouts_loop cb n (idx + 1) K
    else handle_timeouts_loop cb n (idx + 1) K

/-- Embedding of `handle_timeouts`. -/
def handle_timeouts (cb : kz_callbacks) (K : kz_endpoint_t) :
    Option (kz_endpoint_t × List kz_event) :=
  handle_timeouts_loop cb KZ_MAX_LOCAL_REQUESTS 0 K

/-- Embedding of `kz_handle`; the second component is the returned `int`. -/
def kz_handle (K : kz_endpoint_t) (channelid callback userdata : Nat) : kz_endpoint_t × Nat :=
  let max_channels := KZ_MAX_CHANNELS
  if channelid < max_channels then
    let handler : kz_request_handler_t := { callback := callback, userdata := userdata }
    ({ K with handlers := K.handlers.set channelid handler }, 1)
  else (K, 0)

/-- Outcome of `kz_call`: endpoint afterwards, returned `int`, events caused. -/
structure call_result where
  K : kz_endpoint_t
  ret : Nat
  events : List kz_event
deriving DecidableEq, Repr

/-- The loop of `kz_call` from the slot `idx` on; the first argument is the
number of slots left, `local_requests_end - req`, and `reqid` is the `kz_byte_t`
counter. The `kz_byte_t` parameter of `send_request` takes `channelid` modulo
256. -/
def kz_call_loop (channelid callback userdata : Nat) (timeout_ticks : Int) :
    Nat → Nat → Nat → kz_endpoint_t → Option call_result
  | 0, _, _, K => some { K := K, ret := 0, events := [] }
  | n + 1, idx, reqid, K =>
    let req := K.local_requests.getD idx free_request
    if req.callback = 0 then
      let req : kz_local_request_t :=
        { callback := callback, userdata := userdata, timeout_ticks := timeout_ticks }
      let K := { K with local_requests := K.local_requests.set idx req }
      match send_request K reqid (channelid % 256) with
      | none => none
      | some r => some { K := r.K, ret := 1, events := [kz_event.tx r.sent] }
    else kz_call_loop channelid callback userdata timeout_ticks n (idx + 1) ((reqid + 1) % 256) K

/-- Embedding of `kz_call`. -/
def kz_call (K : kz_endpoint_t) (channelid callback userdata : Nat) (timeout_ticks : Int) :
    Option call_result :=
  kz_call_loop channelid callback userdata timeout_ticks KZ_MAX_LOCAL_REQUESTS 0 0 K

/-- Embedding of `kz_send`. -/
def kz_send (K : kz_endpoint_t) (channelid : Nat) : Option (kz_endpoint_t × List kz_event) :=
  match send_request K 0xFF (channelid % 256) with
  | none => none
  | some r => some (r.K, [kz_event.tx r.sent])

/-- The body of the loop of `kz_tick` for one byte delivered by `K->rx`. -/
def kz_tick_byte (cb : kz_callbacks) (K : kz_endpoint_t) (byte : Nat) :
    Option (kz_endpoint_t × List kz_event) :=
  let r := rx_decode K byte
  let K := r.1
  if r.2 ≠ 0 then
    let size := K.rx_buffer_pos - 0
    let frame := fun k => K.rx_mem.getD k 0
    if size ≥ 4 then
      if frame 0 = KZ_HEADER_REQUEST then
        let reqid := frame 1
        let channelid := frame 2
        handle_request cb K reqid channelid
      else if frame 0 = KZ_HEADER_REPLY then
        let reqid := frame 1
        handle_reply cb K reqid
      else some (K, [])
    else some (K, [])
  else some (K, [])

/-- The loop `while(K->rx(&byte))` of `kz_tick` over the bytes that `K->rx`
delivers during this tick. -/
def kz_tick_rx (cb : kz_callbacks) :
    kz_endpoint_t → List Nat → Option (kz_endpoint_t × List kz_event)
  | K, [] => some (K, [])
  | K, b :: bs =>
    match kz_tick_byte cb K b with
    | none => none
    | some (K, events) =>
      match kz_tick_rx cb K bs with
      | none => none
      | some (K, rest) => some (K, events ++ rest)

/-- Embedding of `kz_tick`; `bytes` are the bytes that `K->rx` delivers before
it reports that no more are available. -/
def kz_tick (cb : kz_callbacks) (K : kz_endpoint_t) (bytes : List Nat) :
    Option (kz_endpoint_t × List kz_event) :=
  match kz_tick_rx cb K bytes with
  | none => none
  | some (K, events) =>
    match handle_timeouts cb K with
    | none => none
    | some (K, rest) => some (K, events ++ rest)

/-! ## Concrete endpoints used to instantiate the theorems -/

/-- A 16-byte endpoint whose data region holds a payload with one zero byte
(the payload of `packet3` of the decoder test). -/
def sample_tx : kz_endpoint_t :=
  set_tx_data (test_endpoint_init 16 16 0xAA) [0xFF, 0xFE, 0xFD, 0x00, 0xFB, 0xFA]

/-- A 16-byte endpoint whose data region holds three zero bytes. -/
def sample_tx_zeros : kz_endpoint_t :=
  set_tx_data (test_endpoint_init 16 16 0xAA) [0x00, 0x00, 0x00]

/-- A 16-byte endpoint in its initial state, used as the receiver. -/
def sample_rx : kz_endpoint_t := test_endpoint_init 16 16 0x55

/-- A 256-byte endpoint whose data region holds `TX_MTU` = 254 bytes equal to 1
(the fill of the single-zero encoder test, without the zero). -/
def full_run_tx : kz_endpoint_t :=
  set_tx_data (test_endpoint_init 256 256 0xAA) (List.replicate 254 1)

/-- A decoder that has just aborted on an overflowing frame (start byte and 17
bytes into a 16-byte rx buffer). -/
def sample_rx_aborted : kz_endpoint_t :=
  (rx_feed sample_rx (1 :: List.replicate 17 1)).1

/-- The bytes the claim on `kz_putint` describes for a value `v` of the 32-bit
`kz_int_t`, the narrowest encoding: the single byte `v mod 256` for a fixint;
else the tag `0x89` and the two bytes, high then low, of the 16-bit two's
complement of `v`; else the tag `0x8A` and the four bytes, most significant
first, of the 32-bit two's complement of `v`. -/
def narrowest_int_encoding (v : Int) : List Nat :=
  if -64 ≤ v ∧ v ≤ 127 then
    [(v % 256).toNat]
  else if -32768 ≤ v ∧ v ≤ 32767 then
    [0x89, (v % 65536 / 256).toNat, (v % 65536 % 256).toNat]
  else
    [0x8A, (v % 4294967296 / 16777216).toNat, (v % 4294967296 / 65536 % 256).toNat,
      (v % 4294967296 / 256 % 256).toNat, (v % 4294967296 % 256).toNat]

/-- A chain of `*K->putptr++ = b` statements, one for each byte of `bs`. -/
def put_bytes (K : kz_endpoint_t) (bs : List Nat) : kz_endpoint_t :=
  bs.foldl put_byte K

/-! ## Reference decoder of the integer grammar

Written from the words of the claim on `kz_getint`, to be compared with the
embedding of the code. -/

/-- Value of a byte sequence read as a big-endian unsigned number. -/
def be_value (l : List Nat) : Nat :=
  l.foldl (fun acc b => acc * 256 + b) 0

/-- Two's-complement value of the unsigned number `u` of `bits` bits. -/
def twos_complement (bits : Nat) (u : Nat) : Int :=
  if u < 2 ^ (bits - 1) then (u : Int) else (u : Int) - 2 ^ bits

/-- Number of payload bytes after an integer tag that a 32-bit host `int` can
hold: `0x88` 1 byte, `0x89` 2 bytes, `0x8A` 4 bytes; any other tag (also
`0x8B`, INT64) is none. -/
def int_tag_size (tag : Nat) : Option Nat :=
  if tag = 0x88 then some 1
  else if tag = 0x89 then some 2
  else if tag = 0x8A then some 4
  else none

/-- Reference decoder: from the bytes of the get range, the decoded integer
and the number of bytes consumed, or none. A fixint byte (`0x00..0x7F` or
`0xC0..0xFF`) is its own sign-extended value; an integer tag followed by its
payload gives the big-endian two's-complement value of the payload; an empty
range, any other tag and a truncated payload give none. -/
def ref_getint : List Nat → Option (Int × Nat)
  | [] => none
  | b :: payload =>
    if b ≤ 0x7F ∨ (0xC0 ≤ b ∧ b ≤ 0xFF) then some (twos_complement 8 b, 1)
    else
      match int_tag_size b with
      | none => none
      | some n =>
        if payload.length < n then none
        else some (twos_complement (8 * n) (be_value (payload.take n)), 1 + n)

/-- A 16-byte endpoint whose get range holds the encoding of -65 (stored by
`kz_putint` and copied by `loopback`). -/
def sample_rx_int : kz_endpoint_t :=
  loopback (kz_putint (kz_putclear sample_rx) (-65)).1

/-- A 16-byte endpoint whose get range holds the encoding of the float with bit
pattern 40490FDB. -/
def sample_rx_float : kz_endpoint_t :=
  loopback (kz_putfloat (kz_putclear sample_rx) 0x40490FDB).1

/-- The four stores `K->tx_buffer[1] = a; ... K->tx_buffer[4] = d` with which
`send_request` and `send_reply` write the frame header. -/
def store_header (K : kz_endpoint_t) (a b c d : Nat) : kz_endpoint_t :=
  { K with tx_mem := (((K.tx_mem.set 1 a).set 2 b).set 3 c).set 4 d }

/-- The assignment of the three fields of the request slot `idx`. -/
def store_request (K : kz_endpoint_t) (idx : Nat) (req : kz_local_request_t) : kz_endpoint_t :=
  { K with local_requests := K.local_requests.set idx req }

/-- Arguments of one call of `kz_call`. -/
structure call_args where
  channelid : Nat
  callback : Nat
  userdata : Nat
  timeout_ticks : Int
deriving DecidableEq, Repr, Inhabited

/-- Consecutive calls of `kz_call`, nothing in between: endpoint afterwards, the
returned values in order, the events in order. -/
def kz_call_seq : kz_endpoint_t → List call_args →
    Option (kz_endpoint_t × List Nat × List kz_event)
  | K, [] => some (K, [], [])
  | K, a :: rest =>
    match kz_call K a.channelid a.callback a.userdata a.timeout_ticks with
    | none => none
    | some r =>
      match kz_call_seq r.K rest with
      | none => none
      | some (K2, rets, events) => some (K2, r.ret :: rets, r.events ++ events)

/-- State of an endpoint on which `k` calls of `kz_call` have been made since
initialisation: the request array has its 16 slots, the first `k` are active,
the others free, the put region is empty and the tx side is usable. -/
def pool_filled (k : Nat) (K : kz_endpoint_t) : Prop :=
  K.local_requests.length = 16 ∧
  (∀ j, j < k → (K.local_requests.getD j free_request).callback ≠ 0) ∧
  (∀ j, k ≤ j → j < 16 → (K.local_requests.getD j free_request).callback = 0) ∧
  K.putptr = 5 ∧ K.tx ≠ 0 ∧ 6 ≤ K.tx_buffer_end ∧ K.tx_buffer_end ≤ K.tx_mem.length

/-- A 16-byte endpoint with a float in its put region (as `example.c` has before
`kz_send`). -/
def sample_put : kz_endpoint_t :=
  (kz_putfloat sample_rx 0x40490FDB).1

/-- The endpoint `sample_put` with request slot 0 active. -/
def sample_put_pending : kz_endpoint_t :=
  store_request sample_put 0 { callback := 5, userdata := 6, timeout_ticks := 3 }

/-- A 16-byte endpoint with all 16 request slots active. -/
def sample_pool_full : kz_endpoint_t :=
  { sample_rx with
    local_requests := List.replicate 16 { callback := 5, userdata := 6, timeout_ticks := 3 } }

/-- Definition of a 16-byte endpoint with callbacks `rx` = 1 and `tx` = 2. -/
def sample_def : kz_endpointdef_t :=
  { rx_buffer := List.replicate 16 0, tx_buffer := List.replicate 16 0, rx := 1, tx := 2,
    rx_buffer_size := 16, tx_buffer_size := 16 }

/-- Seventeen calls, on channels 0, 1, 2, ... with callback 5. -/
def sample_calls : List call_args :=
  (List.range 17).map (fun k =>
    { channelid := k, callback := 5, userdata := k, timeout_ticks := 100 })

/-- Callbacks for the examples: the request handler 1 stores the integer 300 in
the put region and returns `KZ_OK`, the request handler 2 stores the same and
returns `KZ_IGNORE`, any other returns `KZ_INVALID`; reply handlers do
nothing. -/
def sample_callbacks : kz_callbacks :=
  { request := fun c _ K =>
      if c = 1 then some ((kz_putint K 300).1, kz_request_status_t.KZ_OK, [])
      else if c = 2 then some ((kz_putint K 300).1, kz_request_status_t.KZ_IGNORE, [])
      else some (K, kz_request_status_t.KZ_INVALID, []),
    reply := fun _ _ _ K => some (K, []) }

/-- A 16-byte endpoint with handler 1 on channel 1 and handler 2 on channel 2
that has received the request `50 FF 01 00` (request id `0xFF`, channel 1) up
to, not including, the terminator of its frame. -/
def sample_rx_request : kz_endpoint_t :=
  (rx_feed (kz_handle (kz_handle sample_rx 1 1 7).1 2 2 9).1 [0x04, 0x50, 0xFF, 0x01, 0x01]).1

/-- The endpoint that handler 1 returns when called for `sample_rx_request`. -/
def sample_rx_request_handled : kz_endpoint_t :=
  (kz_putint (kz_getreset (rx_decode sample_rx_request 0x00).1) 300).1

/-- A decoder that has received the reply `51 FF 00 00` (request id `0xFF`) up
to, not including, the terminator of its frame; request slot 0 is active. -/
def sample_rx_reply_ff : kz_endpoint_t :=
  (rx_feed (store_request sample_rx 0 { callback := 5, userdata := 6, timeout_ticks := 3 })
    [0x03, 0x51, 0xFF, 0x01, 0x01]).1

/-- A decoder with handler 1 on channel 1 that has received the request
`50 00 03 00` (channel 3, no handler) up to, not including, the terminator. -/
def sample_rx_request_unregistered : kz_endpoint_t :=
  (rx_feed (kz_handle sample_rx 1 1 7).1 [0x02, 0x50, 0x02, 0x03, 0x01]).1

/-- A decoder with handler 1 on channel 1 and request slot 0 active that has
received the three-byte frame `50 00 01` up to, not including, the
terminator. -/
def sample_rx_short : kz_endpoint_t :=
  (rx_feed (store_request (kz_handle sample_rx 1 1 7).1 0
    { callback := 5, userdata := 6, timeout_ticks := 3 }) [0x02, 0x50, 0x02, 0x01]).1

/-- Callbacks as `sample_callbacks`, but the request handler 1 returns
`KZ_BUSY` after storing the integer 300. -/
def sample_callbacks_busy : kz_callbacks :=
  { request := fun c _ K =>
      if c = 1 then some ((kz_putint K 300).1, kz_request_status_t.KZ_BUSY, [])
      else if c = 2 then some ((kz_putint K 300).1, kz_request_status_t.KZ_IGNORE, [])
      else some (K, kz_request_status_t.KZ_INVALID, []),
    reply := fun _ _ _ K => some (K, []) }

/-- A 16-byte endpoint with handler 3 (userdata 4) on channel 5. -/
def sample_handlers : kz_endpoint_t := (kz_handle sample_rx 5 3 4).1

/-- Reply callbacks that do what the interface gives them to do, read values
through the get-cursor: a call returns, changes nothing of the endpoint but the
get-cursor, and causes no event. -/
def reply_callbacks_read_only (cb : kz_callbacks) : Prop :=
  ∀ c u st K, ∃ g, cb.reply c u st K = some ({ K with getptr := g }, [])

/-- A 16-byte endpoint with two requests pending: A in slot 0 (callback 5,
userdata 6) and B in slot 1 (callback 7, userdata 8). -/
def sample_two_pending : kz_endpoint_t :=
  store_request (store_request sample_rx 0 { callback := 5, userdata := 6, timeout_ticks := 100 })
    1 { callback := 7, userdata := 8, timeout_ticks := 100 }

/-- Consecutive calls of `kz_tick`; for each call the list gives the bytes that
`K->rx` delivers during it. The result is the endpoint after the last call and,
for each call in order, the events of that call. -/
def kz_ticks (cb : kz_callbacks) :
    kz_endpoint_t → List (List Nat) → Option (kz_endpoint_t × List (List kz_event))
  | K, [] => some (K, [])
  | K, bytes :: rest =>
    match kz_tick cb K bytes with
    | none => none
    | some (K1, events) =>
      match kz_ticks cb K1 rest with
      | none => none
      | some (K2, more) => some (K2, events :: more)

/-- A 16-byte endpoint with handler 1 on channel 1 and a request pending in
slot 0 (callback 5, userdata 6) that times out at the next tick. -/
def sample_timeout_due : kz_endpoint_t :=
  store_request (kz_handle sample_rx 1 1 7).1 0 { callback := 5, userdata := 6, timeout_ticks := 1 }

/-- The same endpoint with 100 ticks left for the request in slot 0. -/
def sample_timeout_far : kz_endpoint_t :=
  store_request (kz_handle sample_rx 1 1 7).1 0
    { callback := 5, userdata := 6, timeout_ticks := 100 }

/-- The endpoint that `handle_timeouts` hands to the callback of the slot
`idx` when it times out: the decremented count is stored, `rx_buffer_pos` and
the get-cursor are at the rx payload start. -/
def timeout_callback_state (K : kz_endpoint_t) (idx : Nat) : kz_endpoint_t :=
  let req := K.local_requests.getD idx free_request
  let req : kz_local_request_t := { req with timeout_ticks := int_dec req.timeout_ticks }
  let K := { K with local_requests := K.local_requests.set idx req }
  let K := { K with rx_buffer_pos := KZ_RX_PAYLOAD_START }
  { K with getptr := K.rx_buffer_pos }

/-- What one pass of the loop of `handle_timeouts` makes of a slot: a free slot
stays, an active slot has its count decremented and is freed when the count is
then zero or less. -/
def sweep_slot (r : kz_local_request_t) : kz_local_request_t :=
  if r.callback ≠ 0 then
    if int_dec r.timeout_ticks ≤ 0 then free_request
    else { r with timeout_ticks := int_dec r.timeout_ticks }
  else r

/-- The call that one pass of the loop of `handle_timeouts` makes for a slot:
the callback with `KZ_IGNORE` when the slot is active and times out. -/
def sweep_events (r : kz_local_request_t) : List kz_event :=
  if r.callback ≠ 0 ∧ int_dec r.timeout_ticks ≤ 0 then
    [kz_event.reply_callback r.callback r.userdata kz_request_status_t.KZ_IGNORE]
  else []

/-- The calls of the sweep over the `n` slots from `idx` on, in order. -/
def timeout_events (reqs : List kz_local_request_t) : Nat → Nat → List kz_event
  | 0, _ => []
  | n + 1, idx => sweep_events (reqs.getD idx free_request) ++ timeout_events reqs n (idx + 1)

/-- State of the pool while the request (callback `c`, userdata `u`) waits in
slot `i` with `remaining` ticks left: the pool has its 16 slots, slot `i` holds
the request, and no other slot holds the same pair of callback and userdata (so
that a call of `c` with `u` in the trace is the call for slot `i`). -/
def timeout_pending (i c u : Nat) (remaining : Int) (K : kz_endpoint_t) : Prop :=
  K.local_requests.length = 16 ∧
  K.local_requests.getD i free_request
    = { callback := c, userdata := u, timeout_ticks := remaining } ∧
  ∀ j, j < 16 → j ≠ i →
    ¬ ((K.local_requests.getD j free_request).callback = c ∧
       (K.local_requests.getD j free_request).userdata = u)

/-- One call of the API that user code makes on an endpoint (`kz_tick` apart). -/
inductive kz_api_call where
  | putint (v : Int)
  | putfloat (v : Nat)
  | putstring (v : kz_string_t)
  | putlistopen
  | putlistclose
  | putnil
  | putclear
  | getint
  | getfloat
  | getnumber
  | getreset
  | handle (channelid callback userdata : Nat)
  | call (channelid callback userdata : Nat) (timeout_ticks : Int)
  | send (channelid : Nat)
deriving DecidableEq, Repr

/-- What a call of the API gives back to the user code: the returned `int` (0
for a function returning `void`) and what it stored through its out-parameter
(`*i` of `kz_getint`, the bit pattern of `*f` of `kz_getfloat` and
`kz_getnumber`). -/
structure kz_api_value where
  ret : Nat
  int_out : Int
  float_out : Nat
deriving DecidableEq, Repr

/-- Runs one call of the API. The out-parameters of the getters hold 0 before
the call; `int_to_float` is the conversion of `kz_getnumber`. A call that does
not return (failed assertion) is `none`. -/
def run_api_call (int_to_float : Int → Nat) (K : kz_endpoint_t) :
    kz_api_call → Option (kz_endpoint_t × kz_api_value × List kz_event)
  | .putint v =>
    let r := kz_putint K v
    some (r.1, { ret := r.2, int_out := 0, float_out := 0 }, [])
  | .putfloat v =>
    let r := kz_putfloat K v
    some (r.1, { ret := r.2, int_out := 0, float_out := 0 }, [])
  | .putstring v =>
    let r := kz_putstring K v
    some (r.1, { ret := r.2, int_out := 0, float_out := 0 }, [])
  | .putlistopen =>
    let r := kz_putlistopen K
    some (r.1, { ret := r.2, int_out := 0, float_out := 0 }, [])
  | .putlistclose =>
    let r := kz_putlistclose K
    some (r.1, { ret := r.2, int_out := 0, float_out := 0 }, [])
  | .putnil =>
    let r := kz_putnil K
    some (r.1, { ret := r.2, int_out := 0, float_out := 0 }, [])
  | .putclear => some (kz_putclear K, { ret := 0, int_out := 0, float_out := 0 }, [])
  | .getint =>
    let r := kz_getint K 0
    some (r.K, { ret := r.ret, int_out := r.out, float_out := 0 }, [])
  | .getfloat =>
    let r := kz_getfloat K 0
    some (r.K, { ret := r.ret, int_out := 0, float_out := r.out }, [])
  | .getnumber =>
    let r := kz_getnumber int_to_float 0 K 0
    some (r.K, { ret := r.ret, int_out := 0, float_out := r.out }, [])
  | .getreset => some (kz_getreset K, { ret := 0, int_out := 0, float_out := 0 }, [])
  | .handle channelid callback userdata =>
    let r := kz_handle K channelid callback userdata
    some (r.1, { ret := r.2, int_out := 0, float_out := 0 }, [])
  | .call channelid callback userdata timeout_ticks =>
    match kz_call K channelid callback userdata timeout_ticks with
    | none => none
    | some r => some (r.K, { ret := r.ret, int_out := 0, float_out := 0 }, r.events)
  | .send channelid =>
    match kz_send K channelid with
    | none => none
    | some (K, events) => some (K, { ret := 0, int_out := 0, float_out := 0 }, events)

/-- Code of a callback that touches the endpoint only through the API: it
returns a status, or makes a call of the API and goes on according to what the
call gave back. -/
inductive kz_program where
  | ret (status : kz_request_status_t)
  | call (c : kz_api_call) (next : kz_api_value → kz_program)

/-- Runs the code of a callback on an endpoint: the endpoint afterwards, the
status returned, the events caused. -/
def run_program (int_to_float : Int → Nat) :
    kz_program → kz_endpoint_t → Option (kz_endpoint_t × kz_request_status_t × List kz_event)
  | .ret status, K => some (K, status, [])
  | .call c next, K =>
    match run_api_call int_to_float K c with
    | none => none
    | some (K1, v, events) =>
      match run_program int_to_float (next v) K1 with
      | none => none
      | some (K2, status, more) => some (K2, status, events ++ more)

/-- The callbacks whose code is given by `request_code` (for each request
handler and userdata) and `reply_code` (for each reply handler, userdata and
status; the status its code ends with is not used, the function returns
`void`). -/
def program_callbacks (int_to_float : Int → Nat) (request_code : Nat → Nat → kz_program)
    (reply_code : Nat → Nat → kz_request_status_t → kz_program) : kz_callbacks :=
  { request := fun c u K => run_program int_to_float (request_code c u) K,
    reply := fun c u st K =>
      match run_program int_to_float (reply_code c u st) K with
      | none => none
      | some (K2, _, events) => some (K2, events) }

/-- What the main program does with an endpoint: a call of the API, or a call
of `kz_tick` during which `K->rx` delivers the given bytes. -/
inductive kz_action where
  | api (c : kz_api_call)
  | tick (bytes : List Nat)
deriving DecidableEq, Repr

/-- Runs a sequence of actions of the main program. -/
def run_actions (int_to_float : Int → Nat) (cb : kz_callbacks) :
    kz_endpoint_t → List kz_action → Option (kz_endpoint_t × List kz_event)
  | K, [] => some (K, [])
  | K, .api c :: rest =>
    match run_api_call int_to_float K c with
    | none => none
    | some (K1, _, events) =>
      match run_actions int_to_float cb K1 rest with
      | none => none
      | some (K2, more) => some (K2, events ++ more)
  | K, .tick bytes :: rest =>
    match kz_tick cb K bytes with
    | none => none
    | some (K1, events) =>
      match run_actions int_to_float cb K1 rest with
      | none => none
      | some (K2, more) => some (K2, events ++ more)

/-- The cursor invariant of an endpoint initialised from the definition `d`:
the put-cursor is in `[tx_buffer + 5, tx_buffer_end - 1]`, the get-cursor and
the write position of the decoder are at most `rx_buffer_end`, and the buffer
ends and the `tx` callback are those of `d`. -/
def cursor_inv (d : kz_endpointdef_t) (K : kz_endpoint_t) : Prop :=
  5 ≤ K.putptr ∧ K.putptr + 1 ≤ K.tx_buffer_end ∧ K.getptr ≤ K.rx_buffer_end ∧
  K.rx_buffer_pos ≤ K.rx_buffer_end ∧ K.tx_buffer_end = d.tx_buffer_size ∧
  K.rx_buffer_end = d.rx_buffer_size ∧ K.tx = d.tx

/-- Outcome of a step that may stop at a failed assertion: when it does not
return, the `tx` callback of `d` is null (the first assertion of
`tx_encode_and_send`); when it returns, the endpoint satisfies the cursor
invariant. -/
def inv_after {α : Type} (d : kz_endpointdef_t) (sel : α → kz_endpoint_t) : Option α → Prop
  | none => d.tx = 0
  | some r => cursor_inv d (sel r)

/-- Callbacks that keep the cursor invariant: called on an endpoint that
satisfies it, a callback returns an endpoint that satisfies it, or does not
return and then only because the `tx` callback is null. -/
def callbacks_keep_inv (d : kz_endpointdef_t) (cb : kz_callbacks) : Prop :=
  (∀ c u K, cursor_inv d K → inv_after d (fun r => r.1) (cb.request c u K)) ∧
  (∀ c u st K, cursor_inv d K → inv_after d (fun r => r.1) (cb.reply c u st K))

/-- Code of a request handler for the examples: reads an integer, stores the
integer plus one and returns `KZ_OK`. -/
def sample_request_code : Nat → Nat → kz_program :=
  fun _ _ => kz_program.call kz_api_call.getint (fun v =>
    kz_program.call (kz_api_call.putint (v.int_out + 1)) (fun _ =>
      kz_program.ret kz_request_status_t.KZ_OK))

/-- Code of a reply callback for the examples: reads an integer. -/
def sample_reply_code : Nat → Nat → kz_request_status_t → kz_program :=
  fun _ _ _ => kz_program.call kz_api_call.getint (fun _ =>
    kz_program.ret kz_request_status_t.KZ_OK)

/-- A main program for the examples: registers handler 1 on channel 1, stores
300 and calls channel 7 with a timeout of 3 ticks, ticks while the request
`50 00 01 00 2A` for channel 1 arrives, stores a float and sends it on
channel 0. -/
def sample_actions : List kz_action :=
  [kz_action.api (kz_api_call.handle 1 1 7),
   kz_action.api (kz_api_call.putint 300),
   kz_action.api (kz_api_call.call 7 9 4 3),
   kz_action.tick [0x02, 0x50, 0x02, 0x01, 0x02, 0x2A, 0x00],
   kz_action.api (kz_api_call.putfloat 0x40490FDB),
   kz_action.api (kz_api_call.send 0)]

/-! ## Notions used to state the timeout of a request

These are not part of the program: they serve to state how the sweep of
`handle_timeouts` treats one slot while callbacks made of API calls run. -/

/-- The endpoint `K` with the request pool `L`. -/
def with_requests (K : kz_endpoint_t) (L : List kz_local_request_t) : kz_endpoint_t :=
  { K with local_requests := L }

/-- The endpoint `K2` has the request pool of `K` but for slots that are free
in `K`: the pool has the same length and every active slot of `K` is the same
in `K2`. -/
def keeps_pending (K K2 : kz_endpoint_t) : Prop :=
  K2.local_requests.length = K.local_requests.length ∧
  ∀ j, (K.local_requests.getD j free_request).callback ≠ 0 →
    K2.local_requests.getD j free_request = K.local_requests.getD j free_request

/-- The code of a callback makes no call of `kz_call`. -/
def makes_no_call : kz_program → Prop
  | .ret _ => True
  | .call c next =>
    (∀ channelid callback userdata timeout_ticks,
      c ≠ kz_api_call.call channelid callback userdata timeout_ticks) ∧
    ∀ v, makes_no_call (next v)

/-- How a call of `kz_tick` without bytes on `K` runs, seen from slot `i`: the
loop of `handle_timeouts` over the slots before `i` ends in `Ka`; the pass of
the loop for slot `i` takes `Ka` to `Kb` and causes the events `evb`; the loop
over the slots after `i` ends in `K2`, which is the endpoint after the tick. -/
def tick_through_slot (cb : kz_callbacks) (i : Nat) (K Ka Kb K2 : kz_endpoint_t)
    (evb : List kz_event) : Prop :=
  ∃ eva evz, handle_timeouts_loop cb i 0 K = some (Ka, eva) ∧
    handle_timeouts_loop cb 1 i Ka = some (Kb, evb) ∧
    handle_timeouts_loop cb (15 - i) (i + 1) Kb = some (K2, evz) ∧
    kz_tick cb K [] = some (K2, eva ++ evb ++ evz)

/-- Callbacks that behave as code made of API calls does: they keep the cursor
invariant, a reply callback changes the request pool in slots that
were free, if at all, and the events it causes are calls of `tx`. -/
def api_callbacks (d : kz_endpointdef_t) (cb : kz_callbacks) : Prop :=
  callbacks_keep_inv d cb ∧
  ∀ c u st K K2 ev, cb.reply c u st K = some (K2, ev) →
    keeps_pending K K2 ∧ ∀ e ∈ ev, ∃ bytes, e = kz_event.tx bytes

/-- Code of reply callbacks for the examples: callback 7, called with
`KZ_IGNORE`, starts its call again (`kz_call` on channel 7 with the same
callback and userdata and a timeout of 1); any other call does nothing. -/
def sample_retry_code : Nat → Nat → kz_request_status_t → kz_program :=
  fun c u st =>
    if c = 7 ∧ st = kz_request_status_t.KZ_IGNORE then
      kz_program.call (kz_api_call.call 7 c u 1) (fun _ =>
        kz_program.ret kz_request_status_t.KZ_OK)
    else kz_program.ret kz_request_status_t.KZ_OK

/-- The endpoint `K` with the count of the request slot `i` set to `x`. -/
def retime (K : kz_endpoint_t) (i : Nat) (x : Int) : kz_endpoint_t :=
  with_requests K (K.local_requests.set i
    { (K.local_requests.getD i free_request) with timeout_ticks := x })

/-! ## Specification-level functions used in the proofs

These are not part of the program: they describe, as pure list functions, the
frame that the in-place encoder is proved to produce. -/

/-- Length of the leading run of non-zero bytes of a payload. -/
def cobs_run : List Nat → Nat
  | [] => 0
  | b :: q => if b = 0 then 0 else cobs_run q + 1

/-- The data bytes of a payload after stuffing: every zero byte is replaced by
one plus the length of the run of non-zero bytes that follows it. -/
def cobs_body : List Nat → List Nat
  | [] => []
  | b :: q => (if b = 0 then cobs_run q + 1 else b) :: cobs_body q

/-- The whole frame of a payload: overhead byte, stuffed bytes, terminator. -/
def cobs_frame (p : List Nat) : List Nat :=
  (cobs_run p + 1) :: cobs_body p ++ [0]

/-- What a call of `kz_getint` can do: succeed, or return 0 and leave the
endpoint and `*i` as they were. -/
def getint_atomic (K : kz_endpoint_t) (i : Int) (r : getint_result) : Prop :=
  r.ret = 1 ∨ (r.ret = 0 ∧ r.K = K ∧ r.out = i)

/-- What a call of `kz_getfloat` can do: succeed, or return 0 and leave the
endpoint and `*f` as they were. -/
def getfloat_atomic (K : kz_endpoint_t) (f : Nat) (r : getfloat_result) : Prop :=
  r.ret = 1 ∨ (r.ret = 0 ∧ r.K = K ∧ r.out = f)

/-! ## Lemmas on the encoder loop -/

theorem cobs_run_le (q : List Nat) : cobs_run q ≤ q.length := by
  induction q with
  | nil => simp [cobs_run]
  | cons b q ih =>
    simp only [cobs_run, List.length_cons]
    split <;> omega

theorem cobs_body_length (q : List Nat) : (cobs_body q).length = q.length := by
  induction q with
  | nil => simp [cobs_body]
  | cons b q ih => simp [cobs_body, ih]

theorem encode_loop_spec (q : List Nat) :
    ∀ (pre post : List Nat) (l len : Nat) (log : List Nat) (r : encode_state),
      l < pre.length → len + q.length ≤ 255 →
      encode_loop q.length
        { mem := pre ++ q ++ post, search_ptr := pre.length, len_ptr := l, len := len,
          log := log } = r →
      r.search_ptr = pre.length + q.length ∧ r.len_ptr < pre.length + q.length ∧
      r.mem.length = pre.length + q.length + post.length ∧
      r.mem.set r.len_ptr r.len = pre.set l (len + cobs_run q) ++ cobs_body q ++ post := by
  induction q with
  | nil =>
    intro pre post l len log r hl _ hr
    subst hr
    simp [encode_loop, cobs_run, cobs_body, hl]
  | cons b q ih =>
    intro pre post l len log r hl hlen hr
    simp only [List.length_cons] at hlen
    have hget : (pre ++ b :: q ++ post).getD pre.length 0 = b := by
      rw [List.append_assoc, List.getD_append_right _ _ _ _ (Nat.le_refl _)]
      simp
    simp only [List.length_cons, encode_loop, hget] at hr
    by_cases hb : b = 0
    · subst hb
      simp only [if_true] at hr
      have hmem : (pre ++ 0 :: q ++ post).set l len = (pre.set l len ++ [0]) ++ q ++ post := by
        simp [List.set_append_left, hl]
      rw [hmem] at hr
      have hlen1 : pre.length + 1 = (pre.set l len ++ [0]).length := by simp
      rw [hlen1] at hr
      have hl1 : pre.length < (pre.set l len ++ [0]).length := by simp
      obtain ⟨h1, h2, h3, h4⟩ :=
        ih (pre.set l len ++ [0]) post pre.length 1 (log ++ [len]) r hl1 (by omega) hr
      simp only [List.length_append, List.length_set, List.length_singleton] at h1 h2 h3
      simp only [List.length_cons]
      refine ⟨by omega, by omega, by omega, ?_⟩
      rw [h4]
      simp [cobs_run, cobs_body, Nat.add_comm]
    · simp only [if_neg hb] at hr
      have hmod : (len + 1) % 256 = len + 1 := Nat.mod_eq_of_lt (by omega)
      rw [hmod] at hr
      have hmem : pre ++ b :: q ++ post = (pre ++ [b]) ++ q ++ post := by simp
      rw [hmem] at hr
      have hlen1 : pre.length + 1 = (pre ++ [b]).length := by simp
      rw [hlen1] at hr
      have hl1 : l < (pre ++ [b]).length := by simp; omega
      obtain ⟨h1, h2, h3, h4⟩ := ih (pre ++ [b]) post l (len + 1) log r hl1 (by omega) hr
      simp only [List.length_append, List.length_singleton] at h1 h2 h3
      simp only [List.length_cons]
      refine ⟨by omega, by omega, by omega, ?_⟩
      rw [h4]
      have e : len + 1 + cobs_run q = len + (cobs_run q + 1) := by omega
      simp [cobs_run, cobs_body, hb, List.set_append_left, hl, e]

/-- A memory that holds the payload `p` at offsets `1 .. p.length` and has one
more byte after it splits into reserved byte, payload, reserved byte, rest. -/
theorem mem_split (mem p : List Nat) (hlen : p.length + 2 ≤ mem.length)
    (hdata : (mem.drop 1).take p.length = p) :
    ∃ r0 t post, mem = [r0] ++ p ++ t :: post ∧
      mem.length = p.length + 2 + post.length := by
  match mem, hlen, hdata with
  | r0 :: rest, hlen, hdata =>
    simp only [List.drop_succ_cons, List.drop_zero, List.length_cons] at hdata hlen
    have hsplit : rest = p ++ rest.drop p.length := by
      conv_lhs => rw [← List.take_append_drop p.length rest, hdata]
    match hd : rest.drop p.length with
    | [] =>
      have := congrArg List.length hd
      simp at this
      omega
    | t :: post =>
      refine ⟨r0, t, post, ?_, ?_⟩
      · rw [hd] at hsplit
        conv_lhs => rw [hsplit]
        simp
      · have := congrArg List.length hd
        simp at this
        simp only [List.length_cons]
        omega

/-- What `tx_encode_and_send` does on a data region holding `p`: it succeeds,
sends the frame of `p`, leaves the frame in the buffer and resets `putptr`. -/
theorem tx_encode_and_send_frame (K : kz_endpoint_t) (p : List Nat) (r0 t : Nat)
    (post : List Nat) (htx : K.tx ≠ 0) (hN : p.length ≤ 254)
    (hmem : K.tx_mem = [r0] ++ p ++ t :: post) (hput : K.putptr = p.length + 1)
    (hend : K.putptr + 1 ≤ K.tx_buffer_end) :
    ∃ r, tx_encode_and_send K = some r ∧ r.sent = cobs_frame p ∧
      r.K = { K with tx_mem := cobs_frame p ++ post, putptr := KZ_TX_PAYLOAD_START } := by
  have h1 : ¬ ¬ ((K.putptr : Int) - (0 + 1) ≤ (TX_MTU : Int)) := by
    simp only [TX_MTU, hput]; push_cast; omega
  have h2 : ¬ ¬ ((K.putptr : Int) ≤ (K.tx_buffer_end : Int) - 1) := by omega
  have h3 : ¬ K.putptr < 1 := by omega
  obtain ⟨e1, e2, e3, e4⟩ := encode_loop_spec p [r0] (t :: post) 0 1 []
    (encode_loop p.length
      { mem := [r0] ++ p ++ t :: post, search_ptr := [r0].length, len_ptr := 0, len := 1,
        log := [] }) (by simp) (by omega) rfl
  have hn : K.putptr - 1 = p.length := by omega
  simp only [tx_encode_and_send, KZ_TX_HEADER_START, if_neg htx, if_neg h1, if_neg h2,
    if_neg h3, hn, hmem]
  simp only [List.length_singleton] at e1 e2 e3 e4
  have e4b := e4
  simp only [List.set_cons_zero] at e4b
  have hset : ([1 + cobs_run p] ++ cobs_body p ++ t :: post).set (1 + p.length) 0
      = cobs_frame p ++ post := by
    rw [List.set_append_right _ _ (by simp [cobs_body_length]; omega)]
    simp [cobs_body_length, cobs_frame, Nat.add_comm]
  have htake : (cobs_frame p ++ post).take (1 + p.length + 1) = cobs_frame p := by
    rw [show 1 + p.length + 1 = (cobs_frame p).length by
      simp [cobs_frame, cobs_body_length]; omega]
    exact List.take_left _ _
  refine ⟨_, rfl, ?_, ?_⟩
  · simp only [e1, e4b, hset, htake]
  · simp only [e1, e4b, hset]

/-! ## Lemmas on the decoder -/

theorem uint_dec_succ (n : Nat) (h : n < 4294967295) : uint_dec (n + 1) = n := by
  unfold uint_dec
  omega

theorem rx_feed_nil (K : kz_endpoint_t) : rx_feed K [] = (K, []) := rfl

theorem rx_feed_cons (K : kz_endpoint_t) (b : Nat) (bs : List Nat) :
    rx_feed K (b :: bs) =
      ((rx_feed (rx_decode K b).1 bs).1, (rx_decode K b).2 :: (rx_feed (rx_decode K b).1 bs).2) :=
  rfl

/-- One step of the decoder in `DECODE` on a non-zero byte with room left. -/
theorem rx_decode_store (R : kz_endpoint_t) (byte : Nat)
    (hs : R.rx_state = kz_cobs_rx_state_t.KZ_RX_DECODE) (hb : byte ≠ 0)
    (hpos : R.rx_buffer_pos < R.rx_buffer_end) :
    rx_decode R byte =
      ({ R with rx_mem := R.rx_mem.set R.rx_buffer_pos (if R.rx_count = 0 then 0 else byte),
                rx_buffer_pos := R.rx_buffer_pos + 1,
                rx_count := uint_dec (if R.rx_count = 0 then byte else R.rx_count) }, 0) := by
  have hge : ¬ R.rx_buffer_pos ≥ R.rx_buffer_end := by omega
  unfold rx_decode
  rw [hs]
  simp only [if_neg hb, if_neg hge]
  split <;> rfl

theorem take_set_succ (mem : List Nat) (k v : Nat) (h : k < mem.length) :
    (mem.set k v).take (k + 1) = mem.take k ++ [v] := by
  rw [List.set_eq_take_append_cons_drop, if_pos h]
  have hk : (mem.take k).length = k := by simp; omega
  rw [show mem.take k ++ v :: mem.drop (k + 1) = (mem.take k ++ [v]) ++ mem.drop (k + 1) by simp]
  rw [List.take_left' (by simp [hk])]

theorem drop_set_succ (mem : List Nat) (k v n : Nat) :
    (mem.set k v).drop (k + 1 + n) = mem.drop (k + 1 + n) := by
  rw [List.drop_set_of_lt _ _ (by omega)]

/-- Feeding the stuffed bytes of `q` and the terminator to a decoder that is in
`DECODE` with `rx_count` equal to the leading run of `q`: every byte returns 0
except the terminator, and `q` is stored from `rx_buffer_pos` on. -/
theorem rx_feed_body (q : List Nat) :
    ∀ (R : kz_endpoint_t), R.rx_state = kz_cobs_rx_state_t.KZ_RX_DECODE →
      R.rx_count = cobs_run q → q.length ≤ 254 →
      R.rx_buffer_pos + q.length ≤ R.rx_buffer_end → R.rx_buffer_end ≤ R.rx_mem.length →
      (rx_feed R (cobs_body q ++ [0])).2 = List.replicate q.length 0 ++ [1] ∧
      (rx_feed R (cobs_body q ++ [0])).1.rx_buffer_pos = R.rx_buffer_pos + q.length ∧
      (rx_feed R (cobs_body q ++ [0])).1.rx_mem =
        R.rx_mem.take R.rx_buffer_pos ++ q ++ R.rx_mem.drop (R.rx_buffer_pos + q.length) ∧
      (rx_feed R (cobs_body q ++ [0])).1.rx_state = kz_cobs_rx_state_t.KZ_RX_IDLE ∧
      (rx_feed R (cobs_body q ++ [0])).1.rx_buffer_end = R.rx_buffer_end := by
  induction q with
  | nil =>
    intro R hs hc _ _ _
    simp only [cobs_run] at hc
    simp [cobs_body, rx_feed, rx_decode, hs, hc]
  | cons b q ih =>
    intro R hs hc hlen hpos hmem
    simp only [List.length_cons] at hlen hpos
    have hrun := cobs_run_le q
    have hbyte : (if b = 0 then cobs_run q + 1 else b) ≠ 0 := by
      split <;> omega
    have hstep := rx_decode_store R _ hs hbyte (by omega)
    have hval : (if R.rx_count = 0 then 0 else (if b = 0 then cobs_run q + 1 else b)) = b := by
      rw [hc]
      by_cases hb : b = 0
      · simp [cobs_run, hb]
      · simp [cobs_run, hb]
    have hcnt : uint_dec (if R.rx_count = 0 then (if b = 0 then cobs_run q + 1 else b)
        else R.rx_count) = cobs_run q := by
      rw [hc]
      by_cases hb : b = 0
      · simp only [cobs_run, hb, if_true]
        exact uint_dec_succ _ (by omega)
      · simp only [cobs_run, hb, if_false]
        rw [if_neg (by omega)]
        exact uint_dec_succ _ (by omega)
    rw [hval, hcnt] at hstep
    obtain ⟨h1, h2, h3, h4, h5⟩ := ih (rx_decode R (if b = 0 then cobs_run q + 1 else b)).1
      (by rw [hstep]; exact hs) (by rw [hstep]) (by omega)
      (by rw [hstep]; show R.rx_buffer_pos + 1 + q.length ≤ R.rx_buffer_end; omega)
      (by rw [hstep]; show R.rx_buffer_end ≤ (R.rx_mem.set R.rx_buffer_pos b).length
          rw [List.length_set]; exact hmem)
    rw [show cobs_body (b :: q) ++ [0]
        = (if b = 0 then cobs_run q + 1 else b) :: (cobs_body q ++ [0]) from rfl, rx_feed_cons]
    simp only [List.length_cons]
    refine ⟨?_, ?_, ?_, h4, ?_⟩
    · rw [h1, hstep]
      simp [List.replicate_succ]
    · rw [h2, hstep]
      show R.rx_buffer_pos + 1 + q.length = R.rx_buffer_pos + (q.length + 1)
      omega
    · rw [h3, hstep]
      show (R.rx_mem.set R.rx_buffer_pos b).take (R.rx_buffer_pos + 1) ++ q ++
          (R.rx_mem.set R.rx_buffer_pos b).drop (R.rx_buffer_pos + 1 + q.length) = _
      rw [take_set_succ _ _ _ (by omega), drop_set_succ]
      simp [Nat.add_assoc, Nat.add_comm 1 q.length]
    · rw [h5, hstep]

/-- Feeding the whole frame of `p` to a decoder in `IDLE`. -/
theorem rx_feed_frame (p : List Nat) (R : kz_endpoint_t)
    (hs : R.rx_state = kz_cobs_rx_state_t.KZ_RX_IDLE) (hlen : p.length ≤ 254)
    (hend : p.length ≤ R.rx_buffer_end) (hmem : R.rx_buffer_end ≤ R.rx_mem.length) :
    (rx_feed R (cobs_frame p)).2 = List.replicate (p.length + 1) 0 ++ [1] ∧
    (rx_feed R (cobs_frame p)).1.rx_buffer_pos = p.length ∧
    (rx_feed R (cobs_frame p)).1.rx_mem = p ++ R.rx_mem.drop p.length ∧
    (rx_feed R (cobs_frame p)).1.rx_state = kz_cobs_rx_state_t.KZ_RX_IDLE ∧
    (rx_feed R (cobs_frame p)).1.rx_buffer_end = R.rx_buffer_end := by
  have hrun := cobs_run_le p
  have hstep : rx_decode R (cobs_run p + 1) =
      ({ R with rx_state := kz_cobs_rx_state_t.KZ_RX_DECODE, rx_count := cobs_run p,
                rx_buffer_pos := 0 }, 0) := by
    unfold rx_decode
    rw [hs]
    simp only [if_pos (Nat.succ_ne_zero _), uint_dec_succ _ (show cobs_run p < 4294967295 by omega)]
  obtain ⟨h1, h2, h3, h4, h5⟩ := rx_feed_body p (rx_decode R (cobs_run p + 1)).1
    (by rw [hstep]) (by rw [hstep]) hlen
    (by rw [hstep]; show 0 + p.length ≤ R.rx_buffer_end; omega)
    (by rw [hstep]; exact hmem)
  rw [show cobs_frame p = (cobs_run p + 1) :: (cobs_body p ++ [0]) from rfl, rx_feed_cons]
  refine ⟨?_, ?_, ?_, h4, ?_⟩
  · rw [h1, hstep]
    simp [List.replicate_succ]
  · rw [h2, hstep]
    show 0 + p.length = p.length
    omega
  · rw [h3, hstep]
    show R.rx_mem.take 0 ++ p ++ R.rx_mem.drop (0 + p.length) = _
    simp
  · rw [h5, hstep]

/-! ## Properties of the frame described by `cobs_frame` -/

theorem cobs_body_ne_zero (q : List Nat) : ∀ x ∈ cobs_body q, x ≠ 0 := by
  induction q with
  | nil => simp [cobs_body]
  | cons b q ih =>
    intro x hx
    simp only [cobs_body, List.mem_cons] at hx
    rcases hx with hx | hx
    · subst hx
      split <;> omega
    · exact ih x hx

theorem cobs_frame_length (p : List Nat) : (cobs_frame p).length = p.length + 2 := by
  simp [cobs_frame, cobs_body_length]

theorem cobs_run_replicate_zero (n : Nat) : cobs_run (List.replicate n 0) = 0 := by
  cases n <;> simp [List.replicate_succ, cobs_run]

theorem cobs_body_replicate_zero (n : Nat) :
    cobs_body (List.replicate n 0) = List.replicate n 1 := by
  induction n with
  | zero => simp [cobs_body]
  | succ n ih => simp [List.replicate_succ, cobs_body, ih, cobs_run_replicate_zero]

theorem cobs_run_append_zero (a b : List Nat) (ha : ∀ x ∈ a, x ≠ 0) :
    cobs_run (a ++ 0 :: b) = a.length := by
  induction a with
  | nil => simp [cobs_run]
  | cons x a ih =>
    have hx : x ≠ 0 := ha x (by simp)
    have := ih (fun y hy => ha y (by simp [hy]))
    simp [cobs_run, hx, this]

theorem cobs_run_nonzero (b : List Nat) (hb : ∀ x ∈ b, x ≠ 0) : cobs_run b = b.length := by
  induction b with
  | nil => simp [cobs_run]
  | cons x b ih =>
    have hx : x ≠ 0 := hb x (by simp)
    have := ih (fun y hy => hb y (by simp [hy]))
    simp [cobs_run, hx, this]

theorem cobs_body_nonzero_append (a q : List Nat) (ha : ∀ x ∈ a, x ≠ 0) :
    cobs_body (a ++ q) = a ++ cobs_body q := by
  induction a with
  | nil => simp
  | cons x a ih =>
    have hx : x ≠ 0 := ha x (by simp)
    have := ih (fun y hy => ha y (by simp [hy]))
    simp [cobs_body, hx, this]

/-- Bound on every value stored through `len_ptr` by the loop and by the store
that follows it. -/
theorem encode_loop_log (n : Nat) : ∀ (s : encode_state) (B : Nat),
    s.len + n ≤ B → B ≤ 255 → (∀ x ∈ s.log, x ≤ B) →
    ∀ x ∈ (encode_loop n s).log ++ [(encode_loop n s).len], x ≤ B := by
  induction n with
  | zero =>
    intro s B h1 _ h3 x hx
    simp only [encode_loop, List.mem_append, List.mem_singleton] at hx
    rcases hx with hx | hx
    · exact h3 x hx
    · omega
  | succ n ih =>
    intro s B h1 h2 h3 x hx
    simp only [encode_loop] at hx
    split at hx
    · refine ih _ B (by show 1 + n ≤ B; omega) h2 ?_ x hx
      intro y hy
      simp only [List.mem_append, List.mem_singleton] at hy
      rcases hy with hy | hy
      · exact h3 y hy
      · omega
    · refine ih { s with search_ptr := s.search_ptr + 1, len := (s.len + 1) % 256 } B ?_ h2 h3
        x hx
      show (s.len + 1) % 256 + n ≤ B
      have := Nat.mod_le (s.len + 1) 256
      omega

/-! ## Framing claims -/

/-- The data region of `K` decomposes once it is known to hold `p`. -/
theorem tx_region_split (K : kz_endpoint_t) (p : List Nat)
    (hput : K.putptr = p.length + 1) (hdata : (K.tx_mem.drop 1).take p.length = p)
    (hend : K.putptr + 1 ≤ K.tx_buffer_end) (hmem : K.tx_buffer_end ≤ K.tx_mem.length) :
    ∃ r0 t post, K.tx_mem = [r0] ++ p ++ t :: post :=
  let ⟨r0, t, post, h, _⟩ := mem_split K.tx_mem p (by omega) hdata
  ⟨r0, t, post, h⟩

/-- C1 (COBS round trip). For every payload `p` of length at most 254 held in the
tx data region `[tx_buffer + 1, putptr)`, `tx_encode_and_send` succeeds, and
feeding the bytes it hands to `tx` one at a time to `rx_decode`, on any endpoint
`R` in `IDLE` whose rx buffer has at least `p.length` bytes, returns 0 on every
byte but the last and 1 on the last, and leaves `rx_buffer_pos - rx_buffer`
equal to `p.length` with the first `p.length` bytes of the rx buffer equal to
`p`. -/
theorem cobs_round_trip (K R : kz_endpoint_t) (p : List Nat)
    (hN : p.length ≤ 254) (htx : K.tx ≠ 0)
    (hput : K.putptr = p.length + 1) (hdata : (K.tx_mem.drop 1).take p.length = p)
    (hend : K.putptr + 1 ≤ K.tx_buffer_end) (hmem : K.tx_buffer_end ≤ K.tx_mem.length)
    (hidle : R.rx_state = kz_cobs_rx_state_t.KZ_RX_IDLE)
    (hrx : p.length ≤ R.rx_buffer_end) (hrxmem : R.rx_buffer_end ≤ R.rx_mem.length) :
    ∃ r, tx_encode_and_send K = some r ∧
      r.sent.length = p.length + 2 ∧
      (rx_feed R r.sent).2 = List.replicate (p.length + 1) 0 ++ [1] ∧
      (rx_feed R r.sent).1.rx_buffer_pos = p.length ∧
      (rx_feed R r.sent).1.rx_mem.take p.length = p := by
  obtain ⟨r0, t, post, hsplit⟩ := tx_region_split K p hput hdata hend hmem
  obtain ⟨r, hr, hsent, _⟩ := tx_encode_and_send_frame K p r0 t post htx hN hsplit hput hend
  obtain ⟨h1, h2, h3, _, _⟩ := rx_feed_frame p R hidle hN hrx hrxmem
  refine ⟨r, hr, ?_, ?_, ?_, ?_⟩
  · rw [hsent, cobs_frame_length]
  · rw [hsent, h1]
  · rw [hsent, h2]
  · rw [hsent, h3, List.take_left]

/-- Instance of C1: the payload FF FE FD 00 FB FA on 16-byte buffers. -/
theorem cobs_round_trip_witness :
    ∃ r, tx_encode_and_send sample_tx = some r ∧
      r.sent.length = [0xFF, 0xFE, 0xFD, 0x00, 0xFB, 0xFA].length + 2 ∧
      (rx_feed sample_rx r.sent).2
        = List.replicate ([0xFF, 0xFE, 0xFD, 0x00, 0xFB, 0xFA].length + 1) 0 ++ [1] ∧
      (rx_feed sample_rx r.sent).1.rx_buffer_pos = [0xFF, 0xFE, 0xFD, 0x00, 0xFB, 0xFA].length ∧
      (rx_feed sample_rx r.sent).1.rx_mem.take [0xFF, 0xFE, 0xFD, 0x00, 0xFB, 0xFA].length
        = [0xFF, 0xFE, 0xFD, 0x00, 0xFB, 0xFA] :=
  cobs_round_trip sample_tx sample_rx [0xFF, 0xFE, 0xFD, 0x00, 0xFB, 0xFA]
    (by decide) (by decide) (by decide) (by decide) (by decide) (by decide) (by decide)
    (by decide) (by decide)

/-- C5 (wire frame shape). For every data region of length `N ≤ 254`,
`tx_encode_and_send` hands exactly `N + 2` bytes to `tx`: `N + 1` non-zero bytes
(the leading overhead byte and the `N` encoded bytes) followed by one `0x00`. -/
theorem tx_frame_shape (K : kz_endpoint_t) (N : Nat)
    (hN : N ≤ 254) (htx : K.tx ≠ 0) (hput : K.putptr = N + 1)
    (hend : K.putptr + 1 ≤ K.tx_buffer_end) (hmem : K.tx_buffer_end ≤ K.tx_mem.length) :
    ∃ r front, tx_encode_and_send K = some r ∧
      r.sent = front ++ [0x00] ∧ r.sent.length = N + 2 ∧ front.length = N + 1 ∧
      ∀ b ∈ front, b ≠ 0 := by
  have hl : ((K.tx_mem.drop 1).take N).length = N := by
    simp only [List.length_take, List.length_drop]; omega
  have hdata : (K.tx_mem.drop 1).take ((K.tx_mem.drop 1).take N).length
      = (K.tx_mem.drop 1).take N := by rw [hl]
  obtain ⟨r0, t, post, hsplit⟩ :=
    tx_region_split K ((K.tx_mem.drop 1).take N) (by rw [hl]; exact hput) hdata hend hmem
  obtain ⟨r, hr, hsent, _⟩ := tx_encode_and_send_frame K ((K.tx_mem.drop 1).take N) r0 t post
    htx (by rw [hl]; exact hN) hsplit (by rw [hl]; exact hput) hend
  refine ⟨r, (cobs_run ((K.tx_mem.drop 1).take N) + 1) :: cobs_body ((K.tx_mem.drop 1).take N),
    hr, ?_, ?_, ?_, ?_⟩
  · rw [hsent]; rfl
  · rw [hsent, cobs_frame_length, hl]
  · simp only [List.length_cons, cobs_body_length, hl]
  · intro b hb
    simp only [List.mem_cons] at hb
    rcases hb with hb | hb
    · omega
    · exact cobs_body_ne_zero _ b hb

/-- Instance of C5: a data region of 6 bytes on a 16-byte buffer. -/
theorem tx_frame_shape_witness :
    ∃ r front, tx_encode_and_send sample_tx = some r ∧
      r.sent = front ++ [0x00] ∧ r.sent.length = 6 + 2 ∧ front.length = 6 + 1 ∧
      ∀ b ∈ front, b ≠ 0 :=
  tx_frame_shape sample_tx 6 (by decide) (by decide) (by decide) (by decide) (by decide)

/-- C6 (all-zero payload). For every `N ≤ 254`, encoding a data region of `N`
bytes that are all `0x00` hands `N + 2` bytes to `tx`: a leading `0x01`, then `N`
bytes `0x01`, then a trailing `0x00`; afterwards `putptr` is `tx_buffer + 5`. -/
theorem encode_all_zeros (K : kz_endpoint_t) (N : Nat)
    (hN : N ≤ 254) (htx : K.tx ≠ 0) (hput : K.putptr = N + 1)
    (hdata : (K.tx_mem.drop 1).take N = List.replicate N 0x00)
    (hend : K.putptr + 1 ≤ K.tx_buffer_end) (hmem : K.tx_buffer_end ≤ K.tx_mem.length) :
    ∃ r, tx_encode_and_send K = some r ∧
      r.sent = 0x01 :: List.replicate N 0x01 ++ [0x00] ∧
      r.sent.length = N + 2 ∧ r.K.putptr = 5 := by
  have hl : (List.replicate N 0).length = N := List.length_replicate _ _
  obtain ⟨r0, t, post, hsplit⟩ := tx_region_split K (List.replicate N 0)
    (by rw [hl]; exact hput) (by rw [hl]; exact hdata) hend hmem
  obtain ⟨r, hr, hsent, hK⟩ := tx_encode_and_send_frame K (List.replicate N 0) r0 t post
    htx (by rw [hl]; exact hN) hsplit (by rw [hl]; exact hput) hend
  refine ⟨r, hr, ?_, ?_, ?_⟩
  · rw [hsent, cobs_frame, cobs_run_replicate_zero, cobs_body_replicate_zero]
  · rw [hsent, cobs_frame_length, hl]
  · rw [hK]; rfl

/-- Instance of C6: three zero bytes on a 16-byte buffer. -/
theorem encode_all_zeros_witness :
    ∃ r, tx_encode_and_send sample_tx_zeros = some r ∧
      r.sent = 0x01 :: List.replicate 3 0x01 ++ [0x00] ∧
      r.sent.length = 3 + 2 ∧ r.K.putptr = 5 :=
  encode_all_zeros sample_tx_zeros 3 (by decide) (by decide) (by decide) (by decide)
    (by decide) (by decide)

/-- C7 (single zero). For every length `L ≤ 254` and position `i < L`, encoding
a data region `a ++ 0x00 :: b` of length `L` whose only zero byte is at position
`i` (`a` are the `i` non-zero bytes before it, `b` the non-zero bytes after it)
hands to `tx` the leading overhead byte `i + 1`, the bytes of `a` unchanged, the
byte `L - i` at emitted position `i + 1`, the bytes of `b` unchanged, and a `0x00`
terminator at emitted position `L + 1`. -/
theorem encode_single_zero (K : kz_endpoint_t) (a b : List Nat) (L i : Nat)
    (hL : L ≤ 254) (hi : a.length = i) (hlen : (a ++ 0x00 :: b).length = L)
    (ha : ∀ x ∈ a, x ≠ 0) (hb : ∀ x ∈ b, x ≠ 0)
    (htx : K.tx ≠ 0) (hput : K.putptr = L + 1)
    (hdata : (K.tx_mem.drop 1).take L = a ++ 0x00 :: b)
    (hend : K.putptr + 1 ≤ K.tx_buffer_end) (hmem : K.tx_buffer_end ≤ K.tx_mem.length) :
    ∃ r, tx_encode_and_send K = some r ∧
      r.sent = (i + 1) :: a ++ (L - i) :: b ++ [0x00] ∧
      r.sent.getD 0 0 = i + 1 ∧ r.sent.getD (i + 1) 0 = L - i ∧
      r.sent.getD (L + 1) 1 = 0x00 := by
  obtain ⟨r0, t, post, hsplit⟩ := tx_region_split K (a ++ 0 :: b)
    (by rw [hlen]; exact hput) (by rw [hlen]; exact hdata) hend hmem
  obtain ⟨r, hr, hsent, _⟩ := tx_encode_and_send_frame K (a ++ 0 :: b) r0 t post
    htx (by rw [hlen]; exact hL) hsplit (by rw [hlen]; exact hput) hend
  have hLi : L - i = b.length + 1 := by
    simp only [List.length_append, List.length_cons] at hlen
    omega
  have hframe : cobs_frame (a ++ 0 :: b) = (i + 1) :: a ++ (L - i) :: b ++ [0] := by
    have hb2 : cobs_body b = b := by
      have := cobs_body_nonzero_append b [] hb
      simpa [cobs_body] using this
    simp only [cobs_frame, cobs_run_append_zero a b ha, cobs_body_nonzero_append a _ ha,
      cobs_body, cobs_run_nonzero b hb, hb2, if_true, hi, hLi]
    simp
  refine ⟨r, hr, ?_, ?_, ?_, ?_⟩
  · rw [hsent, hframe]
  · rw [hsent, hframe]; rfl
  · rw [hsent, hframe]
    rw [show (i + 1) :: a ++ (L - i) :: b ++ [0] = ((i + 1) :: a) ++ ((L - i) :: (b ++ [0])) by
      simp]
    rw [List.getD_append_right _ _ _ _ (by simp [hi])]
    simp [hi]
  · rw [hsent, hframe]
    rw [show (i + 1) :: a ++ (L - i) :: b ++ [0] = ((i + 1) :: a ++ (L - i) :: b) ++ [0] by
      simp]
    rw [List.getD_append_right _ _ _ _ (by simp; omega)]
    have : L + 1 - ((i + 1) :: a ++ (L - i) :: b).length = 0 := by
      simp only [List.length_append, List.length_cons] at hlen ⊢
      omega
    rw [this]
    rfl

/-- Instance of C7: the payload FF FE FD 00 FB FA, zero at position 3 of 6. -/
theorem encode_single_zero_witness :
    ∃ r, tx_encode_and_send sample_tx = some r ∧
      r.sent = (3 + 1) :: [0xFF, 0xFE, 0xFD] ++ (6 - 3) :: [0xFB, 0xFA] ++ [0x00] ∧
      r.sent.getD 0 0 = 3 + 1 ∧ r.sent.getD (3 + 1) 0 = 6 - 3 ∧
      r.sent.getD (6 + 1) 1 = 0x00 :=
  encode_single_zero sample_tx [0xFF, 0xFE, 0xFD] [0xFB, 0xFA] 6 3 (by decide) (by decide)
    (by decide) (by decide) (by decide) (by decide) (by decide) (by decide) (by decide)
    (by decide)

set_option maxRecDepth 100000 in
/-- C8 as stated fails: a data region of 254 non-zero bytes (within the limit
`TX_MTU`) makes `tx_encode_and_send` store the overhead byte 255, which is not
strictly below 255. -/
theorem overhead_reaches_255 :
    full_run_tx.putptr - 1 = 254 ∧
    (tx_encode_and_send full_run_tx).map (fun r => r.overheads) = some [255] ∧
    ¬ (∀ r, tx_encode_and_send full_run_tx = some r → ∀ x ∈ r.overheads, x < 255) := by
  have h1 : full_run_tx.putptr - 1 = 254 := by decide
  have h2 : (tx_encode_and_send full_run_tx).map (fun r => r.overheads) = some [255] := by
    decide
  refine ⟨h1, h2, ?_⟩
  intro h
  match hr : tx_encode_and_send full_run_tx with
  | none => rw [hr] at h2; simp at h2
  | some r =>
    rw [hr] at h2
    simp only [Option.map_some', Option.some.injEq] at h2
    have := h r hr 255 (by rw [h2]; simp)
    omega

/-- C8 (amended). For every data region of length `N ≤ 254`, every overhead
(run-length) byte that `tx_encode_and_send` stores is at most `N + 1`, hence at
most 255: it fits in a byte without wrapping, and is strictly below 255
whenever `N ≤ 253`. -/
theorem overhead_bound (K : kz_endpoint_t) (N : Nat)
    (hN : N ≤ 254) (htx : K.tx ≠ 0) (hput : K.putptr = N + 1)
    (hend : K.putptr + 1 ≤ K.tx_buffer_end) :
    ∃ r, tx_encode_and_send K = some r ∧
      ∀ x ∈ r.overheads, x ≤ N + 1 ∧ x ≤ 255 ∧ (N ≤ 253 → x < 255) := by
  have h1 : ¬ ¬ ((K.putptr : Int) - (0 + 1) ≤ (TX_MTU : Int)) := by
    simp only [TX_MTU, hput]; push_cast; omega
  have h2 : ¬ ¬ ((K.putptr : Int) ≤ (K.tx_buffer_end : Int) - 1) := by omega
  have h3 : ¬ K.putptr < 1 := by omega
  have hn : K.putptr - 1 = N := by omega
  simp only [tx_encode_and_send, KZ_TX_HEADER_START, if_neg htx, if_neg h1, if_neg h2,
    if_neg h3, hn]
  refine ⟨_, rfl, ?_⟩
  intro x hx
  have := encode_loop_log N
    { mem := K.tx_mem, search_ptr := 1, len_ptr := 0, len := 1, log := [] } (N + 1)
    (by show 1 + N ≤ N + 1; omega) (by omega) (by simp) x hx
  omega

/-- Instance of the amended C8: a data region of 6 bytes on a 16-byte buffer. -/
theorem overhead_bound_witness :
    ∃ r, tx_encode_and_send sample_tx = some r ∧
      ∀ x ∈ r.overheads, x ≤ 6 + 1 ∧ x ≤ 255 ∧ (6 ≤ 253 → x < 255) :=
  overhead_bound sample_tx 6 (by decide) (by decide) (by decide) (by decide)

/-! ## Decoder claims -/

/-- C9. `rx_decode` returns 1 if and only if the decoder was in `DECODE`, the
byte is `0x00` and `rx_count` is 0 (its return value is always 0 or 1); in
particular it never returns 1 from `ABORT` or `IDLE`, and a `0x00` arriving in
`DECODE` while `rx_count` is not 0 returns 0 and moves the decoder to `IDLE`. -/
theorem rx_decode_completion (K : kz_endpoint_t) (byte : Nat) :
    ((rx_decode K byte).2 = 1 ↔
      (K.rx_state = kz_cobs_rx_state_t.KZ_RX_DECODE ∧ byte = 0 ∧ K.rx_count = 0)) ∧
    ((rx_decode K byte).2 = 0 ∨ (rx_decode K byte).2 = 1) ∧
    (K.rx_state = kz_cobs_rx_state_t.KZ_RX_ABORT → (rx_decode K byte).2 = 0) ∧
    (K.rx_state = kz_cobs_rx_state_t.KZ_RX_IDLE → (rx_decode K byte).2 = 0) ∧
    (K.rx_state = kz_cobs_rx_state_t.KZ_RX_DECODE → K.rx_count ≠ 0 →
      (rx_decode K 0).2 = 0 ∧ (rx_decode K 0).1.rx_state = kz_cobs_rx_state_t.KZ_RX_IDLE) := by
  unfold rx_decode
  cases hs : K.rx_state
  · by_cases hb : byte = 0 <;> simp [hb]
  · by_cases hb : byte = 0 <;> simp [hb]
  · by_cases hb : byte = 0
    · by_cases hc : K.rx_count = 0 <;> simp [hb, hc]
    · by_cases hp : K.rx_buffer_pos ≥ K.rx_buffer_end
      · by_cases hc : K.rx_count = 0 <;> simp [hb, hc, hp]
      · by_cases hc : K.rx_count = 0 <;> simp [hb, hc, hp]

theorem rx_feed_append (xs ys : List Nat) : ∀ (K : kz_endpoint_t),
    rx_feed K (xs ++ ys) =
      ((rx_feed (rx_feed K xs).1 ys).1, (rx_feed K xs).2 ++ (rx_feed (rx_feed K xs).1 ys).2) := by
  induction xs with
  | nil => intro K; rfl
  | cons x xs ih =>
    intro K
    rw [List.cons_append, rx_feed_cons, ih, rx_feed_cons]
    rfl

/-- One step of `rx_decode` keeps `rx_buffer_end`, keeps the size of the memory,
keeps every byte at or beyond `rx_buffer_end`, and keeps the cursor within the
buffer. -/
theorem rx_decode_frame (K : kz_endpoint_t) (byte : Nat) :
    (rx_decode K byte).1.rx_buffer_end = K.rx_buffer_end ∧
    (rx_decode K byte).1.rx_mem.length = K.rx_mem.length ∧
    (∀ j, K.rx_buffer_end ≤ j → (rx_decode K byte).1.rx_mem[j]? = K.rx_mem[j]?) ∧
    ((K.rx_state = kz_cobs_rx_state_t.KZ_RX_IDLE ∧ byte ≠ 0) ∨
      K.rx_buffer_pos ≤ K.rx_buffer_end →
      (rx_decode K byte).1.rx_buffer_pos ≤ K.rx_buffer_end) := by
  cases hs : K.rx_state
  · by_cases hb : byte = 0
    · have hstep : rx_decode K byte = (K, 0) := by
        unfold rx_decode; rw [hs]; simp only [hb, ne_eq, not_true_eq_false, if_false]
      rw [hstep]
      exact ⟨rfl, rfl, fun _ _ => rfl, fun h => h.elim (fun h => absurd hb h.2) id⟩
    · have hstep : (rx_decode K byte).1 =
          { K with rx_state := kz_cobs_rx_state_t.KZ_RX_DECODE, rx_count := uint_dec byte,
                   rx_buffer_pos := 0 } := by
        unfold rx_decode; rw [hs]; simp only [ne_eq, hb, not_false_eq_true, if_true]
      rw [hstep]
      exact ⟨rfl, rfl, fun _ _ => rfl, fun _ => Nat.zero_le _⟩
  · have hpos : (rx_decode K byte).1.rx_buffer_pos = K.rx_buffer_pos ∧
        (rx_decode K byte).1.rx_mem = K.rx_mem ∧
        (rx_decode K byte).1.rx_buffer_end = K.rx_buffer_end := by
      unfold rx_decode; rw [hs]
      by_cases hb : byte = 0
      · rw [if_pos hb]; exact ⟨rfl, rfl, rfl⟩
      · rw [if_neg hb]; exact ⟨rfl, rfl, rfl⟩
    obtain ⟨h1, h2, h3⟩ := hpos
    rw [h1, h2, h3]
    exact ⟨rfl, rfl, fun _ _ => rfl, fun h => h.elim (fun h => by simp at h) id⟩
  · by_cases hb : byte = 0
    · have hstep : (rx_decode K byte).1 =
          { K with rx_state := kz_cobs_rx_state_t.KZ_RX_IDLE } := by
        unfold rx_decode; rw [hs]; simp only [hb, if_true]
      rw [hstep]
      exact ⟨rfl, rfl, fun _ _ => rfl, fun h => h.elim (fun h => by simp at h) id⟩
    · by_cases hp : K.rx_buffer_pos ≥ K.rx_buffer_end
      · have hstep : (rx_decode K byte).1 =
            { K with rx_state := kz_cobs_rx_state_t.KZ_RX_ABORT } := by
          unfold rx_decode; rw [hs]; simp only [if_neg hb, if_pos hp]
        rw [hstep]
        exact ⟨rfl, rfl, fun _ _ => rfl, fun h => h.elim (fun h => by simp at h) id⟩
      · have hstep := rx_decode_store K byte hs hb (by omega)
        rw [hstep]
        refine ⟨rfl, by simp, ?_, fun _ => by show K.rx_buffer_pos + 1 ≤ _; omega⟩
        intro j hj
        show (K.rx_mem.set K.rx_buffer_pos _)[j]? = _
        rw [List.getElem?_set_ne (by omega)]

/-- Whatever is fed to the decoder, `rx_buffer_end` and every byte of memory
at or beyond it stay as they were. -/
theorem rx_feed_frame_condition (bytes : List Nat) : ∀ (K : kz_endpoint_t),
    (rx_feed K bytes).1.rx_buffer_end = K.rx_buffer_end ∧
    (rx_feed K bytes).1.rx_mem.length = K.rx_mem.length ∧
    (∀ j, K.rx_buffer_end ≤ j → (rx_feed K bytes).1.rx_mem[j]? = K.rx_mem[j]?) ∧
    (K.rx_buffer_pos ≤ K.rx_buffer_end →
      (rx_feed K bytes).1.rx_buffer_pos ≤ K.rx_buffer_end) := by
  induction bytes with
  | nil => intro K; exact ⟨rfl, rfl, fun _ _ => rfl, fun h => h⟩
  | cons b bs ih =>
    intro K
    obtain ⟨h1, h2, h3, h4⟩ := rx_decode_frame K b
    obtain ⟨g1, g2, g3, g4⟩ := ih (rx_decode K b).1
    rw [rx_feed_cons]
    refine ⟨by rw [g1, h1], by rw [g2, h2], ?_, ?_⟩
    · intro j hj
      rw [g3 j (by rw [h1]; exact hj), h3 j hj]
    · intro hp
      have := g4 (by rw [h1]; exact h4 (Or.inr hp))
      rw [h1] at this
      exact this

/-- In `ABORT`, non-zero bytes are discarded: every one returns 0 and the
decoder stays in `ABORT`. -/
theorem rx_feed_abort (body : List Nat) : ∀ (K : kz_endpoint_t),
    K.rx_state = kz_cobs_rx_state_t.KZ_RX_ABORT → (∀ b ∈ body, b ≠ 0) →
    (rx_feed K body).2 = List.replicate body.length 0 ∧
    (rx_feed K body).1.rx_state = kz_cobs_rx_state_t.KZ_RX_ABORT := by
  induction body with
  | nil => intro K hs _; exact ⟨rfl, hs⟩
  | cons b bs ih =>
    intro K hs hb
    have hb0 : b ≠ 0 := hb b (by simp)
    have hstep : rx_decode K b = (K, 0) := by
      unfold rx_decode
      rw [hs]
      simp only [if_neg hb0]
    obtain ⟨h1, h2⟩ := ih K hs (fun x hx => hb x (by simp [hx]))
    rw [rx_feed_cons, hstep]
    exact ⟨by simp [h1, List.replicate_succ], h2⟩

/-- In `DECODE`, more non-zero bytes than the buffer has room for: every one
returns 0 and the decoder ends in `ABORT`. -/
theorem rx_feed_overrun (body : List Nat) : ∀ (K : kz_endpoint_t),
    K.rx_state = kz_cobs_rx_state_t.KZ_RX_DECODE → (∀ b ∈ body, b ≠ 0) →
    K.rx_buffer_end - K.rx_buffer_pos + 1 ≤ body.length →
    (rx_feed K body).2 = List.replicate body.length 0 ∧
    (rx_feed K body).1.rx_state = kz_cobs_rx_state_t.KZ_RX_ABORT := by
  induction body with
  | nil => intro K _ _ hlen; simp at hlen
  | cons b bs ih =>
    intro K hs hb hlen
    have hb0 : b ≠ 0 := hb b (by simp)
    have hbs : ∀ x ∈ bs, x ≠ 0 := fun x hx => hb x (by simp [hx])
    simp only [List.length_cons] at hlen
    rw [rx_feed_cons]
    by_cases hp : K.rx_buffer_pos ≥ K.rx_buffer_end
    · have hstep : rx_decode K b =
          ({ K with rx_state := kz_cobs_rx_state_t.KZ_RX_ABORT }, 0) := by
        unfold rx_decode
        rw [hs]
        simp only [if_neg hb0, if_pos hp]
      obtain ⟨h1, h2⟩ := rx_feed_abort bs (rx_decode K b).1 (by rw [hstep]) hbs
      exact ⟨by rw [h1, hstep]; simp [List.replicate_succ], h2⟩
    · have hstep := rx_decode_store K b hs hb0 (by omega)
      obtain ⟨h1, h2⟩ := ih (rx_decode K b).1 (by rw [hstep]; exact hs) hbs
        (by rw [hstep]; show K.rx_buffer_end - (K.rx_buffer_pos + 1) + 1 ≤ bs.length; omega)
      exact ⟨by rw [h1, hstep]; simp [List.replicate_succ], h2⟩

/-- In `ABORT`, `rx_decode` returns 0 on every byte. -/
theorem rx_decode_abort_ret (K : kz_endpoint_t) (byte : Nat)
    (hs : K.rx_state = kz_cobs_rx_state_t.KZ_RX_ABORT) : (rx_decode K byte).2 = 0 := by
  unfold rx_decode
  rw [hs]
  by_cases hb : byte = 0 <;> simp [hb]

/-- C10 (overflow is swallowed). For every rx buffer size `S = rx_buffer_end`
and every `m ≥ S + 1`, feeding `rx_decode` from `IDLE` a non-zero start byte,
then `m` further non-zero bytes, then `0x00` returns 0 on every one of those
bytes; and after every number `n` of bytes fed, `rx_buffer_end` and every byte
of memory at or beyond `rx_buffer_end` are what they were before (nothing is
stored at or beyond `rx_buffer_end`), and the write cursor is within the
buffer once the start byte has been taken. -/
theorem rx_overflow_swallowed (K : kz_endpoint_t) (start : Nat) (body : List Nat)
    (hidle : K.rx_state = kz_cobs_rx_state_t.KZ_RX_IDLE) (hstart : start ≠ 0)
    (hbody : ∀ b ∈ body, b ≠ 0) (hm : K.rx_buffer_end + 1 ≤ body.length) :
    (rx_feed K (start :: body ++ [0x00])).2 = List.replicate (body.length + 2) 0 ∧
    ∀ n, (rx_feed K ((start :: body ++ [0x00]).take n)).1.rx_buffer_end = K.rx_buffer_end ∧
      (∀ j, K.rx_buffer_end ≤ j →
        (rx_feed K ((start :: body ++ [0x00]).take n)).1.rx_mem[j]? = K.rx_mem[j]?) ∧
      (1 ≤ n →
        (rx_feed K ((start :: body ++ [0x00]).take n)).1.rx_buffer_pos ≤ K.rx_buffer_end) := by
  have hstep : rx_decode K start =
      ({ K with rx_state := kz_cobs_rx_state_t.KZ_RX_DECODE, rx_count := uint_dec start,
                rx_buffer_pos := 0 }, 0) := by
    unfold rx_decode
    rw [hidle]
    simp only [if_pos hstart]
  have hs1 : (rx_decode K start).1.rx_state = kz_cobs_rx_state_t.KZ_RX_DECODE := by rw [hstep]
  have hp1 : (rx_decode K start).1.rx_buffer_pos = 0 := by rw [hstep]
  have he1 : (rx_decode K start).1.rx_buffer_end = K.rx_buffer_end := by rw [hstep]
  have hr1 : (rx_decode K start).2 = 0 := by rw [hstep]
  constructor
  · rw [List.cons_append, rx_feed_cons, rx_feed_append]
    obtain ⟨h1, h2⟩ := rx_feed_overrun body (rx_decode K start).1 hs1 hbody
      (by rw [hp1, he1]; omega)
    have h3 : (rx_feed (rx_feed (rx_decode K start).1 body).1 [0]).2 = [0] := by
      rw [rx_feed_cons, rx_feed_nil]
      have := rx_decode_abort_ret (rx_feed (rx_decode K start).1 body).1 0 h2
      simp [this]
    simp only [h1, h3, hr1]
    rw [show body.length + 2 = 1 + body.length + 1 by omega, List.replicate_add,
      List.replicate_add]
    simp
  · intro n
    obtain ⟨g1, _, g3, _⟩ := rx_feed_frame_condition ((start :: body ++ [0]).take n) K
    refine ⟨g1, g3, ?_⟩
    intro hn
    obtain ⟨k, rfl⟩ : ∃ k, n = k + 1 := ⟨n - 1, by omega⟩
    rw [List.cons_append, List.take_succ_cons, rx_feed_cons]
    obtain ⟨_, _, _, g4⟩ := rx_feed_frame_condition ((body ++ [0]).take k) (rx_decode K start).1
    rw [he1, hp1] at g4
    exact g4 (Nat.zero_le _)

/-- Instance of C10: a 16-byte rx buffer, start byte 1, then 17 bytes equal to
1, then `0x00` (the second packet of the `decode_overrun` test). -/
theorem rx_overflow_swallowed_witness :
    (rx_feed sample_rx (1 :: List.replicate 17 1 ++ [0x00])).2
      = List.replicate ((List.replicate 17 1).length + 2) 0 ∧
    ∀ n, (rx_feed sample_rx ((1 :: List.replicate 17 1 ++ [0x00]).take n)).1.rx_buffer_end
        = sample_rx.rx_buffer_end ∧
      (∀ j, sample_rx.rx_buffer_end ≤ j →
        (rx_feed sample_rx ((1 :: List.replicate 17 1 ++ [0x00]).take n)).1.rx_mem[j]?
          = sample_rx.rx_mem[j]?) ∧
      (1 ≤ n →
        (rx_feed sample_rx ((1 :: List.replicate 17 1 ++ [0x00]).take n)).1.rx_buffer_pos
          ≤ sample_rx.rx_buffer_end) :=
  rx_overflow_swallowed sample_rx 1 (List.replicate 17 1) (by decide) (by decide)
    (by decide) (by decide)

/-! ## Lemmas on the value codec -/

theorem and_255 (x : Nat) : x &&& 0xFF = x % 256 := by
  have := Nat.and_pow_two_sub_one_eq_mod x 8
  simpa using this

theorem or_low (a b k : Nat) (hb : b < 2 ^ k) : (a * 2 ^ k) ||| b = a * 2 ^ k + b := by
  rw [Nat.mul_comm a, ← Nat.mul_add_lt_is_or hb]

theorem or16 (b1 b0 : Nat) (h0 : b0 < 256) : (b1 <<< 8) ||| b0 = b1 * 256 + b0 := by
  rw [Nat.shiftLeft_eq]
  exact or_low b1 b0 8 (by simpa using h0)

theorem or32 (b3 b2 b1 b0 : Nat) (h2 : b2 < 256) (h1 : b1 < 256) (h0 : b0 < 256) :
    (b3 <<< 24) ||| (b2 <<< 16) ||| (b1 <<< 8) ||| b0
      = b3 * 16777216 + b2 * 65536 + b1 * 256 + b0 := by
  simp only [Nat.shiftLeft_eq]
  have e1 : b3 * 2 ^ 24 ||| b2 * 2 ^ 16 = (b3 * 256 + b2) * 2 ^ 16 := by
    rw [or_low b3 (b2 * 2 ^ 16) 24 (by omega)]; omega
  have e2 : (b3 * 256 + b2) * 2 ^ 16 ||| b1 * 2 ^ 8 = ((b3 * 256 + b2) * 256 + b1) * 2 ^ 8 := by
    rw [or_low _ (b1 * 2 ^ 8) 16 (by omega)]; omega
  rw [e1, e2, or_low _ b0 8 (by omega)]
  omega

theorem getD_set (l : List Nat) (i j v : Nat) :
    (l.set i v).getD j 0 = if i = j ∧ j < l.length then v else l.getD j 0 := by
  simp only [List.getD_eq_getElem?_getD, List.getElem?_set]
  by_cases h : i = j
  · subst h
    by_cases h2 : i < l.length
    · simp [h2]
    · simp [h2, List.getElem?_eq_none (Nat.le_of_not_lt h2)]
  · simp [h]

theorem loopback_getD (K : kz_endpoint_t) (j : Nat) (hj : j + 1 < K.putptr)
    (hlen : K.putptr ≤ K.tx_mem.length) :
    (loopback K).rx_mem.getD j 0 = K.tx_mem.getD (j + 1) 0 := by
  simp only [loopback, memcpy, KZ_RX_HEADER_START, KZ_TX_HEADER_START, List.take_zero,
    List.nil_append]
  have hl : j < ((K.tx_mem.drop 1).take (K.putptr - 1)).length := by
    simp only [List.length_take, List.length_drop]; omega
  rw [List.getD_append _ _ _ _ hl]
  simp only [List.getD_eq_getElem?_getD]
  rw [List.getElem?_take_of_lt (by omega), List.getElem?_drop, Nat.add_comm]

theorem getint_fixint (K : kz_endpoint_t) (i : Int) (hr : K.getptr < K.rx_buffer_pos)
    (hfix : -64 ≤ to_int8 (K.rx_mem.getD K.getptr 0)) :
    kz_getint K i =
      { K := { K with getptr := K.getptr + 1 }, ret := 1,
        out := to_int8 (K.rx_mem.getD K.getptr 0) } := by
  have h1 : ¬ ((K.rx_buffer_pos : Int) - (K.getptr : Int) < 1) := by omega
  have h2 : to_int8 (K.rx_mem.getD K.getptr 0) ≤ 127 := by
    unfold to_int8; split <;> omega
  unfold kz_getint
  simp only []
  rw [if_neg h1, if_pos ⟨hfix, h2⟩]

theorem getint_int16 (K : kz_endpoint_t) (i : Int)
    (htag : K.rx_mem.getD K.getptr 0 = KZ_BC_INT16)
    (hr : K.getptr + 3 ≤ K.rx_buffer_pos) :
    kz_getint K i =
      { K := { K with getptr := K.getptr + 1 + 2 }, ret := 1,
        out := to_int16 (((K.rx_mem.getD (K.getptr + 1 + 0) 0 <<< 8) |||
          K.rx_mem.getD (K.getptr + 1 + 1) 0) % 65536) } := by
  have h1 : ¬ ((K.rx_buffer_pos : Int) - (K.getptr : Int) < 1) := by omega
  have h2 : ¬ ((K.rx_buffer_pos : Int) - ((K.getptr + 1 : Nat) : Int) < ((2 : Nat) : Int)) := by
    omega
  unfold kz_getint
  simp only []
  rw [if_neg h1, htag]
  have hnf : ¬ (to_int8 KZ_BC_INT16 ≥ -64 ∧ to_int8 KZ_BC_INT16 ≤ 127) := by decide
  rw [if_neg hnf]
  have e1 : ¬ (KZ_BC_INT16 = KZ_BC_INT8) := by decide
  have e3 : sizeof_kz_int_t ≥ 2 := by decide
  simp only [if_neg e1, if_true, if_pos e3, if_neg h2]


theorem getint_int32 (K : kz_endpoint_t) (i : Int)
    (htag : K.rx_mem.getD K.getptr 0 = KZ_BC_INT32)
    (hr : K.getptr + 5 ≤ K.rx_buffer_pos) :
    kz_getint K i =
      { K := { K with getptr := K.getptr + 1 + 4 }, ret := 1,
        out := to_int32 (((K.rx_mem.getD (K.getptr + 1 + 0) 0 <<< 24) |||
          (K.rx_mem.getD (K.getptr + 1 + 1) 0 <<< 16) |||
          (K.rx_mem.getD (K.getptr + 1 + 2) 0 <<< 8) |||
          K.rx_mem.getD (K.getptr + 1 + 3) 0) % 4294967296) } := by
  have h1 : ¬ ((K.rx_buffer_pos : Int) - (K.getptr : Int) < 1) := by omega
  have h2 : ¬ ((K.rx_buffer_pos : Int) - ((K.getptr + 1 : Nat) : Int) < ((4 : Nat) : Int)) := by
    omega
  unfold kz_getint
  simp only []
  rw [if_neg h1, htag]
  have hnf : ¬ (to_int8 KZ_BC_INT32 ≥ -64 ∧ to_int8 KZ_BC_INT32 ≤ 127) := by decide
  rw [if_neg hnf]
  have e1 : ¬ (KZ_BC_INT32 = KZ_BC_INT8) := by decide
  have e2 : ¬ (KZ_BC_INT32 = KZ_BC_INT16) := by decide
  have e3 : sizeof_kz_int_t ≥ 4 := by decide
  simp only [if_neg e1, if_neg e2, if_true, if_pos e3, if_neg h2]

theorem getfloat_float32 (K : kz_endpoint_t) (f : Nat)
    (htag : K.rx_mem.getD K.getptr 0 = KZ_BC_FLOAT32)
    (hr : K.getptr + 5 ≤ K.rx_buffer_pos) :
    kz_getfloat K f =
      { K := { K with getptr := K.getptr + 1 + 4 }, ret := 1,
        out := float_of_bytes (K.rx_mem.getD (K.getptr + 1 + 3) 0)
          (K.rx_mem.getD (K.getptr + 1 + 2) 0) (K.rx_mem.getD (K.getptr + 1 + 1) 0)
          (K.rx_mem.getD (K.getptr + 1 + 0) 0) } := by
  have h1 : ¬ ((K.rx_buffer_pos : Int) - (K.getptr : Int) < 1) := by omega
  have h2 : ¬ ((K.rx_buffer_pos : Int) - ((K.getptr + 1 : Nat) : Int) < ((4 : Nat) : Int)) := by
    omega
  unfold kz_getfloat
  simp only []
  rw [if_neg h1, htag]
  have e3 : sizeof_float = 4 ∧ sizeof_kz_float_t ≥ 4 := by decide
  simp only [if_true, if_pos e3, if_neg h2]

theorem getint_atomic_holds (K : kz_endpoint_t) (i : Int) :
    getint_atomic K i (kz_getint K i) := by
  unfold kz_getint
  simp only []
  repeat' split
  all_goals first | exact Or.inl rfl | exact Or.inr ⟨rfl, rfl, rfl⟩

theorem getfloat_atomic_holds (K : kz_endpoint_t) (f : Nat) :
    getfloat_atomic K f (kz_getfloat K f) := by
  unfold kz_getfloat
  simp only []
  repeat' split
  all_goals first | exact Or.inl rfl | exact Or.inr ⟨rfl, rfl, rfl⟩

theorem getint_empty (K : kz_endpoint_t) (i : Int) (h : K.rx_buffer_pos ≤ K.getptr) :
    kz_getint K i = { K := K, ret := 0, out := i } := by
  have h1 : (K.rx_buffer_pos : Int) - (K.getptr : Int) < 1 := by omega
  unfold kz_getint
  simp only []
  rw [if_pos h1]

theorem getfloat_empty (K : kz_endpoint_t) (f : Nat) (h : K.rx_buffer_pos ≤ K.getptr) :
    kz_getfloat K f = { K := K, ret := 0, out := f } := by
  have h1 : (K.rx_buffer_pos : Int) - (K.getptr : Int) < 1 := by omega
  unfold kz_getfloat
  simp only []
  rw [if_pos h1]


theorem to_int8_toNat (v : Int) (h1 : -128 ≤ v) (h2 : v ≤ 127) :
    to_int8 ((v % 256).toNat) = v := by
  unfold to_int8
  split <;> omega

theorem to_int16_toNat (v : Int) (h1 : -32768 ≤ v) (h2 : v ≤ 32767) :
    to_int16 ((v % 65536).toNat) = v := by
  unfold to_int16
  split <;> omega

theorem to_int32_toNat (v : Int) (h1 : -2147483648 ≤ v) (h2 : v ≤ 2147483647) :
    to_int32 ((v % 4294967296).toNat) = v := by
  unfold to_int32
  split <;> omega

/-- Reading back, after `loopback`, the bytes stored by a chain of `put_byte`. -/
theorem loopback_rx_pos (K : kz_endpoint_t) : (loopback K).rx_buffer_pos = K.putptr - 1 := by
  show 0 + (K.putptr - 1) = K.putptr - 1
  omega

theorem loopback_getptr (K : kz_endpoint_t) : (loopback K).getptr = 4 := rfl

theorem put_byte_putptr (K : kz_endpoint_t) (b : Nat) : (put_byte K b).putptr = K.putptr + 1 :=
  rfl

theorem put_byte_tx_mem (K : kz_endpoint_t) (b : Nat) :
    (put_byte K b).tx_mem = K.tx_mem.set K.putptr b := rfl

theorem int_round_trip_aux (K0 : kz_endpoint_t) (v i : Int)
    (hv : INT32_MIN ≤ v ∧ v ≤ INT32_MAX) (hp : K0.putptr = 5)
    (htx : 16 ≤ K0.tx_buffer_end) (hmem : K0.tx_buffer_end ≤ K0.tx_mem.length) :
    (kz_putint K0 v).2 = 1 ∧
    (kz_getint (loopback (kz_putint K0 v).1) i).ret = 1 ∧
    (kz_getint (loopback (kz_putint K0 v).1) i).out = v ∧
    (kz_getint (loopback (kz_putint K0 v).1) i).K.getptr
      = (loopback (kz_putint K0 v).1).rx_buffer_pos := by
  simp only [INT32_MIN, INT32_MAX] at hv
  have hlen : 16 ≤ K0.tx_mem.length := by omega
  by_cases hfix : v ≥ -64 ∧ v ≤ 127
  · have hput : kz_putint K0 v = (put_byte K0 (v % 256).toNat, 1) := by
      unfold kz_putint
      simp only []
      rw [if_pos hfix, if_neg (by rw [hp]; omega)]
    rw [hput]
    have hL2 : (loopback (put_byte K0 (v % 256).toNat)).rx_buffer_pos = 5 := by
      rw [loopback_rx_pos, put_byte_putptr, hp]
    have hL3 : (loopback (put_byte K0 (v % 256).toNat)).rx_mem.getD 4 0 = (v % 256).toNat := by
      rw [loopback_getD _ 4 (by rw [put_byte_putptr, hp]; omega)
        (by rw [put_byte_putptr, put_byte_tx_mem, List.length_set, hp]; omega)]
      rw [put_byte_tx_mem, hp, getD_set, if_pos ⟨rfl, by omega⟩]
    have hv8 := to_int8_toNat v (by omega) (by omega)
    have hg := getint_fixint (loopback (put_byte K0 (v % 256).toNat)) i
      (by rw [loopback_getptr, hL2]; omega) (by rw [loopback_getptr, hL3, hv8]; exact hfix.1)
    rw [hg]
    refine ⟨rfl, rfl, ?_, ?_⟩
    · show to_int8 ((loopback (put_byte K0 (v % 256).toNat)).rx_mem.getD
        (loopback (put_byte K0 (v % 256).toNat)).getptr 0) = v
      rw [loopback_getptr, hL3, hv8]
    · show (loopback (put_byte K0 (v % 256).toNat)).getptr + 1 = _
      rw [loopback_getptr, hL2]
  · have l5 : 5 < K0.tx_mem.length := by omega
    have l6 : 6 < K0.tx_mem.length := by omega
    have l7 : 7 < K0.tx_mem.length := by omega
    have l8 : 8 < K0.tx_mem.length := by omega
    have l9 : 9 < K0.tx_mem.length := by omega
    by_cases h16 : v ≥ INT16_MIN ∧ v ≤ INT16_MAX
    · obtain ⟨u, hu⟩ : ∃ u, u = (v % 65536).toNat := ⟨_, rfl⟩
      have hput : kz_putint K0 v =
          (put_byte (put_byte (put_byte K0 KZ_BC_INT16) ((u >>> 8) &&& 0xFF)) (u &&& 0xFF), 1) := by
        unfold kz_putint
        simp only []
        rw [if_neg hfix, if_pos h16, if_neg (by rw [hp]; omega), hu]
      simp only [INT16_MIN, INT16_MAX] at h16
      rw [hput]
      have hP : (put_byte (put_byte (put_byte K0 KZ_BC_INT16) ((u >>> 8) &&& 0xFF))
          (u &&& 0xFF)).putptr = 8 := by
        simp only [put_byte_putptr, hp]
      have hPl : (put_byte (put_byte (put_byte K0 KZ_BC_INT16) ((u >>> 8) &&& 0xFF))
          (u &&& 0xFF)).tx_mem.length = K0.tx_mem.length := by
        simp only [put_byte_tx_mem, List.length_set]
      have hL2 := loopback_rx_pos (put_byte (put_byte (put_byte K0 KZ_BC_INT16)
        ((u >>> 8) &&& 0xFF)) (u &&& 0xFF))
      rw [hP] at hL2
      have hrd : ∀ j, j + 1 < 8 → (loopback (put_byte (put_byte (put_byte K0 KZ_BC_INT16)
          ((u >>> 8) &&& 0xFF)) (u &&& 0xFF))).rx_mem.getD j 0 =
          (((K0.tx_mem.set 5 KZ_BC_INT16).set 6 ((u >>> 8) &&& 0xFF)).set 7
            (u &&& 0xFF)).getD (j + 1) 0 := by
        intro j hj
        rw [loopback_getD _ j (by rw [hP]; exact hj) (by rw [hP, hPl]; omega)]
        simp only [put_byte_tx_mem, put_byte_putptr, hp]
      have hg := getint_int16 (loopback (put_byte (put_byte (put_byte K0 KZ_BC_INT16)
        ((u >>> 8) &&& 0xFF)) (u &&& 0xFF))) i
        (by rw [loopback_getptr, hrd 4 (by omega)]
            simp [getD_set, List.length_set, l5])
        (by rw [loopback_getptr, hL2])
      rw [hg]
      refine ⟨rfl, rfl, ?_, ?_⟩
      · simp only [loopback_getptr]
        rw [hrd 5 (by omega), hrd 6 (by omega)]
        simp only [getD_set, List.length_set]
        simp only [l6, l7, and_self, and_true, if_true, show ¬ (7 = 6) by omega, false_and,
          if_false, show ¬ (5 = 6) by omega, show ¬ (5 = 7) by omega,
          show ¬ (6 = 7) by omega]
        have hu2 : u < 65536 := by omega
        rw [or16 _ _ (by rw [and_255]; omega), and_255, and_255, Nat.shiftRight_eq_div_pow]
        have e : (u / 2 ^ 8 % 256 * 256 + u % 256) % 65536 = u := by omega
        rw [e, hu]
        exact to_int16_toNat v (by omega) (by omega)
      · show (loopback _).getptr + 1 + 2 = _
        rw [loopback_getptr, hL2]
    · obtain ⟨u, hu⟩ : ∃ u, u = (v % 4294967296).toNat := ⟨_, rfl⟩
      have h32 : v ≥ INT32_MIN ∧ v ≤ INT32_MAX := by
        simp only [INT32_MIN, INT32_MAX]; omega
      have hput : kz_putint K0 v =
          (put_byte (put_byte (put_byte (put_byte (put_byte K0 KZ_BC_INT32)
            ((u >>> 24) &&& 0xFF)) ((u >>> 16) &&& 0xFF)) ((u >>> 8) &&& 0xFF)) (u &&& 0xFF),
            1) := by
        unfold kz_putint
        simp only []
        rw [if_neg hfix, if_neg h16, if_pos h32, if_neg (by rw [hp]; omega), hu]
      rw [hput]
      have hP : (put_byte (put_byte (put_byte (put_byte (put_byte K0 KZ_BC_INT32)
            ((u >>> 24) &&& 0xFF)) ((u >>> 16) &&& 0xFF)) ((u >>> 8) &&& 0xFF))
            (u &&& 0xFF)).putptr = 10 := by
        simp only [put_byte_putptr, hp]
      have hPl : (put_byte (put_byte (put_byte (put_byte (put_byte K0 KZ_BC_INT32)
            ((u >>> 24) &&& 0xFF)) ((u >>> 16) &&& 0xFF)) ((u >>> 8) &&& 0xFF))
            (u &&& 0xFF)).tx_mem.length = K0.tx_mem.length := by
        simp only [put_byte_tx_mem, List.length_set]
      have hL2 := loopback_rx_pos (put_byte (put_byte (put_byte (put_byte (put_byte K0
        KZ_BC_INT32) ((u >>> 24) &&& 0xFF)) ((u >>> 16) &&& 0xFF)) ((u >>> 8) &&& 0xFF))
        (u &&& 0xFF))
      rw [hP] at hL2
      have hrd : ∀ j, j + 1 < 10 → (loopback (put_byte (put_byte (put_byte (put_byte (put_byte
          K0 KZ_BC_INT32) ((u >>> 24) &&& 0xFF)) ((u >>> 16) &&& 0xFF)) ((u >>> 8) &&& 0xFF))
          (u &&& 0xFF))).rx_mem.getD j 0 =
          (((((K0.tx_mem.set 5 KZ_BC_INT32).set 6 ((u >>> 24) &&& 0xFF)).set 7
            ((u >>> 16) &&& 0xFF)).set 8 ((u >>> 8) &&& 0xFF)).set 9
            (u &&& 0xFF)).getD (j + 1) 0 := by
        intro j hj
        rw [loopback_getD _ j (by rw [hP]; exact hj) (by rw [hP, hPl]; omega)]
        simp only [put_byte_tx_mem, put_byte_putptr, hp]
      have hg := getint_int32 (loopback (put_byte (put_byte (put_byte (put_byte (put_byte K0
        KZ_BC_INT32) ((u >>> 24) &&& 0xFF)) ((u >>> 16) &&& 0xFF)) ((u >>> 8) &&& 0xFF))
        (u &&& 0xFF))) i
        (by rw [loopback_getptr, hrd 4 (by omega)]
            simp [getD_set, List.length_set, l5])
        (by rw [loopback_getptr, hL2])
      rw [hg]
      refine ⟨rfl, rfl, ?_, ?_⟩
      · simp only [loopback_getptr]
        rw [hrd 5 (by omega), hrd 6 (by omega), hrd 7 (by omega), hrd 8 (by omega)]
        simp only [getD_set, List.length_set]
        simp only [l6, l7, l8, l9, and_self, and_true, if_true, false_and, if_false,
          show ¬ (5 = 6) by omega, show ¬ (5 = 7) by omega, show ¬ (5 = 8) by omega,
          show ¬ (5 = 9) by omega, show ¬ (6 = 7) by omega, show ¬ (6 = 8) by omega,
          show ¬ (6 = 9) by omega, show ¬ (7 = 6) by omega, show ¬ (7 = 8) by omega,
          show ¬ (7 = 9) by omega, show ¬ (8 = 6) by omega, show ¬ (8 = 7) by omega,
          show ¬ (8 = 9) by omega, show ¬ (9 = 6) by omega, show ¬ (9 = 7) by omega,
          show ¬ (9 = 8) by omega]
        have hu2 : u < 4294967296 := by omega
        rw [or32 _ _ _ _ (by rw [and_255]; omega) (by rw [and_255]; omega)
          (by rw [and_255]; omega)]
        simp only [and_255, Nat.shiftRight_eq_div_pow]
        have e : (u / 2 ^ 24 % 256 * 16777216 + u / 2 ^ 16 % 256 * 65536
            + u / 2 ^ 8 % 256 * 256 + u % 256) % 4294967296 = u := by omega
        rw [e, hu]
        exact to_int32_toNat v (by omega) (by omega)
      · show (loopback _).getptr + 1 + 4 = _
        rw [loopback_getptr, hL2]


theorem float_bytes_join (f : Nat) (hf : f < 4294967296) :
    float_of_bytes (float_byte f 0) (float_byte f 1) (float_byte f 2) (float_byte f 3) = f := by
  simp only [float_of_bytes, float_byte, Nat.shiftRight_eq_div_pow, Nat.mod_mod]
  omega

theorem float_round_trip_aux (K0 : kz_endpoint_t) (f f0 : Nat) (hf : f < 4294967296)
    (hp : K0.putptr = 5) (htx : 16 ≤ K0.tx_buffer_end)
    (hsize : K0.tx_buffer_end < 18446744073709551616)
    (hmem : K0.tx_buffer_end ≤ K0.tx_mem.length) :
    (kz_putfloat K0 f).2 = 1 ∧ (kz_putfloat K0 f).1.putptr = 10 ∧
    (kz_putfloat K0 f).1.tx_mem.getD 5 0 = 0x84 ∧
    (kz_putfloat K0 f).1.tx_mem.getD 6 0 = float_byte f 3 ∧
    (kz_putfloat K0 f).1.tx_mem.getD 7 0 = float_byte f 2 ∧
    (kz_putfloat K0 f).1.tx_mem.getD 8 0 = float_byte f 1 ∧
    (kz_putfloat K0 f).1.tx_mem.getD 9 0 = float_byte f 0 ∧
    (kz_getfloat (loopback (kz_putfloat K0 f).1) f0).ret = 1 ∧
    (kz_getfloat (loopback (kz_putfloat K0 f).1) f0).out = f ∧
    (kz_getfloat (loopback (kz_putfloat K0 f).1) f0).K.getptr
      = (loopback (kz_putfloat K0 f).1).rx_buffer_pos := by
  have hlen : 16 ≤ K0.tx_mem.length := by omega
  have l5 : 5 < K0.tx_mem.length := by omega
  have l6 : 6 < K0.tx_mem.length := by omega
  have l7 : 7 < K0.tx_mem.length := by omega
  have l8 : 8 < K0.tx_mem.length := by omega
  have l9 : 9 < K0.tx_mem.length := by omega
  have hcap : ¬ ((((K0.tx_buffer_end : Int) - 1 - (K0.putptr : Int)) % 18446744073709551616).toNat
      < sizeof_kz_float_t + 1) := by
    simp only [sizeof_kz_float_t, hp]
    omega
  have hput : kz_putfloat K0 f =
      (put_byte (put_byte (put_byte (put_byte (put_byte K0 KZ_BC_FLOAT32)
        (float_byte f 3)) (float_byte f 2)) (float_byte f 1)) (float_byte f 0), 1) := by
    unfold kz_putfloat
    simp only []
    rw [if_neg hcap]
    have e8 : ¬ (sizeof_kz_float_t = 8) := by decide
    have e4 : sizeof_kz_float_t = 4 := by decide
    simp only [if_neg e8, if_pos e4]
  rw [hput]
  have hP : (put_byte (put_byte (put_byte (put_byte (put_byte K0 KZ_BC_FLOAT32)
      (float_byte f 3)) (float_byte f 2)) (float_byte f 1)) (float_byte f 0)).putptr = 10 := by
    simp only [put_byte_putptr, hp]
  have hM : (put_byte (put_byte (put_byte (put_byte (put_byte K0 KZ_BC_FLOAT32)
      (float_byte f 3)) (float_byte f 2)) (float_byte f 1)) (float_byte f 0)).tx_mem =
      ((((K0.tx_mem.set 5 KZ_BC_FLOAT32).set 6 (float_byte f 3)).set 7 (float_byte f 2)).set 8
        (float_byte f 1)).set 9 (float_byte f 0) := by
    simp only [put_byte_tx_mem, put_byte_putptr, hp]
  have hrdM : ∀ j, (((((K0.tx_mem.set 5 KZ_BC_FLOAT32).set 6 (float_byte f 3)).set 7
      (float_byte f 2)).set 8 (float_byte f 1)).set 9 (float_byte f 0)).getD j 0 =
      if j = 9 then float_byte f 0 else if j = 8 then float_byte f 1
      else if j = 7 then float_byte f 2 else if j = 6 then float_byte f 3
      else if j = 5 then KZ_BC_FLOAT32 else K0.tx_mem.getD j 0 := by
    intro j
    simp only [getD_set, List.length_set]
    by_cases h9 : j = 9
    · subst h9; simp [l9]
    by_cases h8 : j = 8
    · subst h8; simp [l8]
    by_cases h7 : j = 7
    · subst h7; simp [l7]
    by_cases h6 : j = 6
    · subst h6; simp [l6]
    by_cases h5 : j = 5
    · subst h5; simp [l5]
    simp [h9, h8, h7, h6, h5, Ne.symm h9, Ne.symm h8, Ne.symm h7, Ne.symm h6, Ne.symm h5]
  have hL2 := loopback_rx_pos (put_byte (put_byte (put_byte (put_byte (put_byte K0
    KZ_BC_FLOAT32) (float_byte f 3)) (float_byte f 2)) (float_byte f 1)) (float_byte f 0))
  rw [hP] at hL2
  have hrd : ∀ j, j + 1 < 10 → (loopback (put_byte (put_byte (put_byte (put_byte (put_byte
      K0 KZ_BC_FLOAT32) (float_byte f 3)) (float_byte f 2)) (float_byte f 1))
      (float_byte f 0))).rx_mem.getD j 0 =
      (((((K0.tx_mem.set 5 KZ_BC_FLOAT32).set 6 (float_byte f 3)).set 7 (float_byte f 2)).set 8
        (float_byte f 1)).set 9 (float_byte f 0)).getD (j + 1) 0 := by
    intro j hj
    rw [loopback_getD _ j (by rw [hP]; exact hj)
      (by rw [hP, hM]; simp only [List.length_set]; omega), hM]
  have hg := getfloat_float32 (loopback (put_byte (put_byte (put_byte (put_byte (put_byte K0
    KZ_BC_FLOAT32) (float_byte f 3)) (float_byte f 2)) (float_byte f 1)) (float_byte f 0))) f0
    (by rw [loopback_getptr, hrd 4 (by omega), hrdM]; rfl)
    (by rw [loopback_getptr, hL2])
  rw [hg]
  refine ⟨rfl, hP, ?_, ?_, ?_, ?_, ?_, rfl, ?_, ?_⟩
  · rw [hM, hrdM]; rfl
  · rw [hM, hrdM]; rfl
  · rw [hM, hrdM]; rfl
  · rw [hM, hrdM]; rfl
  · rw [hM, hrdM]; rfl
  · simp only [loopback_getptr]
    rw [hrd 5 (by omega), hrd 6 (by omega), hrd 7 (by omega), hrd 8 (by omega)]
    simp only [hrdM]
    exact float_bytes_join f hf
  · show (loopback _).getptr + 1 + 4 = _
    rw [loopback_getptr, hL2]

/-! ## Value codec claims -/

/-- C2 (integer round trip). For every value `v` of the 32-bit `kz_int_t`, after
`kz_putclear` on an endpoint whose tx buffer has at least 16 bytes,
`kz_putint(v)` returns 1; and after `loopback` has copied the written tx frame
bytes to the rx buffer (get-cursor at the rx payload start, `rx_buffer_pos` at
the end of the copied bytes), `kz_getint` returns 1 with output `v` and the
get-cursor advanced exactly to `rx_buffer_pos`. -/
theorem int_round_trip (K : kz_endpoint_t) (v i : Int)
    (hv : INT32_MIN ≤ v ∧ v ≤ INT32_MAX) (htx : 16 ≤ K.tx_buffer_end)
    (hmem : K.tx_buffer_end ≤ K.tx_mem.length) :
    (kz_putint (kz_putclear K) v).2 = 1 ∧
    (loopback (kz_putint (kz_putclear K) v).1).getptr = KZ_RX_PAYLOAD_START ∧
    (kz_getint (loopback (kz_putint (kz_putclear K) v).1) i).ret = 1 ∧
    (kz_getint (loopback (kz_putint (kz_putclear K) v).1) i).out = v ∧
    (kz_getint (loopback (kz_putint (kz_putclear K) v).1) i).K.getptr
      = (loopback (kz_putint (kz_putclear K) v).1).rx_buffer_pos := by
  obtain ⟨h1, h2, h3, h4⟩ := int_round_trip_aux (kz_putclear K) v i hv rfl htx hmem
  exact ⟨h1, rfl, h2, h3, h4⟩

/-- Instance of C2: the value `INT32_MIN` on 16-byte buffers. -/
theorem int_round_trip_witness :
    (kz_putint (kz_putclear sample_rx) (-2147483648)).2 = 1 ∧
    (loopback (kz_putint (kz_putclear sample_rx) (-2147483648)).1).getptr
      = KZ_RX_PAYLOAD_START ∧
    (kz_getint (loopback (kz_putint (kz_putclear sample_rx) (-2147483648)).1) 0).ret = 1 ∧
    (kz_getint (loopback (kz_putint (kz_putclear sample_rx) (-2147483648)).1) 0).out
      = -2147483648 ∧
    (kz_getint (loopback (kz_putint (kz_putclear sample_rx) (-2147483648)).1) 0).K.getptr
      = (loopback (kz_putint (kz_putclear sample_rx) (-2147483648)).1).rx_buffer_pos :=
  int_round_trip sample_rx (-2147483648) 0 (by decide) (by decide) (by decide)

/-- C3 (float round trip at bit level). For every 32-bit pattern `f` of the
4-byte `kz_float_t`, `kz_putfloat(f)` on a cleared put region (tx buffer of at
least 16 bytes, its size a `size_t`) returns 1 and writes the tag `0x84`
followed by the four bytes of `f` in reverse host order, that is most
significant byte first on a little-endian host; and `kz_getfloat` on those
bytes (copied by `loopback`) returns 1 and yields the bit pattern `f`, with the
get-cursor advanced to `rx_buffer_pos`. -/
theorem float_round_trip (K : kz_endpoint_t) (f f0 : Nat) (hf : f < 4294967296)
    (htx : 16 ≤ K.tx_buffer_end) (hsize : K.tx_buffer_end < 18446744073709551616)
    (hmem : K.tx_buffer_end ≤ K.tx_mem.length) :
    (kz_putfloat (kz_putclear K) f).2 = 1 ∧
    (kz_putfloat (kz_putclear K) f).1.putptr = 10 ∧
    (kz_putfloat (kz_putclear K) f).1.tx_mem.getD 5 0 = 0x84 ∧
    (kz_putfloat (kz_putclear K) f).1.tx_mem.getD 6 0 = f / 16777216 % 256 ∧
    (kz_putfloat (kz_putclear K) f).1.tx_mem.getD 7 0 = f / 65536 % 256 ∧
    (kz_putfloat (kz_putclear K) f).1.tx_mem.getD 8 0 = f / 256 % 256 ∧
    (kz_putfloat (kz_putclear K) f).1.tx_mem.getD 9 0 = f % 256 ∧
    (kz_getfloat (loopback (kz_putfloat (kz_putclear K) f).1) f0).ret = 1 ∧
    (kz_getfloat (loopback (kz_putfloat (kz_putclear K) f).1) f0).out = f ∧
    (kz_getfloat (loopback (kz_putfloat (kz_putclear K) f).1) f0).K.getptr
      = (loopback (kz_putfloat (kz_putclear K) f).1).rx_buffer_pos := by
  obtain ⟨h1, h2, h3, h4, h5, h6, h7, h8, h9, h10⟩ :=
    float_round_trip_aux (kz_putclear K) f f0 hf rfl htx hsize hmem
  refine ⟨h1, h2, h3, ?_, ?_, ?_, ?_, h8, h9, h10⟩
  · rw [h4]; simp [float_byte, Nat.shiftRight_eq_div_pow]
  · rw [h5]; simp [float_byte, Nat.shiftRight_eq_div_pow]
  · rw [h6]; simp [float_byte, Nat.shiftRight_eq_div_pow]
  · rw [h7]; simp [float_byte, Nat.shiftRight_eq_div_pow]

/-- Instance of C3: the bit pattern 40490FDB on 16-byte buffers. -/
theorem float_round_trip_witness :
    (kz_putfloat (kz_putclear sample_rx) 0x40490FDB).2 = 1 ∧
    (kz_putfloat (kz_putclear sample_rx) 0x40490FDB).1.putptr = 10 ∧
    (kz_putfloat (kz_putclear sample_rx) 0x40490FDB).1.tx_mem.getD 5 0 = 0x84 ∧
    (kz_putfloat (kz_putclear sample_rx) 0x40490FDB).1.tx_mem.getD 6 0
      = 0x40490FDB / 16777216 % 256 ∧
    (kz_putfloat (kz_putclear sample_rx) 0x40490FDB).1.tx_mem.getD 7 0
      = 0x40490FDB / 65536 % 256 ∧
    (kz_putfloat (kz_putclear sample_rx) 0x40490FDB).1.tx_mem.getD 8 0
      = 0x40490FDB / 256 % 256 ∧
    (kz_putfloat (kz_putclear sample_rx) 0x40490FDB).1.tx_mem.getD 9 0 = 0x40490FDB % 256 ∧
    (kz_getfloat (loopback (kz_putfloat (kz_putclear sample_rx) 0x40490FDB).1) 0).ret = 1 ∧
    (kz_getfloat (loopback (kz_putfloat (kz_putclear sample_rx) 0x40490FDB).1) 0).out
      = 0x40490FDB ∧
    (kz_getfloat (loopback (kz_putfloat (kz_putclear sample_rx) 0x40490FDB).1) 0).K.getptr
      = (loopback (kz_putfloat (kz_putclear sample_rx) 0x40490FDB).1).rx_buffer_pos :=
  float_round_trip sample_rx 0x40490FDB 0 (by decide) (by decide) (by decide) (by decide)

theorem getint_truncated (K : kz_endpoint_t) (i : Int) (hr : K.getptr < K.rx_buffer_pos)
    (h : (K.rx_mem.getD K.getptr 0 = KZ_BC_INT16 ∧ K.rx_buffer_pos < K.getptr + 3) ∨
      (K.rx_mem.getD K.getptr 0 = KZ_BC_INT32 ∧ K.rx_buffer_pos < K.getptr + 5)) :
    (kz_getint K i).ret = 0 := by
  have h1 : ¬ ((K.rx_buffer_pos : Int) - (K.getptr : Int) < 1) := by omega
  unfold kz_getint
  simp only []
  rw [if_neg h1]
  rcases h with ⟨htag, hshort⟩ | ⟨htag, hshort⟩
  · rw [htag]
    have hnf : ¬ (to_int8 KZ_BC_INT16 ≥ -64 ∧ to_int8 KZ_BC_INT16 ≤ 127) := by decide
    have e1 : ¬ (KZ_BC_INT16 = KZ_BC_INT8) := by decide
    have e3 : sizeof_kz_int_t ≥ 2 := by decide
    have h2 : (K.rx_buffer_pos : Int) - ((K.getptr + 1 : Nat) : Int) < ((2 : Nat) : Int) := by
      omega
    simp only [if_neg hnf, if_neg e1, if_true, if_pos e3, if_pos h2]
  · rw [htag]
    have hnf : ¬ (to_int8 KZ_BC_INT32 ≥ -64 ∧ to_int8 KZ_BC_INT32 ≤ 127) := by decide
    have e1 : ¬ (KZ_BC_INT32 = KZ_BC_INT8) := by decide
    have e2 : ¬ (KZ_BC_INT32 = KZ_BC_INT16) := by decide
    have e3 : sizeof_kz_int_t ≥ 4 := by decide
    have h2 : (K.rx_buffer_pos : Int) - ((K.getptr + 1 : Nat) : Int) < ((4 : Nat) : Int) := by
      omega
    simp only [if_neg hnf, if_neg e1, if_neg e2, if_true, if_pos e3, if_pos h2]

theorem getfloat_truncated (K : kz_endpoint_t) (f : Nat) (hr : K.getptr < K.rx_buffer_pos)
    (htag : K.rx_mem.getD K.getptr 0 = KZ_BC_FLOAT32) (hshort : K.rx_buffer_pos < K.getptr + 5) :
    (kz_getfloat K f).ret = 0 := by
  have h1 : ¬ ((K.rx_buffer_pos : Int) - (K.getptr : Int) < 1) := by omega
  have h2 : (K.rx_buffer_pos : Int) - ((K.getptr + 1 : Nat) : Int) < ((4 : Nat) : Int) := by
    omega
  have e3 : sizeof_float = 4 ∧ sizeof_kz_float_t ≥ 4 := by decide
  unfold kz_getfloat
  simp only []
  rw [if_neg h1, htag]
  simp only [if_true, if_pos e3, if_pos h2]

theorem getint_wrong_tag (K : kz_endpoint_t) (i : Int) (hr : K.getptr < K.rx_buffer_pos)
    (htag : K.rx_mem.getD K.getptr 0 = KZ_BC_FLOAT32) : (kz_getint K i).ret = 0 := by
  have h1 : ¬ ((K.rx_buffer_pos : Int) - (K.getptr : Int) < 1) := by omega
  have hnf : ¬ (to_int8 KZ_BC_FLOAT32 ≥ -64 ∧ to_int8 KZ_BC_FLOAT32 ≤ 127) := by decide
  have e1 : ¬ (KZ_BC_FLOAT32 = KZ_BC_INT8) := by decide
  have e2 : ¬ (KZ_BC_FLOAT32 = KZ_BC_INT16) := by decide
  have e3 : ¬ (KZ_BC_FLOAT32 = KZ_BC_INT32) := by decide
  have e4 : ¬ (KZ_BC_FLOAT32 = KZ_BC_INT64) := by decide
  unfold kz_getint
  simp only []
  rw [if_neg h1, htag]
  simp only [if_neg hnf, if_neg e1, if_neg e2, if_neg e3, if_neg e4]

theorem getfloat_wrong_tag (K : kz_endpoint_t) (f : Nat) (hr : K.getptr < K.rx_buffer_pos)
    (htag : K.rx_mem.getD K.getptr 0 = KZ_BC_INT32) : (kz_getfloat K f).ret = 0 := by
  have h1 : ¬ ((K.rx_buffer_pos : Int) - (K.getptr : Int) < 1) := by omega
  have e1 : ¬ (KZ_BC_INT32 = KZ_BC_FLOAT32) := by decide
  have e2 : ¬ (KZ_BC_INT32 = KZ_BC_FLOAT64) := by decide
  unfold kz_getfloat
  simp only []
  rw [if_neg h1, htag]
  simp only [if_neg e1, if_neg e2]

/-- C4 (getter atomicity). For every endpoint state, whenever `kz_getint`,
`kz_getfloat` or `kz_getnumber` returns 0 the get-cursor is left unchanged
(indeed the whole endpoint is). The failing paths named by the claim do return
0: an empty get range (all three getters), a tag of the wrong type (a float tag
for `kz_getint`, an integer tag for `kz_getfloat`), and a matched multi-byte
tag `INT16`, `INT32` or `FLOAT32` followed by too few bytes. -/
theorem getter_atomicity (int_to_float : Int → Nat) (i0 : Int) (K : kz_endpoint_t)
    (i : Int) (f : Nat) :
    ((kz_getint K i).ret = 0 →
      (kz_getint K i).K.getptr = K.getptr ∧ (kz_getint K i).K = K) ∧
    ((kz_getfloat K f).ret = 0 →
      (kz_getfloat K f).K.getptr = K.getptr ∧ (kz_getfloat K f).K = K) ∧
    ((kz_getnumber int_to_float i0 K f).ret = 0 →
      (kz_getnumber int_to_float i0 K f).K.getptr = K.getptr ∧
      (kz_getnumber int_to_float i0 K f).K = K) ∧
    (K.rx_buffer_pos ≤ K.getptr →
      (kz_getint K i).ret = 0 ∧ (kz_getfloat K f).ret = 0 ∧
      (kz_getnumber int_to_float i0 K f).ret = 0) ∧
    (K.getptr < K.rx_buffer_pos → K.rx_mem.getD K.getptr 0 = KZ_BC_FLOAT32 →
      (kz_getint K i).ret = 0) ∧
    (K.getptr < K.rx_buffer_pos → K.rx_mem.getD K.getptr 0 = KZ_BC_INT32 →
      (kz_getfloat K f).ret = 0) ∧
    (K.getptr < K.rx_buffer_pos →
      (K.rx_mem.getD K.getptr 0 = KZ_BC_INT16 ∧ K.rx_buffer_pos < K.getptr + 3) ∨
      (K.rx_mem.getD K.getptr 0 = KZ_BC_INT32 ∧ K.rx_buffer_pos < K.getptr + 5) →
      (kz_getint K i).ret = 0) ∧
    (K.getptr < K.rx_buffer_pos → K.rx_mem.getD K.getptr 0 = KZ_BC_FLOAT32 →
      K.rx_buffer_pos < K.getptr + 5 → (kz_getfloat K f).ret = 0) := by
  have hi : ∀ j, (kz_getint K j).ret = 0 → (kz_getint K j).K = K := by
    intro j h
    rcases getint_atomic_holds K j with h1 | ⟨_, h2, _⟩
    · rw [h1] at h; exact absurd h (by decide)
    · exact h2
  have hf : (kz_getfloat K f).ret = 0 → (kz_getfloat K f).K = K := by
    intro h
    rcases getfloat_atomic_holds K f with h1 | ⟨_, h2, _⟩
    · rw [h1] at h; exact absurd h (by decide)
    · exact h2
  have hn : (kz_getnumber int_to_float i0 K f).ret = 0 →
      (kz_getnumber int_to_float i0 K f).K = K := by
    unfold kz_getnumber
    simp only []
    intro h
    by_cases c1 : (kz_getfloat K f).ret ≠ 0
    · rw [if_pos c1] at h
      exact absurd h (Nat.succ_ne_zero 0)
    · rw [if_neg c1] at h ⊢
      have hfK := hf (by omega)
      by_cases c2 : (kz_getint (kz_getfloat K f).K i0).ret ≠ 0
      · rw [if_pos c2] at h
        exact absurd h (Nat.succ_ne_zero 0)
      · rw [if_neg c2]
        show (kz_getint (kz_getfloat K f).K i0).K = K
        rw [hfK] at c2 ⊢
        exact hi i0 (by omega)
  refine ⟨fun h => ⟨by rw [hi i h], hi i h⟩, fun h => ⟨by rw [hf h], hf h⟩,
    fun h => ⟨by rw [hn h], hn h⟩, ?_, ?_, ?_, ?_, ?_⟩
  · intro hempty
    have e1 := getint_empty K i hempty
    have e2 := getfloat_empty K f hempty
    refine ⟨by rw [e1], by rw [e2], ?_⟩
    unfold kz_getnumber
    simp only []
    rw [e2]
    rw [if_neg (fun h => h rfl)]
    rw [getint_empty K i0 hempty]
    rfl
  · exact fun hr htag => getint_wrong_tag K i hr htag
  · exact fun hr htag => getfloat_wrong_tag K f hr htag
  · exact fun hr h => getint_truncated K i hr h
  · exact fun hr htag hshort => getfloat_truncated K f hr htag hshort

/-! ## Decoder claims: resynchronisation and idle zeros -/

/-- From every decoder state, the byte `0x00` leaves the decoder in `IDLE`. -/
theorem rx_decode_zero_idle (R : kz_endpoint_t) :
    (rx_decode R 0).1.rx_state = kz_cobs_rx_state_t.KZ_RX_IDLE := by
  unfold rx_decode
  cases hs : R.rx_state
  · simp [hs]
  · simp
  · simp

/-- In `IDLE`, the byte `0x00` changes nothing and returns 0. -/
theorem rx_decode_idle_zero (K : kz_endpoint_t)
    (hs : K.rx_state = kz_cobs_rx_state_t.KZ_RX_IDLE) : rx_decode K 0 = (K, 0) := by
  unfold rx_decode
  rw [hs]
  simp

/-- C11 (resynchronisation). From every decoder state `R` (any of `IDLE`,
`DECODE`, `ABORT`, any counter, write position and buffer contents), feeding
`0x00` leaves the decoder in `IDLE`, and so does any byte sequence `pre` followed
by `0x00`; after it, feeding the frame that `tx_encode_and_send` sends for a
payload `p` with `p.length` at most 254 and at most the rx buffer size returns
0 on every byte but the last and 1 on the terminator, with the rx buffer holding
`p` and decoded length `p.length`. -/
theorem rx_resynchronisation (K R : kz_endpoint_t) (p pre : List Nat)
    (hN : p.length ≤ 254) (htx : K.tx ≠ 0)
    (hput : K.putptr = p.length + 1) (hdata : (K.tx_mem.drop 1).take p.length = p)
    (hend : K.putptr + 1 ≤ K.tx_buffer_end) (hmem : K.tx_buffer_end ≤ K.tx_mem.length)
    (hrx : p.length ≤ R.rx_buffer_end) (hrxmem : R.rx_buffer_end ≤ R.rx_mem.length) :
    (rx_decode R 0x00).1.rx_state = kz_cobs_rx_state_t.KZ_RX_IDLE ∧
    (rx_feed R (pre ++ [0x00])).1.rx_state = kz_cobs_rx_state_t.KZ_RX_IDLE ∧
    ∃ r, tx_encode_and_send K = some r ∧
      (rx_feed (rx_feed R (pre ++ [0x00])).1 r.sent).2
        = List.replicate (p.length + 1) 0 ++ [1] ∧
      (rx_feed (rx_feed R (pre ++ [0x00])).1 r.sent).1.rx_buffer_pos = p.length ∧
      (rx_feed (rx_feed R (pre ++ [0x00])).1 r.sent).1.rx_mem.take p.length = p := by
  have hidle : (rx_feed R (pre ++ [0])).1.rx_state = kz_cobs_rx_state_t.KZ_RX_IDLE := by
    rw [rx_feed_append, rx_feed_cons, rx_feed_nil]
    exact rx_decode_zero_idle _
  obtain ⟨g1, g2, _, _⟩ := rx_feed_frame_condition (pre ++ [0]) R
  obtain ⟨r0, t, post, hsplit⟩ := tx_region_split K p hput hdata hend hmem
  obtain ⟨r, hr, hsent, _⟩ := tx_encode_and_send_frame K p r0 t post htx hN hsplit hput hend
  obtain ⟨h1, h2, h3, _, _⟩ := rx_feed_frame p (rx_feed R (pre ++ [0])).1 hidle hN
    (by rw [g1]; exact hrx) (by rw [g1, g2]; exact hrxmem)
  refine ⟨rx_decode_zero_idle R, hidle, r, hr, ?_, ?_, ?_⟩
  · rw [hsent, h1]
  · rw [hsent, h2]
  · rw [hsent, h3, List.take_left]

/-- Instance of C11: a decoder in `ABORT` after an overflowing frame, two more
bytes and `0x00`, then the frame of the payload FF FE FD 00 FB FA. -/
theorem rx_resynchronisation_witness :
    (rx_decode sample_rx_aborted 0x00).1.rx_state = kz_cobs_rx_state_t.KZ_RX_IDLE ∧
    (rx_feed sample_rx_aborted ([1, 1] ++ [0x00])).1.rx_state
      = kz_cobs_rx_state_t.KZ_RX_IDLE ∧
    ∃ r, tx_encode_and_send sample_tx = some r ∧
      (rx_feed (rx_feed sample_rx_aborted ([1, 1] ++ [0x00])).1 r.sent).2
        = List.replicate ([0xFF, 0xFE, 0xFD, 0x00, 0xFB, 0xFA].length + 1) 0 ++ [1] ∧
      (rx_feed (rx_feed sample_rx_aborted ([1, 1] ++ [0x00])).1 r.sent).1.rx_buffer_pos
        = [0xFF, 0xFE, 0xFD, 0x00, 0xFB, 0xFA].length ∧
      (rx_feed (rx_feed sample_rx_aborted ([1, 1] ++ [0x00])).1 r.sent).1.rx_mem.take
        [0xFF, 0xFE, 0xFD, 0x00, 0xFB, 0xFA].length = [0xFF, 0xFE, 0xFD, 0x00, 0xFB, 0xFA] :=
  rx_resynchronisation sample_tx sample_rx_aborted [0xFF, 0xFE, 0xFD, 0x00, 0xFB, 0xFA] [1, 1]
    (by decide) (by decide) (by decide) (by decide) (by decide) (by decide) (by decide)
    (by decide)

/-- C12 (zero bytes in `IDLE`). For every decoder in state `IDLE`,
`rx_decode(0x00)` returns 0 and leaves the endpoint as it was (decoder state,
`rx_count`, `rx_buffer_pos` and the rx buffer contents included), for any
number `n` of consecutive zero bytes. -/
theorem rx_idle_zeros (K : kz_endpoint_t) (n : Nat)
    (hs : K.rx_state = kz_cobs_rx_state_t.KZ_RX_IDLE) :
    (rx_decode K 0x00).2 = 0 ∧ (rx_decode K 0x00).1 = K ∧
    (rx_feed K (List.replicate n 0x00)).2 = List.replicate n 0 ∧
    (rx_feed K (List.replicate n 0x00)).1 = K ∧
    (rx_feed K (List.replicate n 0x00)).1.rx_state = K.rx_state ∧
    (rx_feed K (List.replicate n 0x00)).1.rx_count = K.rx_count ∧
    (rx_feed K (List.replicate n 0x00)).1.rx_buffer_pos = K.rx_buffer_pos ∧
    (rx_feed K (List.replicate n 0x00)).1.rx_mem = K.rx_mem := by
  have hstep := rx_decode_idle_zero K hs
  have hfeed : rx_feed K (List.replicate n 0) = (K, List.replicate n 0) := by
    induction n with
    | zero => rfl
    | succ n ih => rw [List.replicate_succ, rx_feed_cons, hstep, ih]
  rw [hstep, hfeed]
  exact ⟨rfl, rfl, rfl, rfl, rfl, rfl, rfl, rfl⟩

/-- Instance of C12: 100 zero bytes into a fresh endpoint (the
`decode_empty_packet` test). -/
theorem rx_idle_zeros_witness :
    (rx_decode sample_rx 0x00).2 = 0 ∧ (rx_decode sample_rx 0x00).1 = sample_rx ∧
    (rx_feed sample_rx (List.replicate 100 0x00)).2 = List.replicate 100 0 ∧
    (rx_feed sample_rx (List.replicate 100 0x00)).1 = sample_rx ∧
    (rx_feed sample_rx (List.replicate 100 0x00)).1.rx_state = sample_rx.rx_state ∧
    (rx_feed sample_rx (List.replicate 100 0x00)).1.rx_count = sample_rx.rx_count ∧
    (rx_feed sample_rx (List.replicate 100 0x00)).1.rx_buffer_pos = sample_rx.rx_buffer_pos ∧
    (rx_feed sample_rx (List.replicate 100 0x00)).1.rx_mem = sample_rx.rx_mem :=
  rx_idle_zeros sample_rx 100 (by decide)

/-! ## Lemmas on the putters -/

/-- A chain of byte stores writes its bytes from `putptr` on, advances `putptr`
by their number and changes nothing else. -/
theorem put_bytes_spec (bs : List Nat) : ∀ (K : kz_endpoint_t),
    K.putptr + bs.length ≤ K.tx_mem.length →
    put_bytes K bs =
      { K with tx_mem := K.tx_mem.take K.putptr ++ bs ++ K.tx_mem.drop (K.putptr + bs.length),
               putptr := K.putptr + bs.length } := by
  induction bs with
  | nil =>
    intro K _
    simp [put_bytes]
  | cons b bs ih =>
    intro K h
    simp only [List.length_cons] at h
    have hstep : put_bytes K (b :: bs) = put_bytes (put_byte K b) bs := rfl
    rw [hstep, ih (put_byte K b) (by
      rw [put_byte_putptr, put_byte_tx_mem, List.length_set]; omega)]
    simp only [put_byte_putptr, put_byte_tx_mem]
    rw [take_set_succ _ _ _ (by omega), drop_set_succ]
    simp only [put_byte, List.length_cons, List.append_assoc, List.singleton_append,
      Nat.add_assoc, Nat.add_comm 1 bs.length]

theorem int16_bytes (v : Int) :
    (((v % 65536).toNat >>> 8) &&& 0xFF) = (v % 65536 / 256).toNat ∧
    ((v % 65536).toNat &&& 0xFF) = (v % 65536 % 256).toNat := by
  simp only [and_255, Nat.shiftRight_eq_div_pow]
  constructor <;> omega

theorem int32_bytes (v : Int) :
    (((v % 4294967296).toNat >>> 24) &&& 0xFF) = (v % 4294967296 / 16777216).toNat ∧
    (((v % 4294967296).toNat >>> 16) &&& 0xFF) = (v % 4294967296 / 65536 % 256).toNat ∧
    (((v % 4294967296).toNat >>> 8) &&& 0xFF) = (v % 4294967296 / 256 % 256).toNat ∧
    ((v % 4294967296).toNat &&& 0xFF) = (v % 4294967296 % 256).toNat := by
  simp only [and_255, Nat.shiftRight_eq_div_pow]
  refine ⟨?_, ?_, ?_, ?_⟩ <;> omega

/-- What `kz_putint` does for a value of the 32-bit `kz_int_t`: with too little
room it returns 0 and changes nothing, else it stores the narrowest encoding. -/
theorem kz_putint_spec (K : kz_endpoint_t) (v : Int) (hv : INT32_MIN ≤ v ∧ v ≤ INT32_MAX) :
    kz_putint K v =
      if (K.tx_buffer_end : Int) - 1 - (K.putptr : Int)
          < ((narrowest_int_encoding v).length : Int) then (K, 0)
      else (put_bytes K (narrowest_int_encoding v), 1) := by
  simp only [INT32_MIN, INT32_MAX] at hv
  by_cases hfix : v ≥ -64 ∧ v ≤ 127
  · have henc : narrowest_int_encoding v = [(v % 256).toNat] := by
      unfold narrowest_int_encoding
      rw [if_pos hfix]
    have hl : (([(v % 256).toNat].length : Nat) : Int) = 1 := rfl
    rw [henc, hl]
    unfold kz_putint
    simp only []
    rw [if_pos hfix]
    split <;> rfl
  · by_cases h16 : v ≥ -32768 ∧ v ≤ 32767
    · have henc : narrowest_int_encoding v =
          [0x89, (v % 65536 / 256).toNat, (v % 65536 % 256).toNat] := by
        unfold narrowest_int_encoding
        rw [if_neg hfix, if_pos h16]
      have hl : (([0x89, (v % 65536 / 256).toNat, (v % 65536 % 256).toNat].length : Nat) : Int)
          = 3 := rfl
      obtain ⟨e1, e2⟩ := int16_bytes v
      rw [henc, hl]
      unfold kz_putint
      simp only [INT16_MIN, INT16_MAX]
      rw [if_neg hfix, if_pos h16, e1, e2]
      split <;> rfl
    · have henc : narrowest_int_encoding v =
          [0x8A, (v % 4294967296 / 16777216).toNat, (v % 4294967296 / 65536 % 256).toNat,
            (v % 4294967296 / 256 % 256).toNat, (v % 4294967296 % 256).toNat] := by
        unfold narrowest_int_encoding
        rw [if_neg hfix, if_neg h16]
      have hl : (([0x8A, (v % 4294967296 / 16777216).toNat,
          (v % 4294967296 / 65536 % 256).toNat, (v % 4294967296 / 256 % 256).toNat,
          (v % 4294967296 % 256).toNat].length : Nat) : Int) = 5 := rfl
      have h32 : v ≥ -2147483648 ∧ v ≤ 2147483647 := hv
      obtain ⟨e1, e2, e3, e4⟩ := int32_bytes v
      rw [henc, hl]
      unfold kz_putint
      simp only [INT16_MIN, INT16_MAX, INT32_MIN, INT32_MAX]
      rw [if_neg hfix, if_neg h16, if_pos h32, e1, e2, e3, e4]
      split <;> rfl

theorem kz_putnil_spec (K : kz_endpoint_t) :
    kz_putnil K =
      if (K.tx_buffer_end : Int) - 1 - (K.putptr : Int) < 1 then (K, 0)
      else (put_bytes K [KZ_BC_NIL], 1) := by
  unfold kz_putnil
  simp only []
  split <;> rfl

theorem kz_putlistopen_spec (K : kz_endpoint_t) :
    kz_putlistopen K =
      if (K.tx_buffer_end : Int) - 1 - (K.putptr : Int) < 1 then (K, 0)
      else (put_bytes K [KZ_BC_LISTOPEN], 1) := by
  unfold kz_putlistopen
  simp only []
  split <;> rfl

theorem kz_putlistclose_spec (K : kz_endpoint_t) :
    kz_putlistclose K =
      if (K.tx_buffer_end : Int) - 1 - (K.putptr : Int) < 1 then (K, 0)
      else (put_bytes K [KZ_BC_LISTCLOSE], 1) := by
  unfold kz_putlistclose
  simp only []
  split <;> rfl

theorem kz_putstring_spec (K : kz_endpoint_t) (s : kz_string_t) :
    kz_putstring K s =
      if (K.tx_buffer_end : Int) - 1 - (K.putptr : Int) < 1 then (K, 0)
      else (put_bytes K [KZ_BC_NIL], 1) := by
  unfold kz_putstring
  simp only []
  split <;> rfl

/-- What `kz_putfloat` does when the put-cursor is within the buffer and the
buffer size is a `size_t` value. -/
theorem kz_putfloat_spec (K : kz_endpoint_t) (f : Nat) (hcur : K.putptr + 1 ≤ K.tx_buffer_end)
    (hsize : K.tx_buffer_end < 18446744073709551616) :
    kz_putfloat K f =
      if (K.tx_buffer_end : Int) - 1 - (K.putptr : Int) < 5 then (K, 0)
      else (put_bytes K [KZ_BC_FLOAT32, float_byte f 3, float_byte f 2, float_byte f 1,
        float_byte f 0], 1) := by
  have e8 : ¬ (sizeof_kz_float_t = 8) := by decide
  have e4 : sizeof_kz_float_t = 4 := by decide
  unfold kz_putfloat
  simp only [if_neg e8, if_pos e4]
  by_cases hc : (K.tx_buffer_end : Int) - 1 - (K.putptr : Int) < 5
  · have hc2 : (((K.tx_buffer_end : Int) - 1 - (K.putptr : Int)) % 18446744073709551616).toNat
        < sizeof_kz_float_t + 1 := by
      simp only [sizeof_kz_float_t]; omega
    rw [if_pos hc, if_pos hc2]
  · have hc2 : ¬ ((((K.tx_buffer_end : Int) - 1 - (K.putptr : Int))
        % 18446744073709551616).toNat < sizeof_kz_float_t + 1) := by
      simp only [sizeof_kz_float_t]; omega
    rw [if_neg hc, if_neg hc2]
    rfl

theorem put_bytes_fields (K : kz_endpoint_t) (bs : List Nat)
    (h : K.putptr + bs.length ≤ K.tx_mem.length) :
    (put_bytes K bs).putptr = K.putptr + bs.length ∧
    (put_bytes K bs).tx_mem
      = K.tx_mem.take K.putptr ++ bs ++ K.tx_mem.drop (K.putptr + bs.length) := by
  rw [put_bytes_spec bs K h]
  exact ⟨rfl, rfl⟩

theorem put_bytes_putptr (bs : List Nat) : ∀ (K : kz_endpoint_t),
    (put_bytes K bs).putptr = K.putptr + bs.length := by
  induction bs with
  | nil => intro K; rfl
  | cons b bs ih =>
    intro K
    have hstep : put_bytes K (b :: bs) = put_bytes (put_byte K b) bs := rfl
    rw [hstep, ih, put_byte_putptr, List.length_cons]
    omega

theorem narrowest_int_encoding_length (v : Int) :
    (narrowest_int_encoding v).length = 1 ∨ (narrowest_int_encoding v).length = 3 ∨
    (narrowest_int_encoding v).length = 5 := by
  unfold narrowest_int_encoding
  split
  · exact Or.inl rfl
  · split
    · exact Or.inr (Or.inl rfl)
    · exact Or.inr (Or.inr rfl)

theorem narrowest_int_encoding_tag (v : Int) :
    (narrowest_int_encoding v).getD 0 0 ≠ KZ_BC_INT8 := by
  unfold narrowest_int_encoding KZ_BC_INT8
  split
  · simp only [List.getD_cons_zero]
    omega
  · split <;> simp

/-! ## Putter claims -/

/-- C13 (narrowest encoding). For every `v` of the 32-bit `kz_int_t` and an
endpoint with room for its encoding, `kz_putint` returns 1, stores exactly the
bytes of `narrowest_int_encoding v` from the put-cursor on (nothing else
changes) and advances the put-cursor past them: the single byte `v mod 256` if
`-64 ≤ v ≤ 127`; otherwise `0x89`, high, low (16-bit two's complement) if `v`
fits in `int16_t`; otherwise `0x8A` and the four bytes of the 32-bit two's
complement, most significant first. The tag byte it stores is never the `INT8`
tag `0x88`. -/
theorem putint_narrowest (K : kz_endpoint_t) (v : Int) (hv : INT32_MIN ≤ v ∧ v ≤ INT32_MAX)
    (hcap : K.putptr + (narrowest_int_encoding v).length + 1 ≤ K.tx_buffer_end)
    (hmem : K.tx_buffer_end ≤ K.tx_mem.length) :
    (kz_putint K v).2 = 1 ∧
    (kz_putint K v).1 =
      { K with tx_mem := K.tx_mem.take K.putptr ++ narrowest_int_encoding v
                 ++ K.tx_mem.drop (K.putptr + (narrowest_int_encoding v).length),
               putptr := K.putptr + (narrowest_int_encoding v).length } ∧
    (-64 ≤ v ∧ v ≤ 127 → narrowest_int_encoding v = [(v % 256).toNat]) ∧
    (¬ (-64 ≤ v ∧ v ≤ 127) → -32768 ≤ v ∧ v ≤ 32767 →
      narrowest_int_encoding v = [0x89, (v % 65536 / 256).toNat, (v % 65536 % 256).toNat]) ∧
    (¬ (-32768 ≤ v ∧ v ≤ 32767) →
      narrowest_int_encoding v =
        [0x8A, (v % 4294967296 / 16777216).toNat, (v % 4294967296 / 65536 % 256).toNat,
          (v % 4294967296 / 256 % 256).toNat, (v % 4294967296 % 256).toNat]) ∧
    (kz_putint K v).1.tx_mem.getD K.putptr 0 ≠ KZ_BC_INT8 := by
  have hc : ¬ ((K.tx_buffer_end : Int) - 1 - (K.putptr : Int)
      < ((narrowest_int_encoding v).length : Int)) := by omega
  have hroom : K.putptr + (narrowest_int_encoding v).length ≤ K.tx_mem.length := by omega
  have hput : kz_putint K v = (put_bytes K (narrowest_int_encoding v), 1) := by
    rw [kz_putint_spec K v hv, if_neg hc]
  have hspec := put_bytes_spec (narrowest_int_encoding v) K hroom
  refine ⟨by rw [hput], by rw [hput]; exact hspec, ?_, ?_, ?_, ?_⟩
  · intro h
    unfold narrowest_int_encoding
    rw [if_pos h]
  · intro h1 h2
    unfold narrowest_int_encoding
    rw [if_neg h1, if_pos h2]
  · intro h2
    have h1 : ¬ (-64 ≤ v ∧ v ≤ 127) := fun h => h2 ⟨by omega, by omega⟩
    unfold narrowest_int_encoding
    rw [if_neg h1, if_neg h2]
  · rw [hput, hspec]
    show (K.tx_mem.take K.putptr ++ narrowest_int_encoding v
      ++ K.tx_mem.drop (K.putptr + (narrowest_int_encoding v).length)).getD K.putptr 0 ≠ _
    have hlt : K.putptr < K.tx_mem.length := by
      rcases narrowest_int_encoding_length v with h | h | h <;> omega
    have htake : (K.tx_mem.take K.putptr).length = K.putptr := by
      rw [List.length_take]; omega
    have hne : 0 < (narrowest_int_encoding v).length := by
      rcases narrowest_int_encoding_length v with h | h | h <;> omega
    rw [List.append_assoc, List.getD_append_right _ _ _ _ (by rw [htake]), htake, Nat.sub_self,
      List.getD_append _ _ _ _ hne]
    exact narrowest_int_encoding_tag v

/-- Instance of C13: the value -65 at the start of the put region of a 16-byte
buffer. -/
theorem putint_narrowest_witness :
    (kz_putint sample_rx (-65)).2 = 1 ∧
    (kz_putint sample_rx (-65)).1 =
      { sample_rx with
        tx_mem := sample_rx.tx_mem.take sample_rx.putptr ++ narrowest_int_encoding (-65)
          ++ sample_rx.tx_mem.drop (sample_rx.putptr + (narrowest_int_encoding (-65)).length),
        putptr := sample_rx.putptr + (narrowest_int_encoding (-65)).length } ∧
    (-64 ≤ (-65 : Int) ∧ (-65 : Int) ≤ 127 →
      narrowest_int_encoding (-65) = [((-65 : Int) % 256).toNat]) ∧
    (¬ (-64 ≤ (-65 : Int) ∧ (-65 : Int) ≤ 127) → -32768 ≤ (-65 : Int) ∧ (-65 : Int) ≤ 32767 →
      narrowest_int_encoding (-65)
        = [0x89, ((-65 : Int) % 65536 / 256).toNat, ((-65 : Int) % 65536 % 256).toNat]) ∧
    (¬ (-32768 ≤ (-65 : Int) ∧ (-65 : Int) ≤ 32767) →
      narrowest_int_encoding (-65) =
        [0x8A, ((-65 : Int) % 4294967296 / 16777216).toNat,
          ((-65 : Int) % 4294967296 / 65536 % 256).toNat,
          ((-65 : Int) % 4294967296 / 256 % 256).toNat,
          ((-65 : Int) % 4294967296 % 256).toNat]) ∧
    (kz_putint sample_rx (-65)).1.tx_mem.getD sample_rx.putptr 0 ≠ KZ_BC_INT8 :=
  putint_narrowest sample_rx (-65) (by decide) (by decide) (by decide)

/-- C14 (put operations are all-or-nothing). On an endpoint whose put-cursor is
within its buffer (`putptr ≤ tx_buffer_end - 1`, the buffer size a `size_t`),
each of `kz_putint` (for a 32-bit `v`), `kz_putfloat`, `kz_putnil`,
`kz_putlistopen`, `kz_putlistclose` and `kz_putstring` returns 0 and leaves the
endpoint (put-cursor and tx buffer included) unchanged when the remaining
capacity `tx_buffer_end - 1 - putptr` is smaller than the encoded size, and
otherwise returns 1 and advances the put-cursor by exactly the encoded size
(1, 3 or 5 for an integer, 5 for a float, 1 for the others). -/
theorem put_all_or_nothing (K : kz_endpoint_t) (v : Int) (f : Nat) (s : kz_string_t)
    (hv : INT32_MIN ≤ v ∧ v ≤ INT32_MAX) (hcur : K.putptr + 1 ≤ K.tx_buffer_end)
    (hsize : K.tx_buffer_end < 18446744073709551616) :
    ((K.tx_buffer_end : Int) - 1 - K.putptr < (narrowest_int_encoding v).length →
      (kz_putint K v).2 = 0 ∧ (kz_putint K v).1 = K) ∧
    (¬ ((K.tx_buffer_end : Int) - 1 - K.putptr < (narrowest_int_encoding v).length) →
      (kz_putint K v).2 = 1 ∧
      (kz_putint K v).1.putptr = K.putptr + (narrowest_int_encoding v).length) ∧
    ((K.tx_buffer_end : Int) - 1 - K.putptr < 5 →
      (kz_putfloat K f).2 = 0 ∧ (kz_putfloat K f).1 = K) ∧
    (¬ ((K.tx_buffer_end : Int) - 1 - K.putptr < 5) →
      (kz_putfloat K f).2 = 1 ∧ (kz_putfloat K f).1.putptr = K.putptr + 5) ∧
    ((K.tx_buffer_end : Int) - 1 - K.putptr < 1 →
      (kz_putnil K).2 = 0 ∧ (kz_putnil K).1 = K ∧
      (kz_putlistopen K).2 = 0 ∧ (kz_putlistopen K).1 = K ∧
      (kz_putlistclose K).2 = 0 ∧ (kz_putlistclose K).1 = K ∧
      (kz_putstring K s).2 = 0 ∧ (kz_putstring K s).1 = K) ∧
    (¬ ((K.tx_buffer_end : Int) - 1 - K.putptr < 1) →
      (kz_putnil K).2 = 1 ∧ (kz_putnil K).1.putptr = K.putptr + 1 ∧
      (kz_putlistopen K).2 = 1 ∧ (kz_putlistopen K).1.putptr = K.putptr + 1 ∧
      (kz_putlistclose K).2 = 1 ∧ (kz_putlistclose K).1.putptr = K.putptr + 1 ∧
      (kz_putstring K s).2 = 1 ∧ (kz_putstring K s).1.putptr = K.putptr + 1) ∧
    ((narrowest_int_encoding v).length = 1 ∨ (narrowest_int_encoding v).length = 3 ∨
      (narrowest_int_encoding v).length = 5) := by
  refine ⟨?_, ?_, ?_, ?_, ?_, ?_, narrowest_int_encoding_length v⟩
  · intro h
    rw [kz_putint_spec K v hv, if_pos h]
    exact ⟨rfl, rfl⟩
  · intro h
    rw [kz_putint_spec K v hv, if_neg h]
    exact ⟨rfl, put_bytes_putptr _ K⟩
  · intro h
    rw [kz_putfloat_spec K f hcur hsize, if_pos h]
    exact ⟨rfl, rfl⟩
  · intro h
    rw [kz_putfloat_spec K f hcur hsize, if_neg h]
    exact ⟨rfl, put_bytes_putptr _ K⟩
  · intro h
    rw [kz_putnil_spec, kz_putlistopen_spec, kz_putlistclose_spec, kz_putstring_spec, if_pos h,
      if_pos h, if_pos h]
    exact ⟨rfl, rfl, rfl, rfl, rfl, rfl, rfl, rfl⟩
  · intro h
    rw [kz_putnil_spec, kz_putlistopen_spec, kz_putlistclose_spec, kz_putstring_spec, if_neg h,
      if_neg h, if_neg h]
    exact ⟨rfl, put_bytes_putptr _ K, rfl, put_bytes_putptr _ K, rfl, put_bytes_putptr _ K,
      rfl, put_bytes_putptr _ K⟩

/-- Instance of C14: a fresh 16-byte endpoint, the value -65, the bit pattern
40490FDB and an empty string. -/
theorem put_all_or_nothing_witness :
    ((sample_rx.tx_buffer_end : Int) - 1 - sample_rx.putptr
        < (narrowest_int_encoding (-65)).length →
      (kz_putint sample_rx (-65)).2 = 0 ∧ (kz_putint sample_rx (-65)).1 = sample_rx) ∧
    (¬ ((sample_rx.tx_buffer_end : Int) - 1 - sample_rx.putptr
        < (narrowest_int_encoding (-65)).length) →
      (kz_putint sample_rx (-65)).2 = 1 ∧
      (kz_putint sample_rx (-65)).1.putptr
        = sample_rx.putptr + (narrowest_int_encoding (-65)).length) ∧
    ((sample_rx.tx_buffer_end : Int) - 1 - sample_rx.putptr < 5 →
      (kz_putfloat sample_rx 0x40490FDB).2 = 0 ∧ (kz_putfloat sample_rx 0x40490FDB).1 = sample_rx) ∧
    (¬ ((sample_rx.tx_buffer_end : Int) - 1 - sample_rx.putptr < 5) →
      (kz_putfloat sample_rx 0x40490FDB).2 = 1 ∧
      (kz_putfloat sample_rx 0x40490FDB).1.putptr = sample_rx.putptr + 5) ∧
    ((sample_rx.tx_buffer_end : Int) - 1 - sample_rx.putptr < 1 →
      (kz_putnil sample_rx).2 = 0 ∧ (kz_putnil sample_rx).1 = sample_rx ∧
      (kz_putlistopen sample_rx).2 = 0 ∧ (kz_putlistopen sample_rx).1 = sample_rx ∧
      (kz_putlistclose sample_rx).2 = 0 ∧ (kz_putlistclose sample_rx).1 = sample_rx ∧
      (kz_putstring sample_rx { bytes := [], length := 0 }).2 = 0 ∧
      (kz_putstring sample_rx { bytes := [], length := 0 }).1 = sample_rx) ∧
    (¬ ((sample_rx.tx_buffer_end : Int) - 1 - sample_rx.putptr < 1) →
      (kz_putnil sample_rx).2 = 1 ∧ (kz_putnil sample_rx).1.putptr = sample_rx.putptr + 1 ∧
      (kz_putlistopen sample_rx).2 = 1 ∧
      (kz_putlistopen sample_rx).1.putptr = sample_rx.putptr + 1 ∧
      (kz_putlistclose sample_rx).2 = 1 ∧
      (kz_putlistclose sample_rx).1.putptr = sample_rx.putptr + 1 ∧
      (kz_putstring sample_rx { bytes := [], length := 0 }).2 = 1 ∧
      (kz_putstring sample_rx { bytes := [], length := 0 }).1.putptr = sample_rx.putptr + 1) ∧
    ((narrowest_int_encoding (-65)).length = 1 ∨ (narrowest_int_encoding (-65)).length = 3 ∨
      (narrowest_int_encoding (-65)).length = 5) :=
  put_all_or_nothing sample_rx (-65) 0x40490FDB { bytes := [], length := 0 } (by decide)
    (by decide) (by decide)

/-- Outside the cursor invariant the unsigned capacity test of `kz_putfloat`
does not protect the buffer: with `putptr` beyond `tx_buffer_end - 1` (a tx
buffer of 4 bytes) the difference is negative, its conversion to `size_t` is
large, and `kz_putfloat` stores its five bytes and returns 1, where `kz_putint`
returns 0. -/
theorem kz_putfloat_beyond_end :
    (test_endpoint_init 16 4 0).putptr = 5 ∧ (test_endpoint_init 16 4 0).tx_buffer_end = 4 ∧
    (kz_putfloat (test_endpoint_init 16 4 0) 0x40490FDB).2 = 1 ∧
    (kz_putfloat (test_endpoint_init 16 4 0) 0x40490FDB).1.putptr = 10 ∧
    (kz_putint (test_endpoint_init 16 4 0) 300).2 = 0 := by
  decide

/-! ## Lemmas on `kz_getint` by tag -/

theorem getint_int8 (K : kz_endpoint_t) (i : Int)
    (htag : K.rx_mem.getD K.getptr 0 = KZ_BC_INT8)
    (hr : K.getptr + 2 ≤ K.rx_buffer_pos) :
    kz_getint K i =
      { K := { K with getptr := K.getptr + 1 + 1 }, ret := 1,
        out := to_int8 (K.rx_mem.getD (K.getptr + 1 + 0) 0) } := by
  have h1 : ¬ ((K.rx_buffer_pos : Int) - (K.getptr : Int) < 1) := by omega
  have h2 : ¬ ((K.rx_buffer_pos : Int) - ((K.getptr + 1 : Nat) : Int) < ((1 : Nat) : Int)) := by
    omega
  unfold kz_getint
  simp only []
  rw [if_neg h1, htag]
  have hnf : ¬ (to_int8 KZ_BC_INT8 ≥ -64 ∧ to_int8 KZ_BC_INT8 ≤ 127) := by decide
  rw [if_neg hnf]
  simp only [if_true, if_neg h2]

theorem getint_int8_truncated (K : kz_endpoint_t) (i : Int) (hr : K.getptr < K.rx_buffer_pos)
    (htag : K.rx_mem.getD K.getptr 0 = KZ_BC_INT8) (hshort : K.rx_buffer_pos < K.getptr + 2) :
    kz_getint K i = { K := K, ret := 0, out := i } := by
  have h1 : ¬ ((K.rx_buffer_pos : Int) - (K.getptr : Int) < 1) := by omega
  have h2 : (K.rx_buffer_pos : Int) - ((K.getptr + 1 : Nat) : Int) < ((1 : Nat) : Int) := by
    omega
  unfold kz_getint
  simp only []
  rw [if_neg h1, htag]
  have hnf : ¬ (to_int8 KZ_BC_INT8 ≥ -64 ∧ to_int8 KZ_BC_INT8 ≤ 127) := by decide
  rw [if_neg hnf]
  simp only [if_true, if_pos h2]

/-- A value of `kz_getint` that returned 0 is the unchanged endpoint. -/
theorem getint_of_ret_zero (K : kz_endpoint_t) (i : Int) (h : (kz_getint K i).ret = 0) :
    kz_getint K i = { K := K, ret := 0, out := i } := by
  rcases getint_atomic_holds K i with h1 | ⟨h0, h2, h3⟩
  · rw [h1] at h; exact absurd h (Nat.succ_ne_zero 0)
  · cases hk : kz_getint K i with
    | mk K1 r o =>
      rw [hk] at h0 h2 h3
      simp only at h0 h2 h3
      rw [h0, h2, h3]

/-- A tag byte in `0x80..0xBF` other than `0x88`, `0x89`, `0x8A`: not an integer
for a 32-bit `kz_int_t` (`0x8B` is unsupported, the others are no integer tag). -/
theorem getint_other_tag (K : kz_endpoint_t) (i : Int) (hr : K.getptr < K.rx_buffer_pos)
    (hlo : 128 ≤ K.rx_mem.getD K.getptr 0) (hhi : K.rx_mem.getD K.getptr 0 < 192)
    (h8 : K.rx_mem.getD K.getptr 0 ≠ KZ_BC_INT8) (h16 : K.rx_mem.getD K.getptr 0 ≠ KZ_BC_INT16)
    (h32 : K.rx_mem.getD K.getptr 0 ≠ KZ_BC_INT32) :
    kz_getint K i = { K := K, ret := 0, out := i } := by
  have h1 : ¬ ((K.rx_buffer_pos : Int) - (K.getptr : Int) < 1) := by omega
  have hnf : ¬ (to_int8 (K.rx_mem.getD K.getptr 0) ≥ -64 ∧
      to_int8 (K.rx_mem.getD K.getptr 0) ≤ 127) := by
    unfold to_int8
    split <;> omega
  have e64 : ¬ (sizeof_kz_int_t ≥ 8) := by decide
  unfold kz_getint
  simp only []
  rw [if_neg h1, if_neg hnf]
  simp only [if_neg h8, if_neg h16, if_neg h32, if_neg e64, ite_self]

theorem take_drop_cons (l : List Nat) (k n : Nat) (h : k < l.length) :
    (l.drop k).take (n + 1) = l.getD k 0 :: (l.drop (k + 1)).take n := by
  rw [List.drop_eq_getElem_cons h, List.take_succ_cons, List.getD_eq_getElem l 0 h]

theorem to_int8_eq_twos (b : Nat) (hb : b < 256) : to_int8 b = twos_complement 8 b := by
  unfold to_int8 twos_complement
  have e : b % 256 = b := Nat.mod_eq_of_lt hb
  rw [e]
  norm_num

theorem to_int16_eq_twos (u : Nat) (hu : u < 65536) : to_int16 u = twos_complement 16 u := by
  unfold to_int16 twos_complement
  have e : u % 65536 = u := Nat.mod_eq_of_lt hu
  rw [e]
  norm_num

theorem to_int32_eq_twos (u : Nat) (hu : u < 4294967296) :
    to_int32 u = twos_complement 32 u := by
  unfold to_int32 twos_complement
  have e : u % 4294967296 = u := Nat.mod_eq_of_lt hu
  rw [e]
  norm_num

theorem ref_getint_cons (b : Nat) (payload : List Nat) :
    ref_getint (b :: payload) =
      if b ≤ 0x7F ∨ (0xC0 ≤ b ∧ b ≤ 0xFF) then some (twos_complement 8 b, 1)
      else
        match int_tag_size b with
        | none => none
        | some n =>
          if payload.length < n then none
          else some (twos_complement (8 * n) (be_value (payload.take n)), 1 + n) := rfl

/-! ## Getter claims -/

/-- C15 (`kz_getint` against the reference decoder). With the 32-bit
`kz_int_t`, on an rx buffer of bytes, `kz_getint` does what the reference
decoder `ref_getint` says for the bytes of the get range
`[getptr, rx_buffer_pos)`: when the reference decodes a value `v` from `n`
bytes (a fixint byte, or `0x88` plus 1 byte, `0x89` plus 2 bytes, `0x8A` plus 4
bytes), `kz_getint` returns 1, outputs `v` and advances the get-cursor by `n`
(tag and payload); when the reference gives none (empty range, any other tag
in `0x80..0xBF` including `0x8B`, truncated payload), `kz_getint` returns 0 and
leaves the endpoint and the output unchanged. -/
theorem getint_refines_reference (K : kz_endpoint_t) (i : Int)
    (hbytes : ∀ b ∈ K.rx_mem, b < 256) (hpos : K.rx_buffer_pos ≤ K.rx_mem.length) :
    kz_getint K i =
      match ref_getint ((K.rx_mem.drop K.getptr).take (K.rx_buffer_pos - K.getptr)) with
      | some (v, n) => { K := { K with getptr := K.getptr + n }, ret := 1, out := v }
      | none => { K := K, ret := 0, out := i } := by
  have hget : ∀ j, K.rx_mem.getD j 0 < 256 := by
    intro j
    by_cases hj : j < K.rx_mem.length
    · rw [List.getD_eq_getElem _ _ hj]
      exact hbytes _ (List.getElem_mem hj)
    · rw [List.getD_eq_default _ _ (by omega)]
      omega
  by_cases hempty : K.rx_buffer_pos ≤ K.getptr
  · rw [getint_empty K i hempty, Nat.sub_eq_zero_of_le hempty, List.take_zero]
    rfl
  · have hlt : K.getptr < K.rx_mem.length := by omega
    have hrange : (K.rx_mem.drop K.getptr).take (K.rx_buffer_pos - K.getptr) =
        K.rx_mem.getD K.getptr 0 ::
          (K.rx_mem.drop (K.getptr + 1)).take (K.rx_buffer_pos - K.getptr - 1) := by
      rw [show K.rx_buffer_pos - K.getptr = (K.rx_buffer_pos - K.getptr - 1) + 1 by omega,
        take_drop_cons _ _ _ hlt]
      rfl
    have hplen : ((K.rx_mem.drop (K.getptr + 1)).take (K.rx_buffer_pos - K.getptr - 1)).length
        = K.rx_buffer_pos - K.getptr - 1 := by
      rw [List.length_take, List.length_drop]
      omega
    have hptake : ∀ n, n ≤ K.rx_buffer_pos - K.getptr - 1 →
        ((K.rx_mem.drop (K.getptr + 1)).take (K.rx_buffer_pos - K.getptr - 1)).take n
          = (K.rx_mem.drop (K.getptr + 1)).take n := by
      intro n hn
      rw [List.take_take, Nat.min_eq_left hn]
    have hh := hget K.getptr
    rw [hrange, ref_getint_cons]
    by_cases hfix : K.rx_mem.getD K.getptr 0 ≤ 0x7F ∨
        (0xC0 ≤ K.rx_mem.getD K.getptr 0 ∧ K.rx_mem.getD K.getptr 0 ≤ 0xFF)
    · rw [if_pos hfix]
      have hfix8 : -64 ≤ to_int8 (K.rx_mem.getD K.getptr 0) := by
        unfold to_int8
        split <;> omega
      rw [getint_fixint K i (by omega) hfix8, to_int8_eq_twos _ hh]
    · rw [if_neg hfix]
      by_cases h8 : K.rx_mem.getD K.getptr 0 = KZ_BC_INT8
      · have hsz : int_tag_size (K.rx_mem.getD K.getptr 0) = some 1 := by rw [h8]; rfl
        rw [hsz]
        simp only [hplen]
        by_cases hshort : K.rx_buffer_pos - K.getptr - 1 < 1
        · rw [if_pos hshort, getint_int8_truncated K i (by omega) h8 (by omega)]
        · rw [if_neg hshort, getint_int8 K i h8 (by omega), hptake 1 (by omega),
            take_drop_cons _ _ _ (by omega), List.take_zero]
          have e : be_value [K.rx_mem.getD (K.getptr + 1) 0] = K.rx_mem.getD (K.getptr + 1) 0 := by
            simp [be_value]
          simp only [Nat.add_zero]
          rw [e, to_int8_eq_twos _ (hget _)]
      · by_cases h16 : K.rx_mem.getD K.getptr 0 = KZ_BC_INT16
        · have hsz : int_tag_size (K.rx_mem.getD K.getptr 0) = some 2 := by rw [h16]; rfl
          rw [hsz]
          simp only [hplen]
          by_cases hshort : K.rx_buffer_pos - K.getptr - 1 < 2
          · rw [if_pos hshort]
            exact getint_of_ret_zero K i
              (getint_truncated K i (by omega) (Or.inl ⟨h16, by omega⟩))
          · rw [if_neg hshort, getint_int16 K i h16 (by omega), hptake 2 (by omega),
              take_drop_cons _ _ _ (by omega), take_drop_cons _ _ _ (by omega), List.take_zero]
            have h0 := hget (K.getptr + 1)
            have h1 := hget (K.getptr + 1 + 1)
            have e : be_value [K.rx_mem.getD (K.getptr + 1) 0,
                K.rx_mem.getD (K.getptr + 1 + 1) 0]
                = K.rx_mem.getD (K.getptr + 1) 0 * 256 + K.rx_mem.getD (K.getptr + 1 + 1) 0 := by
              simp [be_value]
            simp only [Nat.add_zero]
            have hlt16 : K.rx_mem.getD (K.getptr + 1) 0 * 256
                + K.rx_mem.getD (K.getptr + 1 + 1) 0 < 65536 := by omega
            rw [e, or16 _ _ h1, Nat.mod_eq_of_lt hlt16, to_int16_eq_twos _ hlt16]
        · by_cases h32 : K.rx_mem.getD K.getptr 0 = KZ_BC_INT32
          · have hsz : int_tag_size (K.rx_mem.getD K.getptr 0) = some 4 := by rw [h32]; rfl
            rw [hsz]
            simp only [hplen]
            by_cases hshort : K.rx_buffer_pos - K.getptr - 1 < 4
            · rw [if_pos hshort]
              exact getint_of_ret_zero K i
                (getint_truncated K i (by omega) (Or.inr ⟨h32, by omega⟩))
            · rw [if_neg hshort, getint_int32 K i h32 (by omega), hptake 4 (by omega),
                take_drop_cons _ _ _ (by omega), take_drop_cons _ _ _ (by omega),
                take_drop_cons _ _ _ (by omega), take_drop_cons _ _ _ (by omega),
                List.take_zero]
              have h0 := hget (K.getptr + 1)
              have h1 := hget (K.getptr + 1 + 1)
              have h2 := hget (K.getptr + 1 + 1 + 1)
              have h3 := hget (K.getptr + 1 + 1 + 1 + 1)
              have e : be_value [K.rx_mem.getD (K.getptr + 1) 0,
                  K.rx_mem.getD (K.getptr + 1 + 1) 0, K.rx_mem.getD (K.getptr + 1 + 1 + 1) 0,
                  K.rx_mem.getD (K.getptr + 1 + 1 + 1 + 1) 0]
                  = K.rx_mem.getD (K.getptr + 1) 0 * 16777216
                    + K.rx_mem.getD (K.getptr + 1 + 1) 0 * 65536
                    + K.rx_mem.getD (K.getptr + 1 + 1 + 1) 0 * 256
                    + K.rx_mem.getD (K.getptr + 1 + 1 + 1 + 1) 0 := by
                simp only [be_value, List.foldl]
                omega
              simp only [Nat.add_zero]
              have hlt32 : K.rx_mem.getD (K.getptr + 1) 0 * 16777216
                    + K.rx_mem.getD (K.getptr + 1 + 1) 0 * 65536
                    + K.rx_mem.getD (K.getptr + 1 + 1 + 1) 0 * 256
                    + K.rx_mem.getD (K.getptr + 1 + 1 + 1 + 1) 0 < 4294967296 := by omega
              rw [e, show K.getptr + 1 + 2 = K.getptr + 1 + 1 + 1 by omega,
                show K.getptr + 1 + 3 = K.getptr + 1 + 1 + 1 + 1 by omega,
                or32 _ _ _ _ h1 h2 h3, Nat.mod_eq_of_lt hlt32, to_int32_eq_twos _ hlt32]
          · have hsz : int_tag_size (K.rx_mem.getD K.getptr 0) = none := by
              unfold int_tag_size
              have h8b : ¬ K.rx_mem.getD K.getptr 0 = 0x88 := h8
              have h16b : ¬ K.rx_mem.getD K.getptr 0 = 0x89 := h16
              have h32b : ¬ K.rx_mem.getD K.getptr 0 = 0x8A := h32
              rw [if_neg h8b, if_neg h16b, if_neg h32b]
            rw [hsz]
            exact getint_other_tag K i (by omega) (by omega) (by omega) h8 h16 h32

/-- Instance of C15: the get range holds 89 FF BF, the encoding of -65. -/
theorem getint_refines_reference_witness :
    kz_getint sample_rx_int 0 =
      match ref_getint ((sample_rx_int.rx_mem.drop sample_rx_int.getptr).take
        (sample_rx_int.rx_buffer_pos - sample_rx_int.getptr)) with
      | some (v, n) =>
        { K := { sample_rx_int with getptr := sample_rx_int.getptr + n }, ret := 1, out := v }
      | none => { K := sample_rx_int, ret := 0, out := 0 } :=
  getint_refines_reference sample_rx_int 0 (by decide) (by decide)

/-- The return value of `kz_getint` and the endpoint it leaves do not depend on
the previous content of `*i`. -/
theorem getint_indep (K : kz_endpoint_t) (i j : Int) :
    (kz_getint K i).ret = (kz_getint K j).ret ∧ (kz_getint K i).K = (kz_getint K j).K ∧
    ((kz_getint K i).ret = 1 → (kz_getint K i).out = (kz_getint K j).out) := by
  unfold kz_getint
  simp only []
  repeat' split
  all_goals first
    | exact ⟨rfl, rfl, fun _ => rfl⟩
    | exact ⟨rfl, rfl, fun h => absurd h Nat.zero_ne_one⟩

/-- C16 (`kz_getnumber`). `kz_getnumber` returns 1 if and only if `kz_getfloat`
or `kz_getint` returns 1 at the current get-cursor (its return value is 0 or
1). It tries the float getter first: when `kz_getfloat` returns 1 the result
is that of `kz_getfloat` (endpoint, hence get-cursor, and output); otherwise,
when `kz_getint` returns 1, the endpoint (hence the get-cursor) is the one
`kz_getint` leaves and the output is its integer converted to a float. What
`kz_getint` returns does not depend on the uninitialised local it is given. -/
theorem getnumber_float_then_int (int_to_float : Int → Nat) (i0 : Int) (K : kz_endpoint_t)
    (f : Nat) :
    ((kz_getnumber int_to_float i0 K f).ret = 1 ↔
      ((kz_getfloat K f).ret = 1 ∨ (kz_getint K i0).ret = 1)) ∧
    ((kz_getnumber int_to_float i0 K f).ret = 0 ∨ (kz_getnumber int_to_float i0 K f).ret = 1) ∧
    ((kz_getfloat K f).ret = 1 →
      kz_getnumber int_to_float i0 K f =
        { K := (kz_getfloat K f).K, ret := 1, out := (kz_getfloat K f).out }) ∧
    ((kz_getfloat K f).ret ≠ 1 → (kz_getint K i0).ret = 1 →
      kz_getnumber int_to_float i0 K f =
        { K := (kz_getint K i0).K, ret := 1, out := int_to_float (kz_getint K i0).out }) ∧
    (∀ i, (kz_getint K i).ret = (kz_getint K i0).ret ∧ (kz_getint K i).K = (kz_getint K i0).K ∧
      ((kz_getint K i).ret = 1 → (kz_getint K i).out = (kz_getint K i0).out)) := by
  have key : ((kz_getfloat K f).ret = 1 →
        kz_getnumber int_to_float i0 K f =
          { K := (kz_getfloat K f).K, ret := 1, out := (kz_getfloat K f).out }) ∧
      ((kz_getfloat K f).ret ≠ 1 → (kz_getint K i0).ret = 1 →
        kz_getnumber int_to_float i0 K f =
          { K := (kz_getint K i0).K, ret := 1, out := int_to_float (kz_getint K i0).out }) ∧
      ((kz_getfloat K f).ret ≠ 1 → (kz_getint K i0).ret ≠ 1 →
        (kz_getnumber int_to_float i0 K f).ret = 0) := by
    refine ⟨?_, ?_, ?_⟩
    · intro h
      unfold kz_getnumber
      simp only []
      rw [if_pos (by rw [h]; exact Nat.succ_ne_zero 0)]
    · intro hf hi
      rcases getfloat_atomic_holds K f with h1 | ⟨h0, hK, _⟩
      · exact absurd h1 hf
      · unfold kz_getnumber
        simp only []
        rw [if_neg (by rw [h0]; exact fun h => h rfl), hK,
          if_pos (by rw [hi]; exact Nat.succ_ne_zero 0)]
    · intro hf hi
      rcases getfloat_atomic_holds K f with h1 | ⟨h0, hK, _⟩
      · exact absurd h1 hf
      · rcases getint_atomic_holds K i0 with g1 | ⟨g0, _, _⟩
        · exact absurd g1 hi
        · unfold kz_getnumber
          simp only []
          rw [if_neg (by rw [h0]; exact fun h => h rfl), hK,
            if_neg (by rw [g0]; exact fun h => h rfl)]
  obtain ⟨k1, k2, k3⟩ := key
  refine ⟨?_, ?_, k1, k2, fun i => getint_indep K i i0⟩
  · constructor
    · intro h
      by_cases hf : (kz_getfloat K f).ret = 1
      · exact Or.inl hf
      · by_cases hi : (kz_getint K i0).ret = 1
        · exact Or.inr hi
        · rw [k3 hf hi] at h
          exact absurd h (by decide)
    · intro h
      by_cases hf : (kz_getfloat K f).ret = 1
      · rw [k1 hf]
      · rcases h with h | h
        · exact absurd h hf
        · rw [k2 hf h]
  · by_cases hf : (kz_getfloat K f).ret = 1
    · exact Or.inr (by rw [k1 hf])
    · by_cases hi : (kz_getint K i0).ret = 1
      · exact Or.inr (by rw [k2 hf hi])
      · exact Or.inl (k3 hf hi)

/-! ## Lemmas on the frame multiplexer -/

theorem set_header (m : List Nat) (a b c d : Nat) (h : 5 ≤ m.length) :
    (((m.set 1 a).set 2 b).set 3 c).set 4 d = m.take 1 ++ [a, b, c, d] ++ m.drop 5 := by
  match m, h with
  | x0 :: x1 :: x2 :: x3 :: x4 :: rest, _ => simp

/-- Encoding and sending after the four header bytes have been stored: the
frame sent is the frame of header and put region, `putptr` is reset, and
nothing but the tx buffer content and `putptr` changes. -/
theorem tx_with_header (K : kz_endpoint_t) (a b c d : Nat) (htx : K.tx ≠ 0)
    (h5 : 5 ≤ K.putptr) (hmtu : K.putptr ≤ 255) (hend : K.putptr + 1 ≤ K.tx_buffer_end)
    (hmem : K.tx_buffer_end ≤ K.tx_mem.length) :
    ∃ r, tx_encode_and_send (store_header K a b c d) = some r ∧
      r.sent = cobs_frame ([a, b, c, d] ++ (K.tx_mem.drop 5).take (K.putptr - 5)) ∧
      r.K = { K with tx_mem := r.K.tx_mem, putptr := KZ_TX_PAYLOAD_START } ∧
      r.K.tx_mem.length = K.tx_mem.length := by
  have hm5 : 5 ≤ K.tx_mem.length := by omega
  have hplen : ([a, b, c, d] ++ (K.tx_mem.drop 5).take (K.putptr - 5)).length
      = K.putptr - 1 := by
    simp only [List.length_append, List.length_cons, List.length_nil, List.length_take,
      List.length_drop]
    omega
  have hdata : (((((K.tx_mem.set 1 a).set 2 b).set 3 c).set 4 d).drop 1).take
      ([a, b, c, d] ++ (K.tx_mem.drop 5).take (K.putptr - 5)).length
      = [a, b, c, d] ++ (K.tx_mem.drop 5).take (K.putptr - 5) := by
    rw [hplen, set_header _ _ _ _ _ hm5, List.append_assoc,
      List.drop_left' (by rw [List.length_take]; omega),
      show K.putptr - 1 = [a, b, c, d].length + (K.putptr - 5) by
        simp only [List.length_cons, List.length_nil]; omega,
      List.take_append]
  obtain ⟨r0, t, post, hsplit, hlen⟩ := mem_split
    ((((K.tx_mem.set 1 a).set 2 b).set 3 c).set 4 d)
    ([a, b, c, d] ++ (K.tx_mem.drop 5).take (K.putptr - 5))
    (by rw [hplen]; simp only [List.length_set]; omega) hdata
  obtain ⟨r, hr, hsent, hK⟩ := tx_encode_and_send_frame (store_header K a b c d)
    ([a, b, c, d] ++ (K.tx_mem.drop 5).take (K.putptr - 5)) r0 t post htx
    (by rw [hplen]; omega) hsplit (by rw [hplen]; show K.putptr = _; omega) hend
  refine ⟨r, hr, hsent, ?_, ?_⟩
  · rw [hK]
    rfl
  · rw [hK]
    show (cobs_frame _ ++ post).length = _
    rw [List.length_append, cobs_frame_length]
    simp only [List.length_set] at hlen
    omega

theorem send_request_eq (K : kz_endpoint_t) (reqid channelid : Nat) :
    send_request K reqid channelid
      = tx_encode_and_send (store_header K KZ_HEADER_REQUEST reqid channelid 0x00) := rfl

theorem send_reply_eq (K : kz_endpoint_t) (reqid : Nat) (stat : kz_request_status_t) :
    send_reply K reqid stat
      = tx_encode_and_send (store_header K KZ_HEADER_REPLY reqid 0x00 0x00) := rfl

/-- The loop of `kz_call` allocates the lowest free slot `i` and sends the
request with `reqid = i`. -/
theorem kz_call_loop_alloc (ch cb ud : Nat) (t : Int) (K : kz_endpoint_t) (i : Nat)
    (hi : i < 16) (hfree : (K.local_requests.getD i free_request).callback = 0)
    (hbusy : ∀ j, j < i → (K.local_requests.getD j free_request).callback ≠ 0) :
    ∀ n idx, idx ≤ i → idx + n = 16 →
      kz_call_loop ch cb ud t n idx idx K =
        match send_request
          (store_request K i { callback := cb, userdata := ud, timeout_ticks := t }) i
          (ch % 256) with
        | none => none
        | some r => some { K := r.K, ret := 1, events := [kz_event.tx r.sent] } := by
  intro n
  induction n with
  | zero => intro idx h1 h2; omega
  | succ n ih =>
    intro idx h1 h2
    by_cases hidx : idx = i
    · subst hidx
      simp only [kz_call_loop, if_pos hfree]
      rfl
    · have hb := hbusy idx (by omega)
      have hmod : (idx + 1) % 256 = idx + 1 := Nat.mod_eq_of_lt (by omega)
      simp only [kz_call_loop, if_neg hb, hmod]
      exact ih (idx + 1) (by omega) (by omega)

/-- With no free slot the loop of `kz_call` returns 0 and does nothing. -/
theorem kz_call_loop_full (ch cb ud : Nat) (t : Int) (K : kz_endpoint_t)
    (hfull : ∀ j, j < 16 → (K.local_requests.getD j free_request).callback ≠ 0) :
    ∀ n idx reqid, idx + n = 16 →
      kz_call_loop ch cb ud t n idx reqid K = some { K := K, ret := 0, events := [] } := by
  intro n
  induction n with
  | zero => intro idx reqid _; rfl
  | succ n ih =>
    intro idx reqid h
    have hb := hfull idx (by omega)
    simp only [kz_call_loop, if_neg hb]
    exact ih (idx + 1) _ (by omega)

/-- What `kz_call` does when `i` is the lowest free slot. -/
theorem kz_call_alloc (K : kz_endpoint_t) (ch cb ud : Nat) (t : Int) (i : Nat)
    (hi : i < 16) (hfree : (K.local_requests.getD i free_request).callback = 0)
    (hbusy : ∀ j, j < i → (K.local_requests.getD j free_request).callback ≠ 0)
    (htx : K.tx ≠ 0) (h5 : 5 ≤ K.putptr) (hmtu : K.putptr ≤ 255)
    (hend : K.putptr + 1 ≤ K.tx_buffer_end) (hmem : K.tx_buffer_end ≤ K.tx_mem.length) :
    ∃ r, kz_call K ch cb ud t = some r ∧ r.ret = 1 ∧
      r.events = [kz_event.tx (cobs_frame ([KZ_HEADER_REQUEST, i, ch % 256, 0x00]
        ++ (K.tx_mem.drop 5).take (K.putptr - 5)))] ∧
      r.K = { K with tx_mem := r.K.tx_mem, putptr := KZ_TX_PAYLOAD_START,
                     local_requests := K.local_requests.set i
                       { callback := cb, userdata := ud, timeout_ticks := t } } ∧
      r.K.tx_mem.length = K.tx_mem.length := by
  have hloop := kz_call_loop_alloc ch cb ud t K i hi hfree hbusy 16 0 (Nat.zero_le _) rfl
  obtain ⟨r, hr, hsent, hK, hlen⟩ := tx_with_header
    (store_request K i { callback := cb, userdata := ud, timeout_ticks := t })
    KZ_HEADER_REQUEST i (ch % 256) 0x00 htx h5 hmtu hend hmem
  rw [← send_request_eq] at hr
  rw [hr] at hloop
  refine ⟨_, hloop, rfl, ?_, ?_, hlen⟩
  · show [kz_event.tx r.sent] = _
    rw [hsent]
    rfl
  · show r.K = _
    rw [hK]
    rfl

/-! ## Claims on `kz_call` and `kz_send` -/

/-- C17 (slot allocation). For every endpoint state whose lowest free
pending-request slot is `i` (so at least one slot is free) and whose put region
can be sent (`tx` set, `5 ≤ putptr ≤ 255`, `putptr` within the tx buffer),
`kz_call` returns 1, stores (callback, userdata, timeout_ticks) in slot `i`
and leaves every other slot unchanged, and transmits exactly one frame, the
COBS frame of the header `[0x50, i, channel_id mod 256, 0x00]` followed by the
bytes of the put region `[tx_buffer + 5, putptr)`; `i` is below 16 and therefore
never `0xFF`. -/
theorem kz_call_slot_allocation (K : kz_endpoint_t) (ch cb ud : Nat) (t : Int) (i : Nat)
    (hlen : K.local_requests.length = 16) (hi : i < 16)
    (hfree : (K.local_requests.getD i free_request).callback = 0)
    (hbusy : ∀ j, j < i → (K.local_requests.getD j free_request).callback ≠ 0)
    (htx : K.tx ≠ 0) (h5 : 5 ≤ K.putptr) (hmtu : K.putptr ≤ 255)
    (hend : K.putptr + 1 ≤ K.tx_buffer_end) (hmem : K.tx_buffer_end ≤ K.tx_mem.length) :
    ∃ r, kz_call K ch cb ud t = some r ∧ r.ret = 1 ∧
      r.K.local_requests.getD i free_request
        = { callback := cb, userdata := ud, timeout_ticks := t } ∧
      (∀ j, j ≠ i →
        r.K.local_requests.getD j free_request = K.local_requests.getD j free_request) ∧
      r.K.local_requests.length = 16 ∧
      r.events = [kz_event.tx (cobs_frame ([0x50, i, ch % 256, 0x00]
        ++ (K.tx_mem.drop 5).take (K.putptr - 5)))] ∧
      i < 16 ∧ i ≠ 0xFF := by
  obtain ⟨r, hr, hret, hev, hK, _⟩ :=
    kz_call_alloc K ch cb ud t i hi hfree hbusy htx h5 hmtu hend hmem
  have hreq : r.K.local_requests = K.local_requests.set i
      { callback := cb, userdata := ud, timeout_ticks := t } := by
    rw [hK]
  refine ⟨r, hr, hret, ?_, ?_, ?_, hev, hi, by omega⟩
  · rw [hreq, List.getD_eq_getElem?_getD, List.getElem?_set_self (by omega)]
    rfl
  · intro j hj
    rw [hreq, List.getD_eq_getElem?_getD, List.getD_eq_getElem?_getD,
      List.getElem?_set_ne (fun h => hj h.symm)]
  · rw [hreq, List.length_set, hlen]

/-- Instance of C17: slot 0 active, slot 1 the lowest free one, a float in the
put region, channel 7. -/
theorem kz_call_slot_allocation_witness :
    ∃ r, kz_call sample_put_pending 7 9 4 100 = some r ∧ r.ret = 1 ∧
      r.K.local_requests.getD 1 free_request
        = { callback := 9, userdata := 4, timeout_ticks := 100 } ∧
      (∀ j, j ≠ 1 → r.K.local_requests.getD j free_request
        = sample_put_pending.local_requests.getD j free_request) ∧
      r.K.local_requests.length = 16 ∧
      r.events = [kz_event.tx (cobs_frame ([0x50, 1, 7 % 256, 0x00]
        ++ (sample_put_pending.tx_mem.drop 5).take (sample_put_pending.putptr - 5)))] ∧
      1 < 16 ∧ 1 ≠ 0xFF :=
  kz_call_slot_allocation sample_put_pending 7 9 4 100 1 (by decide) (by decide) (by decide)
    (by decide) (by decide) (by decide) (by decide) (by decide) (by decide)

/-- C19 (fire-and-forget). For every endpoint state whose put region can be
sent (`tx` set, `5 ≤ putptr ≤ 255`, `putptr` within the tx buffer) and every
channel id `c`, `kz_send` transmits exactly one frame, the COBS frame of
`[0x50, 0xFF, c mod 256, 0x00]` followed by the bytes of the put region, resets
the put-cursor to the payload start, and leaves every pending-request slot
unchanged. -/
theorem kz_send_fire_and_forget (K : kz_endpoint_t) (c : Nat)
    (htx : K.tx ≠ 0) (h5 : 5 ≤ K.putptr) (hmtu : K.putptr ≤ 255)
    (hend : K.putptr + 1 ≤ K.tx_buffer_end) (hmem : K.tx_buffer_end ≤ K.tx_mem.length) :
    ∃ K2, kz_send K c = some (K2, [kz_event.tx (cobs_frame ([0x50, 0xFF, c % 256, 0x00]
        ++ (K.tx_mem.drop 5).take (K.putptr - 5)))]) ∧
      K2.putptr = KZ_TX_PAYLOAD_START ∧ K2.local_requests = K.local_requests := by
  obtain ⟨r, hr, hsent, hK, _⟩ :=
    tx_with_header K KZ_HEADER_REQUEST 0xFF (c % 256) 0x00 htx h5 hmtu hend hmem
  rw [← send_request_eq] at hr
  refine ⟨r.K, ?_, by rw [hK], by rw [hK]⟩
  unfold kz_send
  rw [hr]
  show some (r.K, [kz_event.tx r.sent]) = _
  rw [hsent]
  rfl

/-- Instance of C19: `kz_send` on channel 0 with a float in the put region (the
call of `example.c`). -/
theorem kz_send_fire_and_forget_witness :
    ∃ K2, kz_send sample_put 0 = some (K2, [kz_event.tx (cobs_frame
        ([0x50, 0xFF, 0 % 256, 0x00]
          ++ (sample_put.tx_mem.drop 5).take (sample_put.putptr - 5)))]) ∧
      K2.putptr = KZ_TX_PAYLOAD_START ∧ K2.local_requests = sample_put.local_requests :=
  kz_send_fire_and_forget sample_put 0 (by decide) (by decide) (by decide) (by decide)
    (by decide)

/-! ## Pool exhaustion -/

theorem pool_filled_init (d : kz_endpointdef_t) (htx : d.tx ≠ 0) (hsize : 16 ≤ d.tx_buffer_size)
    (hmem : d.tx_buffer_size ≤ d.tx_buffer.length) : pool_filled 0 (kz_init_static d) := by
  refine ⟨by simp [kz_init_static, KZ_MAX_LOCAL_REQUESTS], fun j hj => by omega, ?_, rfl, htx,
    ?_, ?_⟩
  · intro j _ hj
    have hj2 : j < KZ_MAX_LOCAL_REQUESTS := hj
    simp [kz_init_static, List.getElem?_replicate, hj2]
  · show 6 ≤ 0 + d.tx_buffer_size
    omega
  · show 0 + d.tx_buffer_size ≤ d.tx_buffer.length
    omega

/-- One call of `kz_call` with a non-null callback on an endpoint with `k < 16`
calls behind it: it returns 1, sends the request with `reqid = k` and an empty
payload, and leaves an endpoint with `k + 1` calls behind it. -/
theorem kz_call_step (K : kz_endpoint_t) (k : Nat) (a : call_args) (hK : pool_filled k K)
    (hk : k < 16) (hcb : a.callback ≠ 0) :
    ∃ r, kz_call K a.channelid a.callback a.userdata a.timeout_ticks = some r ∧ r.ret = 1 ∧
      r.events = [kz_event.tx (cobs_frame [0x50, k, a.channelid % 256, 0x00])] ∧
      pool_filled (k + 1) r.K := by
  obtain ⟨hlen, hact, hfree, hput, htx, hend, hmem⟩ := hK
  obtain ⟨r, hr, hret, hev, hrK, hrlen⟩ := kz_call_alloc K a.channelid a.callback a.userdata
    a.timeout_ticks k hk (hfree k (Nat.le_refl _) hk) hact htx (by omega) (by omega) (by omega)
    hmem
  have hreq : r.K.local_requests = K.local_requests.set k
      { callback := a.callback, userdata := a.userdata, timeout_ticks := a.timeout_ticks } := by
    rw [hrK]
  refine ⟨r, hr, hret, ?_, ?_, ?_, ?_, by rw [hrK]; rfl, by rw [hrK]; exact htx,
    by rw [hrK]; exact hend, by rw [hrlen]; rw [hrK]; exact hmem⟩
  · rw [hev, hput]
    rfl
  · rw [hreq, List.length_set, hlen]
  · intro j hj
    rw [hreq, List.getD_eq_getElem?_getD]
    by_cases hjk : j = k
    · subst hjk
      rw [List.getElem?_set_self (by omega)]
      exact hcb
    · rw [List.getElem?_set_ne (fun h => hjk h.symm), ← List.getD_eq_getElem?_getD]
      exact hact j (by omega)
  · intro j hj1 hj2
    rw [hreq, List.getD_eq_getElem?_getD, List.getElem?_set_ne (by omega),
      ← List.getD_eq_getElem?_getD]
    exact hfree j (by omega) hj2

theorem kz_call_seq_cons (K : kz_endpoint_t) (a : call_args) (rest : List call_args) :
    kz_call_seq K (a :: rest) =
      match kz_call K a.channelid a.callback a.userdata a.timeout_ticks with
      | none => none
      | some r =>
        match kz_call_seq r.K rest with
        | none => none
        | some (K2, rets, events) => some (K2, r.ret :: rets, r.events ++ events) := rfl

/-- Consecutive calls with non-null callbacks while slots are left: each
returns 1 and the `j`-th sends the request with `reqid = k + j`. -/
theorem kz_call_seq_filling (args : List call_args) : ∀ (k : Nat) (K : kz_endpoint_t),
    pool_filled k K → k + args.length ≤ 16 → (∀ a ∈ args, a.callback ≠ 0) →
    ∃ K2 events, kz_call_seq K args = some (K2, List.replicate args.length 1, events) ∧
      pool_filled (k + args.length) K2 ∧ events.length = args.length ∧
      ∀ j, j < args.length → events.getD j (kz_event.tx []) =
        kz_event.tx (cobs_frame [0x50, k + j, (args.getD j default).channelid % 256, 0x00]) := by
  induction args with
  | nil =>
    intro k K hK _ _
    exact ⟨K, [], rfl, hK, rfl, fun j hj => by simp at hj⟩
  | cons a rest ih =>
    intro k K hK hlen hcb
    simp only [List.length_cons] at hlen
    obtain ⟨r, hr, hret, hev, hK1⟩ := kz_call_step K k a hK (by omega) (hcb a (by simp))
    obtain ⟨K2, events, hseq, hK2, hevlen, hevs⟩ := ih (k + 1) r.K hK1 (by omega)
      (fun b hb => hcb b (by simp [hb]))
    refine ⟨K2, r.events ++ events, ?_, ?_, ?_, ?_⟩
    · rw [kz_call_seq_cons, hr]
      simp only [hseq, hret, List.length_cons, List.replicate_succ]
    · rw [List.length_cons, show k + (rest.length + 1) = k + 1 + rest.length by omega]
      exact hK2
    · rw [hev, List.length_append, hevlen]
      simp only [List.length_cons, List.length_nil]
      omega
    · intro j hj
      rw [hev]
      cases j with
      | zero => rfl
      | succ j =>
        simp only [List.length_cons] at hj
        have := hevs j (by omega)
        simp only [List.singleton_append, List.getD_cons_succ]
        rw [this, show k + 1 + j = k + (j + 1) by omega]

theorem kz_call_seq_append (xs ys : List call_args) : ∀ (K K1 K2 : kz_endpoint_t)
    (r1 r2 : List Nat) (e1 e2 : List kz_event),
    kz_call_seq K xs = some (K1, r1, e1) → kz_call_seq K1 ys = some (K2, r2, e2) →
    kz_call_seq K (xs ++ ys) = some (K2, r1 ++ r2, e1 ++ e2) := by
  induction xs with
  | nil =>
    intro K K1 K2 r1 r2 e1 e2 h1 h2
    simp only [kz_call_seq, Option.some.injEq, Prod.mk.injEq] at h1
    obtain ⟨hK, hr, he⟩ := h1
    subst hK hr he
    simpa using h2
  | cons x xs ih =>
    intro K K1 K2 r1 r2 e1 e2 h1 h2
    rw [kz_call_seq_cons] at h1
    rw [List.cons_append, kz_call_seq_cons]
    cases hc : kz_call K x.channelid x.callback x.userdata x.timeout_ticks with
    | none => rw [hc] at h1; simp at h1
    | some r =>
      rw [hc] at h1
      simp only at h1 ⊢
      cases hs : kz_call_seq r.K xs with
      | none => rw [hs] at h1; simp at h1
      | some res =>
        obtain ⟨Ka, ra, ea⟩ := res
        rw [hs] at h1
        simp only [Option.some.injEq, Prod.mk.injEq] at h1
        obtain ⟨hK, hr, he⟩ := h1
        subst hK hr he
        rw [ih r.K Ka K2 ra r2 ea e2 hs h2]
        simp

/-- C18 (pool exhaustion). When all 16 pending-request slots are active,
`kz_call` returns 0, transmits nothing and leaves the whole endpoint state
unchanged. Hence of 17 consecutive calls of `kz_call` with non-null callbacks
(no tick in between) on an endpoint fresh from `kz_init_static` (tx callback
set, tx buffer of at least 16 bytes), the first 16 return 1, the 17th returns
0, and exactly 16 frames are sent, the `j`-th being the request with
`reqid = j` (ids 0 to 15 in order). -/
theorem kz_call_pool_exhaustion (K : kz_endpoint_t) (ch cb ud : Nat) (t : Int)
    (d : kz_endpointdef_t) (args : List call_args)
    (hfull : ∀ j, j < 16 → (K.local_requests.getD j free_request).callback ≠ 0)
    (htx : d.tx ≠ 0) (hsize : 16 ≤ d.tx_buffer_size)
    (hmem : d.tx_buffer_size ≤ d.tx_buffer.length)
    (hargs : args.length = 17) (hcbs : ∀ a ∈ args, a.callback ≠ 0) :
    kz_call K ch cb ud t = some { K := K, ret := 0, events := [] } ∧
    ∃ K2 events, kz_call_seq (kz_init_static d) args
        = some (K2, List.replicate 16 1 ++ [0], events) ∧
      events.length = 16 ∧
      ∀ j, j < 16 → events.getD j (kz_event.tx []) =
        kz_event.tx (cobs_frame [0x50, j, (args.getD j default).channelid % 256, 0x00]) := by
  refine ⟨kz_call_loop_full ch cb ud t K hfull 16 0 0 rfl, ?_⟩
  have hsplit : args = args.take 16 ++ args.drop 16 := (List.take_append_drop 16 args).symm
  have htake : (args.take 16).length = 16 := by rw [List.length_take]; omega
  obtain ⟨last, hlast⟩ : ∃ last, args.drop 16 = [last] := by
    have hl : (args.drop 16).length = 1 := by rw [List.length_drop]; omega
    match hd : args.drop 16, hl with
    | [x], _ => exact ⟨x, rfl⟩
  obtain ⟨K2, events, hseq, hK2, hevlen, hevs⟩ := kz_call_seq_filling (args.take 16) 0
    (kz_init_static d) (pool_filled_init d htx hsize hmem) (by omega)
    (fun a ha => hcbs a (List.mem_of_mem_take ha))
  rw [htake] at hseq hK2 hevlen hevs
  have hfull2 : ∀ j, j < 16 → (K2.local_requests.getD j free_request).callback ≠ 0 := by
    intro j hj
    exact hK2.2.1 j (by omega)
  have hlastcall := kz_call_loop_full last.channelid last.callback last.userdata
    last.timeout_ticks K2 hfull2 16 0 0 rfl
  have hlastseq : kz_call_seq K2 [last] = some (K2, [0], []) := by
    rw [kz_call_seq_cons]
    show (match kz_call_loop last.channelid last.callback last.userdata last.timeout_ticks
      16 0 0 K2 with
      | none => none
      | some r =>
        match kz_call_seq r.K [] with
        | none => none
        | some (K3, rets, events) => some (K3, r.ret :: rets, r.events ++ events)) = _
    rw [hlastcall]
    rfl
  have happ := kz_call_seq_append (args.take 16) [last] (kz_init_static d) K2 K2
    (List.replicate 16 1) [0] events [] hseq hlastseq
  rw [← hlast, ← hsplit, List.append_nil] at happ
  refine ⟨K2, events, happ, hevlen, ?_⟩
  intro j hj
  have := hevs j (by omega)
  rw [Nat.zero_add] at this
  rw [this]
  have hget : (args.take 16).getD j default = args.getD j default := by
    rw [List.getD_eq_getElem?_getD, List.getD_eq_getElem?_getD, List.getElem?_take_of_lt hj]
  rw [hget]

/-- Instance of C18: an endpoint with 16 active slots, and 17 calls on a fresh
16-byte endpoint. -/
theorem kz_call_pool_exhaustion_witness :
    kz_call sample_pool_full 7 9 4 100
      = some { K := sample_pool_full, ret := 0, events := [] } ∧
    ∃ K2 events, kz_call_seq (kz_init_static sample_def) sample_calls
        = some (K2, List.replicate 16 1 ++ [0], events) ∧
      events.length = 16 ∧
      ∀ j, j < 16 → events.getD j (kz_event.tx []) =
        kz_event.tx (cobs_frame
          [0x50, j, (sample_calls.getD j default).channelid % 256, 0x00]) :=
  kz_call_pool_exhaustion sample_pool_full 7 9 4 100 sample_def sample_calls (by decide)
    (by decide) (by decide) (by decide) (by decide) (by decide)

/-! ## Reply emission -/

/-- The byte `0x00` in `DECODE` with `rx_count = 0` completes the frame: the
decoder goes to `IDLE` and returns 1. -/
theorem rx_decode_complete (K : kz_endpoint_t)
    (hs : K.rx_state = kz_cobs_rx_state_t.KZ_RX_DECODE) (hc : K.rx_count = 0) :
    rx_decode K 0 = ({ K with rx_state := kz_cobs_rx_state_t.KZ_RX_IDLE }, 1) := by
  unfold rx_decode
  rw [hs]
  simp [hc]

/-- What `handle_request` does for a registered channel, given what the
handler does. -/
theorem handle_request_registered (cb : kz_callbacks) (K K2 : kz_endpoint_t)
    (reqid channelid : Nat) (status : kz_request_status_t) (events : List kz_event)
    (hchan : channelid < KZ_MAX_CHANNELS)
    (hreg : (K.handlers.getD channelid no_handler).callback ≠ 0)
    (hcall : cb.request (K.handlers.getD channelid no_handler).callback
      (K.handlers.getD channelid no_handler).userdata (kz_getreset K)
        = some (K2, status, events)) :
    handle_request cb K reqid channelid =
      if status ≠ kz_request_status_t.KZ_IGNORE then
        match send_reply K2 (reqid % 256) status with
        | none => none
        | some r =>
          some (r.K, kz_event.request_callback (K.handlers.getD channelid no_handler).callback
            (K.handlers.getD channelid no_handler).userdata :: events ++ [kz_event.tx r.sent])
      else
        some (K2, kz_event.request_callback (K.handlers.getD channelid no_handler).callback
          (K.handlers.getD channelid no_handler).userdata :: events) := by
  have hcall2 : cb.request (K.handlers.getD channelid no_handler).callback
      (K.handlers.getD channelid no_handler).userdata
      { K with getptr := KZ_RX_PAYLOAD_START } = some (K2, status, events) := hcall
  unfold handle_request
  simp only [if_pos hchan, if_pos hreg, hcall2]

/-- The loop body of `kz_tick` on the byte that completes a frame of at least 4
bytes whose first byte is the request header: it is `handle_request` on the
endpoint with the decoder back in `IDLE`. -/
theorem kz_tick_byte_request (cb : kz_callbacks) (K : kz_endpoint_t)
    (hs : K.rx_state = kz_cobs_rx_state_t.KZ_RX_DECODE) (hc : K.rx_count = 0)
    (hsize : 4 ≤ K.rx_buffer_pos) (hkind : K.rx_mem.getD 0 0 = KZ_HEADER_REQUEST) :
    kz_tick_byte cb K 0 =
      handle_request cb (rx_decode K 0).1 (K.rx_mem.getD 1 0) (K.rx_mem.getD 2 0) := by
  have hdec := rx_decode_complete K hs hc
  have hsz : (rx_decode K 0).1.rx_buffer_pos - 0 ≥ 4 := by rw [hdec]; exact hsize
  have hk : (rx_decode K 0).1.rx_mem.getD 0 0 = KZ_HEADER_REQUEST := by rw [hdec]; exact hkind
  have h1 : (rx_decode K 0).1.rx_mem.getD 1 0 = K.rx_mem.getD 1 0 := by rw [hdec]
  have h2 : (rx_decode K 0).1.rx_mem.getD 2 0 = K.rx_mem.getD 2 0 := by rw [hdec]
  have hret : (rx_decode K 0).2 ≠ 0 := by rw [hdec]; exact Nat.succ_ne_zero 0
  unfold kz_tick_byte
  simp only [if_pos hret, if_pos hsz, if_pos hk, h1, h2]

/-- C20 (reply emission). When the loop of `kz_tick` takes the byte that
completes a frame (decoder in `DECODE`, `rx_count = 0`, byte `0x00`) of at
least 4 bytes that is a REQUEST (`0x50`) for a registered channel, the handler
is called once on the endpoint with the get-cursor at the rx payload start, and
a REPLY frame is transmitted after it if and only if the status the handler
returns is not `KZ_IGNORE`: with `KZ_IGNORE` the events are the call of the
handler and what the handler did itself; otherwise (the endpoint `K2` that the
handler returns being one on which `tx_encode_and_send` can run) one more frame
follows, the COBS frame of `[0x51, r, 0x00, 0x00]` followed by all the bytes in
the put region `[tx_buffer + 5, putptr)` of `K2`, where `r` is the request id
byte of the request, whatever its value. -/
theorem reply_emission (cb : kz_callbacks) (K K2 : kz_endpoint_t)
    (status : kz_request_status_t) (events : List kz_event)
    (hs : K.rx_state = kz_cobs_rx_state_t.KZ_RX_DECODE) (hc : K.rx_count = 0)
    (hsize : 4 ≤ K.rx_buffer_pos) (hkind : K.rx_mem.getD 0 0 = KZ_HEADER_REQUEST)
    (hreqid : K.rx_mem.getD 1 0 < 256) (hchan : K.rx_mem.getD 2 0 < KZ_MAX_CHANNELS)
    (hreg : (K.handlers.getD (K.rx_mem.getD 2 0) no_handler).callback ≠ 0)
    (hcall : cb.request (K.handlers.getD (K.rx_mem.getD 2 0) no_handler).callback
      (K.handlers.getD (K.rx_mem.getD 2 0) no_handler).userdata
      (kz_getreset (rx_decode K 0x00).1) = some (K2, status, events)) :
    (status = kz_request_status_t.KZ_IGNORE →
      kz_tick_byte cb K 0x00 = some (K2,
        kz_event.request_callback (K.handlers.getD (K.rx_mem.getD 2 0) no_handler).callback
          (K.handlers.getD (K.rx_mem.getD 2 0) no_handler).userdata :: events)) ∧
    (status ≠ kz_request_status_t.KZ_IGNORE → K2.tx ≠ 0 → 5 ≤ K2.putptr → K2.putptr ≤ 255 →
      K2.putptr + 1 ≤ K2.tx_buffer_end → K2.tx_buffer_end ≤ K2.tx_mem.length →
      ∃ K3, kz_tick_byte cb K 0x00 = some (K3,
        kz_event.request_callback (K.handlers.getD (K.rx_mem.getD 2 0) no_handler).callback
          (K.handlers.getD (K.rx_mem.getD 2 0) no_handler).userdata :: events
        ++ [kz_event.tx (cobs_frame ([0x51, K.rx_mem.getD 1 0, 0x00, 0x00]
          ++ (K2.tx_mem.drop 5).take (K2.putptr - 5)))]) ∧
        K3.putptr = KZ_TX_PAYLOAD_START) := by
  have hdec := rx_decode_complete K hs hc
  have hh : (rx_decode K 0).1.handlers = K.handlers := by rw [hdec]
  have hreq := handle_request_registered cb (rx_decode K 0).1 K2 (K.rx_mem.getD 1 0)
    (K.rx_mem.getD 2 0) status events hchan (by rw [hh]; exact hreg) (by rw [hh]; exact hcall)
  rw [hh] at hreq
  have htick := kz_tick_byte_request cb K hs hc hsize hkind
  rw [hreq] at htick
  constructor
  · intro hst
    rw [htick, if_neg (fun h => h hst)]
  · intro hst htx h5 hmtu hend hmem
    obtain ⟨r, hr, hsent, hK, _⟩ := tx_with_header K2 KZ_HEADER_REPLY (K.rx_mem.getD 1 0)
      0x00 0x00 htx h5 hmtu hend hmem
    rw [← send_reply_eq K2 (K.rx_mem.getD 1 0) status] at hr
    rw [if_pos hst, Nat.mod_eq_of_lt hreqid, hr] at htick
    refine ⟨r.K, ?_, by rw [hK]⟩
    rw [htick]
    show some (r.K, _ :: events ++ [kz_event.tx r.sent]) = _
    rw [hsent]
    rfl

/-- Instance of C20: the request `50 FF 01 00` for channel 1, whose handler
stores the integer 300 and returns `KZ_OK`; the reply carries request id `0xFF`
and the payload `89 01 2C`. -/
theorem reply_emission_witness :
    (kz_request_status_t.KZ_OK = kz_request_status_t.KZ_IGNORE →
      kz_tick_byte sample_callbacks sample_rx_request 0x00 = some (sample_rx_request_handled,
        kz_event.request_callback
          (sample_rx_request.handlers.getD (sample_rx_request.rx_mem.getD 2 0)
            no_handler).callback
          (sample_rx_request.handlers.getD (sample_rx_request.rx_mem.getD 2 0)
            no_handler).userdata :: [])) ∧
    (kz_request_status_t.KZ_OK ≠ kz_request_status_t.KZ_IGNORE →
      sample_rx_request_handled.tx ≠ 0 → 5 ≤ sample_rx_request_handled.putptr →
      sample_rx_request_handled.putptr ≤ 255 →
      sample_rx_request_handled.putptr + 1 ≤ sample_rx_request_handled.tx_buffer_end →
      sample_rx_request_handled.tx_buffer_end ≤ sample_rx_request_handled.tx_mem.length →
      ∃ K3, kz_tick_byte sample_callbacks sample_rx_request 0x00 = some (K3,
        kz_event.request_callback
          (sample_rx_request.handlers.getD (sample_rx_request.rx_mem.getD 2 0)
            no_handler).callback
          (sample_rx_request.handlers.getD (sample_rx_request.rx_mem.getD 2 0)
            no_handler).userdata :: []
        ++ [kz_event.tx (cobs_frame ([0x51, sample_rx_request.rx_mem.getD 1 0, 0x00, 0x00]
          ++ (sample_rx_request_handled.tx_mem.drop 5).take
            (sample_rx_request_handled.putptr - 5)))]) ∧
        K3.putptr = KZ_TX_PAYLOAD_START) :=
  reply_emission sample_callbacks sample_rx_request sample_rx_request_handled
    kz_request_status_t.KZ_OK [] (by decide) (by decide) (by decide) (by decide) (by decide)
    (by decide) (by decide) (by decide)

/-- The frames of the instance of C20, evaluated: the handler is called, then
the reply `51 FF 00 00 89 01 2C` leaves as the COBS frame
`03 51 FF 01 04 89 01 2C 00`. -/
theorem reply_emission_example :
    (kz_tick_byte sample_callbacks sample_rx_request 0x00).map (fun r => r.2)
      = some [kz_event.request_callback 1 7,
          kz_event.tx [0x03, 0x51, 0xFF, 0x01, 0x04, 0x89, 0x01, 0x2C, 0x00]] := by
  decide

/-! ## Dropped frames -/

/-- When `rx_decode` returns non-zero, the byte was `0x00`, the decoder was in
`DECODE` with `rx_count = 0`, and nothing but the decoder state changes. -/
theorem rx_decode_done (K : kz_endpoint_t) (byte : Nat) (hdone : (rx_decode K byte).2 ≠ 0) :
    (rx_decode K byte).1 = { K with rx_state := kz_cobs_rx_state_t.KZ_RX_IDLE } ∧
    byte = 0 ∧ K.rx_state = kz_cobs_rx_state_t.KZ_RX_DECODE ∧ K.rx_count = 0 := by
  unfold rx_decode at hdone ⊢
  cases hs : K.rx_state
  · rw [hs] at hdone
    by_cases hb : byte = 0 <;> simp [hb] at hdone
  · rw [hs] at hdone
    by_cases hb : byte = 0 <;> simp [hb] at hdone
  · rw [hs] at hdone
    by_cases hb : byte = 0
    · by_cases hc : K.rx_count = 0
      · simp [hb, hc]
      · simp [hb, hc] at hdone
    · by_cases hp : K.rx_buffer_pos ≥ K.rx_buffer_end
      · simp [hb, hp] at hdone
      · by_cases hc : K.rx_count = 0 <;> simp [hb, hp, hc] at hdone

/-- The loop body of `kz_tick` on a byte for which `rx_decode` reports a
finished frame: the dispatch on the frame held in the rx buffer. -/
theorem kz_tick_byte_done (cb : kz_callbacks) (K : kz_endpoint_t) (byte : Nat)
    (hdone : (rx_decode K byte).2 ≠ 0) :
    kz_tick_byte cb K byte =
      if 4 ≤ K.rx_buffer_pos then
        if K.rx_mem.getD 0 0 = KZ_HEADER_REQUEST then
          handle_request cb (rx_decode K byte).1 (K.rx_mem.getD 1 0) (K.rx_mem.getD 2 0)
        else if K.rx_mem.getD 0 0 = KZ_HEADER_REPLY then
          handle_reply cb (rx_decode K byte).1 (K.rx_mem.getD 1 0)
        else some ((rx_decode K byte).1, [])
      else some ((rx_decode K byte).1, []) := by
  obtain ⟨hK, _, _, _⟩ := rx_decode_done K byte hdone
  unfold kz_tick_byte
  simp only [if_pos hdone]
  rw [hK]
  rfl

/-- What `handle_reply` does when the request id names no active slot. -/
theorem handle_reply_unmatched (cb : kz_callbacks) (K : kz_endpoint_t) (reqid : Nat)
    (hun : 16 ≤ reqid ∨ (K.local_requests.getD reqid free_request).callback = 0) :
    handle_reply cb K reqid = some (K, []) := by
  unfold handle_reply
  rcases hun with h | h
  · have h2 : ¬ reqid < KZ_MAX_LOCAL_REQUESTS := by
      show ¬ reqid < 16
      omega
    simp only [if_neg h2]
  · simp only [h, ne_eq, not_true_eq_false, if_false, ite_self]

/-- What `handle_request` does when the channel id names no handler. -/
theorem handle_request_unregistered (cb : kz_callbacks) (K : kz_endpoint_t)
    (reqid channelid : Nat)
    (hun : 32 ≤ channelid ∨ (K.handlers.getD channelid no_handler).callback = 0) :
    handle_request cb K reqid channelid = some (K, []) := by
  unfold handle_request
  rcases hun with h | h
  · have h2 : ¬ channelid < KZ_MAX_CHANNELS := by
      show ¬ channelid < 32
      omega
    simp only [if_neg h2]
  · simp only [h, ne_eq, not_true_eq_false, if_false, ite_self]

/-- C23 (unmatched reply). When the loop of `kz_tick` takes a byte on which
`rx_decode` reports a finished frame, and the frame in the rx buffer is a REPLY
(`frame[0] = 0x51`) whose request id `frame[1]` is 16 or more (`0xFF`
included) or names a slot whose callback is null, then no callback is invoked
and nothing is transmitted (the step causes no event), and the endpoint
afterwards is the endpoint before with only the decoder state set to `IDLE`:
the pending-request pool is unchanged. -/
theorem unmatched_reply_dropped (cb : kz_callbacks) (K : kz_endpoint_t) (byte : Nat)
    (hdone : (rx_decode K byte).2 ≠ 0) (hkind : K.rx_mem.getD 0 0 = KZ_HEADER_REPLY)
    (hun : 16 ≤ K.rx_mem.getD 1 0 ∨
      (K.local_requests.getD (K.rx_mem.getD 1 0) free_request).callback = 0) :
    kz_tick_byte cb K byte
      = some ({ K with rx_state := kz_cobs_rx_state_t.KZ_RX_IDLE }, []) ∧
    ∀ K2 events, kz_tick_byte cb K byte = some (K2, events) →
      events = [] ∧ K2.local_requests = K.local_requests := by
  obtain ⟨hK, _, _, _⟩ := rx_decode_done K byte hdone
  have hnreq : ¬ K.rx_mem.getD 0 0 = KZ_HEADER_REQUEST := by
    rw [hkind]
    decide
  have hrep := handle_reply_unmatched cb (rx_decode K byte).1 (K.rx_mem.getD 1 0)
    (by rw [hK]; exact hun)
  have hmain : kz_tick_byte cb K byte
      = some ({ K with rx_state := kz_cobs_rx_state_t.KZ_RX_IDLE }, []) := by
    rw [kz_tick_byte_done cb K byte hdone, if_neg hnreq, if_pos hkind, hrep, hK]
    simp only [ite_self]
  refine ⟨hmain, ?_⟩
  intro K2 events h
  rw [hmain] at h
  simp only [Option.some.injEq, Prod.mk.injEq] at h
  obtain ⟨h1, h2⟩ := h
  subst h1 h2
  exact ⟨rfl, rfl⟩

/-- Instance of C23: the reply `51 FF 00 00` arrives while slot 0 is active. -/
theorem unmatched_reply_dropped_witness :
    kz_tick_byte sample_callbacks sample_rx_reply_ff 0x00
      = some ({ sample_rx_reply_ff with rx_state := kz_cobs_rx_state_t.KZ_RX_IDLE }, []) ∧
    ∀ K2 events, kz_tick_byte sample_callbacks sample_rx_reply_ff 0x00 = some (K2, events) →
      events = [] ∧ K2.local_requests = sample_rx_reply_ff.local_requests :=
  unmatched_reply_dropped sample_callbacks sample_rx_reply_ff 0x00 (by decide) (by decide)
    (by decide)

/-- C24 (unregistered channel). When the loop of `kz_tick` takes a byte on
which `rx_decode` reports a finished frame, and the frame in the rx buffer is a
REQUEST (`frame[0] = 0x50`) whose channel id `frame[2]` is 32 or more or names
a channel whose handler callback is null, then no handler is invoked and `tx`
is not called (the step causes no event), and the endpoint afterwards is the
endpoint before with only the decoder state set to `IDLE`: handler table,
pending-request pool and put-cursor are unchanged. -/
theorem unregistered_channel_dropped (cb : kz_callbacks) (K : kz_endpoint_t) (byte : Nat)
    (hdone : (rx_decode K byte).2 ≠ 0) (hkind : K.rx_mem.getD 0 0 = KZ_HEADER_REQUEST)
    (hun : 32 ≤ K.rx_mem.getD 2 0 ∨
      (K.handlers.getD (K.rx_mem.getD 2 0) no_handler).callback = 0) :
    kz_tick_byte cb K byte
      = some ({ K with rx_state := kz_cobs_rx_state_t.KZ_RX_IDLE }, []) ∧
    ∀ K2 events, kz_tick_byte cb K byte = some (K2, events) →
      events = [] ∧ K2.handlers = K.handlers ∧ K2.local_requests = K.local_requests ∧
      K2.putptr = K.putptr ∧ K2.tx_mem = K.tx_mem := by
  obtain ⟨hK, _, _, _⟩ := rx_decode_done K byte hdone
  have hreq := handle_request_unregistered cb (rx_decode K byte).1 (K.rx_mem.getD 1 0)
    (K.rx_mem.getD 2 0) (by rw [hK]; exact hun)
  have hmain : kz_tick_byte cb K byte
      = some ({ K with rx_state := kz_cobs_rx_state_t.KZ_RX_IDLE }, []) := by
    rw [kz_tick_byte_done cb K byte hdone, if_pos hkind, hreq, hK]
    simp only [ite_self]
  refine ⟨hmain, ?_⟩
  intro K2 events h
  rw [hmain] at h
  simp only [Option.some.injEq, Prod.mk.injEq] at h
  obtain ⟨h1, h2⟩ := h
  subst h1 h2
  exact ⟨rfl, rfl, rfl, rfl, rfl⟩

/-- Instance of C24: the request `50 00 03 00` for channel 3 arrives at an
endpoint whose only handler is on channel 1. -/
theorem unregistered_channel_dropped_witness :
    kz_tick_byte sample_callbacks sample_rx_request_unregistered 0x00
      = some ({ sample_rx_request_unregistered with
          rx_state := kz_cobs_rx_state_t.KZ_RX_IDLE }, []) ∧
    ∀ K2 events,
      kz_tick_byte sample_callbacks sample_rx_request_unregistered 0x00 = some (K2, events) →
      events = [] ∧ K2.handlers = sample_rx_request_unregistered.handlers ∧
      K2.local_requests = sample_rx_request_unregistered.local_requests ∧
      K2.putptr = sample_rx_request_unregistered.putptr ∧
      K2.tx_mem = sample_rx_request_unregistered.tx_mem :=
  unregistered_channel_dropped sample_callbacks sample_rx_request_unregistered 0x00
    (by decide) (by decide) (by decide)

/-- C25 (malformed frames). When the loop of `kz_tick` takes a byte on which
`rx_decode` reports a finished frame, and the decoded length
`rx_buffer_pos - rx_buffer` is below 4 or the first byte of the frame is
neither `0x50` nor `0x51`, then no request handler and no reply callback is
invoked and nothing is transmitted (the step causes no event), and the endpoint
afterwards is the endpoint before with only the decoder state set to `IDLE`:
handler table and pending-request pool are unchanged. -/
theorem malformed_frame_dropped (cb : kz_callbacks) (K : kz_endpoint_t) (byte : Nat)
    (hdone : (rx_decode K byte).2 ≠ 0)
    (hmal : K.rx_buffer_pos < 4 ∨
      (K.rx_mem.getD 0 0 ≠ 0x50 ∧ K.rx_mem.getD 0 0 ≠ 0x51)) :
    kz_tick_byte cb K byte
      = some ({ K with rx_state := kz_cobs_rx_state_t.KZ_RX_IDLE }, []) ∧
    ∀ K2 events, kz_tick_byte cb K byte = some (K2, events) →
      events = [] ∧ K2.handlers = K.handlers ∧ K2.local_requests = K.local_requests := by
  obtain ⟨hK, _, _, _⟩ := rx_decode_done K byte hdone
  have hmain : kz_tick_byte cb K byte
      = some ({ K with rx_state := kz_cobs_rx_state_t.KZ_RX_IDLE }, []) := by
    rw [kz_tick_byte_done cb K byte hdone, hK]
    rcases hmal with h | ⟨h1, h2⟩
    · rw [if_neg (by omega)]
    · have h1b : ¬ K.rx_mem.getD 0 0 = KZ_HEADER_REQUEST := h1
      have h2b : ¬ K.rx_mem.getD 0 0 = KZ_HEADER_REPLY := h2
      rw [if_neg h1b, if_neg h2b]
      simp only [ite_self]
  refine ⟨hmain, ?_⟩
  intro K2 events h
  rw [hmain] at h
  simp only [Option.some.injEq, Prod.mk.injEq] at h
  obtain ⟨h1, h2⟩ := h
  subst h1 h2
  exact ⟨rfl, rfl, rfl⟩

/-- Instance of C25: the three-byte frame `50 00 01` arrives at an endpoint
with a handler on channel 1 and an active request slot. -/
theorem malformed_frame_dropped_witness :
    kz_tick_byte sample_callbacks sample_rx_short 0x00
      = some ({ sample_rx_short with rx_state := kz_cobs_rx_state_t.KZ_RX_IDLE }, []) ∧
    ∀ K2 events, kz_tick_byte sample_callbacks sample_rx_short 0x00 = some (K2, events) →
      events = [] ∧ K2.handlers = sample_rx_short.handlers ∧
      K2.local_requests = sample_rx_short.local_requests :=
  malformed_frame_dropped sample_callbacks sample_rx_short 0x00 (by decide)
    (Or.inl (by decide))

/-! ## Handler registration -/

/-- C26 (`kz_handle`). On an endpoint whose handler table has its 32 entries,
`kz_handle` returns 1 if `channelid < 32` and 0 otherwise (so it returns 1 if
and only if `channelid < 32`). On success the entry `handlers[channelid]` is
exactly (callback, userdata) whatever it was before, every other entry of the
table is unchanged and so is every other field of the endpoint; on failure the
endpoint, the handler table included, is unchanged. -/
theorem kz_handle_registration (K : kz_endpoint_t) (channelid callback userdata : Nat)
    (hlen : K.handlers.length = 32) :
    ((kz_handle K channelid callback userdata).2 = 1 ↔ channelid < 32) ∧
    (¬ channelid < 32 → (kz_handle K channelid callback userdata).2 = 0) ∧
    (channelid < 32 →
      (kz_handle K channelid callback userdata).1.handlers.getD channelid no_handler
        = { callback := callback, userdata := userdata } ∧
      (∀ j, j ≠ channelid →
        (kz_handle K channelid callback userdata).1.handlers.getD j no_handler
          = K.handlers.getD j no_handler) ∧
      (kz_handle K channelid callback userdata).1.handlers.length = 32 ∧
      (kz_handle K channelid callback userdata).1
        = { K with handlers := (kz_handle K channelid callback userdata).1.handlers }) ∧
    (¬ channelid < 32 → (kz_handle K channelid callback userdata).1 = K) := by
  by_cases h : channelid < 32
  · have hc : channelid < KZ_MAX_CHANNELS := h
    have hstep : kz_handle K channelid callback userdata =
        ({ K with handlers := K.handlers.set channelid ⟨callback, userdata⟩ }, 1) := by
      unfold kz_handle
      simp only [if_pos hc]
    rw [hstep]
    refine ⟨⟨fun _ => h, fun _ => rfl⟩, fun hn => absurd h hn, fun _ => ⟨?_, ?_, ?_, rfl⟩,
      fun hn => absurd h hn⟩
    · show (K.handlers.set channelid _).getD channelid no_handler = _
      rw [List.getD_eq_getElem?_getD, List.getElem?_set_self (by omega)]
      rfl
    · intro j hj
      show (K.handlers.set channelid _).getD j no_handler = _
      rw [List.getD_eq_getElem?_getD, List.getD_eq_getElem?_getD,
        List.getElem?_set_ne (fun e => hj e.symm)]
    · show (K.handlers.set channelid _).length = 32
      rw [List.length_set, hlen]
  · have hc : ¬ channelid < KZ_MAX_CHANNELS := h
    have hstep : kz_handle K channelid callback userdata = (K, 0) := by
      unfold kz_handle
      simp only [if_neg hc]
    rw [hstep]
    exact ⟨⟨fun h1 => absurd (show (0 : Nat) = 1 from h1) Nat.zero_ne_one, fun h1 => absurd h1 h⟩,
      fun _ => rfl,
      fun h1 => absurd h1 h, fun _ => rfl⟩

/-- Instance of C26: channel 5, which already has a handler, gets handler 9
with userdata 8. -/
theorem kz_handle_registration_witness :
    ((kz_handle sample_handlers 5 9 8).2 = 1 ↔ 5 < 32) ∧
    (¬ 5 < 32 → (kz_handle sample_handlers 5 9 8).2 = 0) ∧
    (5 < 32 →
      (kz_handle sample_handlers 5 9 8).1.handlers.getD 5 no_handler
        = { callback := 9, userdata := 8 } ∧
      (∀ j, j ≠ 5 →
        (kz_handle sample_handlers 5 9 8).1.handlers.getD j no_handler
          = sample_handlers.handlers.getD j no_handler) ∧
      (kz_handle sample_handlers 5 9 8).1.handlers.length = 32 ∧
      (kz_handle sample_handlers 5 9 8).1
        = { sample_handlers with handlers := (kz_handle sample_handlers 5 9 8).1.handlers }) ∧
    (¬ 5 < 32 → (kz_handle sample_handlers 5 9 8).1 = sample_handlers) :=
  kz_handle_registration sample_handlers 5 9 8 (by decide)

/-! ## The status of a handler and the wire -/

/-- What `handle_reply` does when the request id names an active slot, given
what the callback does. -/
theorem handle_reply_matched (cb : kz_callbacks) (K K2 : kz_endpoint_t) (reqid : Nat)
    (events : List kz_event) (hj : reqid < 16)
    (hact : (K.local_requests.getD reqid free_request).callback ≠ 0)
    (hcall : cb.reply (K.local_requests.getD reqid free_request).callback
      (K.local_requests.getD reqid free_request).userdata kz_request_status_t.KZ_OK
      (kz_getreset K) = some (K2, events)) :
    handle_reply cb K reqid =
      some ({ K2 with local_requests := K2.local_requests.set reqid free_request },
        kz_event.reply_callback (K.local_requests.getD reqid free_request).callback
          (K.local_requests.getD reqid free_request).userdata kz_request_status_t.KZ_OK
          :: events) := by
  have hj2 : reqid < KZ_MAX_LOCAL_REQUESTS := hj
  have hcall2 : cb.reply (K.local_requests.getD reqid free_request).callback
      (K.local_requests.getD reqid free_request).userdata kz_request_status_t.KZ_OK
      { K with getptr := KZ_RX_PAYLOAD_START } = some (K2, events) := hcall
  unfold handle_reply
  simp only [if_pos hj2, if_pos hact, hcall2]

/-- C30 (the status is not carried on the wire). Take the byte on which
`rx_decode` reports a finished REQUEST frame of at least 4 bytes for a
registered channel, and two runs of the loop body of `kz_tick` on it whose
handlers do the same (same endpoint `K2` afterwards, same events of their own)
but return two statuses `st1`, `st2` other than `KZ_IGNORE`. When `K2` is an
endpoint on which a frame can be sent, both runs give the same endpoint and
the same events, ending with the same transmitted REPLY frame, the COBS frame
of `[0x51, request id, 0, 0]` and the put region: no byte of it depends on the
status. On the receiving side, whenever `handle_reply` invokes a reply callback
(the request id names an active slot) it passes the status `KZ_OK`, and the
recorded call carries `KZ_OK`. -/
theorem status_not_on_wire (cb1 cb2 cb : kz_callbacks) (K K2 R R2 : kz_endpoint_t)
    (byte reqid : Nat) (st1 st2 : kz_request_status_t) (events revents : List kz_event)
    (hdone : (rx_decode K byte).2 ≠ 0) (hsize : 4 ≤ K.rx_buffer_pos)
    (hkind : K.rx_mem.getD 0 0 = KZ_HEADER_REQUEST)
    (hreqid : K.rx_mem.getD 1 0 < 256) (hchan : K.rx_mem.getD 2 0 < KZ_MAX_CHANNELS)
    (hreg : (K.handlers.getD (K.rx_mem.getD 2 0) no_handler).callback ≠ 0)
    (hcall1 : cb1.request (K.handlers.getD (K.rx_mem.getD 2 0) no_handler).callback
      (K.handlers.getD (K.rx_mem.getD 2 0) no_handler).userdata
      (kz_getreset (rx_decode K byte).1) = some (K2, st1, events))
    (hcall2 : cb2.request (K.handlers.getD (K.rx_mem.getD 2 0) no_handler).callback
      (K.handlers.getD (K.rx_mem.getD 2 0) no_handler).userdata
      (kz_getreset (rx_decode K byte).1) = some (K2, st2, events))
    (hst1 : st1 ≠ kz_request_status_t.KZ_IGNORE) (hst2 : st2 ≠ kz_request_status_t.KZ_IGNORE)
    (htx : K2.tx ≠ 0) (h5 : 5 ≤ K2.putptr) (hmtu : K2.putptr ≤ 255)
    (hend : K2.putptr + 1 ≤ K2.tx_buffer_end) (hmem : K2.tx_buffer_end ≤ K2.tx_mem.length)
    (hj : reqid < 16) (hact : (R.local_requests.getD reqid free_request).callback ≠ 0)
    (hreply : cb.reply (R.local_requests.getD reqid free_request).callback
      (R.local_requests.getD reqid free_request).userdata kz_request_status_t.KZ_OK
      (kz_getreset R) = some (R2, revents)) :
    (∃ K3, kz_tick_byte cb1 K byte = some (K3,
        kz_event.request_callback (K.handlers.getD (K.rx_mem.getD 2 0) no_handler).callback
          (K.handlers.getD (K.rx_mem.getD 2 0) no_handler).userdata :: events
        ++ [kz_event.tx (cobs_frame ([0x51, K.rx_mem.getD 1 0, 0x00, 0x00]
          ++ (K2.tx_mem.drop 5).take (K2.putptr - 5)))]) ∧
      kz_tick_byte cb2 K byte = kz_tick_byte cb1 K byte) ∧
    (∀ s1 s2, send_reply K2 (K.rx_mem.getD 1 0) s1 = send_reply K2 (K.rx_mem.getD 1 0) s2) ∧
    handle_reply cb R reqid =
      some ({ R2 with local_requests := R2.local_requests.set reqid free_request },
        kz_event.reply_callback (R.local_requests.getD reqid free_request).callback
          (R.local_requests.getD reqid free_request).userdata kz_request_status_t.KZ_OK
          :: revents) := by
  obtain ⟨hK, _, _, _⟩ := rx_decode_done K byte hdone
  have hh : (rx_decode K byte).1.handlers = K.handlers := by rw [hK]
  have hreq1 := handle_request_registered cb1 (rx_decode K byte).1 K2 (K.rx_mem.getD 1 0)
    (K.rx_mem.getD 2 0) st1 events hchan (by rw [hh]; exact hreg) (by rw [hh]; exact hcall1)
  have hreq2 := handle_request_registered cb2 (rx_decode K byte).1 K2 (K.rx_mem.getD 1 0)
    (K.rx_mem.getD 2 0) st2 events hchan (by rw [hh]; exact hreg) (by rw [hh]; exact hcall2)
  rw [hh, if_pos hst1, Nat.mod_eq_of_lt hreqid, send_reply_eq] at hreq1
  rw [hh, if_pos hst2, Nat.mod_eq_of_lt hreqid, send_reply_eq] at hreq2
  have ht1 : kz_tick_byte cb1 K byte = handle_request cb1 (rx_decode K byte).1
      (K.rx_mem.getD 1 0) (K.rx_mem.getD 2 0) := by
    rw [kz_tick_byte_done cb1 K byte hdone, if_pos hsize, if_pos hkind]
  have ht2 : kz_tick_byte cb2 K byte = handle_request cb2 (rx_decode K byte).1
      (K.rx_mem.getD 1 0) (K.rx_mem.getD 2 0) := by
    rw [kz_tick_byte_done cb2 K byte hdone, if_pos hsize, if_pos hkind]
  obtain ⟨r, hr, hsent, hrK, _⟩ := tx_with_header K2 KZ_HEADER_REPLY (K.rx_mem.getD 1 0)
    0x00 0x00 htx h5 hmtu hend hmem
  refine ⟨⟨r.K, ?_, ?_⟩, fun s1 s2 => rfl, handle_reply_matched cb R R2 reqid revents hj hact
    hreply⟩
  · rw [ht1, hreq1, hr]
    show some (r.K, _ :: events ++ [kz_event.tx r.sent]) = _
    rw [hsent]
    rfl
  · rw [ht1, ht2, hreq1, hreq2]

/-- Instance of C30: the request `50 FF 01 00` for channel 1, whose handler
stores the integer 300 and returns `KZ_OK` in one run and `KZ_BUSY` in the
other; a reply for slot 0 of an endpoint where that slot is active. -/
theorem status_not_on_wire_witness :
    (∃ K3, kz_tick_byte sample_callbacks sample_rx_request 0x00 = some (K3,
        kz_event.request_callback
          (sample_rx_request.handlers.getD (sample_rx_request.rx_mem.getD 2 0)
            no_handler).callback
          (sample_rx_request.handlers.getD (sample_rx_request.rx_mem.getD 2 0)
            no_handler).userdata :: []
        ++ [kz_event.tx (cobs_frame ([0x51, sample_rx_request.rx_mem.getD 1 0, 0x00, 0x00]
          ++ (sample_rx_request_handled.tx_mem.drop 5).take
            (sample_rx_request_handled.putptr - 5)))]) ∧
      kz_tick_byte sample_callbacks_busy sample_rx_request 0x00
        = kz_tick_byte sample_callbacks sample_rx_request 0x00) ∧
    (∀ s1 s2, send_reply sample_rx_request_handled (sample_rx_request.rx_mem.getD 1 0) s1
      = send_reply sample_rx_request_handled (sample_rx_request.rx_mem.getD 1 0) s2) ∧
    handle_reply sample_callbacks sample_put_pending 0 =
      some ({ kz_getreset sample_put_pending with
          local_requests := (kz_getreset sample_put_pending).local_requests.set 0 free_request },
        kz_event.reply_callback (sample_put_pending.local_requests.getD 0 free_request).callback
          (sample_put_pending.local_requests.getD 0 free_request).userdata
          kz_request_status_t.KZ_OK :: []) :=
  status_not_on_wire sample_callbacks sample_callbacks_busy sample_callbacks sample_rx_request
    sample_rx_request_handled sample_put_pending (kz_getreset sample_put_pending) 0x00 0
    kz_request_status_t.KZ_OK kz_request_status_t.KZ_BUSY [] [] (by decide) (by decide)
    (by decide) (by decide) (by decide) (by decide) (by decide) (by decide) (by decide)
    (by decide) (by decide) (by decide) (by decide) (by decide) (by decide) (by decide)
    (by decide) (by decide)

/-! ## Lemmas on the receive loop of `kz_tick` -/

/-- The decoder touches nothing but the rx buffer content, the write position
and its own state. -/
theorem rx_decode_keeps (K : kz_endpoint_t) (byte : Nat) :
    (rx_decode K byte).1.tx_mem = K.tx_mem ∧
    (rx_decode K byte).1.tx_buffer_end = K.tx_buffer_end ∧
    (rx_decode K byte).1.getptr = K.getptr ∧
    (rx_decode K byte).1.putptr = K.putptr ∧
    (rx_decode K byte).1.rx = K.rx ∧
    (rx_decode K byte).1.tx = K.tx ∧
    (rx_decode K byte).1.handlers = K.handlers ∧
    (rx_decode K byte).1.local_requests = K.local_requests := by
  unfold rx_decode
  cases K.rx_state
  · by_cases hb : byte = 0 <;> simp [hb]
  · by_cases hb : byte = 0 <;> simp [hb]
  · by_cases hb : byte = 0
    · simp [hb]
    · by_cases hp : K.rx_buffer_pos ≥ K.rx_buffer_end
      · simp [hb, hp]
      · by_cases hc : K.rx_count = 0 <;> simp [hb, hp, hc]

theorem kz_tick_rx_cons (cb : kz_callbacks) (K : kz_endpoint_t) (b : Nat) (bs : List Nat) :
    kz_tick_rx cb K (b :: bs) =
      match kz_tick_byte cb K b with
      | none => none
      | some (K, events) =>
        match kz_tick_rx cb K bs with
        | none => none
        | some (K, rest) => some (K, events ++ rest) := rfl

theorem getD_set_any {α : Type} (l : List α) (i j : Nat) (v d : α) :
    (l.set i v).getD j d = if i = j ∧ j < l.length then v else l.getD j d := by
  simp only [List.getD_eq_getElem?_getD, List.getElem?_set]
  by_cases h : i = j
  · subst h
    by_cases h2 : i < l.length
    · simp [h2]
    · simp [h2, List.getElem?_eq_none (Nat.le_of_not_lt h2)]
  · simp [h]

/-- Freeing slot `i` leaves `free_request` at `i` and every other slot as it
was. -/
theorem getD_set_free (l : List kz_local_request_t) (i j : Nat) :
    (l.set i free_request).getD j free_request
      = if i = j then free_request else l.getD j free_request := by
  rw [getD_set_any]
  by_cases h : i = j
  · subst h
    by_cases h2 : i < l.length
    · simp [h2]
    · simp only [h2, and_false, if_false, if_true]
      rw [List.getD_eq_getElem?_getD, List.getElem?_eq_none (Nat.le_of_not_lt h2)]
      rfl
  · simp [h]

/-- The scenario of the instance of C21, evaluated: in one call of `kz_tick`
the frames `03 51 01 01 01 00` (reply to B, slot 1) and `02 51 01 01 01 00`
(reply to A, slot 0) call the callback of B (7, userdata 8), then the callback
of A (5, userdata 6), and the pool is free afterwards. -/
theorem reply_matching_example :
    (kz_tick sample_callbacks sample_two_pending
        [0x03, 0x51, 0x01, 0x01, 0x01, 0x00, 0x02, 0x51, 0x01, 0x01, 0x01, 0x00]).map
      (fun r => (r.1.local_requests, r.2))
      = some (List.replicate 16 free_request,
          [kz_event.reply_callback 7 8 kz_request_status_t.KZ_OK,
           kz_event.reply_callback 5 6 kz_request_status_t.KZ_OK]) := by
  decide

/-! ## Decoder bounds -/

/-- One step of `rx_decode` leaves the rx buffer content as it is or stores one
byte at `rx_buffer_pos`, and that only when `rx_buffer_pos < rx_buffer_end`. -/
theorem rx_decode_write (K : kz_endpoint_t) (byte : Nat) :
    (rx_decode K byte).1.rx_mem = K.rx_mem ∨
    (K.rx_buffer_pos < K.rx_buffer_end ∧
      ∃ v, (rx_decode K byte).1.rx_mem = K.rx_mem.set K.rx_buffer_pos v) := by
  unfold rx_decode
  cases K.rx_state
  · by_cases hb : byte = 0 <;> simp [hb]
  · by_cases hb : byte = 0 <;> simp [hb]
  · by_cases hb : byte = 0
    · simp [hb]
    · by_cases hp : K.rx_buffer_pos ≥ K.rx_buffer_end
      · simp [hb, hp]
      · right
        refine ⟨by omega, ?_⟩
        by_cases hc : K.rx_count = 0
        · exact ⟨0, by simp [hb, hp, hc]⟩
        · exact ⟨byte, by simp [hb, hp, hc]⟩

/-- C28 (decoder bounds). For every endpoint definition (rx buffer of any size
`S = rx_buffer_size`, so also every `S ≥ 16`) and every byte sequence fed to
`rx_decode` from the state that `kz_init_static` leaves: after every byte
`rx_buffer_pos ≤ rx_buffer + S` (offsets are natural numbers, so
`rx_buffer ≤ rx_buffer_pos` holds by construction) and `rx_buffer_end` is still
`rx_buffer + S`; the memory at every index `S` or more is what it was at
initialisation; the next call of `rx_decode`, whatever the byte, either stores
nothing or stores one byte at the index `rx_buffer_pos`, which is then below
`S`; and when that call returns 1 the decoded length
`rx_buffer_pos - rx_buffer` is at most `S`. -/
theorem decoder_bounds (d : kz_endpointdef_t) (bytes : List Nat) (byte : Nat) :
    (rx_feed (kz_init_static d) bytes).1.rx_buffer_pos ≤ d.rx_buffer_size ∧
    (rx_feed (kz_init_static d) bytes).1.rx_buffer_end = d.rx_buffer_size ∧
    (∀ j, d.rx_buffer_size ≤ j →
      (rx_feed (kz_init_static d) bytes).1.rx_mem[j]? = d.rx_buffer[j]?) ∧
    ((rx_decode (rx_feed (kz_init_static d) bytes).1 byte).1.rx_mem
        = (rx_feed (kz_init_static d) bytes).1.rx_mem ∨
      ((rx_feed (kz_init_static d) bytes).1.rx_buffer_pos < d.rx_buffer_size ∧
        ∃ v, (rx_decode (rx_feed (kz_init_static d) bytes).1 byte).1.rx_mem
          = (rx_feed (kz_init_static d) bytes).1.rx_mem.set
              (rx_feed (kz_init_static d) bytes).1.rx_buffer_pos v)) ∧
    ((rx_decode (rx_feed (kz_init_static d) bytes).1 byte).2 = 1 →
      (rx_decode (rx_feed (kz_init_static d) bytes).1 byte).1.rx_buffer_pos - 0
        ≤ d.rx_buffer_size) := by
  have hend0 : (kz_init_static d).rx_buffer_end = d.rx_buffer_size := by
    show 0 + d.rx_buffer_size = d.rx_buffer_size
    omega
  obtain ⟨h1, _, h3, h4⟩ := rx_feed_frame_condition bytes (kz_init_static d)
  rw [hend0] at h1 h3 h4
  have hpos := h4 (Nat.zero_le _)
  refine ⟨hpos, h1, h3, ?_, ?_⟩
  · rcases rx_decode_write (rx_feed (kz_init_static d) bytes).1 byte with h | ⟨hlt, v, hv⟩
    · exact Or.inl h
    · rw [h1] at hlt
      exact Or.inr ⟨hlt, v, hv⟩
  · intro hret
    have hdone : (rx_decode (rx_feed (kz_init_static d) bytes).1 byte).2 ≠ 0 := by
      rw [hret]
      exact Nat.succ_ne_zero 0
    obtain ⟨hK, _, _, _⟩ := rx_decode_done _ byte hdone
    rw [hK]
    show (rx_feed (kz_init_static d) bytes).1.rx_buffer_pos - 0 ≤ _
    omega

/-! ## A timeout during the reception of a frame -/

/-- C29 (code evaluated at the failing input). The frame `02 50 02 01 02 2A 00`
of the request `50 00 01 00 2A` (channel 1, which has a handler) is delivered
across two calls of `kz_tick`: `02 50` in the first, the rest in the second.
When the request pending in slot 0 has 100 ticks left, the second call
completes a frame of 5 bytes, `50 00 01 00 2A`, and the handler of channel 1 is
called and its reply sent. When the pending request times out in the sweep of
the first call, `handle_timeouts` sets `rx_buffer_pos` to `rx_buffer + 4` while
the decoder is in `DECODE`, and the second call completes a frame of 8 bytes,
`50 55 55 55 00 01 00 2A`, which names channel `0x55` and is dropped: length and
bytes of the decoded frame differ, and the request is lost. -/
theorem timeout_disturbs_reception :
    (kz_ticks sample_callbacks sample_timeout_far
        [[0x02, 0x50], [0x02, 0x01, 0x02, 0x2A, 0x00]]).map
      (fun r => (r.1.rx_buffer_pos, r.1.rx_mem.take r.1.rx_buffer_pos, r.2))
      = some (5, [0x50, 0x00, 0x01, 0x00, 0x2A],
          [[], [kz_event.request_callback 1 7,
                kz_event.tx [0x02, 0x51, 0x01, 0x01, 0x04, 0x89, 0x01, 0x2C, 0x00]]]) ∧
    (kz_ticks sample_callbacks sample_timeout_due
        [[0x02, 0x50], [0x02, 0x01, 0x02, 0x2A, 0x00]]).map
      (fun r => (r.1.rx_buffer_pos, r.1.rx_mem.take r.1.rx_buffer_pos, r.2))
      = some (8, [0x50, 0x55, 0x55, 0x55, 0x00, 0x01, 0x00, 0x2A],
          [[kz_event.reply_callback 5 6 kz_request_status_t.KZ_IGNORE], []]) ∧
    ((kz_tick sample_callbacks sample_timeout_due [0x02, 0x50]).map
      (fun r => (r.1.rx_state, r.1.rx_buffer_pos)))
      = some (kz_cobs_rx_state_t.KZ_RX_DECODE, 4) ∧
    ((kz_tick sample_callbacks sample_timeout_far [0x02, 0x50]).map
      (fun r => (r.1.rx_state, r.1.rx_buffer_pos)))
      = some (kz_cobs_rx_state_t.KZ_RX_DECODE, 1) := by
  decide

/-! ## The timeout sweep -/

theorem handle_timeouts_loop_succ (cb : kz_callbacks) (n idx : Nat) (K : kz_endpoint_t) :
    handle_timeouts_loop cb (n + 1) idx K =
      if (K.local_requests.getD idx free_request).callback ≠ 0 then
        if int_dec (K.local_requests.getD idx free_request).timeout_ticks ≤ (0 : Int) then
          match cb.reply (K.local_requests.getD idx free_request).callback
            (K.local_requests.getD idx free_request).userdata kz_request_status_t.KZ_IGNORE
            (timeout_callback_state K idx) with
          | none => none
          | some (K2, events) =>
            match handle_timeouts_loop cb n (idx + 1) (store_request K2 idx free_request) with
            | none => none
            | some (K3, rest) =>
              some (K3, kz_event.reply_callback (K.local_requests.getD idx free_request).callback
                (K.local_requests.getD idx free_request).userdata
                kz_request_status_t.KZ_IGNORE :: events ++ rest)
        else handle_timeouts_loop cb n (idx + 1) (store_request K idx (sweep_slot
          (K.local_requests.getD idx free_request)))
      else handle_timeouts_loop cb n (idx + 1) K := by
  by_cases hcb : (K.local_requests.getD idx free_request).callback ≠ 0
  · by_cases hexp : int_dec (K.local_requests.getD idx free_request).timeout_ticks ≤ (0 : Int)
    · simp only [handle_timeouts_loop, if_pos hcb, if_pos hexp]
      rfl
    · simp only [handle_timeouts_loop, if_pos hcb, if_neg hexp, sweep_slot]
      rfl
  · simp only [handle_timeouts_loop, if_neg hcb]

theorem timeout_events_congr (l1 l2 : List kz_local_request_t) : ∀ n idx,
    (∀ j, idx ≤ j → l1.getD j free_request = l2.getD j free_request) →
    timeout_events l1 n idx = timeout_events l2 n idx := by
  intro n
  induction n with
  | zero => intro idx _; rfl
  | succ n ih =>
    intro idx h
    simp only [timeout_events]
    rw [h idx (Nat.le_refl _), ih (idx + 1) (fun j hj => h j (by omega))]

theorem sweep_slot_free : sweep_slot free_request = free_request := rfl

/-- With reply callbacks that only read, the sweep over the `n` slots from
`idx` on returns, makes the calls `timeout_events`, and turns each of these
slots into its `sweep_slot`. -/
theorem handle_timeouts_loop_read_only (cb : kz_callbacks) (hro : reply_callbacks_read_only cb) :
    ∀ n idx (K : kz_endpoint_t),
    ∃ K2, handle_timeouts_loop cb n idx K = some (K2, timeout_events K.local_requests n idx) ∧
      K2.local_requests.length = K.local_requests.length ∧
      ∀ j, K2.local_requests.getD j free_request =
        if idx ≤ j ∧ j < idx + n then sweep_slot (K.local_requests.getD j free_request)
        else K.local_requests.getD j free_request := by
  intro n
  induction n with
  | zero =>
    intro idx K
    refine ⟨K, rfl, rfl, fun j => ?_⟩
    rw [if_neg (by omega)]
  | succ n ih =>
    intro idx K
    rw [handle_timeouts_loop_succ]
    by_cases hcb : (K.local_requests.getD idx free_request).callback ≠ 0
    · have hidx : idx < K.local_requests.length := by
        by_contra hge
        apply hcb
        rw [List.getD_eq_getElem?_getD, List.getElem?_eq_none (by omega)]
        rfl
      by_cases hexp : int_dec (K.local_requests.getD idx free_request).timeout_ticks ≤ (0 : Int)
      · obtain ⟨g, hg⟩ := hro (K.local_requests.getD idx free_request).callback
          (K.local_requests.getD idx free_request).userdata kz_request_status_t.KZ_IGNORE
          (timeout_callback_state K idx)
        obtain ⟨K2, hloop, hlen, hget⟩ := ih (idx + 1)
          (store_request { timeout_callback_state K idx with getptr := g } idx free_request)
        have hlr : (store_request { timeout_callback_state K idx with getptr := g } idx
            free_request).local_requests
            = (K.local_requests.set idx { (K.local_requests.getD idx free_request) with
                timeout_ticks := int_dec (K.local_requests.getD idx free_request).timeout_ticks
              }).set idx free_request := rfl
        rw [hlr] at hloop hlen hget
        rw [if_pos hcb, if_pos hexp, hg]
        simp only [hloop]
        refine ⟨K2, ?_, ?_, fun j => ?_⟩
        · have hev : timeout_events K.local_requests (n + 1) idx
              = kz_event.reply_callback (K.local_requests.getD idx free_request).callback
                  (K.local_requests.getD idx free_request).userdata
                  kz_request_status_t.KZ_IGNORE
                :: timeout_events K.local_requests n (idx + 1) := by
            simp only [timeout_events, sweep_events, hcb, hexp, ne_eq, not_false_eq_true,
              and_self, if_true, List.singleton_append]
          rw [hev]
          simp only [List.nil_append, List.singleton_append, List.cons_append,
            Option.some.injEq, Prod.mk.injEq, List.cons.injEq, true_and]
          apply timeout_events_congr
          intro j hj
          rw [getD_set_free, if_neg (by omega), getD_set_any, if_neg (by omega)]
        · rw [hlen]
          simp only [List.length_set]
        · have hmid : ∀ k, idx ≠ k →
              ((K.local_requests.set idx { (K.local_requests.getD idx free_request) with
                timeout_ticks := int_dec (K.local_requests.getD idx free_request).timeout_ticks
              }).set idx free_request).getD k free_request
                = K.local_requests.getD k free_request := by
            intro k hk
            rw [getD_set_free, if_neg hk, getD_set_any, if_neg (fun h => hk h.1)]
          rw [hget j]
          by_cases hj : idx = j
          · subst hj
            rw [if_neg (by omega), getD_set_free, if_pos rfl, if_pos (by omega)]
            simp only [sweep_slot, hcb, hexp, ne_eq, not_false_eq_true, if_true]
          · by_cases hr : idx + 1 ≤ j ∧ j < idx + 1 + n
            · rw [if_pos hr, if_pos (by omega), hmid j hj]
            · rw [if_neg hr, if_neg (by omega), hmid j hj]
      · obtain ⟨K2, hloop, hlen, hget⟩ := ih (idx + 1)
          (store_request K idx (sweep_slot (K.local_requests.getD idx free_request)))
        have hlr : (store_request K idx (sweep_slot
            (K.local_requests.getD idx free_request))).local_requests
            = K.local_requests.set idx (sweep_slot (K.local_requests.getD idx free_request)) :=
          rfl
        rw [hlr] at hloop hlen hget
        rw [if_pos hcb, if_neg hexp, hloop]
        refine ⟨K2, ?_, ?_, fun j => ?_⟩
        · have hev : timeout_events K.local_requests (n + 1) idx
              = timeout_events K.local_requests n (idx + 1) := by
            simp only [timeout_events, sweep_events, hexp, and_false, if_false, List.nil_append]
          rw [hev]
          simp only [Option.some.injEq, Prod.mk.injEq, true_and]
          apply timeout_events_congr
          intro j hj
          rw [getD_set_any, if_neg (by omega)]
        · rw [hlen]
          simp only [List.length_set]
        · have hmid : ∀ k, idx ≠ k →
              (K.local_requests.set idx (sweep_slot
                (K.local_requests.getD idx free_request))).getD k free_request
                = K.local_requests.getD k free_request := by
            intro k hk
            rw [getD_set_any, if_neg (fun h => hk h.1)]
          rw [hget j]
          by_cases hj : idx = j
          · subst hj
            rw [if_neg (by omega), getD_set_any, if_pos ⟨rfl, hidx⟩, if_pos (by omega)]
          · by_cases hr : idx + 1 ≤ j ∧ j < idx + 1 + n
            · rw [if_pos hr, if_pos (by omega), hmid j hj]
            · rw [if_neg hr, if_neg (by omega), hmid j hj]
    · obtain ⟨K2, hloop, hlen, hget⟩ := ih (idx + 1) K
      rw [if_neg hcb, hloop]
      have hcb0 : (K.local_requests.getD idx free_request).callback = 0 := by
        by_contra h
        exact hcb h
      refine ⟨K2, ?_, hlen, fun j => ?_⟩
      · have hev : timeout_events K.local_requests (n + 1) idx
            = timeout_events K.local_requests n (idx + 1) := by
          simp only [timeout_events, sweep_events, hcb0, ne_eq, not_true_eq_false, false_and,
            if_false, List.nil_append]
        rw [hev]
      · rw [hget j]
        by_cases hj : idx = j
        · subst hj
          rw [if_neg (by omega), if_pos (by omega)]
          simp only [sweep_slot, hcb0, ne_eq, not_true_eq_false, if_false]
        · by_cases hr : idx + 1 ≤ j ∧ j < idx + 1 + n
          · rw [if_pos hr, if_pos (by omega)]
          · rw [if_neg hr, if_neg (by omega)]

/-! ## Timeout of a pending request -/

/-- A call of `kz_tick` during which `K->rx` delivers nothing, reply callbacks
that only read: the call returns, makes the calls of the sweep, and turns every
slot into its `sweep_slot`. -/
theorem kz_tick_idle (cb : kz_callbacks) (hro : reply_callbacks_read_only cb)
    (K : kz_endpoint_t) :
    ∃ K2, kz_tick cb K [] = some (K2, timeout_events K.local_requests 16 0) ∧
      K2.local_requests.length = K.local_requests.length ∧
      ∀ j, j < 16 →
        K2.local_requests.getD j free_request
          = sweep_slot (K.local_requests.getD j free_request) := by
  obtain ⟨K2, hloop, hlen, hget⟩ := handle_timeouts_loop_read_only cb hro 16 0 K
  refine ⟨K2, ?_, hlen, fun j hj => ?_⟩
  · have hsweep : handle_timeouts cb K
        = some (K2, timeout_events K.local_requests 16 0) := hloop
    unfold kz_tick
    simp only [kz_tick_rx, hsweep, List.nil_append]
  · rw [hget j, if_pos (by omega)]

theorem timeout_events_mem (l : List kz_local_request_t) (c u : Nat)
    (st : kz_request_status_t) : ∀ n idx,
    kz_event.reply_callback c u st ∈ timeout_events l n idx →
    st = kz_request_status_t.KZ_IGNORE ∧
    ∃ j, idx ≤ j ∧ j < idx + n ∧ (l.getD j free_request).callback = c ∧
      (l.getD j free_request).userdata = u := by
  intro n
  induction n with
  | zero =>
    intro idx h
    simp [timeout_events] at h
  | succ n ih =>
    intro idx h
    simp only [timeout_events, List.mem_append] at h
    rcases h with h | h
    · unfold sweep_events at h
      split at h
      · simp only [List.mem_singleton, kz_event.reply_callback.injEq] at h
        obtain ⟨h1, h2, h3⟩ := h
        exact ⟨h3, idx, Nat.le_refl _, by omega, h1.symm, h2.symm⟩
      · simp at h
    · obtain ⟨hst, j, hj1, hj2, hj3, hj4⟩ := ih (idx + 1) h
      exact ⟨hst, j, by omega, by omega, hj3, hj4⟩

theorem timeout_events_add (l : List kz_local_request_t) (a b : Nat) : ∀ idx,
    timeout_events l (a + b) idx = timeout_events l a idx ++ timeout_events l b (idx + a) := by
  induction a with
  | zero =>
    intro idx
    simp [timeout_events]
  | succ a ih =>
    intro idx
    rw [show a + 1 + b = (a + b) + 1 by omega]
    simp only [timeout_events]
    rw [ih (idx + 1), List.append_assoc, show idx + 1 + a = idx + (a + 1) by omega]

theorem sweep_slot_pair (r : kz_local_request_t) (c u : Nat) (hc : c ≠ 0)
    (h1 : (sweep_slot r).callback = c) (h2 : (sweep_slot r).userdata = u) :
    r.callback = c ∧ r.userdata = u := by
  unfold sweep_slot at h1 h2
  split at h1
  · split at h1
    · exact absurd h1.symm hc
    · rename_i hcb hexp
      rw [if_pos hcb, if_neg hexp] at h2
      exact ⟨h1, h2⟩
  · rename_i hcb
    rw [if_neg hcb] at h2
    exact ⟨h1, h2⟩

/-- The calls of a sweep, seen from slot `i`: those of the slots before it,
those of slot `i`, those of the slots after it. -/
theorem timeout_events_split (l : List kz_local_request_t) (i : Nat) (hi : i < 16) :
    timeout_events l 16 0 = timeout_events l i 0
      ++ (sweep_events (l.getD i free_request) ++ timeout_events l (15 - i) (i + 1)) := by
  have h16 : timeout_events l 16 0 = timeout_events l (i + (1 + (15 - i))) 0 := by
    rw [show i + (1 + (15 - i)) = 16 by omega]
  rw [h16, timeout_events_add, timeout_events_add, Nat.zero_add]
  simp only [timeout_events, List.append_nil]

/-- No call for the pair (`c`, `u`) comes from the slots other than `i`. -/
theorem timeout_events_others (K : kz_endpoint_t) (i c u : Nat) (rem : Int) (hi : i < 16)
    (hK : timeout_pending i c u rem K) (st : kz_request_status_t) :
    kz_event.reply_callback c u st ∉ timeout_events K.local_requests i 0 ∧
    kz_event.reply_callback c u st ∉ timeout_events K.local_requests (15 - i) (i + 1) := by
  obtain ⟨_, _, huniq⟩ := hK
  constructor
  · intro h
    obtain ⟨_, j, _, hj2, hj3, hj4⟩ := timeout_events_mem _ c u st _ _ h
    exact huniq j (by omega) (by omega) ⟨hj3, hj4⟩
  · intro h
    obtain ⟨_, j, hj1, hj2, hj3, hj4⟩ := timeout_events_mem _ c u st _ _ h
    exact huniq j (by omega) (by omega) ⟨hj3, hj4⟩

theorem int_dec_pos (x : Int) (h : 1 ≤ x) : int_dec x = x - 1 := by
  unfold int_dec INT32_MIN
  rw [if_neg (by omega)]

/-- A tick without bytes while the request in slot `i` has two or more ticks
left: no call for the pair (`c`, `u`), and the request has one tick less. -/
theorem kz_tick_pending (cb : kz_callbacks) (hro : reply_callbacks_read_only cb)
    (K : kz_endpoint_t) (i c u : Nat) (rem : Int) (hi : i < 16) (hc : c ≠ 0) (hrem : 2 ≤ rem)
    (hK : timeout_pending i c u rem K) :
    ∃ K2 ev, kz_tick cb K [] = some (K2, ev) ∧
      (∀ st, kz_event.reply_callback c u st ∉ ev) ∧ timeout_pending i c u (rem - 1) K2 := by
  obtain ⟨K2, htick, hlen2, hget⟩ := kz_tick_idle cb hro K
  obtain ⟨ho1, ho2⟩ : (∀ st, kz_event.reply_callback c u st
        ∉ timeout_events K.local_requests i 0) ∧
      (∀ st, kz_event.reply_callback c u st
        ∉ timeout_events K.local_requests (15 - i) (i + 1)) :=
    ⟨fun st => (timeout_events_others K i c u rem hi hK st).1,
     fun st => (timeout_events_others K i c u rem hi hK st).2⟩
  obtain ⟨hlen, hslot, huniq⟩ := hK
  have hdec : int_dec rem = rem - 1 := int_dec_pos rem (by omega)
  have hsw : sweep_slot (K.local_requests.getD i free_request)
      = { callback := c, userdata := u, timeout_ticks := rem - 1 } := by
    rw [hslot]
    unfold sweep_slot
    simp only [hdec, ne_eq, hc, not_false_eq_true, if_true]
    rw [if_neg (by omega)]
  have hse : sweep_events (K.local_requests.getD i free_request) = [] := by
    rw [hslot]
    unfold sweep_events
    simp only [hdec]
    rw [if_neg (fun h => by omega)]
  refine ⟨K2, _, htick, ?_, ?_, ?_, ?_⟩
  · intro st hmem
    rw [timeout_events_split _ i hi, hse, List.nil_append, List.mem_append] at hmem
    rcases hmem with h | h
    · exact ho1 st h
    · exact ho2 st h
  · rw [hlen2, hlen]
  · rw [hget i hi, hsw]
  · intro j hj hji hpair
    rw [hget j hj] at hpair
    exact huniq j hj hji (sweep_slot_pair _ c u hc hpair.1 hpair.2)

/-- A tick without bytes while the request in slot `i` has one tick left: one
call for the pair (`c`, `u`), with `KZ_IGNORE`, and slot `i` is free. -/
theorem kz_tick_expiry (cb : kz_callbacks) (hro : reply_callbacks_read_only cb)
    (K : kz_endpoint_t) (i c u : Nat) (hi : i < 16) (hc : c ≠ 0)
    (hK : timeout_pending i c u 1 K) :
    ∃ K2 ev, kz_tick cb K [] = some (K2, ev) ∧
      ev.count (kz_event.reply_callback c u kz_request_status_t.KZ_IGNORE) = 1 ∧
      (∀ st, st ≠ kz_request_status_t.KZ_IGNORE → kz_event.reply_callback c u st ∉ ev) ∧
      K2.local_requests.getD i free_request = free_request := by
  obtain ⟨K2, htick, hlen2, hget⟩ := kz_tick_idle cb hro K
  obtain ⟨ho1, ho2⟩ : (∀ st, kz_event.reply_callback c u st
        ∉ timeout_events K.local_requests i 0) ∧
      (∀ st, kz_event.reply_callback c u st
        ∉ timeout_events K.local_requests (15 - i) (i + 1)) :=
    ⟨fun st => (timeout_events_others K i c u 1 hi hK st).1,
     fun st => (timeout_events_others K i c u 1 hi hK st).2⟩
  obtain ⟨hlen, hslot, huniq⟩ := hK
  have hdec : int_dec 1 = 0 := by decide
  have hsw : sweep_slot (K.local_requests.getD i free_request) = free_request := by
    rw [hslot]
    unfold sweep_slot
    simp only [hdec, ne_eq, hc, not_false_eq_true, if_true, le_refl]
  have hse : sweep_events (K.local_requests.getD i free_request)
      = [kz_event.reply_callback c u kz_request_status_t.KZ_IGNORE] := by
    rw [hslot]
    unfold sweep_events
    simp only [hdec, ne_eq, hc, not_false_eq_true, le_refl, and_self, if_true]
  refine ⟨K2, _, htick, ?_, ?_, ?_⟩
  · rw [timeout_events_split _ i hi, hse, List.count_append, List.count_append,
      List.count_eq_zero.mpr (ho1 _), List.count_eq_zero.mpr (ho2 _)]
    simp
  · intro st hst hmem
    rw [timeout_events_split _ i hi, hse, List.mem_append, List.mem_append] at hmem
    rcases hmem with h | h | h
    · exact ho1 st h
    · simp only [List.mem_singleton, kz_event.reply_callback.injEq, true_and] at h
      exact hst h
    · exact ho2 st h
  · rw [hget i hi, hsw]

theorem kz_ticks_cons (cb : kz_callbacks) (K : kz_endpoint_t) (bytes : List Nat)
    (rest : List (List Nat)) :
    kz_ticks cb K (bytes :: rest) =
      match kz_tick cb K bytes with
      | none => none
      | some (K1, events) =>
        match kz_ticks cb K1 rest with
        | none => none
        | some (K2, more) => some (K2, events :: more) := rfl

/-- Ticks without bytes while the request in slot `i` has more ticks left than
there are ticks: no call for the pair (`c`, `u`), and the request stays, with
as many ticks less. -/
theorem kz_ticks_pending (cb : kz_callbacks) (hro : reply_callbacks_read_only cb)
    (i c u : Nat) (hi : i < 16) (hc : c ≠ 0) : ∀ (t : Nat) (rem : Int) (K : kz_endpoint_t),
    timeout_pending i c u rem K → (t : Int) < rem →
    ∃ Kt evs, kz_ticks cb K (List.replicate t []) = some (Kt, evs) ∧ evs.length = t ∧
      (∀ ev ∈ evs, ∀ st, kz_event.reply_callback c u st ∉ ev) ∧
      timeout_pending i c u (rem - t) Kt := by
  intro t
  induction t with
  | zero =>
    intro rem K hK _
    refine ⟨K, [], rfl, rfl, fun ev hev => by simp at hev, ?_⟩
    simpa using hK
  | succ t ih =>
    intro rem K hK hlt
    obtain ⟨K1, ev1, htick, hno, hK1⟩ := kz_tick_pending cb hro K i c u rem hi hc (by omega) hK
    obtain ⟨Kt, evs, hticks, hlen, hnos, hKt⟩ := ih (rem - 1) K1 hK1 (by omega)
    refine ⟨Kt, ev1 :: evs, ?_, by simp [hlen], ?_, ?_⟩
    · rw [List.replicate_succ, kz_ticks_cons, htick]
      simp only [hticks]
    · intro ev hev st
      rcases List.mem_cons.mp hev with h | h
      · rw [h]
        exact hno st
      · exact hnos ev h st
    · have hcast : rem - ((t + 1 : Nat) : Int) = rem - 1 - (t : Int) := by
        push_cast
        omega
      rw [hcast]
      exact hKt

/-- The timeout as the trace of events shows it, with reply callbacks that only
read. On an endpoint on which `kz_call` succeeds on slot `i` (the
hypotheses of slot allocation: 16 slots, `i` the lowest free one, a put region
that can be sent), with a non-null callback `c`, userdata `u` and
`timeout_ticks = T ≥ 1`, with reply callbacks that only read, and when no
other slot holds the pair (`c`, `u`) (so that a call of `c` with `u` is the
call for slot `i`): `kz_call` returns 1 and stores the request in slot `i`;
after any number `t < T` of calls of `kz_tick` during which no byte is
received, no call of `c` with `u` has been made and slot `i` is still active
with `T - t` ticks left; and the `T`-th call of `kz_tick` returns, calls `c`
with `u` exactly once, with the status `KZ_IGNORE` and with no other status,
and leaves slot `i` free (callback null, userdata null, timeout 0). -/
theorem timeout_read_only (cb : kz_callbacks) (K : kz_endpoint_t) (ch c u T i : Nat)
    (hro : reply_callbacks_read_only cb) (hT : 1 ≤ T) (hc : c ≠ 0)
    (hlen : K.local_requests.length = 16) (hi : i < 16)
    (hfree : (K.local_requests.getD i free_request).callback = 0)
    (hbusy : ∀ j, j < i → (K.local_requests.getD j free_request).callback ≠ 0)
    (huniq : ∀ j, j < 16 → j ≠ i →
      ¬ ((K.local_requests.getD j free_request).callback = c ∧
         (K.local_requests.getD j free_request).userdata = u))
    (htx : K.tx ≠ 0) (h5 : 5 ≤ K.putptr) (hmtu : K.putptr ≤ 255)
    (hend : K.putptr + 1 ≤ K.tx_buffer_end) (hmem : K.tx_buffer_end ≤ K.tx_mem.length) :
    ∃ r, kz_call K ch c u (T : Int) = some r ∧ r.ret = 1 ∧
      r.K.local_requests.getD i free_request
        = { callback := c, userdata := u, timeout_ticks := (T : Int) } ∧
      (∀ t, t < T → ∃ Kt evs, kz_ticks cb r.K (List.replicate t []) = some (Kt, evs) ∧
        evs.length = t ∧ (∀ ev ∈ evs, ∀ st, kz_event.reply_callback c u st ∉ ev) ∧
        Kt.local_requests.getD i free_request
          = { callback := c, userdata := u, timeout_ticks := (T : Int) - (t : Int) } ∧
        (Kt.local_requests.getD i free_request).callback ≠ 0) ∧
      ∃ Kp evs KT ev, kz_ticks cb r.K (List.replicate (T - 1) []) = some (Kp, evs) ∧
        evs.length = T - 1 ∧ (∀ e ∈ evs, ∀ st, kz_event.reply_callback c u st ∉ e) ∧
        kz_tick cb Kp [] = some (KT, ev) ∧
        ev.count (kz_event.reply_callback c u kz_request_status_t.KZ_IGNORE) = 1 ∧
        (∀ st, st ≠ kz_request_status_t.KZ_IGNORE → kz_event.reply_callback c u st ∉ ev) ∧
        KT.local_requests.getD i free_request = free_request := by
  obtain ⟨r, hr, hret, _, hrK, _⟩ :=
    kz_call_alloc K ch c u (T : Int) i hi hfree hbusy htx h5 hmtu hend hmem
  have hreq : r.K.local_requests = K.local_requests.set i
      { callback := c, userdata := u, timeout_ticks := (T : Int) } := by
    rw [hrK]
  have hslot : r.K.local_requests.getD i free_request
      = { callback := c, userdata := u, timeout_ticks := (T : Int) } := by
    rw [hreq, getD_set_any, if_pos ⟨rfl, by omega⟩]
  have hpend : timeout_pending i c u (T : Int) r.K := by
    refine ⟨by rw [hreq, List.length_set, hlen], hslot, ?_⟩
    intro j hj hji
    rw [hreq, getD_set_any, if_neg (fun h => hji h.1.symm)]
    exact huniq j hj hji
  refine ⟨r, hr, hret, hslot, ?_, ?_⟩
  · intro t ht
    obtain ⟨Kt, evs, hticks, hl, hno, hKt⟩ :=
      kz_ticks_pending cb hro i c u hi hc t (T : Int) r.K hpend (by omega)
    refine ⟨Kt, evs, hticks, hl, hno, hKt.2.1, ?_⟩
    rw [hKt.2.1]
    exact hc
  · obtain ⟨Kp, evs, hticks, hl, hno, hKp⟩ :=
      kz_ticks_pending cb hro i c u hi hc (T - 1) (T : Int) r.K hpend (by omega)
    have hone : (T : Int) - ((T - 1 : Nat) : Int) = 1 := by omega
    rw [hone] at hKp
    obtain ⟨KT, ev, htick, hcount, hother, hfreed⟩ := kz_tick_expiry cb hro Kp i c u hi hc hKp
    exact ⟨Kp, evs, KT, ev, hticks, hl, hno, htick, hcount, hother, hfreed⟩

/-- Instance of the timeout in the trace: scenario 3 of the specification, `kz_call` on channel 7
with callback 9 and a timeout of 3 ticks on a fresh 16-byte endpoint, then
ticks without bytes. -/
theorem timeout_read_only_instance :
    ∃ r, kz_call sample_rx 7 9 4 ((3 : Nat) : Int) = some r ∧ r.ret = 1 ∧
      r.K.local_requests.getD 0 free_request
        = { callback := 9, userdata := 4, timeout_ticks := ((3 : Nat) : Int) } ∧
      (∀ t, t < 3 → ∃ Kt evs,
        kz_ticks sample_callbacks r.K (List.replicate t []) = some (Kt, evs) ∧
        evs.length = t ∧ (∀ ev ∈ evs, ∀ st, kz_event.reply_callback 9 4 st ∉ ev) ∧
        Kt.local_requests.getD 0 free_request
          = { callback := 9, userdata := 4, timeout_ticks := ((3 : Nat) : Int) - (t : Int) } ∧
        (Kt.local_requests.getD 0 free_request).callback ≠ 0) ∧
      ∃ Kp evs KT ev,
        kz_ticks sample_callbacks r.K (List.replicate (3 - 1) []) = some (Kp, evs) ∧
        evs.length = 3 - 1 ∧ (∀ e ∈ evs, ∀ st, kz_event.reply_callback 9 4 st ∉ e) ∧
        kz_tick sample_callbacks Kp [] = some (KT, ev) ∧
        ev.count (kz_event.reply_callback 9 4 kz_request_status_t.KZ_IGNORE) = 1 ∧
        (∀ st, st ≠ kz_request_status_t.KZ_IGNORE → kz_event.reply_callback 9 4 st ∉ ev) ∧
        KT.local_requests.getD 0 free_request = free_request :=
  timeout_read_only sample_callbacks sample_rx 7 9 4 3 0 (fun _ _ _ K => ⟨K.getptr, rfl⟩)
    (by decide) (by decide) (by decide) (by decide) (by decide) (by decide) (by decide)
    (by decide) (by decide) (by decide) (by decide) (by decide)

/-- Scenario 3 of the specification, evaluated: the events of three ticks
without bytes after `kz_call(7, 9, 4, 3)`, and the pool after them. -/
theorem timeout_example :
    ((kz_call sample_rx 7 9 4 3).bind
      (fun r => kz_ticks sample_callbacks r.K [[], [], []])).map
      (fun r => (r.1.local_requests, r.2))
      = some (List.replicate 16 free_request,
          [[], [], [kz_event.reply_callback 9 4 kz_request_status_t.KZ_IGNORE]]) := by
  decide

/-! ## The cursor invariant -/

theorem put_byte_inv (d : kz_endpointdef_t) (K : kz_endpoint_t) (b : Nat)
    (h : cursor_inv d K) (hroom : K.putptr + 2 ≤ K.tx_buffer_end) :
    cursor_inv d (put_byte K b) := by
  obtain ⟨h1, h2, h3, h4, h5, h6, h7⟩ := h
  refine ⟨?_, ?_, h3, h4, h5, h6, h7⟩
  · show 5 ≤ K.putptr + 1
    omega
  · show K.putptr + 1 + 1 ≤ K.tx_buffer_end
    omega

theorem kz_putint_inv (d : kz_endpointdef_t) (K : kz_endpoint_t) (v : Int)
    (h : cursor_inv d K) : cursor_inv d (kz_putint K v).1 := by
  have hp : ∀ (K2 : kz_endpoint_t) (b : Nat), (put_byte K2 b).putptr = K2.putptr + 1 :=
    fun _ _ => rfl
  have he : ∀ (K2 : kz_endpoint_t) (b : Nat), (put_byte K2 b).tx_buffer_end = K2.tx_buffer_end :=
    fun _ _ => rfl
  have h2 := h.2.1
  unfold kz_putint
  simp only []
  split
  · split
    · exact h
    · exact put_byte_inv d _ _ h (by omega)
  · split
    · split
      · exact h
      · refine put_byte_inv d _ _ (put_byte_inv d _ _ (put_byte_inv d _ _ h ?_) ?_) ?_ <;>
          first | omega | (simp only [hp, he]; omega)
    · split
      · split
        · exact h
        · refine put_byte_inv d _ _ (put_byte_inv d _ _ (put_byte_inv d _ _
            (put_byte_inv d _ _ (put_byte_inv d _ _ h ?_) ?_) ?_) ?_) ?_ <;>
            first | omega | (simp only [hp, he]; omega)
      · split
        · split
          · exact h
          · refine put_byte_inv d _ _ (put_byte_inv d _ _ (put_byte_inv d _ _
              (put_byte_inv d _ _ (put_byte_inv d _ _ (put_byte_inv d _ _ (put_byte_inv d _ _
              (put_byte_inv d _ _ (put_byte_inv d _ _ h ?_) ?_) ?_) ?_) ?_) ?_) ?_) ?_) ?_ <;>
              first | omega | (simp only [hp, he]; omega)
        · exact h

theorem kz_put_tag_inv (d : kz_endpointdef_t) (K : kz_endpoint_t) (s : kz_string_t)
    (h : cursor_inv d K) :
    cursor_inv d (kz_putstring K s).1 ∧ cursor_inv d (kz_putlistopen K).1 ∧
    cursor_inv d (kz_putlistclose K).1 ∧ cursor_inv d (kz_putnil K).1 ∧
    cursor_inv d (kz_putclear K) := by
  obtain ⟨h1, h2, h3, h4, h5, h6, h7⟩ := h
  unfold kz_putstring kz_putlistopen kz_putlistclose kz_putnil kz_putclear
  simp only []
  refine ⟨?_, ?_, ?_, ?_, ?_⟩
  · split <;> refine ⟨?_, ?_, h3, h4, h5, h6, h7⟩ <;> simp only [put_byte] <;> omega
  · split <;> refine ⟨?_, ?_, h3, h4, h5, h6, h7⟩ <;> simp only [put_byte] <;> omega
  · split <;> refine ⟨?_, ?_, h3, h4, h5, h6, h7⟩ <;> simp only [put_byte] <;> omega
  · split <;> refine ⟨?_, ?_, h3, h4, h5, h6, h7⟩ <;> simp only [put_byte] <;> omega
  · refine ⟨?_, ?_, h3, h4, h5, h6, h7⟩
    · show 5 ≤ KZ_TX_PAYLOAD_START
      decide
    · show KZ_TX_PAYLOAD_START + 1 ≤ K.tx_buffer_end
      have : KZ_TX_PAYLOAD_START = 5 := rfl
      omega

theorem kz_putfloat_inv (d : kz_endpointdef_t) (K : kz_endpoint_t) (v : Nat)
    (hsize : d.tx_buffer_size ≤ 256) (h : cursor_inv d K) :
    cursor_inv d (kz_putfloat K v).1 := by
  obtain ⟨h1, h2, h3, h4, h5, h6, h7⟩ := h
  rw [kz_putfloat_spec K v h2 (by omega)]
  split
  · exact ⟨h1, h2, h3, h4, h5, h6, h7⟩
  · refine ⟨?_, ?_, h3, h4, h5, h6, h7⟩ <;> simp only [put_bytes, List.foldl, put_byte] <;>
      omega

theorem kz_getint_inv (d : kz_endpointdef_t) (K : kz_endpoint_t) (i : Int)
    (h : cursor_inv d K) : cursor_inv d (kz_getint K i).K := by
  obtain ⟨h1, h2, h3, h4, h5, h6, h7⟩ := h
  unfold kz_getint
  simp only []
  repeat' split
  all_goals
    refine ⟨h1, h2, ?_, h4, h5, h6, h7⟩
    first
      | exact h3
      | (dsimp only; omega)

theorem kz_getfloat_inv (d : kz_endpointdef_t) (K : kz_endpoint_t) (f : Nat)
    (h : cursor_inv d K) : cursor_inv d (kz_getfloat K f).K := by
  obtain ⟨h1, h2, h3, h4, h5, h6, h7⟩ := h
  unfold kz_getfloat
  simp only []
  repeat' split
  all_goals
    refine ⟨h1, h2, ?_, h4, h5, h6, h7⟩
    first
      | exact h3
      | (dsimp only; omega)

theorem kz_getnumber_inv (d : kz_endpointdef_t) (K : kz_endpoint_t) (conv : Int → Nat)
    (i : Int) (f : Nat) (h : cursor_inv d K) : cursor_inv d (kz_getnumber conv i K f).K := by
  unfold kz_getnumber
  simp only []
  split
  · exact kz_getfloat_inv d K f h
  · split
    · exact kz_getint_inv d _ i (kz_getfloat_inv d K f h)
    · exact kz_getint_inv d _ i (kz_getfloat_inv d K f h)

theorem kz_getreset_inv (d : kz_endpointdef_t) (K : kz_endpoint_t)
    (hsize : 16 ≤ d.rx_buffer_size) (h : cursor_inv d K) : cursor_inv d (kz_getreset K) := by
  obtain ⟨h1, h2, h3, h4, h5, h6, h7⟩ := h
  refine ⟨h1, h2, ?_, h4, h5, h6, h7⟩
  show KZ_RX_PAYLOAD_START ≤ K.rx_buffer_end
  have : KZ_RX_PAYLOAD_START = 4 := rfl
  omega

theorem kz_handle_inv (d : kz_endpointdef_t) (K : kz_endpoint_t) (ch c u : Nat)
    (h : cursor_inv d K) : cursor_inv d (kz_handle K ch c u).1 := by
  unfold kz_handle
  simp only []
  split
  · exact h
  · exact h

theorem tx_encode_and_send_inv (d : kz_endpointdef_t) (K : kz_endpoint_t)
    (hsize : d.tx_buffer_size ≤ 256) (h : cursor_inv d K) :
    inv_after d tx_result.K (tx_encode_and_send K) := by
  obtain ⟨h1, h2, h3, h4, h5, h6, h7⟩ := h
  unfold tx_encode_and_send
  by_cases htx : K.tx = 0
  · rw [if_pos htx]
    show d.tx = 0
    rw [← h7]
    exact htx
  · have c1 : (K.putptr : Int) - (0 + 1) ≤ (TX_MTU : Int) := by
      simp only [TX_MTU]
      omega
    have c2 : (K.putptr : Int) ≤ (K.tx_buffer_end : Int) - 1 := by omega
    have c3 : ¬ K.putptr < KZ_TX_HEADER_START := by
      show ¬ K.putptr < 1
      omega
    rw [if_neg htx, if_neg (not_not.mpr c1), if_neg (not_not.mpr c2), if_neg c3]
    refine ⟨?_, ?_, h3, h4, h5, h6, h7⟩
    · show 5 ≤ KZ_TX_PAYLOAD_START
      decide
    · show KZ_TX_PAYLOAD_START + 1 ≤ K.tx_buffer_end
      have : KZ_TX_PAYLOAD_START = 5 := rfl
      omega

theorem send_request_inv (d : kz_endpointdef_t) (K : kz_endpoint_t) (reqid channelid : Nat)
    (hsize : d.tx_buffer_size ≤ 256) (h : cursor_inv d K) :
    inv_after d tx_result.K (send_request K reqid channelid) := by
  rw [send_request_eq]
  exact tx_encode_and_send_inv d _ hsize h

theorem send_reply_inv (d : kz_endpointdef_t) (K : kz_endpoint_t) (reqid : Nat)
    (st : kz_request_status_t) (hsize : d.tx_buffer_size ≤ 256) (h : cursor_inv d K) :
    inv_after d tx_result.K (send_reply K reqid st) := by
  rw [send_reply_eq]
  exact tx_encode_and_send_inv d _ hsize h

theorem kz_call_loop_succ (ch cb ud : Nat) (t : Int) (n idx reqid : Nat) (K : kz_endpoint_t) :
    kz_call_loop ch cb ud t (n + 1) idx reqid K =
      if (K.local_requests.getD idx free_request).callback = 0 then
        match send_request (store_request K idx ⟨cb, ud, t⟩) reqid (ch % 256) with
        | none => none
        | some r => some { K := r.K, ret := 1, events := [kz_event.tx r.sent] }
      else kz_call_loop ch cb ud t n (idx + 1) ((reqid + 1) % 256) K := rfl

theorem kz_call_loop_inv (d : kz_endpointdef_t) (ch cb ud : Nat) (t : Int)
    (hsize : d.tx_buffer_size ≤ 256) : ∀ (n idx reqid : Nat) (K : kz_endpoint_t),
    cursor_inv d K → inv_after d call_result.K (kz_call_loop ch cb ud t n idx reqid K) := by
  intro n
  induction n with
  | zero => intro idx reqid K h; exact h
  | succ n ih =>
    intro idx reqid K h
    rw [kz_call_loop_succ]
    split
    · have key := send_request_inv d (store_request K idx ⟨cb, ud, t⟩) reqid (ch % 256) hsize h
      cases hres : send_request (store_request K idx ⟨cb, ud, t⟩) reqid (ch % 256) with
      | none => rw [hres] at key; exact key
      | some r => rw [hres] at key; exact key
    · exact ih _ _ K h

theorem kz_send_inv (d : kz_endpointdef_t) (K : kz_endpoint_t) (ch : Nat)
    (hsize : d.tx_buffer_size ≤ 256) (h : cursor_inv d K) :
    inv_after d (fun r => r.1) (kz_send K ch) := by
  have key := send_request_inv d K 0xFF (ch % 256) hsize h
  unfold kz_send
  cases hres : send_request K 0xFF (ch % 256) with
  | none => rw [hres] at key; exact key
  | some r => rw [hres] at key; exact key

/-- Every call of the API keeps the cursor invariant. -/
theorem run_api_call_inv (conv : Int → Nat) (d : kz_endpointdef_t)
    (hd : 16 ≤ d.rx_buffer_size ∧ d.rx_buffer_size ≤ 256 ∧
      16 ≤ d.tx_buffer_size ∧ d.tx_buffer_size ≤ 256)
    (K : kz_endpoint_t) (c : kz_api_call) (h : cursor_inv d K) :
    inv_after d (fun r => r.1) (run_api_call conv K c) := by
  obtain ⟨hr1, _, _, ht2⟩ := hd
  cases c with
  | putint v => exact kz_putint_inv d K v h
  | putfloat v => exact kz_putfloat_inv d K v ht2 h
  | putstring v => exact (kz_put_tag_inv d K v h).1
  | putlistopen => exact (kz_put_tag_inv d K ⟨[], 0⟩ h).2.1
  | putlistclose => exact (kz_put_tag_inv d K ⟨[], 0⟩ h).2.2.1
  | putnil => exact (kz_put_tag_inv d K ⟨[], 0⟩ h).2.2.2.1
  | putclear => exact (kz_put_tag_inv d K ⟨[], 0⟩ h).2.2.2.2
  | getint => exact kz_getint_inv d K 0 h
  | getfloat => exact kz_getfloat_inv d K 0 h
  | getnumber => exact kz_getnumber_inv d K conv 0 0 h
  | getreset => exact kz_getreset_inv d K hr1 h
  | handle ch cb ud => exact kz_handle_inv d K ch cb ud h
  | call ch cb ud t =>
    have key := kz_call_loop_inv d ch cb ud t ht2 KZ_MAX_LOCAL_REQUESTS 0 0 K h
    have hcall : kz_call K ch cb ud t
        = kz_call_loop ch cb ud t KZ_MAX_LOCAL_REQUESTS 0 0 K := rfl
    simp only [run_api_call, hcall]
    cases hres : kz_call_loop ch cb ud t KZ_MAX_LOCAL_REQUESTS 0 0 K with
    | none => rw [hres] at key; exact key
    | some r => rw [hres] at key; exact key
  | send ch =>
    have key := kz_send_inv d K ch ht2 h
    simp only [run_api_call]
    cases hres : kz_send K ch with
    | none => rw [hres] at key; exact key
    | some r => rw [hres] at key; exact key

/-- The code of a callback, made of calls of the API, keeps the cursor
invariant. -/
theorem run_program_inv (conv : Int → Nat) (d : kz_endpointdef_t)
    (hd : 16 ≤ d.rx_buffer_size ∧ d.rx_buffer_size ≤ 256 ∧
      16 ≤ d.tx_buffer_size ∧ d.tx_buffer_size ≤ 256) :
    ∀ (p : kz_program) (K : kz_endpoint_t), cursor_inv d K →
    inv_after d (fun r => r.1) (run_program conv p K) := by
  intro p
  induction p with
  | ret st => intro K h; exact h
  | call c next ih =>
    intro K h
    have key := run_api_call_inv conv d hd K c h
    simp only [run_program]
    cases hres : run_api_call conv K c with
    | none => rw [hres] at key; exact key
    | some r =>
      obtain ⟨K1, v, ev⟩ := r
      rw [hres] at key
      have key2 := ih v K1 key
      simp only
      cases hres2 : run_program conv (next v) K1 with
      | none => rw [hres2] at key2; exact key2
      | some r2 => rw [hres2] at key2; exact key2

theorem program_callbacks_keep_inv (conv : Int → Nat) (d : kz_endpointdef_t)
    (hd : 16 ≤ d.rx_buffer_size ∧ d.rx_buffer_size ≤ 256 ∧
      16 ≤ d.tx_buffer_size ∧ d.tx_buffer_size ≤ 256)
    (request_code : Nat → Nat → kz_program)
    (reply_code : Nat → Nat → kz_request_status_t → kz_program) :
    callbacks_keep_inv d (program_callbacks conv request_code reply_code) := by
  constructor
  · intro c u K h
    exact run_program_inv conv d hd (request_code c u) K h
  · intro c u st K h
    have key := run_program_inv conv d hd (reply_code c u st) K h
    show inv_after d (fun r => r.1)
      (match run_program conv (reply_code c u st) K with
        | none => none
        | some (K2, _, events) => some (K2, events))
    cases hres : run_program conv (reply_code c u st) K with
    | none => rw [hres] at key; exact key
    | some r => rw [hres] at key; exact key

theorem rx_decode_inv (d : kz_endpointdef_t) (K : kz_endpoint_t) (byte : Nat)
    (h : cursor_inv d K) : cursor_inv d (rx_decode K byte).1 := by
  obtain ⟨h1, h2, h3, h4, h5, h6, h7⟩ := h
  obtain ⟨_, k2, k3, k4, _, k6, _, _⟩ := rx_decode_keeps K byte
  obtain ⟨f1, _, _, f4⟩ := rx_decode_frame K byte
  have hpos := f4 (Or.inr h4)
  exact ⟨by rw [k4]; exact h1, by rw [k4, k2]; exact h2, by rw [k3, f1]; exact h3,
    by rw [f1]; exact hpos, by rw [k2]; exact h5, by rw [f1]; exact h6, by rw [k6]; exact h7⟩

theorem handle_request_eq (cb : kz_callbacks) (K : kz_endpoint_t) (reqid channelid : Nat) :
    handle_request cb K reqid channelid =
      if channelid < KZ_MAX_CHANNELS then
        if (K.handlers.getD channelid no_handler).callback ≠ 0 then
          match cb.request (K.handlers.getD channelid no_handler).callback
            (K.handlers.getD channelid no_handler).userdata (kz_getreset K) with
          | none => none
          | some (K2, status, events) =>
            if status ≠ kz_request_status_t.KZ_IGNORE then
              match send_reply K2 (reqid % 256) status with
              | none => none
              | some r =>
                some (r.K, kz_event.request_callback
                  (K.handlers.getD channelid no_handler).callback
                  (K.handlers.getD channelid no_handler).userdata :: events
                  ++ [kz_event.tx r.sent])
            else
              some (K2, kz_event.request_callback
                (K.handlers.getD channelid no_handler).callback
                (K.handlers.getD channelid no_handler).userdata :: events)
        else some (K, [])
      else some (K, []) := rfl

theorem handle_reply_eq (cb : kz_callbacks) (K : kz_endpoint_t) (reqid : Nat) :
    handle_reply cb K reqid =
      if reqid < KZ_MAX_LOCAL_REQUESTS then
        if (K.local_requests.getD reqid free_request).callback ≠ 0 then
          match cb.reply (K.local_requests.getD reqid free_request).callback
            (K.local_requests.getD reqid free_request).userdata kz_request_status_t.KZ_OK
            (kz_getreset K) with
          | none => none
          | some (K2, events) =>
            some (store_request K2 reqid free_request,
              kz_event.reply_callback (K.local_requests.getD reqid free_request).callback
                (K.local_requests.getD reqid free_request).userdata
                kz_request_status_t.KZ_OK :: events)
        else some (K, [])
      else some (K, []) := rfl

theorem handle_request_inv (d : kz_endpointdef_t) (cb : kz_callbacks)
    (hd : 16 ≤ d.rx_buffer_size ∧ d.rx_buffer_size ≤ 256 ∧
      16 ≤ d.tx_buffer_size ∧ d.tx_buffer_size ≤ 256)
    (hcb : callbacks_keep_inv d cb) (K : kz_endpoint_t) (reqid channelid : Nat)
    (h : cursor_inv d K) :
    inv_after d (fun r => r.1) (handle_request cb K reqid channelid) := by
  rw [handle_request_eq]
  split
  · split
    · have key := hcb.1 (K.handlers.getD channelid no_handler).callback
        (K.handlers.getD channelid no_handler).userdata (kz_getreset K)
        (kz_getreset_inv d K hd.1 h)
      cases hres : cb.request (K.handlers.getD channelid no_handler).callback
          (K.handlers.getD channelid no_handler).userdata (kz_getreset K) with
      | none => rw [hres] at key; exact key
      | some r =>
        obtain ⟨K2, status, events⟩ := r
        rw [hres] at key
        simp only
        split
        · have key2 := send_reply_inv d K2 (reqid % 256) status hd.2.2.2 key
          cases hres2 : send_reply K2 (reqid % 256) status with
          | none => rw [hres2] at key2; exact key2
          | some r2 => rw [hres2] at key2; exact key2
        · exact key
    · exact h
  · exact h

theorem handle_reply_inv (d : kz_endpointdef_t) (cb : kz_callbacks)
    (hd : 16 ≤ d.rx_buffer_size ∧ d.rx_buffer_size ≤ 256 ∧
      16 ≤ d.tx_buffer_size ∧ d.tx_buffer_size ≤ 256)
    (hcb : callbacks_keep_inv d cb) (K : kz_endpoint_t) (reqid : Nat)
    (h : cursor_inv d K) :
    inv_after d (fun r => r.1) (handle_reply cb K reqid) := by
  rw [handle_reply_eq]
  split
  · split
    · have key := hcb.2 (K.local_requests.getD reqid free_request).callback
        (K.local_requests.getD reqid free_request).userdata kz_request_status_t.KZ_OK
        (kz_getreset K) (kz_getreset_inv d K hd.1 h)
      cases hres : cb.reply (K.local_requests.getD reqid free_request).callback
          (K.local_requests.getD reqid free_request).userdata kz_request_status_t.KZ_OK
          (kz_getreset K) with
      | none => rw [hres] at key; exact key
      | some r => rw [hres] at key; exact key
    · exact h
  · exact h

theorem kz_tick_byte_inv (d : kz_endpointdef_t) (cb : kz_callbacks)
    (hd : 16 ≤ d.rx_buffer_size ∧ d.rx_buffer_size ≤ 256 ∧
      16 ≤ d.tx_buffer_size ∧ d.tx_buffer_size ≤ 256)
    (hcb : callbacks_keep_inv d cb) (K : kz_endpoint_t) (byte : Nat)
    (h : cursor_inv d K) :
    inv_after d (fun r => r.1) (kz_tick_byte cb K byte) := by
  have h1 := rx_decode_inv d K byte h
  unfold kz_tick_byte
  simp only []
  split
  · split
    · split
      · exact handle_request_inv d cb hd hcb _ _ _ h1
      · split
        · exact handle_reply_inv d cb hd hcb _ _ h1
        · exact h1
    · exact h1
  · exact h1

theorem kz_tick_rx_inv (d : kz_endpointdef_t) (cb : kz_callbacks)
    (hd : 16 ≤ d.rx_buffer_size ∧ d.rx_buffer_size ≤ 256 ∧
      16 ≤ d.tx_buffer_size ∧ d.tx_buffer_size ≤ 256)
    (hcb : callbacks_keep_inv d cb) (bytes : List Nat) : ∀ (K : kz_endpoint_t),
    cursor_inv d K → inv_after d (fun r => r.1) (kz_tick_rx cb K bytes) := by
  induction bytes with
  | nil => intro K h; exact h
  | cons b bs ih =>
    intro K h
    have key := kz_tick_byte_inv d cb hd hcb K b h
    rw [kz_tick_rx_cons]
    cases hres : kz_tick_byte cb K b with
    | none => rw [hres] at key; exact key
    | some r =>
      obtain ⟨K1, e1⟩ := r
      rw [hres] at key
      have key2 := ih K1 key
      simp only
      cases hres2 : kz_tick_rx cb K1 bs with
      | none => rw [hres2] at key2; exact key2
      | some r2 => rw [hres2] at key2; exact key2

theorem timeout_callback_state_inv (d : kz_endpointdef_t) (K : kz_endpoint_t) (idx : Nat)
    (hsize : 16 ≤ d.rx_buffer_size) (h : cursor_inv d K) :
    cursor_inv d (timeout_callback_state K idx) := by
  obtain ⟨h1, h2, h3, h4, h5, h6, h7⟩ := h
  have h4b : KZ_RX_PAYLOAD_START ≤ K.rx_buffer_end := by
    have : KZ_RX_PAYLOAD_START = 4 := rfl
    omega
  exact ⟨h1, h2, h4b, h4b, h5, h6, h7⟩

theorem handle_timeouts_loop_inv (d : kz_endpointdef_t) (cb : kz_callbacks)
    (hd : 16 ≤ d.rx_buffer_size ∧ d.rx_buffer_size ≤ 256 ∧
      16 ≤ d.tx_buffer_size ∧ d.tx_buffer_size ≤ 256)
    (hcb : callbacks_keep_inv d cb) : ∀ (n idx : Nat) (K : kz_endpoint_t),
    cursor_inv d K → inv_after d (fun r => r.1) (handle_timeouts_loop cb n idx K) := by
  intro n
  induction n with
  | zero => intro idx K h; exact h
  | succ n ih =>
    intro idx K h
    rw [handle_timeouts_loop_succ]
    split
    · split
      · have key := hcb.2 (K.local_requests.getD idx free_request).callback
          (K.local_requests.getD idx free_request).userdata kz_request_status_t.KZ_IGNORE
          (timeout_callback_state K idx) (timeout_callback_state_inv d K idx hd.1 h)
        cases hres : cb.reply (K.local_requests.getD idx free_request).callback
            (K.local_requests.getD idx free_request).userdata kz_request_status_t.KZ_IGNORE
            (timeout_callback_state K idx) with
        | none => rw [hres] at key; exact key
        | some r =>
          obtain ⟨K2, events⟩ := r
          rw [hres] at key
          have key2 := ih (idx + 1) (store_request K2 idx free_request) key
          simp only
          cases hres2 : handle_timeouts_loop cb n (idx + 1)
              (store_request K2 idx free_request) with
          | none => rw [hres2] at key2; exact key2
          | some r2 => rw [hres2] at key2; exact key2
      · exact ih (idx + 1) _ h
    · exact ih (idx + 1) K h

/-- A call of `kz_tick`, whatever the bytes received, keeps the cursor
invariant when the callbacks do. -/
theorem kz_tick_inv (d : kz_endpointdef_t) (cb : kz_callbacks)
    (hd : 16 ≤ d.rx_buffer_size ∧ d.rx_buffer_size ≤ 256 ∧
      16 ≤ d.tx_buffer_size ∧ d.tx_buffer_size ≤ 256)
    (hcb : callbacks_keep_inv d cb) (K : kz_endpoint_t) (bytes : List Nat)
    (h : cursor_inv d K) :
    inv_after d (fun r => r.1) (kz_tick cb K bytes) := by
  have key := kz_tick_rx_inv d cb hd hcb bytes K h
  unfold kz_tick
  cases hres : kz_tick_rx cb K bytes with
  | none => rw [hres] at key; exact key
  | some r =>
    obtain ⟨K1, e1⟩ := r
    rw [hres] at key
    have key2 := handle_timeouts_loop_inv d cb hd hcb KZ_MAX_LOCAL_REQUESTS 0 K1 key
    have hsweep : handle_timeouts cb K1
        = handle_timeouts_loop cb KZ_MAX_LOCAL_REQUESTS 0 K1 := rfl
    simp only [hsweep]
    cases hres2 : handle_timeouts_loop cb KZ_MAX_LOCAL_REQUESTS 0 K1 with
    | none => rw [hres2] at key2; exact key2
    | some r2 => rw [hres2] at key2; exact key2

theorem run_actions_inv (conv : Int → Nat) (d : kz_endpointdef_t) (cb : kz_callbacks)
    (hd : 16 ≤ d.rx_buffer_size ∧ d.rx_buffer_size ≤ 256 ∧
      16 ≤ d.tx_buffer_size ∧ d.tx_buffer_size ≤ 256)
    (hcb : callbacks_keep_inv d cb) (actions : List kz_action) : ∀ (K : kz_endpoint_t),
    cursor_inv d K → inv_after d (fun r => r.1) (run_actions conv cb K actions) := by
  induction actions with
  | nil => intro K h; exact h
  | cons a rest ih =>
    intro K h
    cases a with
    | api c =>
      have key := run_api_call_inv conv d hd K c h
      simp only [run_actions]
      cases hres : run_api_call conv K c with
      | none => rw [hres] at key; exact key
      | some r =>
        obtain ⟨K1, v, e1⟩ := r
        rw [hres] at key
        have key2 := ih K1 key
        simp only
        cases hres2 : run_actions conv cb K1 rest with
        | none => rw [hres2] at key2; exact key2
        | some r2 => rw [hres2] at key2; exact key2
    | tick bytes =>
      have key := kz_tick_inv d cb hd hcb K bytes h
      simp only [run_actions]
      cases hres : kz_tick cb K bytes with
      | none => rw [hres] at key; exact key
      | some r =>
        obtain ⟨K1, e1⟩ := r
        rw [hres] at key
        have key2 := ih K1 key
        simp only
        cases hres2 : run_actions conv cb K1 rest with
        | none => rw [hres2] at key2; exact key2
        | some r2 => rw [hres2] at key2; exact key2

theorem kz_init_static_inv (d : kz_endpointdef_t)
    (hd : 16 ≤ d.rx_buffer_size ∧ d.rx_buffer_size ≤ 256 ∧
      16 ≤ d.tx_buffer_size ∧ d.tx_buffer_size ≤ 256) :
    cursor_inv d (kz_init_static d) := by
  obtain ⟨hr1, _, ht1, _⟩ := hd
  refine ⟨?_, ?_, ?_, ?_, ?_, ?_, rfl⟩
  · show 5 ≤ 0 + KZ_TX_PAYLOAD_START
    decide
  · show 0 + KZ_TX_PAYLOAD_START + 1 ≤ 0 + d.tx_buffer_size
    have : KZ_TX_PAYLOAD_START = 5 := rfl
    omega
  · show 0 + KZ_RX_PAYLOAD_START ≤ 0 + d.rx_buffer_size
    have : KZ_RX_PAYLOAD_START = 4 := rfl
    omega
  · show 0 ≤ 0 + d.rx_buffer_size
    omega
  · show 0 + d.tx_buffer_size = d.tx_buffer_size
    omega
  · show 0 + d.rx_buffer_size = d.rx_buffer_size
    omega

/-- C27 (cursor invariant). Take an endpoint definition with buffer sizes
between 16 and 256, callbacks whose code touches the endpoint only through the
API (`kz_put*`, `kz_putclear`, `kz_get*`, `kz_getreset`, `kz_handle`,
`kz_call`, `kz_send`), and any sequence of actions of the main program from
`kz_init_static` on: calls of the same API and calls of `kz_tick` with any
bytes received. In every state that such a sequence reaches,
`tx_buffer + 5 ≤ putptr ≤ tx_buffer_end - 1` and
`rx_buffer ≤ getptr ≤ rx_buffer_end` (offsets are natural numbers, so the lower
bound on `getptr` holds by construction), the buffer ends are those of the
definition, the data region `[tx_buffer + 1, putptr)` has at most `TX_MTU` =
254 bytes, and the two bounds assertions of `tx_encode_and_send` hold of the
state. Moreover, when the `tx` callback is not null, every such sequence runs
to its end: no assertion of `tx_encode_and_send` fails on the way, in the main
program or inside a callback. -/
theorem cursor_invariant (conv : Int → Nat) (request_code : Nat → Nat → kz_program)
    (reply_code : Nat → Nat → kz_request_status_t → kz_program) (d : kz_endpointdef_t)
    (actions : List kz_action)
    (hd : 16 ≤ d.rx_buffer_size ∧ d.rx_buffer_size ≤ 256 ∧
      16 ≤ d.tx_buffer_size ∧ d.tx_buffer_size ≤ 256) :
    (∀ K events,
      run_actions conv (program_callbacks conv request_code reply_code) (kz_init_static d)
        actions = some (K, events) →
      5 ≤ K.putptr ∧ K.putptr ≤ K.tx_buffer_end - 1 ∧
      0 ≤ K.getptr ∧ K.getptr ≤ K.rx_buffer_end ∧
      K.tx_buffer_end = d.tx_buffer_size ∧ K.rx_buffer_end = d.rx_buffer_size ∧
      K.putptr - 1 ≤ TX_MTU ∧
      (K.putptr : Int) - (0 + 1) ≤ (TX_MTU : Int) ∧
      (K.putptr : Int) ≤ (K.tx_buffer_end : Int) - 1) ∧
    (d.tx ≠ 0 → ∃ K events,
      run_actions conv (program_callbacks conv request_code reply_code) (kz_init_static d)
        actions = some (K, events)) := by
  have key := run_actions_inv conv d (program_callbacks conv request_code reply_code) hd
    (program_callbacks_keep_inv conv d hd request_code reply_code) actions (kz_init_static d)
    (kz_init_static_inv d hd)
  obtain ⟨_, _, _, ht2⟩ := hd
  constructor
  · intro K events hrun
    rw [hrun] at key
    have key2 : cursor_inv d K := key
    obtain ⟨h1, h2, h3, _, h5, h6, _⟩ := key2
    have hm : TX_MTU = 254 := rfl
    refine ⟨h1, by omega, Nat.zero_le _, h3, h5, h6, by omega, ?_, by omega⟩
    rw [hm]
    omega
  · intro htx
    cases hres : run_actions conv (program_callbacks conv request_code reply_code)
        (kz_init_static d) actions with
    | none =>
      rw [hres] at key
      exact absurd key htx
    | some r => exact ⟨r.1, r.2, rfl⟩

/-- Instance of C27: the 16-byte endpoint `sample_def`, the sample callbacks
and the sample main program. -/
theorem cursor_invariant_witness :
    (∀ K events,
      run_actions (fun _ => 0) (program_callbacks (fun _ => 0) sample_request_code
        sample_reply_code) (kz_init_static sample_def) sample_actions = some (K, events) →
      5 ≤ K.putptr ∧ K.putptr ≤ K.tx_buffer_end - 1 ∧
      0 ≤ K.getptr ∧ K.getptr ≤ K.rx_buffer_end ∧
      K.tx_buffer_end = sample_def.tx_buffer_size ∧
      K.rx_buffer_end = sample_def.rx_buffer_size ∧
      K.putptr - 1 ≤ TX_MTU ∧
      (K.putptr : Int) - (0 + 1) ≤ (TX_MTU : Int) ∧
      (K.putptr : Int) ≤ (K.tx_buffer_end : Int) - 1) ∧
    (sample_def.tx ≠ 0 → ∃ K events,
      run_actions (fun _ => 0) (program_callbacks (fun _ => 0) sample_request_code
        sample_reply_code) (kz_init_static sample_def) sample_actions = some (K, events)) :=
  cursor_invariant (fun _ => 0) sample_request_code sample_reply_code sample_def
    sample_actions (by decide)

/-- The instance of C27, evaluated: the cursors after the sample main program
and the events on the way (the request of `kz_call`, the call of the handler
of channel 1, its reply carrying 43, the frame of `kz_send`). -/
theorem cursor_invariant_example :
    (run_actions (fun _ => 0) (program_callbacks (fun _ => 0) sample_request_code
        sample_reply_code) (kz_init_static sample_def) sample_actions).map
      (fun r => (r.1.putptr, r.1.getptr, r.1.rx_buffer_pos, r.2))
      = some (5, 5, 5,
          [kz_event.tx [0x02, 0x50, 0x02, 0x07, 0x04, 0x89, 0x01, 0x2C, 0x00],
           kz_event.request_callback 1 7,
           kz_event.tx [0x02, 0x51, 0x01, 0x01, 0x02, 0x2B, 0x00],
           kz_event.tx [0x03, 0x50, 0xFF, 0x01, 0x06, 0x84, 0x40, 0x49, 0x0F, 0xDB, 0x00]]) := by
  decide

/-! ## Non-positive timeouts -/

theorem int_dec_above_min (x : Int) (h : INT32_MIN < x) : int_dec x = x - 1 := by
  unfold INT32_MIN at h
  unfold int_dec INT32_MIN
  rw [if_neg (by omega)]

theorem timeout_events_congr_range (l1 l2 : List kz_local_request_t) : ∀ n idx,
    (∀ j, idx ≤ j → j < idx + n → l1.getD j free_request = l2.getD j free_request) →
    timeout_events l1 n idx = timeout_events l2 n idx := by
  intro n
  induction n with
  | zero => intro idx _; rfl
  | succ n ih =>
    intro idx h
    simp only [timeout_events]
    rw [h idx (Nat.le_refl _) (by omega),
      ih (idx + 1) (fun j hj1 hj2 => h j (by omega) (by omega))]

theorem requests_ext (l1 l2 : List kz_local_request_t) (hlen : l1.length = l2.length)
    (h : ∀ j, j < l1.length → l1.getD j free_request = l2.getD j free_request) :
    l1 = l2 := by
  apply List.ext_getElem hlen
  intro n h1 h2
  have hn := h n h1
  rw [List.getD_eq_getElem _ _ h1, List.getD_eq_getElem _ _ h2] at hn
  exact hn

/-- A tick without bytes while the count of the request in slot `i` is 1 or
less (and above `INT_MIN`): the calls are those of the slots before `i`, one
call for the pair (`c`, `u`) with `KZ_IGNORE`, those of the slots after `i`;
slot `i` is free and every other slot is swept. -/
theorem kz_tick_expiry_le (cb : kz_callbacks) (hro : reply_callbacks_read_only cb)
    (K : kz_endpoint_t) (i c u : Nat) (rem : Int) (hi : i < 16) (hc : c ≠ 0)
    (hmin : INT32_MIN < rem) (hrem : rem ≤ 1) (hK : timeout_pending i c u rem K) :
    ∃ K2, kz_tick cb K [] = some (K2, timeout_events K.local_requests i 0
        ++ ([kz_event.reply_callback c u kz_request_status_t.KZ_IGNORE]
          ++ timeout_events K.local_requests (15 - i) (i + 1))) ∧
      K2.local_requests.length = 16 ∧
      K2.local_requests.getD i free_request = free_request ∧
      ∀ j, j < 16 → j ≠ i → K2.local_requests.getD j free_request
        = sweep_slot (K.local_requests.getD j free_request) := by
  obtain ⟨K2, htick, hlen2, hget⟩ := kz_tick_idle cb hro K
  obtain ⟨hlen, hslot, _⟩ := hK
  have hdec : int_dec rem = rem - 1 := int_dec_above_min rem hmin
  have hle : rem - 1 ≤ (0 : Int) := by omega
  have hsw : sweep_slot (K.local_requests.getD i free_request) = free_request := by
    rw [hslot]
    unfold sweep_slot
    simp only [hdec, ne_eq, hc, not_false_eq_true, if_true, hle]
  have hse : sweep_events (K.local_requests.getD i free_request)
      = [kz_event.reply_callback c u kz_request_status_t.KZ_IGNORE] := by
    rw [hslot]
    unfold sweep_events
    simp only [hdec, ne_eq, hc, not_false_eq_true, hle, and_self, if_true]
  refine ⟨K2, ?_, by rw [hlen2, hlen], by rw [hget i hi, hsw], fun j hj _ => hget j hj⟩
  rw [htick, timeout_events_split _ i hi, hse]

/-- Non-positive timeouts as the trace of events shows them, with reply
callbacks that only read. On an endpoint on which `kz_call` succeeds on
slot `i` (16 slots, `i` the lowest free one, a put region that can be sent),
with a non-null callback `c`, userdata `u` and `timeout_ticks = T` where
`INT_MIN < T ≤ 0`, with reply callbacks that only read, and when no other slot
holds the pair (`c`, `u`): `kz_call` returns 1 and stores the request in slot
`i`; the first call of `kz_tick`, with no byte received, returns, calls `c`
with `u` exactly once, with the status `KZ_IGNORE` and with no other status,
and leaves slot `i` free. The same `kz_call` with a timeout of 1 sends the same
frame, and its first `kz_tick` makes the same calls in the same order and
leaves the same request pool. -/
theorem nonpositive_timeout_read_only (cb : kz_callbacks) (K : kz_endpoint_t)
    (ch c u i : Nat) (T : Int)
    (hro : reply_callbacks_read_only cb) (hT : T ≤ 0) (hmin : INT32_MIN < T) (hc : c ≠ 0)
    (hlen : K.local_requests.length = 16) (hi : i < 16)
    (hfree : (K.local_requests.getD i free_request).callback = 0)
    (hbusy : ∀ j, j < i → (K.local_requests.getD j free_request).callback ≠ 0)
    (huniq : ∀ j, j < 16 → j ≠ i →
      ¬ ((K.local_requests.getD j free_request).callback = c ∧
         (K.local_requests.getD j free_request).userdata = u))
    (htx : K.tx ≠ 0) (h5 : 5 ≤ K.putptr) (hmtu : K.putptr ≤ 255)
    (hend : K.putptr + 1 ≤ K.tx_buffer_end) (hmem : K.tx_buffer_end ≤ K.tx_mem.length) :
    ∃ r, kz_call K ch c u T = some r ∧ r.ret = 1 ∧
      r.K.local_requests.getD i free_request
        = { callback := c, userdata := u, timeout_ticks := T } ∧
      ∃ K2 ev, kz_tick cb r.K [] = some (K2, ev) ∧
        ev.count (kz_event.reply_callback c u kz_request_status_t.KZ_IGNORE) = 1 ∧
        (∀ st, st ≠ kz_request_status_t.KZ_IGNORE → kz_event.reply_callback c u st ∉ ev) ∧
        K2.local_requests.getD i free_request = free_request ∧
        ∃ r1 K3, kz_call K ch c u 1 = some r1 ∧ r1.ret = 1 ∧ r1.events = r.events ∧
          kz_tick cb r1.K [] = some (K3, ev) ∧
          K3.local_requests = K2.local_requests := by
  obtain ⟨r, hr, hret, hev, hrK, _⟩ :=
    kz_call_alloc K ch c u T i hi hfree hbusy htx h5 hmtu hend hmem
  obtain ⟨r1, hr1, hret1, hev1, hrK1, _⟩ :=
    kz_call_alloc K ch c u 1 i hi hfree hbusy htx h5 hmtu hend hmem
  have hreq : r.K.local_requests = K.local_requests.set i
      { callback := c, userdata := u, timeout_ticks := T } := by
    rw [hrK]
  have hreq1 : r1.K.local_requests = K.local_requests.set i
      { callback := c, userdata := u, timeout_ticks := 1 } := by
    rw [hrK1]
  have hslot : r.K.local_requests.getD i free_request
      = { callback := c, userdata := u, timeout_ticks := T } := by
    rw [hreq, getD_set_any, if_pos ⟨rfl, by omega⟩]
  have hslot1 : r1.K.local_requests.getD i free_request
      = { callback := c, userdata := u, timeout_ticks := 1 } := by
    rw [hreq1, getD_set_any, if_pos ⟨rfl, by omega⟩]
  have hoth : ∀ j, j ≠ i → r.K.local_requests.getD j free_request
      = K.local_requests.getD j free_request := by
    intro j hji
    rw [hreq, getD_set_any, if_neg (fun h => hji h.1.symm)]
  have hoth1 : ∀ j, j ≠ i → r1.K.local_requests.getD j free_request
      = K.local_requests.getD j free_request := by
    intro j hji
    rw [hreq1, getD_set_any, if_neg (fun h => hji h.1.symm)]
  have hpend : timeout_pending i c u T r.K := by
    refine ⟨by rw [hreq, List.length_set, hlen], hslot, ?_⟩
    intro j hj hji
    rw [hoth j hji]
    exact huniq j hj hji
  have hpend1 : timeout_pending i c u 1 r1.K := by
    refine ⟨by rw [hreq1, List.length_set, hlen], hslot1, ?_⟩
    intro j hj hji
    rw [hoth1 j hji]
    exact huniq j hj hji
  obtain ⟨K2, htick, hl2, hfreed, hrest⟩ :=
    kz_tick_expiry_le cb hro r.K i c u T hi hc hmin (by omega) hpend
  obtain ⟨K3, htick1, hl3, hfreed1, hrest1⟩ :=
    kz_tick_expiry_le cb hro r1.K i c u 1 hi hc (by decide) (by omega) hpend1
  have hbefore : timeout_events r1.K.local_requests i 0
      = timeout_events r.K.local_requests i 0 :=
    timeout_events_congr_range _ _ i 0 (fun j _ hj => by
      rw [hoth j (by omega), hoth1 j (by omega)])
  have hafter : timeout_events r1.K.local_requests (15 - i) (i + 1)
      = timeout_events r.K.local_requests (15 - i) (i + 1) :=
    timeout_events_congr_range _ _ (15 - i) (i + 1) (fun j hj _ => by
      rw [hoth j (by omega), hoth1 j (by omega)])
  rw [hbefore, hafter] at htick1
  have ho := fun st => timeout_events_others r.K i c u T hi hpend st
  refine ⟨r, hr, hret, hslot, K2, _, htick, ?_, ?_, hfreed, r1, K3, hr1, hret1, ?_, htick1, ?_⟩
  · rw [List.count_append, List.count_append,
      List.count_eq_zero.mpr (ho _).1, List.count_eq_zero.mpr (ho _).2]
    simp
  · intro st hst hmem
    rw [List.mem_append, List.mem_append] at hmem
    rcases hmem with h | h | h
    · exact (ho st).1 h
    · simp only [List.mem_singleton, kz_event.reply_callback.injEq, true_and] at h
      exact hst h
    · exact (ho st).2 h
  · rw [hev1, hev]
  · apply requests_ext _ _ (by rw [hl3, hl2])
    intro j hj
    rw [hl3] at hj
    by_cases hji : j = i
    · rw [hji, hfreed1, hfreed]
    · rw [hrest1 j hj hji, hrest j hj hji, hoth j hji, hoth1 j hji]

/-- Instance of the non-positive timeout in the trace: `kz_call` on channel 7 with callback 9, userdata 4 and a
timeout of 0 on a fresh 16-byte endpoint, then one tick without bytes. -/
theorem nonpositive_timeout_read_only_instance :
    ∃ r, kz_call sample_rx 7 9 4 0 = some r ∧ r.ret = 1 ∧
      r.K.local_requests.getD 0 free_request
        = { callback := 9, userdata := 4, timeout_ticks := 0 } ∧
      ∃ K2 ev, kz_tick sample_callbacks r.K [] = some (K2, ev) ∧
        ev.count (kz_event.reply_callback 9 4 kz_request_status_t.KZ_IGNORE) = 1 ∧
        (∀ st, st ≠ kz_request_status_t.KZ_IGNORE → kz_event.reply_callback 9 4 st ∉ ev) ∧
        K2.local_requests.getD 0 free_request = free_request ∧
        ∃ r1 K3, kz_call sample_rx 7 9 4 1 = some r1 ∧ r1.ret = 1 ∧ r1.events = r.events ∧
          kz_tick sample_callbacks r1.K [] = some (K3, ev) ∧
          K3.local_requests = K2.local_requests :=
  nonpositive_timeout_read_only sample_callbacks sample_rx 7 9 4 0 0
    (fun _ _ _ K => ⟨K.getptr, rfl⟩)
    (by decide) (by decide) (by decide) (by decide) (by decide) (by decide) (by decide)
    (by decide) (by decide) (by decide) (by decide) (by decide) (by decide)

/-- The first tick after `kz_call` with the timeouts -5, 0 and 1, evaluated:
each time one call of the callback with `KZ_IGNORE`, and an empty pool. -/
theorem nonpositive_timeout_example :
    ∀ T ∈ [(-5 : Int), 0, 1],
      ((kz_call sample_rx 7 9 4 T).bind
        (fun r => kz_tick sample_callbacks r.K [])).map
        (fun r => (r.1.local_requests, r.2))
        = some (List.replicate 16 free_request,
            [kz_event.reply_callback 9 4 kz_request_status_t.KZ_IGNORE]) := by
  decide

/-- The bound of C31 is needed in the embedding: with `timeout_ticks = INT_MIN`
the decrement wraps to `INT_MAX` (in C the decrement is undefined), the first
tick makes no call and the request stays in its slot. -/
theorem int_min_timeout_example :
    ((kz_call sample_rx 7 9 4 INT32_MIN).bind
      (fun r => kz_tick sample_callbacks r.K [])).map
      (fun r => (r.1.local_requests.getD 0 free_request, r.2))
      = some ({ callback := 9, userdata := 4, timeout_ticks := 2147483647 }, []) := by
  decide

/-! ## The API and the request pool -/

theorem with_requests_fields (K : kz_endpoint_t) (L : List kz_local_request_t) :
    (with_requests K L).rx_mem = K.rx_mem ∧
    (with_requests K L).rx_buffer_pos = K.rx_buffer_pos ∧
    (with_requests K L).rx_buffer_end = K.rx_buffer_end ∧
    (with_requests K L).tx_mem = K.tx_mem ∧
    (with_requests K L).tx_buffer_end = K.tx_buffer_end ∧
    (with_requests K L).getptr = K.getptr ∧
    (with_requests K L).putptr = K.putptr ∧
    (with_requests K L).tx = K.tx ∧
    (with_requests K L).local_requests = L :=
  ⟨rfl, rfl, rfl, rfl, rfl, rfl, rfl, rfl, rfl⟩

theorem with_requests_self (K : kz_endpoint_t) : with_requests K K.local_requests = K := rfl

theorem put_byte_requests (K : kz_endpoint_t) (L : List kz_local_request_t) (b : Nat) :
    put_byte (with_requests K L) b = with_requests (put_byte K b) L := rfl

theorem put_bytes_requests (L : List kz_local_request_t) (bs : List Nat) :
    ∀ K : kz_endpoint_t, put_bytes (with_requests K L) bs = with_requests (put_bytes K bs) L := by
  induction bs with
  | nil => intro K; rfl
  | cons b bs ih =>
    intro K
    have h1 : ∀ K : kz_endpoint_t, put_bytes K (b :: bs) = put_bytes (put_byte K b) bs :=
      fun _ => rfl
    rw [h1, h1]
    exact ih (put_byte K b)

theorem kz_putint_shape (v : Int) :
    ∃ f : Nat → Nat → Option (List Nat), ∀ K : kz_endpoint_t,
      kz_putint K v = match f K.tx_buffer_end K.putptr with
        | none => (K, 0)
        | some bs => (put_bytes K bs, 1) := by
  refine ⟨fun e p =>
    if v ≥ -64 ∧ v ≤ 127 then
      (if (e : Int) - 1 - (p : Int) < 1 then none else some [(v % 256).toNat])
    else if v ≥ INT16_MIN ∧ v ≤ INT16_MAX then
      (if (e : Int) - 1 - (p : Int) < 3 then none
       else some [KZ_BC_INT16, ((v % 65536).toNat >>> 8) &&& 0xFF, (v % 65536).toNat &&& 0xFF])
    else if v ≥ INT32_MIN ∧ v ≤ INT32_MAX then
      (if (e : Int) - 1 - (p : Int) < 5 then none
       else some [KZ_BC_INT32, ((v % 4294967296).toNat >>> 24) &&& 0xFF,
         ((v % 4294967296).toNat >>> 16) &&& 0xFF, ((v % 4294967296).toNat >>> 8) &&& 0xFF,
         (v % 4294967296).toNat &&& 0xFF])
    else if v ≥ INT64_MIN ∧ v ≤ INT64_MAX then
      (if (e : Int) - 1 - (p : Int) < 9 then none
       else some [KZ_BC_INT64, ((v % 18446744073709551616).toNat >>> 56) &&& 0xFF,
         ((v % 18446744073709551616).toNat >>> 48) &&& 0xFF,
         ((v % 18446744073709551616).toNat >>> 40) &&& 0xFF,
         ((v % 18446744073709551616).toNat >>> 32) &&& 0xFF,
         ((v % 18446744073709551616).toNat >>> 24) &&& 0xFF,
         ((v % 18446744073709551616).toNat >>> 16) &&& 0xFF,
         ((v % 18446744073709551616).toNat >>> 8) &&& 0xFF,
         (v % 18446744073709551616).toNat &&& 0xFF])
    else some [], fun K => ?_⟩
  unfold kz_putint
  simp only []
  split_ifs <;> rfl

theorem kz_putint_requests (K : kz_endpoint_t) (L : List kz_local_request_t) (v : Int) :
    kz_putint (with_requests K L) v
      = (with_requests (kz_putint K v).1 L, (kz_putint K v).2) := by
  obtain ⟨f, hf⟩ := kz_putint_shape v
  rw [hf (with_requests K L), hf K]
  have e5 : (with_requests K L).tx_buffer_end = K.tx_buffer_end := rfl
  have e7 : (with_requests K L).putptr = K.putptr := rfl
  rw [e5, e7]
  cases f K.tx_buffer_end K.putptr with
  | none => rfl
  | some bs => exact congrArg (fun x => (x, 1)) (put_bytes_requests L bs K)

theorem kz_putfloat_shape (v : Nat) :
    ∃ f : Nat → Nat → Option (List Nat), ∀ K : kz_endpoint_t,
      kz_putfloat K v = match f K.tx_buffer_end K.putptr with
        | none => (K, 0)
        | some bs => (put_bytes K bs, 1) := by
  have s8 : ¬ (sizeof_kz_float_t = 8) := by decide
  have s4 : sizeof_kz_float_t = 4 := by decide
  refine ⟨fun e p =>
    if ((((e : Int) - 1) - (p : Int)) % 18446744073709551616).toNat < sizeof_kz_float_t + 1
    then none
    else some [KZ_BC_FLOAT32, float_byte v 3, float_byte v 2, float_byte v 1, float_byte v 0],
    fun K => ?_⟩
  unfold kz_putfloat
  simp only [if_neg s8, if_pos s4]
  split_ifs <;> rfl

theorem kz_putfloat_requests (K : kz_endpoint_t) (L : List kz_local_request_t) (v : Nat) :
    kz_putfloat (with_requests K L) v
      = (with_requests (kz_putfloat K v).1 L, (kz_putfloat K v).2) := by
  obtain ⟨f, hf⟩ := kz_putfloat_shape v
  rw [hf (with_requests K L), hf K]
  have e5 : (with_requests K L).tx_buffer_end = K.tx_buffer_end := rfl
  have e7 : (with_requests K L).putptr = K.putptr := rfl
  rw [e5, e7]
  cases f K.tx_buffer_end K.putptr with
  | none => rfl
  | some bs => exact congrArg (fun x => (x, 1)) (put_bytes_requests L bs K)

theorem kz_put_tag_requests (K : kz_endpoint_t) (L : List kz_local_request_t)
    (s : kz_string_t) :
    kz_putstring (with_requests K L) s
      = (with_requests (kz_putstring K s).1 L, (kz_putstring K s).2) ∧
    kz_putlistopen (with_requests K L)
      = (with_requests (kz_putlistopen K).1 L, (kz_putlistopen K).2) ∧
    kz_putlistclose (with_requests K L)
      = (with_requests (kz_putlistclose K).1 L, (kz_putlistclose K).2) ∧
    kz_putnil (with_requests K L)
      = (with_requests (kz_putnil K).1 L, (kz_putnil K).2) ∧
    kz_putclear (with_requests K L) = with_requests (kz_putclear K) L := by
  have e5 : (with_requests K L).tx_buffer_end = K.tx_buffer_end := rfl
  have e7 : (with_requests K L).putptr = K.putptr := rfl
  refine ⟨?_, ?_, ?_, ?_, rfl⟩
  · unfold kz_putstring
    simp only [e5, e7]
    split_ifs <;> rfl
  · unfold kz_putlistopen
    simp only [e5, e7]
    split_ifs <;> rfl
  · unfold kz_putlistclose
    simp only [e5, e7]
    split_ifs <;> rfl
  · unfold kz_putnil
    simp only [e5, e7]
    split_ifs <;> rfl

theorem kz_getint_requests (K : kz_endpoint_t) (L : List kz_local_request_t) (i : Int) :
    kz_getint (with_requests K L) i
      = { K := with_requests (kz_getint K i).K L, ret := (kz_getint K i).ret,
          out := (kz_getint K i).out } := by
  have e1 : (with_requests K L).rx_mem = K.rx_mem := rfl
  have e2 : (with_requests K L).rx_buffer_pos = K.rx_buffer_pos := rfl
  have e6 : (with_requests K L).getptr = K.getptr := rfl
  unfold kz_getint
  simp only [e1, e2, e6]
  repeat' split
  all_goals rfl

theorem kz_getfloat_requests (K : kz_endpoint_t) (L : List kz_local_request_t) (f : Nat) :
    kz_getfloat (with_requests K L) f
      = { K := with_requests (kz_getfloat K f).K L, ret := (kz_getfloat K f).ret,
          out := (kz_getfloat K f).out } := by
  have e1 : (with_requests K L).rx_mem = K.rx_mem := rfl
  have e2 : (with_requests K L).rx_buffer_pos = K.rx_buffer_pos := rfl
  have e6 : (with_requests K L).getptr = K.getptr := rfl
  unfold kz_getfloat
  simp only [e1, e2, e6]
  repeat' split
  all_goals rfl

theorem kz_getnumber_requests (conv : Int → Nat) (K : kz_endpoint_t)
    (L : List kz_local_request_t) (i : Int) (f : Nat) :
    kz_getnumber conv i (with_requests K L) f
      = { K := with_requests (kz_getnumber conv i K f).K L,
          ret := (kz_getnumber conv i K f).ret, out := (kz_getnumber conv i K f).out } := by
  unfold kz_getnumber
  simp only [kz_getfloat_requests, kz_getint_requests]
  split_ifs <;> rfl

theorem kz_getreset_requests (K : kz_endpoint_t) (L : List kz_local_request_t) :
    kz_getreset (with_requests K L) = with_requests (kz_getreset K) L := rfl

theorem kz_handle_requests (K : kz_endpoint_t) (L : List kz_local_request_t)
    (ch cb ud : Nat) :
    kz_handle (with_requests K L) ch cb ud
      = (with_requests (kz_handle K ch cb ud).1 L, (kz_handle K ch cb ud).2) := by
  unfold kz_handle
  simp only []
  split_ifs <;> rfl

theorem tx_encode_and_send_requests (K : kz_endpoint_t) (L : List kz_local_request_t) :
    tx_encode_and_send (with_requests K L)
      = (tx_encode_and_send K).map
          (fun r => { K := with_requests r.K L, sent := r.sent, overheads := r.overheads }) := by
  have e4 : (with_requests K L).tx_mem = K.tx_mem := rfl
  have e5 : (with_requests K L).tx_buffer_end = K.tx_buffer_end := rfl
  have e7 : (with_requests K L).putptr = K.putptr := rfl
  have e8 : (with_requests K L).tx = K.tx := rfl
  unfold tx_encode_and_send
  simp only [e4, e5, e7, e8]
  split_ifs <;> rfl

theorem send_request_requests (K : kz_endpoint_t) (L : List kz_local_request_t)
    (reqid channelid : Nat) :
    send_request (with_requests K L) reqid channelid
      = (send_request K reqid channelid).map
          (fun r => { K := with_requests r.K L, sent := r.sent, overheads := r.overheads }) := by
  rw [send_request_eq, send_request_eq]
  exact tx_encode_and_send_requests (store_header K KZ_HEADER_REQUEST reqid channelid 0x00) L

theorem keeps_pending_refl (K : kz_endpoint_t) : keeps_pending K K :=
  ⟨rfl, fun _ _ => rfl⟩

theorem keeps_pending_trans (K1 K2 K3 : kz_endpoint_t) (h12 : keeps_pending K1 K2)
    (h23 : keeps_pending K2 K3) : keeps_pending K1 K3 := by
  refine ⟨h23.1.trans h12.1, fun j hj => ?_⟩
  have e12 := h12.2 j hj
  rw [h23.2 j (by rw [e12]; exact hj), e12]

theorem keeps_pending_of_eq (K K2 : kz_endpoint_t)
    (h : K2.local_requests = K.local_requests) : keeps_pending K K2 :=
  ⟨by rw [h], fun _ _ => by rw [h]⟩

/-- The putters, the getters and `kz_handle` leave the request pool as it is. -/
theorem api_pool (conv : Int → Nat) (K : kz_endpoint_t) (v : Int) (f : Nat) (s : kz_string_t)
    (ch cb ud : Nat) :
    (kz_putint K v).1.local_requests = K.local_requests ∧
    (kz_putfloat K f).1.local_requests = K.local_requests ∧
    (kz_putstring K s).1.local_requests = K.local_requests ∧
    (kz_putlistopen K).1.local_requests = K.local_requests ∧
    (kz_putlistclose K).1.local_requests = K.local_requests ∧
    (kz_putnil K).1.local_requests = K.local_requests ∧
    (kz_getint K v).K.local_requests = K.local_requests ∧
    (kz_getfloat K f).K.local_requests = K.local_requests ∧
    (kz_getnumber conv v K f).K.local_requests = K.local_requests ∧
    (kz_handle K ch cb ud).1.local_requests = K.local_requests := by
  obtain ⟨t1, t2, t3, t4, _⟩ := kz_put_tag_requests K K.local_requests s
  exact ⟨(congrArg (fun r => r.1.local_requests) (kz_putint_requests K K.local_requests v)),
    (congrArg (fun r => r.1.local_requests) (kz_putfloat_requests K K.local_requests f)),
    (congrArg (fun r => r.1.local_requests) t1),
    (congrArg (fun r => r.1.local_requests) t2),
    (congrArg (fun r => r.1.local_requests) t3),
    (congrArg (fun r => r.1.local_requests) t4),
    (congrArg (fun r => r.K.local_requests) (kz_getint_requests K K.local_requests v)),
    (congrArg (fun r => r.K.local_requests) (kz_getfloat_requests K K.local_requests f)),
    (congrArg (fun r => r.K.local_requests)
      (kz_getnumber_requests conv K K.local_requests v f)),
    (congrArg (fun r => r.1.local_requests) (kz_handle_requests K K.local_requests ch cb ud))⟩

theorem send_request_pool (K : kz_endpoint_t) (reqid channelid : Nat) (r : tx_result)
    (h : send_request K reqid channelid = some r) :
    r.K.local_requests = K.local_requests := by
  have key := send_request_requests K K.local_requests reqid channelid
  rw [with_requests_self, h] at key
  have key2 : some r = some
      { K := with_requests r.K K.local_requests, sent := r.sent, overheads := r.overheads } :=
    key
  exact congrArg (fun o : tx_result => o.K.local_requests) (Option.some.inj key2)

/-- A call of `kz_call` changes the request pool in a slot that was free, if
at all. -/
theorem kz_call_loop_keeps (ch cb ud : Nat) (t : Int) : ∀ (n idx reqid : Nat)
    (K : kz_endpoint_t) (r : call_result),
    kz_call_loop ch cb ud t n idx reqid K = some r →
    keeps_pending K r.K ∧ ∀ e ∈ r.events, ∃ bytes, e = kz_event.tx bytes := by
  intro n
  induction n with
  | zero =>
    intro idx reqid K r h
    have h2 : some ({ K := K, ret := 0, events := [] } : call_result) = some r := h
    rw [← Option.some.inj h2]
    exact ⟨keeps_pending_refl K, fun e he => by simp at he⟩
  | succ n ih =>
    intro idx reqid K r h
    rw [kz_call_loop_succ] at h
    split at h
    · rename_i hfree
      cases hres : send_request (store_request K idx ⟨cb, ud, t⟩) reqid (ch % 256) with
      | none => rw [hres] at h; exact absurd h (by simp)
      | some q =>
        rw [hres] at h
        have h2 : some ({ K := q.K, ret := 1, events := [kz_event.tx q.sent] } : call_result)
            = some r := h
        rw [← Option.some.inj h2]
        have hp := send_request_pool _ _ _ _ hres
        refine ⟨⟨?_, fun j hj => ?_⟩, fun e he => ⟨q.sent, by simpa using he⟩⟩
        · show q.K.local_requests.length = K.local_requests.length
          rw [hp]
          exact List.length_set _ _ _
        · show q.K.local_requests.getD j free_request = K.local_requests.getD j free_request
          rw [hp]
          show (K.local_requests.set idx ⟨cb, ud, t⟩).getD j free_request = _
          rw [getD_set_any, if_neg]
          intro hc
          rw [← hc.1] at hj
          exact hj hfree
    · exact ih _ _ K r h

/-- A call of the API changes the request pool in a slot that was free, if at
all; only `kz_call` changes it; the events are calls of `tx`. -/
theorem run_api_call_keeps (conv : Int → Nat) (K : kz_endpoint_t) (a : kz_api_call)
    (K1 : kz_endpoint_t) (v : kz_api_value) (ev : List kz_event)
    (h : run_api_call conv K a = some (K1, v, ev)) :
    keeps_pending K K1 ∧
    ((∀ ch cb ud t, a ≠ kz_api_call.call ch cb ud t) →
      K1.local_requests = K.local_requests) ∧
    ∀ e ∈ ev, ∃ bytes, e = kz_event.tx bytes := by
  have hp := fun (w : Int) (f : Nat) (ch cb ud : Nat) => api_pool conv K w f ⟨[], 0⟩ ch cb ud
  have base : ∀ (K2 : kz_endpoint_t) (w : kz_api_value),
      K2.local_requests = K.local_requests → some (K2, w, ([] : List kz_event)) = some (K1, v, ev) →
      keeps_pending K K1 ∧
      ((∀ ch cb ud t, a ≠ kz_api_call.call ch cb ud t) →
        K1.local_requests = K.local_requests) ∧
      ∀ e ∈ ev, ∃ bytes, e = kz_event.tx bytes := by
    intro K2 w hl he
    have he2 := Option.some.inj he
    have e1 : K2 = K1 := congrArg (fun r => r.1) he2
    have e3 : ([] : List kz_event) = ev := congrArg (fun r => r.2.2) he2
    rw [← e1, ← e3]
    exact ⟨keeps_pending_of_eq K K2 hl, fun _ => hl, fun e he => by simp at he⟩
  cases a with
  | putint w => exact base _ _ (hp w 0 0 0 0).1 h
  | putfloat w => exact base _ _ (hp 0 w 0 0 0).2.1 h
  | putstring w => exact base _ _ (api_pool conv K 0 0 w 0 0 0).2.2.1 h
  | putlistopen => exact base _ _ (hp 0 0 0 0 0).2.2.2.1 h
  | putlistclose => exact base _ _ (hp 0 0 0 0 0).2.2.2.2.1 h
  | putnil => exact base _ _ (hp 0 0 0 0 0).2.2.2.2.2.1 h
  | putclear => exact base (kz_putclear K) _ rfl h
  | getint => exact base _ _ (hp 0 0 0 0 0).2.2.2.2.2.2.1 h
  | getfloat => exact base _ _ (hp 0 0 0 0 0).2.2.2.2.2.2.2.1 h
  | getnumber => exact base _ _ (hp 0 0 0 0 0).2.2.2.2.2.2.2.2.1 h
  | getreset => exact base (kz_getreset K) _ rfl h
  | handle ch cb ud => exact base _ _ (hp 0 0 ch cb ud).2.2.2.2.2.2.2.2.2 h
  | call ch cb ud t =>
    simp only [run_api_call] at h
    cases hres : kz_call K ch cb ud t with
    | none => rw [hres] at h; exact absurd h (by simp)
    | some r =>
      rw [hres] at h
      have he2 := Option.some.inj h
      have e1 : r.K = K1 := congrArg (fun q => q.1) he2
      have e3 : r.events = ev := congrArg (fun q => q.2.2) he2
      have hk := kz_call_loop_keeps ch cb ud t KZ_MAX_LOCAL_REQUESTS 0 0 K r hres
      rw [e1] at hk
      refine ⟨hk.1, fun hne => absurd rfl (hne ch cb ud t), ?_⟩
      rw [← e3]
      exact hk.2
  | send ch =>
    simp only [run_api_call, kz_send] at h
    cases hres : send_request K 0xFF (ch % 256) with
    | none => rw [hres] at h; exact absurd h (by simp)
    | some q =>
      rw [hres] at h
      have h2 : some (q.K, ({ ret := 0, int_out := 0, float_out := 0 } : kz_api_value),
          [kz_event.tx q.sent]) = some (K1, v, ev) := h
      have he2 := Option.some.inj h2
      have e1 : q.K = K1 := congrArg (fun r => r.1) he2
      have e3 : [kz_event.tx q.sent] = ev := congrArg (fun r => r.2.2) he2
      have hp := send_request_pool _ _ _ _ hres
      rw [e1] at hp
      rw [← e3]
      exact ⟨keeps_pending_of_eq K K1 hp, fun _ => hp, fun e he => ⟨q.sent, by simpa using he⟩⟩

/-- The code of a callback changes the request pool in slots that were free,
if at all; it does not change the pool when it makes no call of `kz_call`; its
events are calls of `tx`. -/
theorem run_program_keeps (conv : Int → Nat) : ∀ (p : kz_program) (K K2 : kz_endpoint_t)
    (st : kz_request_status_t) (ev : List kz_event),
    run_program conv p K = some (K2, st, ev) →
    keeps_pending K K2 ∧ (makes_no_call p → K2.local_requests = K.local_requests) ∧
    ∀ e ∈ ev, ∃ bytes, e = kz_event.tx bytes := by
  intro p
  induction p with
  | ret s =>
    intro K K2 st ev h
    have he2 := Option.some.inj h
    have e1 : K = K2 := congrArg (fun r => r.1) he2
    have e3 : ([] : List kz_event) = ev := congrArg (fun r => r.2.2) he2
    rw [← e1, ← e3]
    exact ⟨keeps_pending_refl K, fun _ => rfl, fun e he => by simp at he⟩
  | call c next ih =>
    intro K K2 st ev h
    simp only [run_program] at h
    cases hres : run_api_call conv K c with
    | none => rw [hres] at h; exact absurd h (by simp)
    | some r =>
      obtain ⟨K1, v, ev1⟩ := r
      rw [hres] at h
      simp only at h
      cases hres2 : run_program conv (next v) K1 with
      | none => rw [hres2] at h; exact absurd h (by simp)
      | some r2 =>
        obtain ⟨K3, st3, ev3⟩ := r2
        rw [hres2] at h
        have he2 := Option.some.inj h
        have e1 : K3 = K2 := congrArg (fun r => r.1) he2
        have e3 : ev1 ++ ev3 = ev := congrArg (fun r => r.2.2) he2
        obtain ⟨a1, a2, a3⟩ := run_api_call_keeps conv K c K1 v ev1 hres
        obtain ⟨b1, b2, b3⟩ := ih v K1 K3 st3 ev3 hres2
        rw [← e1, ← e3]
        refine ⟨keeps_pending_trans K K1 K3 a1 b1, fun hno => ?_, fun e he => ?_⟩
        · rw [b2 (hno.2 v), a2 hno.1]
        · rcases List.mem_append.mp he with h1 | h1
          · exact a3 e h1
          · exact b3 e h1

/-! ## The timeout sweep with callbacks that use the API -/

/-- The loop of `handle_timeouts` over `a + b` slots is the loop over the
first `a` slots followed by the loop over the next `b` slots. -/
theorem handle_timeouts_loop_add (cb : kz_callbacks) (b : Nat) : ∀ (a idx : Nat)
    (K : kz_endpoint_t),
    handle_timeouts_loop cb (a + b) idx K =
      match handle_timeouts_loop cb a idx K with
      | none => none
      | some (K1, e1) =>
        match handle_timeouts_loop cb b (idx + a) K1 with
        | none => none
        | some (K2, e2) => some (K2, e1 ++ e2) := by
  intro a
  induction a with
  | zero =>
    intro idx K
    rw [Nat.zero_add]
    show _ = match handle_timeouts_loop cb b (idx + 0) K with
      | none => none
      | some (K2, e2) => some (K2, [] ++ e2)
    rw [Nat.add_zero]
    cases handle_timeouts_loop cb b idx K with
    | none => rfl
    | some r => rfl
  | succ a ih =>
    intro idx K
    rw [show a + 1 + b = (a + b) + 1 by omega, handle_timeouts_loop_succ,
      handle_timeouts_loop_succ cb a idx K, show idx + (a + 1) = idx + 1 + a by omega]
    split
    · split
      · cases hres : cb.reply (K.local_requests.getD idx free_request).callback
            (K.local_requests.getD idx free_request).userdata kz_request_status_t.KZ_IGNORE
            (timeout_callback_state K idx) with
        | none => rfl
        | some r =>
          obtain ⟨Kc, evc⟩ := r
          simp only
          rw [ih (idx + 1) (store_request Kc idx free_request)]
          cases handle_timeouts_loop cb a (idx + 1) (store_request Kc idx free_request) with
          | none => rfl
          | some r1 =>
            obtain ⟨K1, e1⟩ := r1
            simp only
            cases handle_timeouts_loop cb b (idx + 1 + a) K1 with
            | none => rfl
            | some r2 =>
              obtain ⟨K2, e2⟩ := r2
              simp only [List.cons_append, List.append_assoc]
      · exact ih (idx + 1) _
    · exact ih (idx + 1) K

/-- A sweep over slots other than `i` leaves slot `i` as it is, when the reply
callbacks leave slot `i` as it is whenever it satisfies `P`. -/
theorem handle_timeouts_loop_other (cb : kz_callbacks) (i : Nat)
    (P : kz_local_request_t → Prop)
    (hcb : ∀ c u st K K2 ev, cb.reply c u st K = some (K2, ev) →
      K2.local_requests.length = K.local_requests.length ∧
      (P (K.local_requests.getD i free_request) →
        K2.local_requests.getD i free_request = K.local_requests.getD i free_request)) :
    ∀ (n idx : Nat) (K K2 : kz_endpoint_t) (ev : List kz_event),
    handle_timeouts_loop cb n idx K = some (K2, ev) →
    K2.local_requests.length = K.local_requests.length ∧
    ((i < idx ∨ idx + n ≤ i) → P (K.local_requests.getD i free_request) →
      K2.local_requests.getD i free_request = K.local_requests.getD i free_request) := by
  intro n
  induction n with
  | zero =>
    intro idx K K2 ev h
    have h2 : some (K, ([] : List kz_event)) = some (K2, ev) := h
    have e1 : K = K2 := congrArg (fun r => r.1) (Option.some.inj h2)
    rw [← e1]
    exact ⟨rfl, fun _ _ => rfl⟩
  | succ n ih =>
    intro idx K K2 ev h
    rw [handle_timeouts_loop_succ] at h
    split at h
    · split at h
      · cases hres : cb.reply (K.local_requests.getD idx free_request).callback
            (K.local_requests.getD idx free_request).userdata kz_request_status_t.KZ_IGNORE
            (timeout_callback_state K idx) with
        | none => rw [hres] at h; exact absurd h (by simp)
        | some r =>
          obtain ⟨Kc, evc⟩ := r
          rw [hres] at h
          simp only at h
          cases hres2 : handle_timeouts_loop cb n (idx + 1)
              (store_request Kc idx free_request) with
          | none => rw [hres2] at h; exact absurd h (by simp)
          | some r2 =>
            obtain ⟨K3, rest⟩ := r2
            rw [hres2] at h
            have e1 : K3 = K2 := congrArg (fun r => r.1) (Option.some.inj h)
            obtain ⟨c1, c2⟩ := hcb _ _ _ _ _ _ hres
            obtain ⟨d1, d2⟩ := ih (idx + 1) _ K3 rest hres2
            have hst : (timeout_callback_state K idx).local_requests
                = K.local_requests.set idx
                    { (K.local_requests.getD idx free_request) with
                      timeout_ticks := int_dec
                        (K.local_requests.getD idx free_request).timeout_ticks } := rfl
            have hfr : (store_request Kc idx free_request).local_requests
                = Kc.local_requests.set idx free_request := rfl
            rw [← e1]
            refine ⟨?_, fun hrange hP => ?_⟩
            · rw [d1, hfr, List.length_set, c1, hst, List.length_set]
            · have hne : ¬ (idx = i ∧ i < K.local_requests.length) := fun hc => by omega
              have hne2 : ¬ (idx = i ∧ i < Kc.local_requests.length) := fun hc => by omega
              have s1 : (timeout_callback_state K idx).local_requests.getD i free_request
                  = K.local_requests.getD i free_request := by
                rw [hst, getD_set_any, if_neg hne]
              have s2 : Kc.local_requests.getD i free_request
                  = K.local_requests.getD i free_request := by
                rw [c2 (by rw [s1]; exact hP), s1]
              have s3 : (store_request Kc idx free_request).local_requests.getD i free_request
                  = K.local_requests.getD i free_request := by
                rw [hfr, getD_set_any, if_neg hne2, s2]
              rw [d2 (by omega) (by rw [s3]; exact hP), s3]
      · obtain ⟨d1, d2⟩ := ih (idx + 1) _ K2 ev h
        have hfr : (store_request K idx (sweep_slot
            (K.local_requests.getD idx free_request))).local_requests
            = K.local_requests.set idx (sweep_slot (K.local_requests.getD idx free_request)) :=
          rfl
        refine ⟨?_, fun hrange hP => ?_⟩
        · rw [d1, hfr, List.length_set]
        · have hne : ¬ (idx = i ∧ i < K.local_requests.length) := fun hc => by omega
          have s3 : (store_request K idx (sweep_slot
              (K.local_requests.getD idx free_request))).local_requests.getD i free_request
              = K.local_requests.getD i free_request := by
            rw [hfr, getD_set_any, if_neg hne]
          rw [d2 (by omega) (by rw [s3]; exact hP), s3]
    · obtain ⟨d1, d2⟩ := ih (idx + 1) K K2 ev h
      exact ⟨d1, fun hrange hP => d2 (by omega) hP⟩

theorem inv_after_some {α : Type} (d : kz_endpointdef_t) (sel : α → kz_endpoint_t)
    (o : Option α) (h : inv_after d sel o) (htx : d.tx ≠ 0) :
    ∃ r, o = some r ∧ cursor_inv d (sel r) := by
  cases o with
  | none => exact absurd h htx
  | some r => exact ⟨r, rfl, h⟩

theorem kz_tick_nil (cb : kz_callbacks) (K : kz_endpoint_t) :
    kz_tick cb K [] = handle_timeouts_loop cb 16 0 K := by
  have h1 : kz_tick cb K [] = match handle_timeouts_loop cb 16 0 K with
      | none => none
      | some (K2, rest) => some (K2, [] ++ rest) := rfl
  rw [h1]
  cases handle_timeouts_loop cb 16 0 K with
  | none => rfl
  | some r => rfl

/-- The sweep of a tick splits at slot `i` once its three parts return. -/
theorem tick_through_slot_intro (cb : kz_callbacks) (i : Nat) (hi : i < 16)
    (K Ka Kb K2 : kz_endpoint_t) (eva evb evz : List kz_event)
    (h1 : handle_timeouts_loop cb i 0 K = some (Ka, eva))
    (h2 : handle_timeouts_loop cb 1 i Ka = some (Kb, evb))
    (h3 : handle_timeouts_loop cb (15 - i) (i + 1) Kb = some (K2, evz)) :
    tick_through_slot cb i K Ka Kb K2 evb := by
  refine ⟨eva, evz, h1, h2, h3, ?_⟩
  rw [kz_tick_nil, show 16 = i + (1 + (15 - i)) by omega, handle_timeouts_loop_add, h1]
  simp only
  rw [handle_timeouts_loop_add, Nat.zero_add, h2]
  simp only
  rw [h3, List.append_assoc]

/-- The pass of the loop of `handle_timeouts` for a slot with two or more ticks
left: the count is decremented, no call is made. -/
theorem handle_timeouts_step_quiet (cb : kz_callbacks) (K : kz_endpoint_t) (i c u : Nat)
    (rem : Int) (hc : c ≠ 0) (hrem : 2 ≤ rem)
    (hslot : K.local_requests.getD i free_request
      = { callback := c, userdata := u, timeout_ticks := rem }) :
    handle_timeouts_loop cb 1 i K
      = some (store_request K i { callback := c, userdata := u, timeout_ticks := rem - 1 },
          []) := by
  have hdec : int_dec rem = rem - 1 := int_dec_pos rem (by omega)
  have hsw : sweep_slot { callback := c, userdata := u, timeout_ticks := rem }
      = { callback := c, userdata := u, timeout_ticks := rem - 1 } := by
    unfold sweep_slot
    simp only [hdec, ne_eq, hc, not_false_eq_true, if_true]
    rw [if_neg (by omega)]
  rw [handle_timeouts_loop_succ, hslot, if_pos hc]
  simp only [hdec]
  rw [if_neg (by omega), hsw]
  rfl

/-- The pass of the loop of `handle_timeouts` for a slot whose count is 1 or
less (above `INT_MIN`): the callback is called with `KZ_IGNORE` on
`timeout_callback_state`, then the slot is set free. -/
theorem handle_timeouts_step_expiry (cb : kz_callbacks) (K Kc : kz_endpoint_t) (i c u : Nat)
    (rem : Int) (evc : List kz_event) (hc : c ≠ 0) (hmin : INT32_MIN < rem) (hrem : rem ≤ 1)
    (hslot : K.local_requests.getD i free_request
      = { callback := c, userdata := u, timeout_ticks := rem })
    (hcall : cb.reply c u kz_request_status_t.KZ_IGNORE (timeout_callback_state K i)
      = some (Kc, evc)) :
    handle_timeouts_loop cb 1 i K
      = some (store_request Kc i free_request,
          kz_event.reply_callback c u kz_request_status_t.KZ_IGNORE :: evc) := by
  have hdec : int_dec rem = rem - 1 := int_dec_above_min rem hmin
  rw [handle_timeouts_loop_succ, hslot, if_pos hc]
  simp only [hdec]
  rw [if_pos (by omega), hcall]
  simp only [handle_timeouts_loop, List.append_nil]

theorem program_callbacks_api (conv : Int → Nat) (d : kz_endpointdef_t)
    (hd : 16 ≤ d.rx_buffer_size ∧ d.rx_buffer_size ≤ 256 ∧
      16 ≤ d.tx_buffer_size ∧ d.tx_buffer_size ≤ 256)
    (request_code : Nat → Nat → kz_program)
    (reply_code : Nat → Nat → kz_request_status_t → kz_program) :
    api_callbacks d (program_callbacks conv request_code reply_code) ∧
    ((∀ c u st, makes_no_call (reply_code c u st)) →
      ∀ c u st K K2 ev,
        (program_callbacks conv request_code reply_code).reply c u st K = some (K2, ev) →
        K2.local_requests = K.local_requests) := by
  have key : ∀ c u st K K2 ev,
      (program_callbacks conv request_code reply_code).reply c u st K = some (K2, ev) →
      ∃ s, run_program conv (reply_code c u st) K = some (K2, s, ev) := by
    intro c u st K K2 ev h
    have h2 : (match run_program conv (reply_code c u st) K with
        | none => none
        | some (K3, _, events) => some (K3, events)) = some (K2, ev) := h
    cases hres : run_program conv (reply_code c u st) K with
    | none => rw [hres] at h2; exact absurd h2 (by simp)
    | some r =>
      obtain ⟨K3, s, e3⟩ := r
      rw [hres] at h2
      have he := Option.some.inj h2
      have e1 : K3 = K2 := congrArg (fun q => q.1) he
      have e2 : e3 = ev := congrArg (fun q => q.2) he
      rw [← e1, ← e2]
      exact ⟨s, rfl⟩
  refine ⟨⟨program_callbacks_keep_inv conv d hd request_code reply_code, ?_⟩, ?_⟩
  · intro c u st K K2 ev h
    obtain ⟨s, hs⟩ := key c u st K K2 ev h
    obtain ⟨a1, _, a3⟩ := run_program_keeps conv _ K K2 s ev hs
    exact ⟨a1, a3⟩
  · intro hno c u st K K2 ev h
    obtain ⟨s, hs⟩ := key c u st K K2 ev h
    exact (run_program_keeps conv _ K K2 s ev hs).2.1 (hno c u st)

/-- The sweep over slots other than `i`, with callbacks that use the API:
it returns, keeps the cursor invariant and the length of the pool, and leaves
slot `i` as it is when slot `i` is active. -/
theorem handle_timeouts_loop_api (d : kz_endpointdef_t) (cb : kz_callbacks)
    (hd : 16 ≤ d.rx_buffer_size ∧ d.rx_buffer_size ≤ 256 ∧
      16 ≤ d.tx_buffer_size ∧ d.tx_buffer_size ≤ 256)
    (htx : d.tx ≠ 0) (hcb : api_callbacks d cb) (i n idx : Nat) (K : kz_endpoint_t)
    (hK : cursor_inv d K) :
    ∃ K2 ev, handle_timeouts_loop cb n idx K = some (K2, ev) ∧ cursor_inv d K2 ∧
      K2.local_requests.length = K.local_requests.length ∧
      ((i < idx ∨ idx + n ≤ i) → (K.local_requests.getD i free_request).callback ≠ 0 →
        K2.local_requests.getD i free_request = K.local_requests.getD i free_request) := by
  obtain ⟨r, hr, hinv⟩ := inv_after_some d (fun r : kz_endpoint_t × List kz_event => r.1) _
    (handle_timeouts_loop_inv d cb hd hcb.1 n idx K hK) htx
  obtain ⟨K2, ev⟩ := r
  obtain ⟨h1, h2⟩ := handle_timeouts_loop_other cb i (fun q => q.callback ≠ 0)
    (fun c u st Kx Ky e h => ⟨(hcb.2 c u st Kx Ky e h).1.1, (hcb.2 c u st Kx Ky e h).1.2 i⟩)
    n idx K K2 ev hr
  exact ⟨K2, ev, hr, hinv, h1, h2⟩

/-- A tick without bytes while the request in slot `i` has two or more ticks
left, with callbacks that use the API: the tick returns, the pass of the sweep
for slot `i` decrements the count and makes no call, and the request is in its
slot after the tick. -/
theorem kz_tick_quiet_slot (d : kz_endpointdef_t) (cb : kz_callbacks)
    (hd : 16 ≤ d.rx_buffer_size ∧ d.rx_buffer_size ≤ 256 ∧
      16 ≤ d.tx_buffer_size ∧ d.tx_buffer_size ≤ 256)
    (htx : d.tx ≠ 0) (hcb : api_callbacks d cb) (K : kz_endpoint_t) (i c u : Nat) (rem : Int)
    (hi : i < 16) (hc : c ≠ 0) (hrem : 2 ≤ rem) (hK : cursor_inv d K)
    (hlen : K.local_requests.length = 16)
    (hslot : K.local_requests.getD i free_request
      = { callback := c, userdata := u, timeout_ticks := rem }) :
    ∃ Ka K2, tick_through_slot cb i K Ka
        (store_request Ka i { callback := c, userdata := u, timeout_ticks := rem - 1 }) K2 [] ∧
      Ka.local_requests.getD i free_request
        = { callback := c, userdata := u, timeout_ticks := rem } ∧
      K2.local_requests.getD i free_request
        = { callback := c, userdata := u, timeout_ticks := rem - 1 } ∧
      cursor_inv d K2 ∧ K2.local_requests.length = 16 := by
  obtain ⟨Ka, eva, ha, hKa, hla, hsa⟩ := handle_timeouts_loop_api d cb hd htx hcb i i 0 K hK
  have hslota : Ka.local_requests.getD i free_request
      = { callback := c, userdata := u, timeout_ticks := rem } := by
    rw [hsa (Or.inr (by omega)) (by rw [hslot]; exact hc), hslot]
  have hstep := handle_timeouts_step_quiet cb Ka i c u rem hc hrem hslota
  have hKb : cursor_inv d
      (store_request Ka i { callback := c, userdata := u, timeout_ticks := rem - 1 }) := hKa
  have hlb : (store_request Ka i
      { callback := c, userdata := u, timeout_ticks := rem - 1 }).local_requests.length
      = 16 := by
    show (Ka.local_requests.set i _).length = 16
    rw [List.length_set, hla, hlen]
  have hslotb : (store_request Ka i
      { callback := c, userdata := u, timeout_ticks := rem - 1 }).local_requests.getD i
        free_request = { callback := c, userdata := u, timeout_ticks := rem - 1 } := by
    show (Ka.local_requests.set i _).getD i free_request = _
    rw [getD_set_any, if_pos ⟨rfl, by omega⟩]
  obtain ⟨K2, evz, hz, hK2, hl2, hs2⟩ := handle_timeouts_loop_api d cb hd htx hcb i (15 - i)
    (i + 1) _ hKb
  refine ⟨Ka, K2, tick_through_slot_intro cb i hi K Ka _ K2 eva [] evz ha hstep hz, hslota,
    ?_, hK2, by rw [hl2, hlb]⟩
  rw [hs2 (Or.inl (by omega)) (by rw [hslotb]; exact hc), hslotb]

/-- A tick without bytes while the count of the request in slot `i` is 1 or
less (above `INT_MIN`), with callbacks that use the API: the tick returns, the
pass of the sweep for slot `i` calls the callback with `KZ_IGNORE` and sets the
slot free; the slot is free after the tick when the reply callbacks leave the
pool as it is. -/
theorem kz_tick_expiry_slot (d : kz_endpointdef_t) (cb : kz_callbacks)
    (hd : 16 ≤ d.rx_buffer_size ∧ d.rx_buffer_size ≤ 256 ∧
      16 ≤ d.tx_buffer_size ∧ d.tx_buffer_size ≤ 256)
    (htx : d.tx ≠ 0) (hcb : api_callbacks d cb) (K : kz_endpoint_t) (i c u : Nat) (rem : Int)
    (hi : i < 16) (hc : c ≠ 0) (hmin : INT32_MIN < rem) (hrem : rem ≤ 1)
    (hK : cursor_inv d K) (hlen : K.local_requests.length = 16)
    (hslot : K.local_requests.getD i free_request
      = { callback := c, userdata := u, timeout_ticks := rem }) :
    ∃ Ka Kc evc K2, tick_through_slot cb i K Ka (store_request Kc i free_request) K2
        (kz_event.reply_callback c u kz_request_status_t.KZ_IGNORE :: evc) ∧
      cb.reply c u kz_request_status_t.KZ_IGNORE (timeout_callback_state Ka i)
        = some (Kc, evc) ∧
      (∀ e ∈ evc, ∃ bytes, e = kz_event.tx bytes) ∧
      (store_request Kc i free_request).local_requests.getD i free_request = free_request ∧
      ((∀ c u st K K2 ev, cb.reply c u st K = some (K2, ev) →
          K2.local_requests = K.local_requests) →
        K2.local_requests.getD i free_request = free_request) := by
  obtain ⟨Ka, eva, ha, hKa, hla, hsa⟩ := handle_timeouts_loop_api d cb hd htx hcb i i 0 K hK
  have hslota : Ka.local_requests.getD i free_request
      = { callback := c, userdata := u, timeout_ticks := rem } := by
    rw [hsa (Or.inr (by omega)) (by rw [hslot]; exact hc), hslot]
  obtain ⟨rc, hrc, hKc⟩ := inv_after_some d (fun r : kz_endpoint_t × List kz_event => r.1) _
    (hcb.1.2 c u kz_request_status_t.KZ_IGNORE (timeout_callback_state Ka i)
      (timeout_callback_state_inv d Ka i hd.1 hKa)) htx
  obtain ⟨Kc, evc⟩ := rc
  have hstep := handle_timeouts_step_expiry cb Ka Kc i c u rem evc hc hmin hrem hslota hrc
  obtain ⟨hkeep, htxev⟩ := hcb.2 _ _ _ _ _ _ hrc
  have hlc : Kc.local_requests.length = 16 := by
    rw [hkeep.1]
    show (Ka.local_requests.set i _).length = 16
    rw [List.length_set, hla, hlen]
  have hKb : cursor_inv d (store_request Kc i free_request) := hKc
  have hslotb : (store_request Kc i free_request).local_requests.getD i free_request
      = free_request := by
    show (Kc.local_requests.set i free_request).getD i free_request = _
    rw [getD_set_free, if_pos rfl]
  obtain ⟨rz, hz, _⟩ := inv_after_some d (fun r : kz_endpoint_t × List kz_event => r.1) _
    (handle_timeouts_loop_inv d cb hd hcb.1 (15 - i) (i + 1) _ hKb) htx
  obtain ⟨K2, evz⟩ := rz
  refine ⟨Ka, Kc, evc, K2, tick_through_slot_intro cb i hi K Ka _ K2 eva _ evz ha hstep hz,
    hrc, htxev, hslotb, fun hpool => ?_⟩
  obtain ⟨_, h2⟩ := handle_timeouts_loop_other cb i (fun _ => True)
    (fun c u st Kx Ky e h => ⟨by rw [hpool c u st Kx Ky e h],
      fun _ => by rw [hpool c u st Kx Ky e h]⟩) (15 - i) (i + 1) _ K2 evz hz
  rw [h2 (Or.inl (by omega)) trivial, hslotb]

/-- Ticks without bytes while the request in slot `i` has more ticks left than
there are ticks, with callbacks that use the API: the ticks return and the
request stays in its slot, with as many ticks less. -/
theorem kz_ticks_quiet_slot (d : kz_endpointdef_t) (cb : kz_callbacks)
    (hd : 16 ≤ d.rx_buffer_size ∧ d.rx_buffer_size ≤ 256 ∧
      16 ≤ d.tx_buffer_size ∧ d.tx_buffer_size ≤ 256)
    (htx : d.tx ≠ 0) (hcb : api_callbacks d cb) (i c u : Nat) (hi : i < 16) (hc : c ≠ 0) :
    ∀ (t : Nat) (rem : Int) (K : kz_endpoint_t), cursor_inv d K →
    K.local_requests.length = 16 →
    K.local_requests.getD i free_request
      = { callback := c, userdata := u, timeout_ticks := rem } →
    (t : Int) < rem →
    ∃ Kt evs, kz_ticks cb K (List.replicate t []) = some (Kt, evs) ∧ evs.length = t ∧
      cursor_inv d Kt ∧ Kt.local_requests.length = 16 ∧
      Kt.local_requests.getD i free_request
        = { callback := c, userdata := u, timeout_ticks := rem - (t : Int) } := by
  intro t
  induction t with
  | zero =>
    intro rem K hK hlen hslot _
    refine ⟨K, [], rfl, rfl, hK, hlen, ?_⟩
    simpa using hslot
  | succ t ih =>
    intro rem K hK hlen hslot hlt
    obtain ⟨Ka, K1, ⟨eva, evz, _, _, _, htick⟩, _, hslot1, hK1, hlen1⟩ :=
      kz_tick_quiet_slot d cb hd htx hcb K i c u rem hi hc (by omega) hK hlen hslot
    obtain ⟨Kt, evs, hticks, hl, hKt, hlent, hslott⟩ :=
      ih (rem - 1) K1 hK1 hlen1 hslot1 (by omega)
    refine ⟨Kt, (eva ++ [] ++ evz) :: evs, ?_, by simp [hl], hKt, hlent, ?_⟩
    · rw [List.replicate_succ, kz_ticks_cons, htick]
      simp only [hticks]
    · have hcast : rem - ((t + 1 : Nat) : Int) = rem - 1 - (t : Int) := by
        push_cast
        omega
      rw [hcast]
      exact hslott

/-- A call of `kz_call` on an endpoint that satisfies the cursor invariant and
whose lowest free slot is `i`: it returns 1, sends one frame, and the endpoint
afterwards is that of `send_request` with the request stored in slot `i`;
frame and endpoint but for the stored count do not depend on the timeout. -/
theorem kz_call_fresh (d : kz_endpointdef_t) (K : kz_endpoint_t) (ch c u i : Nat)
    (hd : 16 ≤ d.rx_buffer_size ∧ d.rx_buffer_size ≤ 256 ∧
      16 ≤ d.tx_buffer_size ∧ d.tx_buffer_size ≤ 256)
    (htx : d.tx ≠ 0) (hK : cursor_inv d K)
    (hi : i < 16) (hfree : (K.local_requests.getD i free_request).callback = 0)
    (hbusy : ∀ j, j < i → (K.local_requests.getD j free_request).callback ≠ 0) :
    ∃ q : tx_result, cursor_inv d q.K ∧ q.K.local_requests = K.local_requests ∧ ∀ t : Int,
      kz_call K ch c u t = some
        { K := with_requests q.K (K.local_requests.set i
            { callback := c, userdata := u, timeout_ticks := t }),
          ret := 1, events := [kz_event.tx q.sent] } := by
  obtain ⟨q, hq, hKq⟩ := inv_after_some d tx_result.K _
    (send_request_inv d K i (ch % 256) hd.2.2.2 hK) htx
  refine ⟨q, hKq, send_request_pool K i (ch % 256) q hq, fun t => ?_⟩
  have hloop := kz_call_loop_alloc ch c u t K i hi hfree hbusy 16 0 (Nat.zero_le _) rfl
  have hst : store_request K i { callback := c, userdata := u, timeout_ticks := t }
      = with_requests K (K.local_requests.set i
          { callback := c, userdata := u, timeout_ticks := t }) := rfl
  rw [hst, send_request_requests, hq] at hloop
  exact hloop

/-! ## Timeouts with callbacks that use the API -/

/-- A run on which the slot of a request that timed out is not free after the
tick of its timeout. On the 16-byte endpoint `sample_def`, with the reply
callbacks `sample_retry_code`: `kz_call(7, 5, 6, 100)` takes slot 0 and
`kz_call(7, 7, 8, 2)` takes slot 1; a tick receives the reply to request 0, so
that slot 0 is free and slot 1 has one tick left. Then `kz_call(7, 9, 4, 1)`
returns 1 and takes slot 0, and one tick without bytes follows. Its sweep
calls callback 9 with `KZ_IGNORE` and sets slot 0 free, then calls callback 7
with `KZ_IGNORE` for slot 1; callback 7 starts its call again, which takes the
lowest free slot, slot 0. After this tick, the first since the call with a
timeout of 1, slot 0 holds the request of callback 7. The result lists slots 0
and 1 before the call, the value returned by the call, slots 0 and 1 after it,
the events of the tick, and slots 0 and 1 after the tick. -/
theorem timeout_slot_reused :
    ((run_actions (fun _ => 0)
        (program_callbacks (fun _ => 0) sample_request_code sample_retry_code)
        (kz_init_static sample_def)
        [kz_action.api (kz_api_call.call 7 5 6 100), kz_action.api (kz_api_call.call 7 7 8 2),
         kz_action.tick [0x02, 0x51, 0x01, 0x01, 0x01, 0x00]]).bind (fun s =>
      (kz_call s.1 7 9 4 1).bind (fun r =>
        (kz_tick (program_callbacks (fun _ => 0) sample_request_code sample_retry_code)
          r.K []).map (fun q =>
          (s.1.local_requests.take 2, r.ret, r.K.local_requests.take 2, q.2,
           q.1.local_requests.take 2)))))
      = some ([free_request, { callback := 7, userdata := 8, timeout_ticks := 1 }],
          1,
          [{ callback := 9, userdata := 4, timeout_ticks := 1 },
           { callback := 7, userdata := 8, timeout_ticks := 1 }],
          [kz_event.reply_callback 9 4 kz_request_status_t.KZ_IGNORE,
           kz_event.reply_callback 7 8 kz_request_status_t.KZ_IGNORE,
           kz_event.tx [0x02, 0x50, 0x02, 0x07, 0x01, 0x00]],
          [{ callback := 7, userdata := 8, timeout_ticks := 1 }, free_request]) := by
  decide

/-- A call of `kz_call` made by a reply callback during the sweep is swept in
the tick in progress when it takes a slot after the one being swept. On
`sample_def` with `sample_retry_code`, `kz_call(7, 7, 8, 2)` takes slot 0; the
first tick makes no call; in the second tick callback 7 is called for slot 0
and starts its call again with a timeout of 1, in slot 1 (slot 0 is still
active while its callback runs); the same sweep reaches slot 1, decrements its
count to 0 and calls callback 7 again, whose new call takes slot 0. -/
theorem timeout_nested_call_example :
    ((kz_call (kz_init_static sample_def) 7 7 8 2).bind (fun r =>
      (kz_ticks (program_callbacks (fun _ => 0) sample_request_code sample_retry_code)
        r.K [[], []]).map (fun q => (q.2, q.1.local_requests.take 2))))
      = some ([[],
          [kz_event.reply_callback 7 8 kz_request_status_t.KZ_IGNORE,
           kz_event.tx [0x04, 0x50, 0x01, 0x07, 0x01, 0x00],
           kz_event.reply_callback 7 8 kz_request_status_t.KZ_IGNORE,
           kz_event.tx [0x02, 0x50, 0x02, 0x07, 0x01, 0x00]]],
          [{ callback := 7, userdata := 8, timeout_ticks := 1 }, free_request]) := by
  decide

/-- C22 (timeout), with callbacks that use the API. Take an endpoint definition
with buffer sizes between 16 and 256 and a non-null `tx`, callbacks whose code
is made of API calls (`program_callbacks`), and an endpoint `K` that satisfies
the cursor invariant, has its 16 request slots, and whose lowest free slot is
`i`. A call of `kz_call` with a non-null callback `c`, userdata `u` and
`timeout_ticks = T ≥ 1`, made outside `kz_tick`, returns 1 and stores the
request in slot `i`. Then, no byte being received:
* for every `t` with `t + 1 < T`, the first `t` calls of `kz_tick` return and
  leave the request in slot `i` with `T - t` ticks left, and the next call of
  `kz_tick` returns and runs as `tick_through_slot` says: the pass of the sweep
  for slot `i` stores the count `T - t - 1` and causes no event (no callback is
  called for slot `i`), and after the tick slot `i` still holds the request,
  with a non-null callback;
* the first `T - 1` calls return and leave the request in slot `i` with one
  tick left, and the `T`-th call returns and runs as `tick_through_slot` says:
  the pass of the sweep for slot `i` calls `c` with `u` and `KZ_IGNORE` on the
  endpoint `timeout_callback_state`, once, the other events of that pass being
  the calls of `tx` that the callback makes, and then sets slot `i` free
  (callback null, userdata null, timeout 0);
* when no reply callback makes a call of `kz_call`, slot `i` is free after the
  `T`-th call of `kz_tick`. -/
theorem timeout_after_T_ticks (conv : Int → Nat) (request_code : Nat → Nat → kz_program)
    (reply_code : Nat → Nat → kz_request_status_t → kz_program) (d : kz_endpointdef_t)
    (K : kz_endpoint_t) (ch c u T i : Nat)
    (hd : 16 ≤ d.rx_buffer_size ∧ d.rx_buffer_size ≤ 256 ∧
      16 ≤ d.tx_buffer_size ∧ d.tx_buffer_size ≤ 256)
    (htx : d.tx ≠ 0) (hK : cursor_inv d K) (hT : 1 ≤ T) (hc : c ≠ 0)
    (hlen : K.local_requests.length = 16) (hi : i < 16)
    (hfree : (K.local_requests.getD i free_request).callback = 0)
    (hbusy : ∀ j, j < i → (K.local_requests.getD j free_request).callback ≠ 0) :
    ∃ r, kz_call K ch c u (T : Int) = some r ∧ r.ret = 1 ∧
      r.K.local_requests.getD i free_request
        = { callback := c, userdata := u, timeout_ticks := (T : Int) } ∧
      (∀ t, t + 1 < T → ∃ Kt evs Ka K2,
        kz_ticks (program_callbacks conv request_code reply_code) r.K (List.replicate t [])
          = some (Kt, evs) ∧ evs.length = t ∧
        Kt.local_requests.getD i free_request
          = { callback := c, userdata := u, timeout_ticks := (T : Int) - (t : Int) } ∧
        tick_through_slot (program_callbacks conv request_code reply_code) i Kt Ka
          (store_request Ka i
            { callback := c, userdata := u, timeout_ticks := (T : Int) - (t : Int) - 1 })
          K2 [] ∧
        K2.local_requests.getD i free_request
          = { callback := c, userdata := u, timeout_ticks := (T : Int) - (t : Int) - 1 } ∧
        (K2.local_requests.getD i free_request).callback ≠ 0) ∧
      ∃ Kp evs Ka Kc evc KT,
        kz_ticks (program_callbacks conv request_code reply_code) r.K
          (List.replicate (T - 1) []) = some (Kp, evs) ∧ evs.length = T - 1 ∧
        Kp.local_requests.getD i free_request
          = { callback := c, userdata := u, timeout_ticks := 1 } ∧
        tick_through_slot (program_callbacks conv request_code reply_code) i Kp Ka
          (store_request Kc i free_request) KT
          (kz_event.reply_callback c u kz_request_status_t.KZ_IGNORE :: evc) ∧
        (program_callbacks conv request_code reply_code).reply c u
          kz_request_status_t.KZ_IGNORE (timeout_callback_state Ka i) = some (Kc, evc) ∧
        (∀ e ∈ evc, ∃ bytes, e = kz_event.tx bytes) ∧
        (store_request Kc i free_request).local_requests.getD i free_request = free_request ∧
        ((∀ c2 u2 st, makes_no_call (reply_code c2 u2 st)) →
          KT.local_requests.getD i free_request = free_request) := by
  obtain ⟨q, hKq, _, hcall⟩ := kz_call_fresh d K ch c u i hd htx hK hi hfree hbusy
  obtain ⟨hapi, hnocall⟩ := program_callbacks_api conv d hd request_code reply_code
  have hrK : cursor_inv d (with_requests q.K (K.local_requests.set i
      { callback := c, userdata := u, timeout_ticks := (T : Int) })) := hKq
  have hrlen : (with_requests q.K (K.local_requests.set i
      { callback := c, userdata := u, timeout_ticks := (T : Int) })).local_requests.length
      = 16 := by
    show (K.local_requests.set i _).length = 16
    rw [List.length_set, hlen]
  have hrslot : (with_requests q.K (K.local_requests.set i
      { callback := c, userdata := u, timeout_ticks := (T : Int) })).local_requests.getD i
        free_request = { callback := c, userdata := u, timeout_ticks := (T : Int) } := by
    show (K.local_requests.set i _).getD i free_request = _
    rw [getD_set_any, if_pos ⟨rfl, by omega⟩]
  refine ⟨_, hcall (T : Int), rfl, hrslot, ?_, ?_⟩
  · intro t ht
    obtain ⟨Kt, evs, hticks, hl, hKt, hlent, hslott⟩ :=
      kz_ticks_quiet_slot d _ hd htx hapi i c u hi hc t (T : Int) _ hrK hrlen hrslot
        (by omega)
    obtain ⟨Ka, K2, hthrough, _, hs2, _, _⟩ :=
      kz_tick_quiet_slot d _ hd htx hapi Kt i c u ((T : Int) - (t : Int)) hi hc (by omega)
        hKt hlent hslott
    exact ⟨Kt, evs, Ka, K2, hticks, hl, hslott, hthrough, hs2, by rw [hs2]; exact hc⟩
  · obtain ⟨Kp, evs, hticks, hl, hKp, hlenp, hslotp⟩ :=
      kz_ticks_quiet_slot d _ hd htx hapi i c u hi hc (T - 1) (T : Int) _ hrK hrlen hrslot
        (by omega)
    have hone : (T : Int) - ((T - 1 : Nat) : Int) = 1 := by omega
    rw [hone] at hslotp
    obtain ⟨Ka, Kc, evc, KT, hthrough, hcb, htxev, hfreed, hend⟩ :=
      kz_tick_expiry_slot d _ hd htx hapi Kp i c u 1 hi hc (by decide) (by omega)
        hKp hlenp hslotp
    exact ⟨Kp, evs, Ka, Kc, evc, KT, hticks, hl, hslotp, hthrough, hcb, htxev, hfreed,
      fun hno => hend (hnocall hno)⟩

/-- Instance of C22: scenario 3 of the specification with callbacks that start
their call again, `kz_call` on channel 7 with callback 9, userdata 4 and a
timeout of 3 ticks on the freshly initialised 16-byte endpoint `sample_def`. -/
theorem timeout_after_T_ticks_witness :
    ∃ r, kz_call (kz_init_static sample_def) 7 9 4 ((3 : Nat) : Int) = some r ∧ r.ret = 1 ∧
      r.K.local_requests.getD 0 free_request
        = { callback := 9, userdata := 4, timeout_ticks := ((3 : Nat) : Int) } ∧
      (∀ t, t + 1 < 3 → ∃ Kt evs Ka K2,
        kz_ticks (program_callbacks (fun _ => 0) sample_request_code sample_retry_code) r.K
          (List.replicate t []) = some (Kt, evs) ∧ evs.length = t ∧
        Kt.local_requests.getD 0 free_request
          = { callback := 9, userdata := 4,
              timeout_ticks := ((3 : Nat) : Int) - (t : Int) } ∧
        tick_through_slot (program_callbacks (fun _ => 0) sample_request_code
            sample_retry_code) 0 Kt Ka
          (store_request Ka 0
            { callback := 9, userdata := 4,
              timeout_ticks := ((3 : Nat) : Int) - (t : Int) - 1 })
          K2 [] ∧
        K2.local_requests.getD 0 free_request
          = { callback := 9, userdata := 4,
              timeout_ticks := ((3 : Nat) : Int) - (t : Int) - 1 } ∧
        (K2.local_requests.getD 0 free_request).callback ≠ 0) ∧
      ∃ Kp evs Ka Kc evc KT,
        kz_ticks (program_callbacks (fun _ => 0) sample_request_code sample_retry_code) r.K
          (List.replicate (3 - 1) []) = some (Kp, evs) ∧ evs.length = 3 - 1 ∧
        Kp.local_requests.getD 0 free_request
          = { callback := 9, userdata := 4, timeout_ticks := 1 } ∧
        tick_through_slot (program_callbacks (fun _ => 0) sample_request_code
            sample_retry_code) 0 Kp Ka
          (store_request Kc 0 free_request) KT
          (kz_event.reply_callback 9 4 kz_request_status_t.KZ_IGNORE :: evc) ∧
        (program_callbacks (fun _ => 0) sample_request_code sample_retry_code).reply 9 4
          kz_request_status_t.KZ_IGNORE (timeout_callback_state Ka 0) = some (Kc, evc) ∧
        (∀ e ∈ evc, ∃ bytes, e = kz_event.tx bytes) ∧
        (store_request Kc 0 free_request).local_requests.getD 0 free_request = free_request ∧
        ((∀ c2 u2 st, makes_no_call (sample_retry_code c2 u2 st)) →
          KT.local_requests.getD 0 free_request = free_request) :=
  timeout_after_T_ticks (fun _ => 0) sample_request_code sample_retry_code sample_def
    (kz_init_static sample_def) 7 9 4 3 0 (by decide) (by decide)
    (kz_init_static_inv sample_def (by decide)) (by decide) (by decide) (by decide)
    (by decide) (by decide) (by decide)

/-! ## The API does not read the count of a request -/

theorem active_in_pool (K : kz_endpoint_t) (i : Nat)
    (h : (K.local_requests.getD i free_request).callback ≠ 0) :
    i < K.local_requests.length := by
  by_contra hlt
  apply h
  rw [List.getD_eq_default _ _ (by omega)]
  rfl

theorem retime_slot (K : kz_endpoint_t) (i j : Nat) (x : Int) :
    ((retime K i x).local_requests.getD j free_request).callback
      = (K.local_requests.getD j free_request).callback ∧
    ((retime K i x).local_requests.getD j free_request).userdata
      = (K.local_requests.getD j free_request).userdata ∧
    (j ≠ i → (retime K i x).local_requests.getD j free_request
      = K.local_requests.getD j free_request) := by
  have h : (retime K i x).local_requests = K.local_requests.set i
      { (K.local_requests.getD i free_request) with timeout_ticks := x } := rfl
  rw [h, getD_set_any]
  by_cases hc : i = j ∧ j < K.local_requests.length
  · rw [if_pos hc, ← hc.1]
    exact ⟨rfl, rfl, fun hne => absurd rfl hne⟩
  · rw [if_neg hc]
    exact ⟨rfl, rfl, fun _ => rfl⟩

theorem retime_of_pool (K K1 : kz_endpoint_t) (i : Nat) (x : Int)
    (h : K1.local_requests = K.local_requests) :
    with_requests K1 (retime K i x).local_requests = retime K1 i x := by
  show with_requests K1 (K.local_requests.set i
    { (K.local_requests.getD i free_request) with timeout_ticks := x }) = retime K1 i x
  rw [← h]
  rfl

theorem retime_store (K : kz_endpoint_t) (i idx : Nat) (x : Int) (r : kz_local_request_t)
    (hne : idx ≠ i) :
    store_request (retime K i x) idx r = retime (store_request K idx r) i x := by
  have h1 : store_request (retime K i x) idx r = with_requests K
      ((K.local_requests.set i
        { (K.local_requests.getD i free_request) with timeout_ticks := x }).set idx r) := rfl
  have h2 : retime (store_request K idx r) i x = with_requests K
      ((K.local_requests.set idx r).set i
        { ((K.local_requests.set idx r).getD i free_request) with timeout_ticks := x }) := rfl
  rw [h1, h2, getD_set_any, if_neg (fun hc => hne hc.1), List.set_comm _ _ _ (Ne.symm hne)]

theorem retime_store_same (K : kz_endpoint_t) (i : Nat) (x : Int) (r : kz_local_request_t) :
    store_request (retime K i x) i r = store_request K i r := by
  have h1 : store_request (retime K i x) i r = with_requests K
      ((K.local_requests.set i
        { (K.local_requests.getD i free_request) with timeout_ticks := x }).set i r) := rfl
  rw [h1, List.set_set]
  rfl

/-- The loop of `kz_call` on an endpoint where the count of an active slot has
been changed: the same run, with that count changed in the result. -/
theorem kz_call_loop_retime (ch cb ud : Nat) (t : Int) (i : Nat) (x : Int) :
    ∀ (n idx reqid : Nat) (K : kz_endpoint_t),
    (K.local_requests.getD i free_request).callback ≠ 0 →
    kz_call_loop ch cb ud t n idx reqid (retime K i x)
      = (kz_call_loop ch cb ud t n idx reqid K).map
          (fun r => { K := retime r.K i x, ret := r.ret, events := r.events }) := by
  intro n
  induction n with
  | zero => intro idx reqid K _; rfl
  | succ n ih =>
    intro idx reqid K hocc
    rw [kz_call_loop_succ, kz_call_loop_succ, (retime_slot K i idx x).1]
    by_cases hfree : (K.local_requests.getD idx free_request).callback = 0
    · have hne : idx ≠ i := fun h => hocc (by rw [← h]; exact hfree)
      rw [if_pos hfree, if_pos hfree, retime_store K i idx x _ hne]
      have hre : retime (store_request K idx ⟨cb, ud, t⟩) i x
          = with_requests (store_request K idx ⟨cb, ud, t⟩)
              (retime (store_request K idx ⟨cb, ud, t⟩) i x).local_requests := rfl
      rw [hre, send_request_requests]
      cases hres : send_request (store_request K idx ⟨cb, ud, t⟩) reqid (ch % 256) with
      | none => rfl
      | some q =>
        have hp := send_request_pool _ _ _ _ hres
        exact congrArg
          (fun k => some (⟨k, 1, [kz_event.tx q.sent]⟩ : call_result))
          (retime_of_pool _ q.K i x hp)
    · rw [if_neg hfree, if_neg hfree]
      exact ih _ _ K hocc

theorem retime_pair (f : kz_endpoint_t → kz_endpoint_t × Nat)
    (hf : ∀ K L, f (with_requests K L) = (with_requests (f K).1 L, (f K).2))
    (K : kz_endpoint_t) (i : Nat) (x : Int) :
    f (retime K i x) = (retime (f K).1 i x, (f K).2) := by
  have hp : (f K).1.local_requests = K.local_requests :=
    congrArg (fun r => r.1.local_requests) (hf K K.local_requests)
  have h1 : f (retime K i x)
      = (with_requests (f K).1 (retime K i x).local_requests, (f K).2) := hf K _
  rw [h1, retime_of_pool K _ i x hp]

/-- A call of the API on an endpoint where the count of an active slot has been
changed: the same run, with that count changed in the result. -/
theorem run_api_call_retime (conv : Int → Nat) (K : kz_endpoint_t) (i : Nat) (x : Int)
    (hocc : (K.local_requests.getD i free_request).callback ≠ 0) (a : kz_api_call) :
    run_api_call conv (retime K i x) a
      = (run_api_call conv K a).map (fun r => (retime r.1 i x, r.2)) := by
  have hp := fun (w : Int) (f : Nat) => api_pool conv K w f ⟨[], 0⟩ 0 0 0
  cases a with
  | putint w =>
    have e := retime_pair (fun k => kz_putint k w) (fun k l => kz_putint_requests k l w) K i x
    simp only [run_api_call, Option.map_some']
    simp only [e]
  | putfloat w =>
    have e := retime_pair (fun k => kz_putfloat k w)
      (fun k l => kz_putfloat_requests k l w) K i x
    simp only [run_api_call, Option.map_some']
    simp only [e]
  | putstring w =>
    have e := retime_pair (fun k => kz_putstring k w)
      (fun k l => (kz_put_tag_requests k l w).1) K i x
    simp only [run_api_call, Option.map_some']
    simp only [e]
  | putlistopen =>
    have e := retime_pair kz_putlistopen
      (fun k l => (kz_put_tag_requests k l ⟨[], 0⟩).2.1) K i x
    simp only [run_api_call, Option.map_some']
    simp only [e]
  | putlistclose =>
    have e := retime_pair kz_putlistclose
      (fun k l => (kz_put_tag_requests k l ⟨[], 0⟩).2.2.1) K i x
    simp only [run_api_call, Option.map_some']
    simp only [e]
  | putnil =>
    have e := retime_pair kz_putnil
      (fun k l => (kz_put_tag_requests k l ⟨[], 0⟩).2.2.2.1) K i x
    simp only [run_api_call, Option.map_some']
    simp only [e]
  | putclear => rfl
  | getint =>
    have e : kz_getint (retime K i x) 0
        = ⟨retime (kz_getint K 0).K i x, (kz_getint K 0).ret, (kz_getint K 0).out⟩ := by
      rw [← retime_of_pool K _ i x (hp 0 0).2.2.2.2.2.2.1]
      exact kz_getint_requests K _ 0
    simp only [run_api_call, Option.map_some']
    simp only [e]
  | getfloat =>
    have e : kz_getfloat (retime K i x) 0
        = ⟨retime (kz_getfloat K 0).K i x, (kz_getfloat K 0).ret, (kz_getfloat K 0).out⟩ := by
      rw [← retime_of_pool K _ i x (hp 0 0).2.2.2.2.2.2.2.1]
      exact kz_getfloat_requests K _ 0
    simp only [run_api_call, Option.map_some']
    simp only [e]
  | getnumber =>
    have e : kz_getnumber conv 0 (retime K i x) 0
        = ⟨retime (kz_getnumber conv 0 K 0).K i x, (kz_getnumber conv 0 K 0).ret,
            (kz_getnumber conv 0 K 0).out⟩ := by
      rw [← retime_of_pool K _ i x (hp 0 0).2.2.2.2.2.2.2.2.1]
      exact kz_getnumber_requests conv K _ 0 0
    simp only [run_api_call, Option.map_some']
    simp only [e]
  | getreset => rfl
  | handle ch cb ud =>
    have e := retime_pair (fun k => kz_handle k ch cb ud)
      (fun k l => kz_handle_requests k l ch cb ud) K i x
    simp only [run_api_call, Option.map_some']
    simp only [e]
  | call ch cb ud t =>
    have e : kz_call (retime K i x) ch cb ud t = (kz_call K ch cb ud t).map
        (fun r => { K := retime r.K i x, ret := r.ret, events := r.events }) :=
      kz_call_loop_retime ch cb ud t i x KZ_MAX_LOCAL_REQUESTS 0 0 K hocc
    simp only [run_api_call, e]
    cases kz_call K ch cb ud t with
    | none => rfl
    | some r => rfl
  | send ch =>
    have hre : retime K i x = with_requests K (retime K i x).local_requests := rfl
    simp only [run_api_call, kz_send]
    rw [hre, send_request_requests]
    cases hres : send_request K 0xFF (ch % 256) with
    | none => rfl
    | some q =>
      have hq := send_request_pool _ _ _ _ hres
      show some (with_requests q.K (retime K i x).local_requests,
          ({ ret := 0, int_out := 0, float_out := 0 } : kz_api_value), [kz_event.tx q.sent])
        = some (retime q.K i x, _, _)
      rw [retime_of_pool K q.K i x hq]

/-- The code of a callback on an endpoint where the count of an active slot has
been changed: the same run, with that count changed in the result. -/
theorem run_program_retime (conv : Int → Nat) (i : Nat) (x : Int) :
    ∀ (p : kz_program) (K : kz_endpoint_t),
    (K.local_requests.getD i free_request).callback ≠ 0 →
    run_program conv p (retime K i x)
      = (run_program conv p K).map (fun r => (retime r.1 i x, r.2)) := by
  intro p
  induction p with
  | ret s => intro K _; rfl
  | call c next ih =>
    intro K hocc
    simp only [run_program]
    rw [run_api_call_retime conv K i x hocc c]
    cases hres : run_api_call conv K c with
    | none => rfl
    | some r =>
      obtain ⟨K1, v, ev1⟩ := r
      have hk := (run_api_call_keeps conv K c K1 v ev1 hres).1
      have hocc1 : (K1.local_requests.getD i free_request).callback ≠ 0 := by
        rw [hk.2 i hocc]
        exact hocc
      simp only [Option.map_some']
      rw [ih v K1 hocc1]
      cases run_program conv (next v) K1 with
      | none => rfl
      | some r2 => rfl

theorem program_reply_retime (conv : Int → Nat) (request_code : Nat → Nat → kz_program)
    (reply_code : Nat → Nat → kz_request_status_t → kz_program) (i : Nat) (x : Int)
    (c u : Nat) (st : kz_request_status_t) (K : kz_endpoint_t)
    (hocc : (K.local_requests.getD i free_request).callback ≠ 0) :
    (program_callbacks conv request_code reply_code).reply c u st (retime K i x)
      = ((program_callbacks conv request_code reply_code).reply c u st K).map
          (fun r => (retime r.1 i x, r.2)) := by
  show (match run_program conv (reply_code c u st) (retime K i x) with
      | none => none
      | some (K2, _, events) => some (K2, events))
    = (match run_program conv (reply_code c u st) K with
      | none => none
      | some (K2, _, events) => some (K2, events)).map
        (fun r : kz_endpoint_t × List kz_event => (retime r.1 i x, r.2))
  rw [run_program_retime conv i x _ K hocc]
  cases run_program conv (reply_code c u st) K with
  | none => rfl
  | some r => rfl

/-! ## The sweep does not read the count of a slot before it reaches it -/

theorem timeout_callback_state_other (K : kz_endpoint_t) (i idx : Nat) (hne : idx ≠ i) :
    (timeout_callback_state K idx).local_requests.getD i free_request
      = K.local_requests.getD i free_request := by
  show (K.local_requests.set idx _).getD i free_request = _
  rw [getD_set_any, if_neg (fun hc => hne hc.1)]

theorem timeout_callback_state_retime (K : kz_endpoint_t) (i idx : Nat) (x : Int)
    (hne : idx ≠ i) :
    timeout_callback_state (retime K i x) idx = retime (timeout_callback_state K idx) i x := by
  have h1 : ∀ k : kz_endpoint_t, timeout_callback_state k idx
      = { store_request k idx { (k.local_requests.getD idx free_request) with
            timeout_ticks := int_dec (k.local_requests.getD idx free_request).timeout_ticks }
          with rx_buffer_pos := KZ_RX_PAYLOAD_START, getptr := KZ_RX_PAYLOAD_START } :=
    fun _ => rfl
  rw [h1, h1, (retime_slot K i idx x).2.2 hne, retime_store K i idx x _ hne]
  rfl

theorem timeout_callback_state_retime_same (K : kz_endpoint_t) (i : Nat) (x : Int)
    (hi : i < K.local_requests.length) :
    timeout_callback_state (retime K i x) i
      = retime (timeout_callback_state K i) i (int_dec x) := by
  have h1 : ∀ k : kz_endpoint_t, timeout_callback_state k i
      = { store_request k i { (k.local_requests.getD i free_request) with
            timeout_ticks := int_dec (k.local_requests.getD i free_request).timeout_ticks }
          with rx_buffer_pos := KZ_RX_PAYLOAD_START, getptr := KZ_RX_PAYLOAD_START } :=
    fun _ => rfl
  have h2 : ∀ (k : kz_endpoint_t) (y : Int), retime k i y = store_request k i
      { (k.local_requests.getD i free_request) with timeout_ticks := y } := fun _ _ => rfl
  have hs : (retime K i x).local_requests.getD i free_request
      = { (K.local_requests.getD i free_request) with timeout_ticks := x } := by
    show (K.local_requests.set i _).getD i free_request = _
    rw [getD_set_any, if_pos ⟨rfl, hi⟩]
  have ht : (timeout_callback_state K i).local_requests.getD i free_request
      = { (K.local_requests.getD i free_request) with
          timeout_ticks := int_dec (K.local_requests.getD i free_request).timeout_ticks } := by
    show (K.local_requests.set i _).getD i free_request = _
    rw [getD_set_any, if_pos ⟨rfl, hi⟩]
  rw [h2 (timeout_callback_state K i), ht, h1 (retime K i x), hs, retime_store_same]
  show _ = with_requests (timeout_callback_state K i)
    ((K.local_requests.set i _).set i _)
  rw [List.set_set]
  rfl

/-- The sweep over slots other than `i` on an endpoint where the count of the
active slot `i` has been changed: the same run, with that count changed in the
result; for callbacks that do not read the count. -/
theorem handle_timeouts_loop_retime (cb : kz_callbacks) (i : Nat) (x : Int)
    (hsim : ∀ c u st K, (K.local_requests.getD i free_request).callback ≠ 0 →
      cb.reply c u st (retime K i x)
        = (cb.reply c u st K).map (fun r => (retime r.1 i x, r.2)))
    (hkeep : ∀ c u st K K2 ev, cb.reply c u st K = some (K2, ev) → keeps_pending K K2) :
    ∀ (n idx : Nat) (K : kz_endpoint_t), (i < idx ∨ idx + n ≤ i) →
    (K.local_requests.getD i free_request).callback ≠ 0 →
    handle_timeouts_loop cb n idx (retime K i x)
      = (handle_timeouts_loop cb n idx K).map (fun r => (retime r.1 i x, r.2)) := by
  intro n
  induction n with
  | zero => intro idx K _ _; rfl
  | succ n ih =>
    intro idx K hrange hocc
    have hne : idx ≠ i := by omega
    rw [handle_timeouts_loop_succ, handle_timeouts_loop_succ,
      (retime_slot K i idx x).2.2 hne]
    by_cases hcb : (K.local_requests.getD idx free_request).callback ≠ 0
    · by_cases hexp : int_dec (K.local_requests.getD idx free_request).timeout_ticks ≤ (0 : Int)
      · rw [if_pos hcb, if_pos hcb, if_pos hexp, if_pos hexp,
          timeout_callback_state_retime K i idx x hne,
          hsim _ _ _ _ (by rw [timeout_callback_state_other K i idx hne]; exact hocc)]
        cases hres : cb.reply (K.local_requests.getD idx free_request).callback
            (K.local_requests.getD idx free_request).userdata kz_request_status_t.KZ_IGNORE
            (timeout_callback_state K idx) with
        | none => rfl
        | some r =>
          obtain ⟨Kc, evc⟩ := r
          have hk := hkeep _ _ _ _ _ _ hres
          have hoccc : ((store_request Kc idx free_request).local_requests.getD i
              free_request).callback ≠ 0 := by
            show ((Kc.local_requests.set idx free_request).getD i free_request).callback ≠ 0
            rw [getD_set_any, if_neg (fun hc => hne hc.1),
              hk.2 i (by rw [timeout_callback_state_other K i idx hne]; exact hocc),
              timeout_callback_state_other K i idx hne]
            exact hocc
          simp only [Option.map_some']
          rw [retime_store Kc i idx x _ hne, ih (idx + 1) _ (by omega) hoccc]
          cases handle_timeouts_loop cb n (idx + 1) (store_request Kc idx free_request) with
          | none => rfl
          | some r2 => rfl
      · rw [if_pos hcb, if_pos hcb, if_neg hexp, if_neg hexp, retime_store K i idx x _ hne]
        refine ih (idx + 1) _ (by omega) ?_
        show ((K.local_requests.set idx _).getD i free_request).callback ≠ 0
        rw [getD_set_any, if_neg (fun hc => hne hc.1)]
        exact hocc
    · rw [if_neg hcb, if_neg hcb]
      exact ih (idx + 1) K (by omega) hocc

/-- A tick without bytes does the same whatever the count of the request in
slot `i`, as long as the count is 1 or less (above `INT_MIN`): the result, the
endpoint and the events, is the same; for callbacks that do not read the
count. -/
theorem kz_tick_retime (cb : kz_callbacks) (i : Nat)
    (hsim : ∀ y c u st K, (K.local_requests.getD i free_request).callback ≠ 0 →
      cb.reply c u st (retime K i y)
        = (cb.reply c u st K).map (fun r => (retime r.1 i y, r.2)))
    (hkeep : ∀ c u st K K2 ev, cb.reply c u st K = some (K2, ev) → keeps_pending K K2)
    (K : kz_endpoint_t) (c u : Nat) (rem x : Int) (hi : i < 16) (hc : c ≠ 0)
    (hslot : K.local_requests.getD i free_request
      = { callback := c, userdata := u, timeout_ticks := rem })
    (hrem : INT32_MIN < rem ∧ rem ≤ 1) (hx : INT32_MIN < x ∧ x ≤ 1) :
    kz_tick cb (retime K i x) [] = kz_tick cb K [] := by
  have hocc : (K.local_requests.getD i free_request).callback ≠ 0 := by
    rw [hslot]
    exact hc
  rw [kz_tick_nil, kz_tick_nil, show 16 = i + ((15 - i) + 1) by omega,
    handle_timeouts_loop_add, handle_timeouts_loop_add,
    handle_timeouts_loop_retime cb i x (hsim x) hkeep i 0 K (Or.inr (by omega)) hocc]
  cases hres : handle_timeouts_loop cb i 0 K with
  | none => rfl
  | some r =>
    obtain ⟨Ka, eva⟩ := r
    have hslota : Ka.local_requests.getD i free_request
        = { callback := c, userdata := u, timeout_ticks := rem } := by
      rw [(handle_timeouts_loop_other cb i (fun q => q.callback ≠ 0)
        (fun c u st Kx Ky e h => ⟨(hkeep c u st Kx Ky e h).1, (hkeep c u st Kx Ky e h).2 i⟩)
        i 0 K Ka eva hres).2 (Or.inr (by omega)) hocc, hslot]
    have hlt : i < Ka.local_requests.length :=
      active_in_pool Ka i (by rw [hslota]; exact hc)
    have hslotr : (retime Ka i x).local_requests.getD i free_request
        = { callback := c, userdata := u, timeout_ticks := x } := by
      show (Ka.local_requests.set i _).getD i free_request = _
      rw [getD_set_any, if_pos ⟨rfl, hlt⟩, hslota]
    have hdx : int_dec x = x - 1 := int_dec_above_min x hx.1
    have hdr : int_dec rem = rem - 1 := int_dec_above_min rem hrem.1
    have hstep : handle_timeouts_loop cb (15 - i + 1) (0 + i) (retime Ka i x)
        = handle_timeouts_loop cb (15 - i + 1) (0 + i) Ka := by
      rw [Nat.zero_add, handle_timeouts_loop_succ, handle_timeouts_loop_succ, hslotr, hslota]
      simp only [hdx, hdr]
      rw [if_pos hc, if_pos hc, if_pos (by omega), if_pos (by omega),
        timeout_callback_state_retime_same Ka i x hlt,
        hsim (int_dec x) c u _ (timeout_callback_state Ka i) (by
          show ((Ka.local_requests.set i _).getD i free_request).callback ≠ 0
          rw [getD_set_any, if_pos ⟨rfl, hlt⟩, hslota]
          exact hc)]
      cases cb.reply c u kz_request_status_t.KZ_IGNORE (timeout_callback_state Ka i) with
      | none => rfl
      | some rc =>
        obtain ⟨Kc, evc⟩ := rc
        simp only [Option.map_some']
        rw [retime_store_same]
    simp only [Option.map_some']
    rw [hstep]

/-- C31 (non-positive timeouts), with callbacks that use the API. Take an
endpoint definition with buffer sizes between 16 and 256 and a non-null `tx`,
callbacks whose code is made of API calls (`program_callbacks`), and an endpoint
`K` that satisfies the cursor invariant, has its 16 request slots, and whose
lowest free slot is `i`. A call of `kz_call` with a non-null callback `c`,
userdata `u` and `timeout_ticks = T`, `INT_MIN < T ≤ 0`, made outside
`kz_tick`, returns 1 and stores the request in slot `i`. The first call of
`kz_tick`, with no byte received, returns and runs as `tick_through_slot` says:
the pass of the sweep for slot `i` calls `c` with `u` and `KZ_IGNORE` on the
endpoint `timeout_callback_state`, the other events of that pass being the
calls of `tx` that the callback makes, and then sets slot `i` free; slot `i` is
free after the tick when no reply callback makes a call of `kz_call`. The same
`kz_call` with a timeout of 1 returns 1 and sends the same frame, and its first
`kz_tick` has the same result: the same endpoint and the same events. -/
theorem nonpositive_timeout (conv : Int → Nat) (request_code : Nat → Nat → kz_program)
    (reply_code : Nat → Nat → kz_request_status_t → kz_program) (d : kz_endpointdef_t)
    (K : kz_endpoint_t) (ch c u i : Nat) (T : Int)
    (hd : 16 ≤ d.rx_buffer_size ∧ d.rx_buffer_size ≤ 256 ∧
      16 ≤ d.tx_buffer_size ∧ d.tx_buffer_size ≤ 256)
    (htx : d.tx ≠ 0) (hK : cursor_inv d K) (hT : T ≤ 0) (hmin : INT32_MIN < T) (hc : c ≠ 0)
    (hlen : K.local_requests.length = 16) (hi : i < 16)
    (hfree : (K.local_requests.getD i free_request).callback = 0)
    (hbusy : ∀ j, j < i → (K.local_requests.getD j free_request).callback ≠ 0) :
    ∃ r, kz_call K ch c u T = some r ∧ r.ret = 1 ∧
      r.K.local_requests.getD i free_request
        = { callback := c, userdata := u, timeout_ticks := T } ∧
      (∃ Ka Kc evc K2,
        tick_through_slot (program_callbacks conv request_code reply_code) i r.K Ka
          (store_request Kc i free_request) K2
          (kz_event.reply_callback c u kz_request_status_t.KZ_IGNORE :: evc) ∧
        (program_callbacks conv request_code reply_code).reply c u
          kz_request_status_t.KZ_IGNORE (timeout_callback_state Ka i) = some (Kc, evc) ∧
        (∀ e ∈ evc, ∃ bytes, e = kz_event.tx bytes) ∧
        (store_request Kc i free_request).local_requests.getD i free_request = free_request ∧
        ((∀ c2 u2 st, makes_no_call (reply_code c2 u2 st)) →
          K2.local_requests.getD i free_request = free_request)) ∧
      ∃ r1, kz_call K ch c u 1 = some r1 ∧ r1.ret = 1 ∧ r1.events = r.events ∧
        kz_tick (program_callbacks conv request_code reply_code) r1.K []
          = kz_tick (program_callbacks conv request_code reply_code) r.K [] := by
  obtain ⟨q, hKq, _, hcall⟩ := kz_call_fresh d K ch c u i hd htx hK hi hfree hbusy
  obtain ⟨hapi, hnocall⟩ := program_callbacks_api conv d hd request_code reply_code
  have hrK : cursor_inv d (with_requests q.K (K.local_requests.set i
      { callback := c, userdata := u, timeout_ticks := T })) := hKq
  have hrlen : (with_requests q.K (K.local_requests.set i
      { callback := c, userdata := u, timeout_ticks := T })).local_requests.length = 16 := by
    show (K.local_requests.set i _).length = 16
    rw [List.length_set, hlen]
  have hslotof : ∀ t : Int, (with_requests q.K (K.local_requests.set i
      { callback := c, userdata := u, timeout_ticks := t })).local_requests.getD i
        free_request = { callback := c, userdata := u, timeout_ticks := t } := by
    intro t
    show (K.local_requests.set i _).getD i free_request = _
    rw [getD_set_any, if_pos ⟨rfl, by omega⟩]
  have hre : with_requests q.K (K.local_requests.set i
      { callback := c, userdata := u, timeout_ticks := T })
      = retime (with_requests q.K (K.local_requests.set i
          { callback := c, userdata := u, timeout_ticks := 1 })) i T := by
    show _ = with_requests q.K ((K.local_requests.set i _).set i
      { ((K.local_requests.set i _).getD i free_request) with timeout_ticks := T })
    rw [getD_set_any, if_pos ⟨rfl, by omega⟩, List.set_set]
  obtain ⟨Ka, Kc, evc, K2, hthrough, hcb, htxev, hfreed, hend⟩ :=
    kz_tick_expiry_slot d _ hd htx hapi _ i c u T hi hc hmin (by omega) hrK hrlen (hslotof T)
  refine ⟨_, hcall T, rfl, hslotof T,
    ⟨Ka, Kc, evc, K2, hthrough, hcb, htxev, hfreed, fun hno => hend (hnocall hno)⟩,
    _, hcall 1, rfl, rfl, ?_⟩
  show kz_tick _ (with_requests q.K (K.local_requests.set i
      { callback := c, userdata := u, timeout_ticks := 1 })) []
    = kz_tick _ (with_requests q.K (K.local_requests.set i
      { callback := c, userdata := u, timeout_ticks := T })) []
  rw [hre]
  exact (kz_tick_retime _ i
    (fun y c2 u2 st Kx hocc =>
      program_reply_retime conv request_code reply_code i y c2 u2 st Kx hocc)
    (fun c2 u2 st Kx Ky e h => (hapi.2 c2 u2 st Kx Ky e h).1)
    _ c u 1 T hi hc (hslotof 1) ⟨by decide, by omega⟩ ⟨hmin, by omega⟩).symm

/-- Instance of C31: `kz_call` on channel 7 with callback 9, userdata 4 and a
timeout of 0 on the freshly initialised 16-byte endpoint `sample_def`, with
callbacks that start their call again, then one tick without bytes. -/
theorem nonpositive_timeout_witness :
    ∃ r, kz_call (kz_init_static sample_def) 7 9 4 0 = some r ∧ r.ret = 1 ∧
      r.K.local_requests.getD 0 free_request
        = { callback := 9, userdata := 4, timeout_ticks := 0 } ∧
      (∃ Ka Kc evc K2,
        tick_through_slot (program_callbacks (fun _ => 0) sample_request_code
            sample_retry_code) 0 r.K Ka
          (store_request Kc 0 free_request) K2
          (kz_event.reply_callback 9 4 kz_request_status_t.KZ_IGNORE :: evc) ∧
        (program_callbacks (fun _ => 0) sample_request_code sample_retry_code).reply 9 4
          kz_request_status_t.KZ_IGNORE (timeout_callback_state Ka 0) = some (Kc, evc) ∧
        (∀ e ∈ evc, ∃ bytes, e = kz_event.tx bytes) ∧
        (store_request Kc 0 free_request).local_requests.getD 0 free_request = free_request ∧
        ((∀ c2 u2 st, makes_no_call (sample_retry_code c2 u2 st)) →
          K2.local_requests.getD 0 free_request = free_request)) ∧
      ∃ r1, kz_call (kz_init_static sample_def) 7 9 4 1 = some r1 ∧ r1.ret = 1 ∧
        r1.events = r.events ∧
        kz_tick (program_callbacks (fun _ => 0) sample_request_code sample_retry_code)
            r1.K []
          = kz_tick (program_callbacks (fun _ => 0) sample_request_code sample_retry_code)
            r.K [] :=
  nonpositive_timeout (fun _ => 0) sample_request_code sample_retry_code sample_def
    (kz_init_static sample_def) 7 9 4 0 0 (by decide) (by decide)
    (kz_init_static_inv sample_def (by decide)) (by decide) (by decide) (by decide)
    (by decide) (by decide) (by decide) (by decide)

/-- The first tick after `kz_call` with the timeouts -5, 0 and 1 while a
request whose callback starts its call again waits in slot 1, evaluated: each
time the same events and the same pool (slots 0 and 1 shown). -/
theorem nonpositive_timeout_retry_example :
    ∀ T ∈ [(-5 : Int), 0, 1],
      ((kz_call (store_request (kz_init_static sample_def) 1
          { callback := 7, userdata := 8, timeout_ticks := 1 }) 7 9 4 T).bind
        (fun r => kz_tick (program_callbacks (fun _ => 0) sample_request_code
          sample_retry_code) r.K [])).map
        (fun r => (r.1.local_requests.take 2, r.2))
        = some ([{ callback := 7, userdata := 8, timeout_ticks := 1 }, free_request],
            [kz_event.reply_callback 9 4 kz_request_status_t.KZ_IGNORE,
             kz_event.reply_callback 7 8 kz_request_status_t.KZ_IGNORE,
             kz_event.tx [0x02, 0x50, 0x02, 0x07, 0x01, 0x00]]) := by
  decide

end Kazhal
